import Mathlib

/-!
# White-flag milestone confirmation (`pkg/whiteflag/confirmation.go`)

A shallow embedding of `ConfirmMilestone`.  The Go function drives a number of
collaborators (message cache, UTXO manager, white-flag computation, receipt
helpers, metadata cache, callbacks).  The embedding threads an explicit state
(ledger, metadata store) and records every observable call in a trace, so that
statements about "was called", "was not called" and "was called before" become
statements about a list of events.

Conventions
* byte strings (`hornet.MessageID`, `[32]byte` roots, output ids) are lists of
  byte values;
* `milestone.Index` and `uint32` timestamps are naturals (no arithmetic is
  performed on them by the code embedded here);
* Go's `(value, error)` results are `Except Error value`; a `nil` pointer result
  is `Option.none`;
* a Go `map` is the list of its entries in the order in which the single
  `range` loop over it yields them;
* the optional callbacks are recorded as events when they are supplied; they
  observe, they do not write to the ledger or the metadata store.

Further parts embed the `OutputResponse` record of
`plugins/restapi/v2/types.go` with its JSON encoding and decoding, at the level
of JSON values; the closure `computeWhiteFlag` of `pkg/testsuite/coordinator.go`;
the default key material of `integration-tests/tester/framework/config.go`; and
`ReadProtocolParameters` of `plugins/inx/server.go`.
-/

namespace Hornet

/-! ## Data model -/

abbrev Bytes := List Nat
abbrev MessageID := Bytes
abbrev MilestoneID := Bytes
abbrev OutputID := Bytes
abbrev MerkleRoot := Bytes
abbrev Index := Nat

/-- Arguments printed by a `fmt.Errorf` call. -/
inductive FmtArg where
  | toHex (id : MessageID)
  | hexEncodeToString (b : Bytes)
  deriving DecidableEq, Repr

/-- Go `error` values: errors handed back by a collaborator, and the two shapes
of `fmt.Errorf` used in `ConfirmMilestone` (without and with a `%w` cause). -/
inductive Error where
  | ext (code : Nat)
  | errorf (format : String) (args : List FmtArg)
  | wrapf (format : String) (args : List FmtArg) (cause : Error)
  deriving DecidableEq, Repr

/-- Modelled from the spec: the `conflict` enumeration of the message metadata
(`storage.Conflict`, package `pkg/model/storage`). -/
inductive Conflict where
  | none
  | inputAlreadySpent
  | inputNotFound
  | inputCreatedAfterConfirmation
  | semantic
  deriving DecidableEq, Repr

/-- Modelled from the spec: `storage.MessageMetadata`, the mutable companion of
a message (package `pkg/model/storage`); fields as in the data model of the
specification. -/
structure MessageMetadata where
  isSolid : Bool
  isReferenced : Bool
  referencedIndex : Option Index
  coneRootIndexes : Option (Index × Index × Index)
  conflict : Conflict
  isNoTransaction : Bool
  deriving DecidableEq, Repr

/-- Modelled from the spec: `MessageMetadata.IsReferenced`, reads `is_referenced`. -/
def MessageMetadata.IsReferenced (m : MessageMetadata) : Bool := m.isReferenced

/-- Modelled from the spec: `MessageMetadata.SetReferenced`, writes
`is_referenced` and `referenced_by_milestone_index` (absent when not referenced). -/
def MessageMetadata.SetReferenced (m : MessageMetadata) (referenced : Bool) (msIndex : Index) :
    MessageMetadata :=
  { m with isReferenced := referenced,
           referencedIndex := if referenced then some msIndex else Option.none }

/-- Modelled from the spec: `MessageMetadata.SetConeRootIndexes`, writes
`cone_root_indexes`. -/
def MessageMetadata.SetConeRootIndexes (m : MessageMetadata) (ycri ocri ci : Index) :
    MessageMetadata :=
  { m with coneRootIndexes := some (ycri, ocri, ci) }

/-- Modelled from the spec: `MessageMetadata.SetIsNoTransaction`, writes
`is_no_transaction`. -/
def MessageMetadata.SetIsNoTransaction (m : MessageMetadata) (noTx : Bool) : MessageMetadata :=
  { m with isNoTransaction := noTx }

/-- Modelled from the spec: `MessageMetadata.SetConflictingTx`, writes `conflict`. -/
def MessageMetadata.SetConflictingTx (m : MessageMetadata) (c : Conflict) : MessageMetadata :=
  { m with conflict := c }

/-- Modelled from the spec: `utxo.Output` (package `pkg/model/utxo`),
restricted to the identifying and value-carrying fields. -/
structure Output where
  outputID : OutputID
  messageID : MessageID
  amount : Nat
  bookedAt : Index
  bookedTs : Nat
  deriving DecidableEq, Repr

/-- Modelled from the spec: `utxo.Spent` (package `pkg/model/utxo`). -/
structure Spent where
  outputID : OutputID
  spentByTransaction : Bytes
  spentAt : Index
  spentTs : Nat
  deriving DecidableEq, Repr

/-- Modelled from the spec: `utxo.TreasuryOutput` (package `pkg/model/utxo`). -/
structure TreasuryOutput where
  milestoneID : MilestoneID
  amount : Nat
  deriving DecidableEq, Repr

/-- Modelled from the spec: `utxo.TreasuryMutationTuple`,
`{ input: old_treasury, output: new_treasury }`. -/
structure TreasuryMutationTuple where
  NewOutput : TreasuryOutput
  SpentOutput : TreasuryOutput
  deriving DecidableEq, Repr

/-- Modelled from the spec: one entry of `receipt.funds`. -/
structure MigratedFundsEntry where
  tailTransactionHash : Bytes
  address : Bytes
  amount : Nat
  deriving DecidableEq, Repr

/-- Modelled from the spec: `treasury_transaction` of a receipt. -/
structure TreasuryTransaction where
  inputMilestoneID : MilestoneID
  outputAmount : Nat
  deriving DecidableEq, Repr

/-- Modelled from the spec: the receipt milestone option. -/
structure Receipt where
  migratedAt : Nat
  final : Bool
  funds : List MigratedFundsEntry
  treasuryTransaction : TreasuryTransaction
  deriving DecidableEq, Repr

/-- The tuple built at lines 154-157 of `confirmation.go`. -/
structure ReceiptTuple where
  Receipt : Receipt
  MilestoneIndex : Index
  deriving DecidableEq, Repr

/-- One milestone option; only the receipt is inspected by the confirmation. -/
inductive MilestoneOpt where
  | receipt (r : Receipt)
  | other (optType : Nat)
  deriving DecidableEq, Repr

/-- What `ms.Opts.Set()` yields, as far as `ConfirmMilestone` reads it: the
result of `opts.Receipt()` (`none` for a nil receipt). -/
structure MilestoneOptSet where
  Receipt : Option Receipt
  deriving DecidableEq, Repr

/-- Modelled from the spec: the milestone payload (`iotago.Milestone`). -/
structure Milestone where
  Index : Index
  Timestamp : Nat
  PreviousMilestoneID : MilestoneID
  Parents : List MessageID
  ConfirmedMerkleRoot : MerkleRoot
  AppliedMerkleRoot : MerkleRoot
  Opts : List MilestoneOpt
  deriving DecidableEq, Repr

/-- Modelled from the spec: the payload variants of a message. -/
inductive Payload where
  | transaction
  | milestone (ms : Milestone)
  | tagged
  deriving DecidableEq, Repr

/-- Modelled from the spec: `storage.Message` (package `pkg/model/storage`):
its id, its parents and its optional payload. -/
structure Message where
  messageID : MessageID
  parents : List MessageID
  payload : Option Payload
  deriving DecidableEq, Repr

/-- Modelled from the spec: `Message.Milestone()`, the milestone payload or nil
when the payload is absent or not a milestone. -/
def Message.Milestone (m : Message) : Option Milestone :=
  match m.payload with
  | some (Payload.milestone ms) => some ms
  | _ => Option.none

/-- Entry of `MessagesExcludedWithConflictingTransactions`. -/
structure MessageWithConflict where
  MessageID : MessageID
  Conflict : Conflict
  deriving DecidableEq, Repr

/-- The fields of `WhiteFlagMutations` read by `ConfirmMilestone`. -/
structure WhiteFlagMutations where
  MessagesIncludedWithTransactions : List MessageID
  MessagesExcludedWithoutTransactions : List MessageID
  MessagesExcludedWithConflictingTransactions : List MessageWithConflict
  NewOutputs : List (OutputID × Output)
  NewSpents : List (OutputID × Spent)
  ConfirmedMerkleRoot : MerkleRoot
  AppliedMerkleRoot : MerkleRoot
  deriving DecidableEq, Repr

/-- The value handed to `onMilestoneConfirmed` (lines 117-121). -/
structure Confirmation where
  MilestoneIndex : Index
  MilestoneMessageID : MessageID
  Mutations : WhiteFlagMutations
  deriving DecidableEq, Repr

/-- Lines 18-25 of `confirmation.go`. -/
structure ConfirmedMilestoneStats where
  Index : Index
  ConfirmationTime : Int
  MessagesReferenced : Nat
  MessagesExcludedWithConflictingTransactions : Nat
  MessagesIncludedWithTransactions : Nat
  MessagesExcludedWithoutTransactions : Nat
  deriving DecidableEq, Repr

/-- The `ConfirmationMetrics` record; its fields are differences of wall-clock
readings and carry no modelled content. -/
structure ConfirmationMetrics where
  deriving DecidableEq, Repr

/-- The counters of `metrics.ServerMetrics` touched by the confirmation. -/
inductive Counter where
  | IncludedTransactionMessages
  | NoTransactionMessages
  | ConflictingTransactionMessages
  | ReferencedMessages
  deriving DecidableEq, Repr

/-- Modelled from the spec: the state of the UTXO manager (section 4.3): unspent
outputs, spent outputs, the treasury and the ledger index. -/
structure Ledger where
  unspent : List Output
  spent : List Spent
  treasury : TreasuryOutput
  ledgerIndex : Index
  deriving DecidableEq, Repr

/-! ## Events and state -/

/-- Every observable call made by `ConfirmMilestone`. -/
inductive Event where
  | cachedMessageFunc (id : MessageID)
  | releaseMessage (id : MessageID)
  | writeLockLedger
  | writeUnlockLedger
  | computeWhiteFlagMutations (networkId : Nat) (index : Index) (timestamp : Nat)
      (parents : List MessageID) (lastMilestoneID : MilestoneID)
  | onReceipt (rt : ReceiptTuple)
  | unspentTreasuryOutputWithoutLocking
  | applyConfirmationWithoutLocking (index : Index) (newOutputs : List Output)
      (newSpents : List Spent) (tm : Option TreasuryMutationTuple) (rt : Option ReceiptTuple)
  | onLedgerUpdated (index : Index) (newOutputs : List Output) (newSpents : List Spent)
  | onTreasuryMutated (index : Index) (tm : TreasuryMutationTuple)
  | cachedMessageMetadata (id : MessageID)
  | releaseMetadata (id : MessageID)
  | setIsNoTransaction (id : MessageID) (noTx : Bool)
  | setConflictingTx (id : MessageID) (conflict : Conflict)
  | setMessageReferencedFunc (id : MessageID) (referenced : Bool) (index : Index)
  | setConeRootIndexes (id : MessageID) (ycri ocri ci : Index)
  | metricInc (counter : Counter)
  | forEachReferencedMessage (id : MessageID) (index : Index) (confTime : Nat)
  | onMilestoneConfirmed (confirmation : Confirmation)
  deriving DecidableEq, Repr

/-- The metadata store behind `parentsTraverserStorage.CachedMessageMetadata`:
per id an error, no entry, or the metadata record. -/
abbrev MetaStore := MessageID → Except Error (Option MessageMetadata)

/-- The state threaded through a confirmation. -/
structure Sys where
  ledger : Ledger
  metadata : MetaStore
  trace : List Event

/-- Records one call. -/
def Sys.emit (s : Sys) (e : Event) : Sys :=
  { s with trace := s.trace ++ [e] }

/-- Records several calls. -/
def Sys.emits (s : Sys) (es : List Event) : Sys :=
  { s with trace := s.trace ++ es }

/-- In-place mutation of the metadata record behind a handle. -/
def Sys.setMeta (s : Sys) (id : MessageID) (m : MessageMetadata) : Sys :=
  { s with metadata := fun j => if j = id then Except.ok (some m) else s.metadata j }

/-- The arguments of `ConfirmMilestone` together with the collaborators it
calls in other packages, taken as parameters.  The first twelve fields are the
Go parameters (`utxoManager` and `parentsTraverserStorage` are the ledger and
the metadata store of the state; `whiteFlagTraversalCondition` is only handed on
to the white-flag computation and is part of `computeWhiteFlagMutations`; a
callback is `true` or `some` when it is non-nil).  The collaborators are
functions of the state they read: `ms.ID()`, `ComputeWhiteFlagMutations`,
`ms.Opts.Set()`, `UnspentTreasuryOutputWithoutLocking`, `iotago.ValidateReceipt`,
`utxo.ReceiptToOutputs`, `utxo.ReceiptToTreasuryMutation` and
`ApplyConfirmationWithoutLocking`, which yields the new ledger or an error that
leaves the ledger as it was (section 4.3 of the specification: the apply is
atomic). -/
structure Env where
  cachedMessageFunc : MessageID → Except Error (Option Message)
  networkId : Nat
  milestoneMessageID : MessageID
  lastMilestoneID : MilestoneID
  checkMessageReferencedFunc : MessageMetadata → Bool
  setMessageReferencedFunc : MessageMetadata → Bool → Index → MessageMetadata
  serverMetrics : Bool
  forEachReferencedMessage : Bool
  onMilestoneConfirmed : Bool
  onLedgerUpdated : Bool
  onTreasuryMutated : Bool
  onReceipt : Option (ReceiptTuple → Option Error)
  milestoneID : Milestone → Except Error MilestoneID
  computeWhiteFlagMutations : Ledger → MetaStore → Nat → Index → Nat → List MessageID →
    MilestoneID → Except Error WhiteFlagMutations
  optsSet : List MilestoneOpt → Except Error MilestoneOptSet
  unspentTreasuryOutputWithoutLocking : Ledger → Except Error TreasuryOutput
  validateReceipt : Receipt → Nat → Option Error
  receiptToOutputs : Receipt → MessageID → MilestoneID → Index → Nat → Except Error (List Output)
  receiptToTreasuryMutation : Receipt → TreasuryOutput → MilestoneID →
    Except Error TreasuryMutationTuple
  applyConfirmationWithoutLocking : Ledger → Index → List Output → List Spent →
    Option TreasuryMutationTuple → Option ReceiptTuple → Except Error Ledger

/-- Lines 51-53. -/
def DefaultCheckMessageReferencedFunc (meta : MessageMetadata) : Bool :=
  meta.IsReferenced

/-- Lines 54-56. -/
def DefaultSetMessageReferencedFunc (meta : MessageMetadata) (referenced : Bool)
    (msIndex : Index) : MessageMetadata :=
  meta.SetReferenced referenced msIndex

/-- The triple returned by `ConfirmMilestone`. -/
structure Ret where
  stats : Option ConfirmedMilestoneStats
  metrics : Option ConfirmationMetrics
  err : Option Error
  deriving DecidableEq, Repr

/-- The shape `return nil, nil, err`. -/
def Ret.fail (e : Error) : Ret := ⟨none, none, some e⟩

/-! ## The metadata phase (lines 208-292) -/

/-- The three mutation lists walked by the metadata phase. -/
inductive Category where
  | includedWithTransactions
  | excludedWithoutTransactions
  | excludedWithConflictingTransactions
  deriving DecidableEq, Repr

/-- The per-category statistics increment (`MessagesReferenced++` and the
category counter). -/
def ConfirmedMilestoneStats.count (st : ConfirmedMilestoneStats) (cat : Category) :
    ConfirmedMilestoneStats :=
  match cat with
  | .includedWithTransactions =>
      { st with MessagesReferenced := st.MessagesReferenced + 1,
                MessagesIncludedWithTransactions := st.MessagesIncludedWithTransactions + 1 }
  | .excludedWithoutTransactions =>
      { st with MessagesReferenced := st.MessagesReferenced + 1,
                MessagesExcludedWithoutTransactions := st.MessagesExcludedWithoutTransactions + 1 }
  | .excludedWithConflictingTransactions =>
      { st with MessagesReferenced := st.MessagesReferenced + 1,
                MessagesExcludedWithConflictingTransactions :=
                  st.MessagesExcludedWithConflictingTransactions + 1 }

/-- The per-category server metric. -/
def Category.counter : Category → Counter
  | .includedWithTransactions => Counter.IncludedTransactionMessages
  | .excludedWithoutTransactions => Counter.NoTransactionMessages
  | .excludedWithConflictingTransactions => Counter.ConflictingTransactionMessages

/-- The block `if !checkMessageReferencedFunc(meta.Metadata()) { ... }` common
to the three closures (lines 230-242, 253-265, 276-288): new metadata record,
new statistics, calls made. -/
def referenceIfUnreferenced (env : Env) (cat : Category) (milestoneIndex : Index)
    (confirmationTime : Nat) (id : MessageID) (meta : MessageMetadata)
    (stats : ConfirmedMilestoneStats) :
    MessageMetadata × ConfirmedMilestoneStats × List Event :=
  if !env.checkMessageReferencedFunc meta then
    ((env.setMessageReferencedFunc meta true milestoneIndex).SetConeRootIndexes
        milestoneIndex milestoneIndex milestoneIndex,
     stats.count cat,
     [Event.setMessageReferencedFunc id true milestoneIndex,
      Event.setConeRootIndexes id milestoneIndex milestoneIndex milestoneIndex]
      ++ (if env.serverMetrics then
            [Event.metricInc cat.counter, Event.metricInc Counter.ReferencedMessages]
          else [])
      ++ (if env.forEachReferencedMessage then
            [Event.forEachReferencedMessage id milestoneIndex confirmationTime]
          else []))
  else
    (meta, stats, [])

/-- The closure handed to `forMessageMetadataWithMessageID` in each of the three
loops; `conflict` is only read in the third. -/
def closure (env : Env) (cat : Category) (milestoneIndex : Index) (confirmationTime : Nat)
    (id : MessageID) (conflict : Conflict) (meta : MessageMetadata)
    (stats : ConfirmedMilestoneStats) :
    MessageMetadata × ConfirmedMilestoneStats × List Event :=
  match cat with
  | .includedWithTransactions =>
      referenceIfUnreferenced env cat milestoneIndex confirmationTime id meta stats
  | .excludedWithoutTransactions =>
      let r := referenceIfUnreferenced env cat milestoneIndex confirmationTime id
        (meta.SetIsNoTransaction true) stats
      (r.1, r.2.1, Event.setIsNoTransaction id true :: r.2.2)
  | .excludedWithConflictingTransactions =>
      let r := referenceIfUnreferenced env cat milestoneIndex confirmationTime id
        (meta.SetConflictingTx conflict) stats
      (r.1, r.2.1, Event.setConflictingTx id conflict :: r.2.2)

/-- Lines 209-220: look the metadata up, run the closure on it, release it. -/
def forMessageMetadataWithMessageID (s : Sys) (stats : ConfirmedMilestoneStats)
    (messageID : MessageID)
    (f : MessageMetadata → ConfirmedMilestoneStats →
      MessageMetadata × ConfirmedMilestoneStats × List Event) :
    Option Error × Sys × ConfirmedMilestoneStats :=
  let s := s.emit (Event.cachedMessageMetadata messageID)
  match s.metadata messageID with
  | .error e =>
      (some (Error.wrapf "confirmMilestone: get message failed: %v, Error: %w"
        [FmtArg.toHex messageID] e), s, stats)
  | .ok Option.none =>
      (some (Error.errorf "confirmMilestone: message not found: %v" [FmtArg.toHex messageID]),
        s, stats)
  | .ok (some meta) =>
      let r := f meta stats
      (Option.none,
        ((s.setMeta messageID r.1).emits r.2.2).emit (Event.releaseMetadata messageID), r.2.1)

/-- One of the three `for ... range` loops of lines 228-292, stopping at the
first error. -/
def confirmLoop (env : Env) (cat : Category) (milestoneIndex : Index) (confirmationTime : Nat) :
    List MessageWithConflict → Sys → ConfirmedMilestoneStats →
      Option Error × Sys × ConfirmedMilestoneStats
  | [], s, stats => (Option.none, s, stats)
  | m :: rest, s, stats =>
      match forMessageMetadataWithMessageID s stats m.MessageID
          (closure env cat milestoneIndex confirmationTime m.MessageID m.Conflict) with
      | (some e, s1, stats1) => (some e, s1, stats1)
      | (Option.none, s1, stats1) =>
          confirmLoop env cat milestoneIndex confirmationTime rest s1 stats1

/-- A plain message id as a loop entry (the first two lists carry no conflict). -/
def plain (id : MessageID) : MessageWithConflict := ⟨id, Conflict.none⟩

/-- Lines 222-310: the three loops, `onMilestoneConfirmed`, and the successful
return. -/
def updateMetadata (env : Env) (ms : Milestone) (confirmation : Confirmation) (s : Sys) :
    Ret × Sys :=
  let milestoneIndex := ms.Index
  let mutations := confirmation.Mutations
  let confirmedMilestoneStats : ConfirmedMilestoneStats :=
    { Index := milestoneIndex, ConfirmationTime := 0, MessagesReferenced := 0,
      MessagesExcludedWithConflictingTransactions := 0, MessagesIncludedWithTransactions := 0,
      MessagesExcludedWithoutTransactions := 0 }
  let confirmationTime := ms.Timestamp
  match confirmLoop env .includedWithTransactions milestoneIndex confirmationTime
      (mutations.MessagesIncludedWithTransactions.map plain) s confirmedMilestoneStats with
  | (some e, s1, _) => (Ret.fail e, s1)
  | (Option.none, s1, stats1) =>
  match confirmLoop env .excludedWithoutTransactions milestoneIndex confirmationTime
      (mutations.MessagesExcludedWithoutTransactions.map plain) s1 stats1 with
  | (some e, s2, _) => (Ret.fail e, s2)
  | (Option.none, s2, stats2) =>
  match confirmLoop env .excludedWithConflictingTransactions milestoneIndex confirmationTime
      mutations.MessagesExcludedWithConflictingTransactions s2 stats2 with
  | (some e, s3, _) => (Ret.fail e, s3)
  | (Option.none, s3, stats3) =>
      let s4 := if env.onMilestoneConfirmed then s3.emit (Event.onMilestoneConfirmed confirmation)
                else s3
      (⟨some stats3, some {}, Option.none⟩, s4)

/-! ## Receipt handling and ledger apply (lines 137-206) -/

/-- Lines 166-184: read the unspent treasury, validate the receipt against its
amount, build the migrated outputs and the treasury mutation. -/
def convertReceipt (env : Env) (message : Message) (ms : Milestone) (msID : MilestoneID)
    (receipt : Receipt) (rt : ReceiptTuple) (s : Sys) :
    Except Error (List Output × Option TreasuryMutationTuple × Option ReceiptTuple) × Sys :=
  let s2 := s.emit Event.unspentTreasuryOutputWithoutLocking
  match env.unspentTreasuryOutputWithoutLocking s2.ledger with
  | .error e =>
      (.error (Error.wrapf "unable to fetch previous unspent treasury output: %w" [] e), s2)
  | .ok unspentTreasuryOutput =>
  match env.validateReceipt receipt unspentTreasuryOutput.amount with
  | some e =>
      (.error (Error.wrapf "invalid receipt contained within milestone: %w" [] e), s2)
  | Option.none =>
  match env.receiptToOutputs receipt message.messageID msID ms.Index ms.Timestamp with
  | .error e =>
      (.error (Error.wrapf "unable to extract migrated outputs from receipt: %w" [] e), s2)
  | .ok migratedOutputs =>
  match env.receiptToTreasuryMutation receipt unspentTreasuryOutput msID with
  | .error e =>
      (.error (Error.wrapf "unable to convert receipt to treasury mutation tuple: %w" [] e),
        s2)
  | .ok tm => (.ok (migratedOutputs, some tm, some rt), s2)

/-- Lines 150-185: the receipt branch.  Yields the migrated outputs, the
treasury mutation and the receipt tuple (all absent without a receipt). -/
def processReceipt (env : Env) (message : Message) (ms : Milestone) (msID : MilestoneID)
    (opts : MilestoneOptSet) (s : Sys) :
    Except Error (List Output × Option TreasuryMutationTuple × Option ReceiptTuple) × Sys :=
  match opts.Receipt with
  | Option.none => (.ok ([], Option.none, Option.none), s)
  | some receipt =>
      let rt : ReceiptTuple := { Receipt := receipt, MilestoneIndex := ms.Index }
      match env.onReceipt with
      | Option.none => convertReceipt env message ms msID receipt rt s
      | some cb =>
          let s1 := s.emit (Event.onReceipt rt)
          match cb rt with
          | some e => (.error e, s1)
          | Option.none => convertReceipt env message ms msID receipt rt s1

/-- Lines 198-206: `onLedgerUpdated`, then `onTreasuryMutated` when there is a
treasury mutation; each only if supplied. -/
def notifyLedger (env : Env) (milestoneIndex : Index) (newOutputs : List Output)
    (newSpents : List Spent) (tm : Option TreasuryMutationTuple) (s : Sys) : Sys :=
  let s4 := if env.onLedgerUpdated then
      s.emit (Event.onLedgerUpdated milestoneIndex newOutputs newSpents) else s
  match tm with
  | some t => if env.onTreasuryMutated then s4.emit (Event.onTreasuryMutated milestoneIndex t)
              else s4
  | Option.none => s4

/-- Lines 137-206 followed by the metadata phase: build the output and spent
slices, handle the receipt, apply to the ledger, notify. -/
def applyAndNotify (env : Env) (message : Message) (ms : Milestone) (msID : MilestoneID)
    (confirmation : Confirmation) (s : Sys) : Ret × Sys :=
  let milestoneIndex := ms.Index
  let mutations := confirmation.Mutations
  let newOutputs0 := mutations.NewOutputs.map Prod.snd
  match env.optsSet ms.Opts with
  | .error e => (Ret.fail e, s)
  | .ok opts =>
  match processReceipt env message ms msID opts s with
  | (.error e, s1) => (Ret.fail e, s1)
  | (.ok (migratedOutputs, tm, rt), s1) =>
  let newOutputs := newOutputs0 ++ migratedOutputs
  let newSpents := mutations.NewSpents.map Prod.snd
  let s2 := s1.emit (Event.applyConfirmationWithoutLocking milestoneIndex newOutputs newSpents tm rt)
  match env.applyConfirmationWithoutLocking s2.ledger milestoneIndex newOutputs newSpents tm rt with
  | .error e =>
      (Ret.fail (Error.wrapf "confirmMilestone: utxo.ApplyConfirmation failed: %w" [] e), s2)
  | .ok ledger =>
  let s3 : Sys := { s2 with ledger := ledger }
  updateMetadata env ms confirmation (notifyLedger env milestoneIndex newOutputs newSpents tm s3)

/-! ## The entry point (lines 63-135) -/

/-- Lines 91-133, executed while the ledger write lock is held: payload check,
milestone id, white-flag computation and the two Merkle root checks. -/
def confirmLocked (env : Env) (message : Message) (s : Sys) : Ret × Sys :=
  match message.Milestone with
  | Option.none =>
      (Ret.fail (Error.errorf
        "confirmMilestone: message does not contain a milestone payload: %v"
        [FmtArg.toHex message.messageID]), s)
  | some ms =>
  match env.milestoneID ms with
  | .error e => (Ret.fail (Error.wrapf "unable to compute milestone Id: %w" [] e), s)
  | .ok msID =>
  let milestoneIndex := ms.Index
  let s1 := s.emit (Event.computeWhiteFlagMutations env.networkId milestoneIndex ms.Timestamp
    message.parents env.lastMilestoneID)
  match env.computeWhiteFlagMutations s1.ledger s1.metadata env.networkId milestoneIndex
      ms.Timestamp message.parents env.lastMilestoneID with
  | .error e =>
      (Ret.fail (Error.wrapf
        "confirmMilestone: whiteflag.ComputeConfirmation failed with Error: %w" [] e), s1)
  | .ok mutations =>
  let confirmation : Confirmation :=
    { MilestoneIndex := milestoneIndex, MilestoneMessageID := message.messageID,
      Mutations := mutations }
  if mutations.ConfirmedMerkleRoot ≠ ms.ConfirmedMerkleRoot then
    (Ret.fail (Error.errorf
      "confirmMilestone: computed AppliedMerkleRoot %s does not match the value in the milestone %s"
      [FmtArg.hexEncodeToString mutations.ConfirmedMerkleRoot,
       FmtArg.hexEncodeToString ms.ConfirmedMerkleRoot]), s1)
  else if mutations.AppliedMerkleRoot ≠ ms.AppliedMerkleRoot then
    (Ret.fail (Error.errorf
      "confirmMilestone: computed AppliedMerkleRoot %s does not match the value in the milestone %s"
      [FmtArg.hexEncodeToString mutations.AppliedMerkleRoot,
       FmtArg.hexEncodeToString ms.AppliedMerkleRoot]), s1)
  else
    applyAndNotify env message ms msID confirmation s1

/-- `ConfirmMilestone` (lines 63-311), run on a ledger and a metadata store.
The result is the returned triple and the final state, whose trace lists the
calls made, in order.  The two deferred calls run in reverse order of their
registration on every return after line 90. -/
def ConfirmMilestone (env : Env) (ledger : Ledger) (metadata : MetaStore) : Ret × Sys :=
  let s : Sys := { ledger := ledger, metadata := metadata, trace := [] }
  let s := s.emit (Event.cachedMessageFunc env.milestoneMessageID)
  match env.cachedMessageFunc env.milestoneMessageID with
  | .error e =>
      (Ret.fail (Error.wrapf "get milestone message failed: %v, error: %w"
        [FmtArg.toHex env.milestoneMessageID] e), s)
  | .ok Option.none =>
      (Ret.fail (Error.errorf "milestone message not found: %v"
        [FmtArg.toHex env.milestoneMessageID]), s)
  | .ok (some cachedMsgMilestone) =>
      let s1 := s.emit Event.writeLockLedger
      let r := confirmLocked env cachedMsgMilestone s1
      (r.1, (r.2.emit Event.writeUnlockLedger).emit
        (Event.releaseMessage cachedMsgMilestone.messageID))

/-! ## Collaborators as described by the specification -/

/-- Modelled from the spec: `UTXOManager.apply_confirmation` of section 4.3
(`utxo.Manager.ApplyConfirmationWithoutLocking`, package `pkg/model/utxo`).  The four failure checks in the order listed there, then the atomic
update; a failure leaves the ledger as it was. -/
def ApplyConfirmation (l : Ledger) (index : Index) (newOutputs : List Output)
    (newSpents : List Spent) (tm : Option TreasuryMutationTuple) (_rt : Option ReceiptTuple) :
    Except Error Ledger :=
  if index ≠ l.ledgerIndex + 1 then
    .error (Error.errorf "LedgerIndexGap" [])
  else if newSpents.any (fun sp => !(l.unspent.map Output.outputID).contains sp.outputID) then
    .error (Error.errorf "DoubleSpend" [])
  else if newOutputs.any (fun o => (l.unspent.map Output.outputID).contains o.outputID
      || (l.spent.map Spent.outputID).contains o.outputID) then
    .error (Error.errorf "DuplicateCreate" [])
  else if (match tm with
      | some t => decide (t.SpentOutput ≠ l.treasury)
      | Option.none => false) then
    .error (Error.errorf "TreasuryMismatch" [])
  else
    .ok { unspent := l.unspent.filter
            (fun o => !(newSpents.map Spent.outputID).contains o.outputID) ++ newOutputs,
          spent := l.spent ++ newSpents,
          treasury := (match tm with
            | some t => t.NewOutput
            | Option.none => l.treasury),
          ledgerIndex := index }

/-- Modelled from the spec: `unspent_treasury()` of section 4.3. -/
def UnspentTreasuryOutput (l : Ledger) : Except Error TreasuryOutput := .ok l.treasury

/-- Modelled from the spec: the receipt check of step 5 of section 4.5, "receipt
funds sum + new treasury amount = old treasury amount". -/
def ValidateReceipt (receipt : Receipt) (oldTreasuryAmount : Nat) : Option Error :=
  if (receipt.funds.map MigratedFundsEntry.amount).sum + receipt.treasuryTransaction.outputAmount
      = oldTreasuryAmount then Option.none
  else some (Error.errorf "InvalidReceipt" [])

/-- Modelled from the spec: "build `migrated_outputs` from receipt entries"
(`utxo.ReceiptToOutputs`, package `pkg/model/utxo`). -/
def ReceiptToOutputs (receipt : Receipt) (messageID : MessageID) (_msID : MilestoneID)
    (msIndex : Index) (msTimestamp : Nat) : Except Error (List Output) :=
  .ok (receipt.funds.map fun f =>
    { outputID := f.tailTransactionHash, messageID := messageID, amount := f.amount,
      bookedAt := msIndex, bookedTs := msTimestamp })

/-- Modelled from the spec: "build `treasury_mutation = { input: old_treasury,
output: new_treasury }`" (`utxo.ReceiptToTreasuryMutation`, package
`pkg/model/utxo`). -/
def ReceiptToTreasuryMutation (receipt : Receipt) (unspentTreasuryOutput : TreasuryOutput)
    (msID : MilestoneID) : Except Error TreasuryMutationTuple :=
  .ok { NewOutput := { milestoneID := msID, amount := receipt.treasuryTransaction.outputAmount },
        SpentOutput := unspentTreasuryOutput }

/-- The receipt among a list of milestone options, the first if several. -/
def findReceipt : List MilestoneOpt → Option Receipt
  | [] => Option.none
  | MilestoneOpt.receipt r :: _ => some r
  | MilestoneOpt.other _ :: rest => findReceipt rest

/-! ## Classification of events -/

/-- The ledger apply. -/
def Event.isApply : Event → Bool
  | .applyConfirmationWithoutLocking _ _ _ _ _ => true
  | _ => false

/-- Writes to a metadata record. -/
def Event.isMetadataWrite : Event → Bool
  | .setIsNoTransaction _ _ => true
  | .setConflictingTx _ _ => true
  | .setMessageReferencedFunc _ _ _ => true
  | .setConeRootIndexes _ _ _ _ => true
  | _ => false

/-- Invocations of one of the caller's callbacks. -/
def Event.isCallback : Event → Bool
  | .onReceipt _ => true
  | .onLedgerUpdated _ _ _ => true
  | .onTreasuryMutated _ _ => true
  | .forEachReferencedMessage _ _ _ => true
  | .onMilestoneConfirmed _ => true
  | _ => false

/-- The three lifecycle callbacks whose relative order the specification fixes. -/
def Event.isLifecycle : Event → Bool
  | .onLedgerUpdated _ _ _ => true
  | .onTreasuryMutated _ _ => true
  | .onMilestoneConfirmed _ => true
  | _ => false

/-- The white-flag computation. -/
def Event.isWhiteFlag : Event → Bool
  | .computeWhiteFlagMutations _ _ _ _ _ => true
  | _ => false

/-- Everything the metadata loops (lines 227-292) can do. -/
def Event.isMetadataPhase : Event → Bool
  | .cachedMessageMetadata _ => true
  | .releaseMetadata _ => true
  | .setIsNoTransaction _ _ => true
  | .setConflictingTx _ _ => true
  | .setMessageReferencedFunc _ _ _ => true
  | .setConeRootIndexes _ _ _ _ => true
  | .metricInc _ => true
  | .forEachReferencedMessage _ _ _ => true
  | _ => false

/-- The calls that can occur without the ledger apply having been reached:
message lookup and release, lock and unlock, the white-flag computation,
`onReceipt` and the treasury read. -/
def Event.isBeforeApply : Event → Bool
  | .cachedMessageFunc _ => true
  | .releaseMessage _ => true
  | .writeLockLedger => true
  | .writeUnlockLedger => true
  | .computeWhiteFlagMutations _ _ _ _ _ => true
  | .onReceipt _ => true
  | .unspentTreasuryOutputWithoutLocking => true
  | _ => false

/-- The `onLedgerUpdated` callback. -/
def Event.isLedgerUpdated : Event → Bool
  | .onLedgerUpdated _ _ _ => true
  | _ => false

/-- The `onTreasuryMutated` callback. -/
def Event.isTreasuryMutated : Event → Bool
  | .onTreasuryMutated _ _ => true
  | _ => false

/-! ## Outcomes of a run -/

/-- What the receipt branch has established when it hands over to the ledger
apply: no receipt and nothing to add, or a receipt whose tuple carries the
milestone index, together with the treasury read, a passed validation, the
migrated outputs and treasury mutation built from it, and an `onReceipt`
callback (if supplied) that returned no error. -/
def ReceiptOutcome (env : Env) (L : Ledger) (message : Message) (ms : Milestone)
    (msID : MilestoneID) (opts : MilestoneOptSet) (migrated : List Output)
    (tm : Option TreasuryMutationTuple) (rt : Option ReceiptTuple) : Prop :=
  (opts.Receipt = none ∧ migrated = [] ∧ tm = none ∧ rt = none) ∨
  (∃ r t tm', opts.Receipt = some r ∧ rt = some ⟨r, ms.Index⟩ ∧ tm = some tm' ∧
    env.unspentTreasuryOutputWithoutLocking L = .ok t ∧
    env.validateReceipt r t.amount = none ∧
    env.receiptToOutputs r message.messageID msID ms.Index ms.Timestamp = .ok migrated ∧
    env.receiptToTreasuryMutation r t msID = .ok tm' ∧
    ∀ cb, env.onReceipt = some cb → cb ⟨r, ms.Index⟩ = none)

/-- A run that ended without reaching the ledger apply: an error is returned,
ledger and metadata are as before, and only calls that precede the apply were
made. -/
def EarlyFailure (L : Ledger) (M : MetaStore) (before : List Event) (out : Ret × Sys) : Prop :=
  out.1.err ≠ none ∧ out.1.stats = none ∧ out.1.metrics = none ∧
  out.2.ledger = L ∧ out.2.metadata = M ∧
  ∃ evs, out.2.trace = before ++ evs ∧ ∀ e ∈ evs, e.isBeforeApply = true

/-- A run that reached the ledger apply with the given arguments: either the
apply failed, its error is returned wrapped and nothing else happened, or it
succeeded and was followed by `onLedgerUpdated`, `onTreasuryMutated`, the
metadata phase and `onMilestoneConfirmed`, in this order; result and final
metadata are those of the metadata phase started on the metadata `M`. -/
def ApplyOutcome (env : Env) (L : Ledger) (M : MetaStore) (ms : Milestone) (c : Confirmation)
    (before after : List Event) (outs : List Output) (spents : List Spent)
    (tm : Option TreasuryMutationTuple) (rt : Option ReceiptTuple) (out : Ret × Sys) : Prop :=
  (∃ e, env.applyConfirmationWithoutLocking L ms.Index outs spents tm rt = .error e ∧
    out.1 = Ret.fail (Error.wrapf "confirmMilestone: utxo.ApplyConfirmation failed: %w" [] e) ∧
    out.2.ledger = L ∧ out.2.metadata = M ∧
    out.2.trace = before ++ [Event.applyConfirmationWithoutLocking ms.Index outs spents tm rt]
      ++ after) ∨
  (∃ L' evs, env.applyConfirmationWithoutLocking L ms.Index outs spents tm rt = .ok L' ∧
    out.2.ledger = L' ∧ (∀ e ∈ evs, e.isMetadataPhase = true) ∧
    (((out.1.err = none ∧ out.1.stats ≠ none ∧ out.1.metrics ≠ none) ∨
      (out.1.err ≠ none ∧ out.1.stats = none ∧ out.1.metrics = none)) ∧
     ∃ S : Sys, S.metadata = M ∧ out.1 = (updateMetadata env ms c S).1 ∧
       out.2.metadata = (updateMetadata env ms c S).2.metadata) ∧
    out.2.trace = before ++ [Event.applyConfirmationWithoutLocking ms.Index outs spents tm rt]
      ++ (if env.onLedgerUpdated = true then [Event.onLedgerUpdated ms.Index outs spents] else [])
      ++ (match tm with
          | some t => if env.onTreasuryMutated = true then [Event.onTreasuryMutated ms.Index t]
                      else []
          | none => [])
      ++ evs
      ++ (if out.1.err = none ∧ env.onMilestoneConfirmed = true
          then [Event.onMilestoneConfirmed c] else [])
      ++ after)

/-! ## Metadata predicates -/

/-- Message `id` has a metadata record in `M'` that is referenced and, if the
message had an unreferenced record in `M0`, carries the milestone index as
referenced index and as all three cone root indexes. -/
def ReferencedBy (M0 : MetaStore) (idx : Index) (id : MessageID) (M' : MetaStore) : Prop :=
  ∃ m, M' id = .ok (some m) ∧ m.isReferenced = true ∧
    ∀ m0, M0 id = .ok (some m0) → m0.isReferenced = false →
      m.referencedIndex = some idx ∧ m.coneRootIndexes = some (idx, idx, idx)

/-- The parts of a metadata record that the metadata phase never rewrites once
the message is referenced. -/
def ReferenceKept (m m' : MessageMetadata) : Prop :=
  m'.isReferenced = true ∧ m'.referencedIndex = m.referencedIndex ∧
  m'.coneRootIndexes = m.coneRootIndexes ∧ m'.isSolid = m.isSolid

/-! ## A concrete scenario

Treasury 10000; milestone 1 carries a receipt migrating 1000 + 2000 and leaves
7000; the cone holds one included, one transaction-less and one conflicting
message. -/

def sampleLedger : Ledger :=
  { unspent := [{ outputID := [10], messageID := [0], amount := 1000, bookedAt := 0,
                  bookedTs := 0 }],
    spent := [],
    treasury := { milestoneID := [], amount := 10000 },
    ledgerIndex := 0 }

def sampleMeta : MessageMetadata :=
  { isSolid := true, isReferenced := false, referencedIndex := Option.none,
    coneRootIndexes := Option.none, conflict := Conflict.none, isNoTransaction := false }

def sampleStore : MetaStore := fun id =>
  if id = [1] ∨ id = [2] ∨ id = [3] then .ok (some sampleMeta) else .ok Option.none

def sampleReceipt : Receipt :=
  { migratedAt := 5, final := true,
    funds := [{ tailTransactionHash := [241], address := [177], amount := 1000 },
              { tailTransactionHash := [242], address := [178], amount := 2000 }],
    treasuryTransaction := { inputMilestoneID := [], outputAmount := 7000 } }

def sampleMilestone : Milestone :=
  { Index := 1, Timestamp := 100, PreviousMilestoneID := [], Parents := [[1], [2], [3]],
    ConfirmedMerkleRoot := [192, 1], AppliedMerkleRoot := [160, 1],
    Opts := [MilestoneOpt.receipt sampleReceipt] }

def sampleMessage : Message :=
  { messageID := [9], parents := [[1], [2], [3]],
    payload := some (Payload.milestone sampleMilestone) }

def sampleMutations : WhiteFlagMutations :=
  { MessagesIncludedWithTransactions := [[1]],
    MessagesExcludedWithoutTransactions := [[2]],
    MessagesExcludedWithConflictingTransactions := [⟨[3], Conflict.inputAlreadySpent⟩],
    NewOutputs := [([11], { outputID := [11], messageID := [1], amount := 1000, bookedAt := 1,
                            bookedTs := 100 })],
    NewSpents := [([10], { outputID := [10], spentByTransaction := [113], spentAt := 1,
                           spentTs := 100 })],
    ConfirmedMerkleRoot := [192, 1],
    AppliedMerkleRoot := [160, 1] }

def sampleEnv : Env :=
  { cachedMessageFunc := fun id => if id = [9] then .ok (some sampleMessage) else .ok Option.none,
    networkId := 42,
    milestoneMessageID := [9],
    lastMilestoneID := [],
    checkMessageReferencedFunc := DefaultCheckMessageReferencedFunc,
    setMessageReferencedFunc := DefaultSetMessageReferencedFunc,
    serverMetrics := true,
    forEachReferencedMessage := true,
    onMilestoneConfirmed := true,
    onLedgerUpdated := true,
    onTreasuryMutated := true,
    onReceipt := some (fun _ => Option.none),
    milestoneID := fun _ => .ok [77],
    computeWhiteFlagMutations := fun _ _ _ _ _ _ _ => .ok sampleMutations,
    optsSet := fun o => .ok ⟨findReceipt o⟩,
    unspentTreasuryOutputWithoutLocking := UnspentTreasuryOutput,
    validateReceipt := ValidateReceipt,
    receiptToOutputs := ReceiptToOutputs,
    receiptToTreasuryMutation := ReceiptToTreasuryMutation,
    applyConfirmationWithoutLocking := ApplyConfirmation }

/-- The sample milestone with one byte of `AppliedMerkleRoot` flipped. -/
def flippedMilestone : Milestone := { sampleMilestone with AppliedMerkleRoot := [161, 1] }

def flippedMessage : Message :=
  { sampleMessage with payload := some (Payload.milestone flippedMilestone) }

def flippedEnv : Env :=
  { sampleEnv with
    cachedMessageFunc := fun id =>
      if id = [9] then .ok (some flippedMessage) else .ok Option.none }

/-- The sample call for a message id the message cache does not know. -/
def absentEnv : Env := { sampleEnv with milestoneMessageID := [8] }

/-- The sample metadata store without an entry for message `[2]`. -/
def missingStore : MetaStore := fun id =>
  if id = [1] ∨ id = [3] then .ok (some sampleMeta) else .ok Option.none

/-- The sample call with a failing white-flag computation. -/
def whiteFlagFailEnv : Env :=
  { sampleEnv with computeWhiteFlagMutations := fun _ _ _ _ _ _ _ => .error (Error.ext 1) }

/-- The sample milestone without options. -/
def plainMilestone : Milestone := { sampleMilestone with Opts := [] }

def plainMessage : Message :=
  { sampleMessage with payload := some (Payload.milestone plainMilestone) }

def plainEnv : Env :=
  { sampleEnv with
    cachedMessageFunc := fun id =>
      if id = [9] then .ok (some plainMessage) else .ok Option.none }

/-- A receipt whose funds (1000 + 2000) and new treasury (6000) do not add up to
the old treasury (10000). -/
def unbalancedReceipt : Receipt :=
  { sampleReceipt with treasuryTransaction := { inputMilestoneID := [], outputAmount := 6000 } }

def unbalancedMilestone : Milestone :=
  { sampleMilestone with Opts := [MilestoneOpt.receipt unbalancedReceipt] }

def unbalancedMessage : Message :=
  { sampleMessage with payload := some (Payload.milestone unbalancedMilestone) }

def unbalancedEnv : Env :=
  { sampleEnv with
    cachedMessageFunc := fun id =>
      if id = [9] then .ok (some unbalancedMessage) else .ok Option.none }

/-- The sample ledger at index 5, so that applying milestone 1 is refused. -/
def gapLedger : Ledger := { sampleLedger with ledgerIndex := 5 }

/-- The outputs applied in the sample run: the one created in the cone, then
the two migrated by the receipt. -/
def sampleNewOutputs : List Output :=
  [{ outputID := [11], messageID := [1], amount := 1000, bookedAt := 1, bookedTs := 100 },
   { outputID := [241], messageID := [9], amount := 1000, bookedAt := 1, bookedTs := 100 },
   { outputID := [242], messageID := [9], amount := 2000, bookedAt := 1, bookedTs := 100 }]

def sampleNewSpents : List Spent :=
  [{ outputID := [10], spentByTransaction := [113], spentAt := 1, spentTs := 100 }]

def sampleTreasuryMutation : TreasuryMutationTuple :=
  { NewOutput := { milestoneID := [77], amount := 7000 },
    SpentOutput := { milestoneID := [], amount := 10000 } }

/-- A record referenced by an earlier milestone (index 7), not transaction-less
and without conflict. -/
def referencedMeta : MessageMetadata :=
  { isSolid := true, isReferenced := true, referencedIndex := some 7,
    coneRootIndexes := some (7, 7, 7), conflict := Conflict.none, isNoTransaction := false }

/-- The sample metadata store in which messages `[2]` and `[3]` are already
referenced by milestone 7. -/
def referencedStore : MetaStore := fun id =>
  if id = [2] ∨ id = [3] then .ok (some referencedMeta) else sampleStore id

/-! ## The prefix of a run that gets as far as the metadata phase -/

/-- The calls of the receipt branch when it accepts: `onReceipt` (if supplied)
and the treasury read, or nothing without a receipt. -/
def receiptEvents (env : Env) (ms : Milestone) (opts : MilestoneOptSet) : List Event :=
  match opts.Receipt with
  | Option.none => []
  | some r =>
      (match env.onReceipt with
        | Option.none => []
        | some _ => [Event.onReceipt ⟨r, ms.Index⟩])
      ++ [Event.unspentTreasuryOutputWithoutLocking]

/-- The state in which the metadata phase starts after a successful apply that
produced ledger `L'`: metadata untouched, and the calls made so far. -/
def stateAfterApply (env : Env) (M : MetaStore) (message : Message) (ms : Milestone)
    (opts : MilestoneOptSet) (outs : List Output) (spents : List Spent)
    (tm : Option TreasuryMutationTuple) (rt : Option ReceiptTuple) (L' : Ledger) : Sys :=
  { ledger := L', metadata := M,
    trace := [Event.cachedMessageFunc env.milestoneMessageID, Event.writeLockLedger,
        Event.computeWhiteFlagMutations env.networkId ms.Index ms.Timestamp message.parents
          env.lastMilestoneID]
      ++ receiptEvents env ms opts
      ++ [Event.applyConfirmationWithoutLocking ms.Index outs spents tm rt]
      ++ (if env.onLedgerUpdated = true then [Event.onLedgerUpdated ms.Index outs spents] else [])
      ++ (match tm with
          | some t => if env.onTreasuryMutated = true then [Event.onTreasuryMutated ms.Index t]
                      else []
          | Option.none => []) }

/-! ## The three loops as one walk -/

/-- The messages handled by the metadata phase, in the order in which the three
loops visit them, each with the loop it belongs to. -/
def WhiteFlagMutations.entries (mu : WhiteFlagMutations) :
    List (Category × MessageWithConflict) :=
  mu.MessagesIncludedWithTransactions.map (fun id => (Category.includedWithTransactions, plain id))
  ++ mu.MessagesExcludedWithoutTransactions.map
      (fun id => (Category.excludedWithoutTransactions, plain id))
  ++ mu.MessagesExcludedWithConflictingTransactions.map
      (fun m => (Category.excludedWithConflictingTransactions, m))

/-- The three loops run one after the other, seen as a single walk over
`entries` that stops at the first error. -/
def entriesLoop (env : Env) (milestoneIndex : Index) (confirmationTime : Nat) :
    List (Category × MessageWithConflict) → Sys → ConfirmedMilestoneStats →
      Option Error × Sys × ConfirmedMilestoneStats
  | [], s, stats => (Option.none, s, stats)
  | (cat, m) :: rest, s, stats =>
      match forMessageMetadataWithMessageID s stats m.MessageID
          (closure env cat milestoneIndex confirmationTime m.MessageID m.Conflict) with
      | (some e, s1, stats1) => (some e, s1, stats1)
      | (Option.none, s1, stats1) =>
          entriesLoop env milestoneIndex confirmationTime rest s1 stats1

/-- The metadata record of `id` in `M` exists and is referenced. -/
def isReferencedIn (M : MetaStore) (id : MessageID) : Bool :=
  match M id with
  | .ok (some m) => m.isReferenced
  | _ => false

/-- The metadata record of `id` in `M` exists. -/
def isFoundIn (M : MetaStore) (id : MessageID) : Bool :=
  match M id with
  | .ok (some _) => true
  | _ => false

/-- The sample call in which the caller names `[55]` as the id of the previous
milestone, while the payload of milestone 1 names the all-zero id `[]`. -/
def callerEnv : Env := { sampleEnv with lastMilestoneID := [55] }

/-! ## Amounts held by the ledger -/

/-- Modelled from the spec: `Σ amount` over the unspent outputs. -/
def Ledger.unspentTotal (l : Ledger) : Nat := (l.unspent.map Output.amount).sum

/-- Modelled from the spec: `Σ amount` over unspent outputs plus the treasury
amount, the quantity of the conservation invariant. -/
def Ledger.total (l : Ledger) : Nat := l.unspentTotal + l.treasury.amount

/-- Modelled from the spec: `Σ receipt.funds.amount`. -/
def Receipt.fundsTotal (r : Receipt) : Nat := (r.funds.map MigratedFundsEntry.amount).sum

/-- Modelled from the spec: `Σ receipt.funds.amount`, zero when the milestone
carries no receipt. -/
def MilestoneOptSet.fundsTotal (o : MilestoneOptSet) : Nat :=
  match o.Receipt with
  | Option.none => 0
  | some r => r.fundsTotal

/-- The outputs created by the transactions of the cone carry the amount of the
unspent outputs these transactions consume: the white-flag computation applies
balanced transactions only. -/
def Balanced (l : Ledger) (mu : WhiteFlagMutations) : Prop :=
  ((mu.NewOutputs.map Prod.snd).map Output.amount).sum =
    ((l.unspent.filter (fun o =>
      ((mu.NewSpents.map Prod.snd).map Spent.outputID).contains o.outputID)).map
        Output.amount).sum

/-! ## The messages a confirmation newly references -/

/-- The `forEachReferencedMessage` callback. -/
def Event.isForEach : Event → Bool
  | .forEachReferencedMessage _ _ _ => true
  | _ => false

/-- The messages of a list that are not referenced according to `referenced`,
each once, at its first occurrence: the messages that a walk over the list
newly references. -/
def newlyReferenced (referenced : MessageID → Bool) : List MessageID → List MessageID
  | [] => []
  | id :: rest =>
      if referenced id then newlyReferenced referenced rest
      else id :: newlyReferenced (fun j => decide (j = id) || referenced j) rest

/-- The ids of the three lists in the order in which the loops visit them. -/
def WhiteFlagMutations.listedIDs (mu : WhiteFlagMutations) : List MessageID :=
  mu.MessagesIncludedWithTransactions ++ mu.MessagesExcludedWithoutTransactions ++
    mu.MessagesExcludedWithConflictingTransactions.map MessageWithConflict.MessageID

/-- The sample mutations with message `[1]` listed a second time, as
transaction-less. -/
def repeatedMutations : WhiteFlagMutations :=
  { sampleMutations with MessagesExcludedWithoutTransactions := [[2], [1]] }

def repeatedEnv : Env :=
  { sampleEnv with computeWhiteFlagMutations := fun _ _ _ _ _ _ _ => .ok repeatedMutations }

/-! ## Two runs on the same input -/

/-- The same call with another run of the white-flag computation. -/
def Env.withWhiteFlag (env : Env)
    (wf : Ledger → MetaStore → Nat → Index → Nat → List MessageID → MilestoneID →
      Except Error WhiteFlagMutations) : Env :=
  { env with computeWhiteFlagMutations := wf }

/-! ## The output response of the REST API (`plugins/restapi/v2/types.go`) -/

/-- A JSON value; an object is the list of its members in the order in which
they are written. -/
inductive JSON where
  | null
  | bool (b : Bool)
  | number (n : Int)
  | string (s : String)
  | array (items : List JSON)
  | object (members : List (String × JSON))

/-- `OutputResponse` (lines 137-161).  The unsigned fields are natural numbers
(`uint16` for `OutputIndex`, `uint32` for the others, see
`OutputResponse.InRange`); a string is a sequence of code points, that is a Go
string holding valid UTF-8; `RawOutput` is `none` for a nil pointer and
otherwise the JSON value written in the raw message it points to. -/
structure OutputResponse where
  MessageID : String
  TransactionID : String
  OutputIndex : Nat
  Spent : Bool
  MilestoneIndexSpent : Nat
  MilestoneTimestampSpent : Nat
  TransactionIDSpent : String
  MilestoneIndexBooked : Nat
  MilestoneTimestampBooked : Nat
  LedgerIndex : Nat
  RawOutput : Option JSON

/-- The numeric fields fit their Go types. -/
def OutputResponse.InRange (r : OutputResponse) : Prop :=
  r.OutputIndex < 2 ^ 16 ∧ r.MilestoneIndexSpent < 2 ^ 32 ∧
  r.MilestoneTimestampSpent < 2 ^ 32 ∧ r.MilestoneIndexBooked < 2 ^ 32 ∧
  r.MilestoneTimestampBooked < 2 ^ 32 ∧ r.LedgerIndex < 2 ^ 32

/-- The zero value `OutputResponse{}`. -/
def OutputResponse.zero : OutputResponse :=
  { MessageID := "", TransactionID := "", OutputIndex := 0, Spent := false,
    MilestoneIndexSpent := 0, MilestoneTimestampSpent := 0, TransactionIDSpent := "",
    MilestoneIndexBooked := 0, MilestoneTimestampBooked := 0, LedgerIndex := 0,
    RawOutput := Option.none }

/-- What `json.Marshal` writes for an `OutputResponse`: the fields in the order
of declaration under the names given by the struct tags; a field tagged
`omitempty` is left out when it is zero, the empty string or a nil pointer; the
raw message is written as it is. -/
def OutputResponse.MarshalJSON (r : OutputResponse) : JSON :=
  JSON.object (
    [("messageId", JSON.string r.MessageID),
     ("transactionId", JSON.string r.TransactionID),
     ("outputIndex", JSON.number r.OutputIndex),
     ("isSpent", JSON.bool r.Spent)]
    ++ (if r.MilestoneIndexSpent = 0 then []
        else [("milestoneIndexSpent", JSON.number r.MilestoneIndexSpent)])
    ++ (if r.MilestoneTimestampSpent = 0 then []
        else [("milestoneTimestampSpent", JSON.number r.MilestoneTimestampSpent)])
    ++ (if r.TransactionIDSpent = "" then []
        else [("transactionIdSpent", JSON.string r.TransactionIDSpent)])
    ++ [("milestoneIndexBooked", JSON.number r.MilestoneIndexBooked),
        ("milestoneTimestampBooked", JSON.number r.MilestoneTimestampBooked),
        ("ledgerIndex", JSON.number r.LedgerIndex)]
    ++ (match r.RawOutput with
        | Option.none => []
        | some raw => [("output", raw)]))

/-- How `json.Unmarshal` stores a JSON value in an unsigned integer field of
`bits` bits: `null` leaves the field as it is, an integer in range is stored,
anything else is an error. -/
def storeUint (bits : Nat) (cur : Nat) : JSON → Except Error Nat
  | JSON.null => .ok cur
  | JSON.number n =>
      if 0 ≤ n ∧ n < 2 ^ bits then .ok n.toNat
      else .error (Error.errorf "json: cannot unmarshal number into Go struct field" [])
  | _ => .error (Error.errorf "json: cannot unmarshal into Go struct field of type uint" [])

/-- How `json.Unmarshal` stores a JSON value in a string field. -/
def storeString (cur : String) : JSON → Except Error String
  | JSON.null => .ok cur
  | JSON.string s => .ok s
  | _ => .error (Error.errorf "json: cannot unmarshal into Go struct field of type string" [])

/-- How `json.Unmarshal` stores a JSON value in a bool field. -/
def storeBool (cur : Bool) : JSON → Except Error Bool
  | JSON.null => .ok cur
  | JSON.bool b => .ok b
  | _ => .error (Error.errorf "json: cannot unmarshal into Go struct field of type bool" [])

/-- How `json.Unmarshal` stores a JSON value in a field of type
`*json.RawMessage`: the literal `null` sets the pointer to nil, any other value
is copied into a fresh raw message. -/
def storeRawMessage : JSON → Option JSON
  | JSON.null => Option.none
  | v => some v

/-- One member of the decoded object stored into the struct: the key selects
the field by its tag, a key that names no field is skipped. -/
def OutputResponse.setMember (r : OutputResponse) (m : String × JSON) :
    Except Error OutputResponse :=
  if m.1 = "messageId" then
    (storeString r.MessageID m.2).map fun v => { r with MessageID := v }
  else if m.1 = "transactionId" then
    (storeString r.TransactionID m.2).map fun v => { r with TransactionID := v }
  else if m.1 = "outputIndex" then
    (storeUint 16 r.OutputIndex m.2).map fun v => { r with OutputIndex := v }
  else if m.1 = "isSpent" then
    (storeBool r.Spent m.2).map fun v => { r with Spent := v }
  else if m.1 = "milestoneIndexSpent" then
    (storeUint 32 r.MilestoneIndexSpent m.2).map fun v => { r with MilestoneIndexSpent := v }
  else if m.1 = "milestoneTimestampSpent" then
    (storeUint 32 r.MilestoneTimestampSpent m.2).map fun v =>
      { r with MilestoneTimestampSpent := v }
  else if m.1 = "transactionIdSpent" then
    (storeString r.TransactionIDSpent m.2).map fun v => { r with TransactionIDSpent := v }
  else if m.1 = "milestoneIndexBooked" then
    (storeUint 32 r.MilestoneIndexBooked m.2).map fun v => { r with MilestoneIndexBooked := v }
  else if m.1 = "milestoneTimestampBooked" then
    (storeUint 32 r.MilestoneTimestampBooked m.2).map fun v =>
      { r with MilestoneTimestampBooked := v }
  else if m.1 = "ledgerIndex" then
    (storeUint 32 r.LedgerIndex m.2).map fun v => { r with LedgerIndex := v }
  else if m.1 = "output" then
    .ok { r with RawOutput := storeRawMessage m.2 }
  else .ok r

/-- The members of an object stored one after the other. -/
def OutputResponse.setMembers :
    List (String × JSON) → OutputResponse → Except Error OutputResponse
  | [], r => .ok r
  | m :: rest, r =>
      match r.setMember m with
      | .error e => .error e
      | .ok r' => OutputResponse.setMembers rest r'

/-- What `json.Unmarshal` yields when it decodes a JSON value into a fresh
`OutputResponse`. -/
def OutputResponse.UnmarshalJSON : JSON → Except Error OutputResponse
  | JSON.object members => OutputResponse.setMembers members OutputResponse.zero
  | JSON.null => .ok OutputResponse.zero
  | _ => .error (Error.errorf "json: cannot unmarshal into Go value of type v2.OutputResponse" [])

/-- An unspent output without raw output, booked at milestone 3. -/
def unspentResponse : OutputResponse :=
  { MessageID := "0a", TransactionID := "0b", OutputIndex := 1, Spent := false,
    MilestoneIndexSpent := 0, MilestoneTimestampSpent := 0, TransactionIDSpent := "",
    MilestoneIndexBooked := 3, MilestoneTimestampBooked := 300, LedgerIndex := 4,
    RawOutput := Option.none }

/-- A spent output with a raw output. -/
def spentResponse : OutputResponse :=
  { MessageID := "0a", TransactionID := "0b", OutputIndex := 1, Spent := true,
    MilestoneIndexSpent := 4, MilestoneTimestampSpent := 400, TransactionIDSpent := "0c",
    MilestoneIndexBooked := 3, MilestoneTimestampBooked := 300, LedgerIndex := 4,
    RawOutput := some (JSON.object [("type", JSON.number 0), ("amount", JSON.number 1000)]) }

/-- An output response whose `RawOutput` points to the raw message `null`. -/
def nullRawResponse : OutputResponse :=
  { unspentResponse with RawOutput := some JSON.null }

/-! ## The white-flag computation of the test coordinator (`pkg/testsuite/coordinator.go`) -/

/-- `coordinator.MilestoneMerkleRoots`: the two roots handed to the coordinator. -/
structure MilestoneMerkleRoots where
  ConfirmedMerkleRoot : MerkleRoot
  AppliedMerkleRoot : MerkleRoot
  deriving DecidableEq, Repr

/-- Go's builtin `copy(dst, src)`: the first `min(len(dst), len(src))` bytes of
`dst` are overwritten with those of `src`; the value is `dst` afterwards. -/
def copyBytes (dst src : Bytes) : Bytes :=
  src.take dst.length ++ dst.drop src.length

/-- The zero value of `iotago.MilestoneMerkleProof`, a `[32]byte`. -/
def zeroMerkleProof : MerkleRoot := List.replicate 32 0

/-- The closure `computeWhiteFlag` of `configureCoordinator` (lines 46-76): run
the white-flag computation on the state of the test environment and copy the
two roots of its result into a fresh `MilestoneMerkleRoots`. -/
def computeWhiteFlag (env : Env) (ledger : Ledger) (metadata : MetaStore) (index : Index)
    (timestamp : Nat) (parents : List MessageID) (lastMilestoneID : MilestoneID) :
    Except Error MilestoneMerkleRoots :=
  match env.computeWhiteFlagMutations ledger metadata env.networkId index timestamp parents
      lastMilestoneID with
  | .error e => .error e
  | .ok mutations =>
      .ok { ConfirmedMerkleRoot := copyBytes zeroMerkleProof mutations.ConfirmedMerkleRoot,
            AppliedMerkleRoot := copyBytes zeroMerkleProof mutations.AppliedMerkleRoot }

/-- White-flag mutations with two different roots of 32 bytes each. -/
def rootedMutations : WhiteFlagMutations :=
  { sampleMutations with
    ConfirmedMerkleRoot := List.replicate 32 192,
    AppliedMerkleRoot := List.replicate 32 160 }

/-- A milestone that carries the roots of `rootedMutations`. -/
def rootedMilestone : Milestone :=
  { sampleMilestone with
    ConfirmedMerkleRoot := List.replicate 32 192,
    AppliedMerkleRoot := List.replicate 32 160 }

def rootedMessage : Message :=
  { sampleMessage with payload := some (Payload.milestone rootedMilestone) }

def rootedEnv : Env :=
  { sampleEnv with
    cachedMessageFunc := fun id =>
      if id = [9] then .ok (some rootedMessage) else .ok Option.none,
    computeWhiteFlagMutations := fun _ _ _ _ _ _ _ => .ok rootedMutations }

/-! ## Default key material of the integration tests
(`integration-tests/tester/framework/config.go`) -/

/-- `CoordinatorConfig` (lines 504-511); the interval is a `time.Duration`, a
number of nanoseconds. -/
structure CoordinatorConfig where
  PrivateKeys : List String
  Bootstrap : Bool
  IssuanceInterval : Nat
  deriving DecidableEq, Repr

/-- `protocfg.ConfigPublicKeyRange`, as far as the defaults set it. -/
structure ConfigPublicKeyRange where
  Key : String
  StartIndex : Nat
  EndIndex : Nat
  deriving DecidableEq, Repr

/-- `ProtocolConfig` (lines 629-638) without `Bech32HRP`, whose default is a
constant of another package; the score is the float `100`. -/
structure ProtocolConfig where
  MinPoWScore : Nat
  PublicKeyRanges : List ConfigPublicKeyRange
  NetworkIDName : String
  deriving DecidableEq, Repr

/-- `DefaultCoordinatorConfig` (lines 521-529). -/
def DefaultCoordinatorConfig : CoordinatorConfig :=
  { Bootstrap := true,
    PrivateKeys :=
      ["651941eddb3e68cb1f6ef4ef5b04625dcf5c70de1fdc4b1c9eadb2c219c074e0ed3c3f1a319ff4e909cf2771d79fece0ac9bd9fd2ee49ea6c0885c9cb3b1248c",
       "0e324c6ff069f31890d496e9004636fd73d8e8b5bea08ec58a4178ca85462325f6752f5f46a53364e2ee9c4d662d762a81efd51010282a75cd6bd03f28ef349c"],
    IssuanceInterval := 10 * 1000000000 }

/-- `DefaultProtocolConfig` (lines 656-675). -/
def DefaultProtocolConfig : ProtocolConfig :=
  { MinPoWScore := 100,
    PublicKeyRanges :=
      [{ Key := "ed3c3f1a319ff4e909cf2771d79fece0ac9bd9fd2ee49ea6c0885c9cb3b1248c",
         StartIndex := 0, EndIndex := 0 },
       { Key := "f6752f5f46a53364e2ee9c4d662d762a81efd51010282a75cd6bd03f28ef349c",
         StartIndex := 0, EndIndex := 0 }],
    NetworkIDName := "alphanet1" }

/-- The last `n` characters of a string (all of it if it is shorter). -/
def lastChars (n : Nat) (s : String) : List Char :=
  s.toList.drop (s.toList.length - n)

/-! ## Protocol parameters served over INX (`plugins/inx/server.go`) -/

/-- One key range of the key manager (`keymanager.KeyRange`): a 32-byte public
key and the milestone indexes between which it is valid. -/
structure KeyRange where
  PublicKey : Bytes
  StartIndex : Index
  EndIndex : Index
  deriving DecidableEq, Repr

/-- `inx.MilestoneKeyRange`. -/
structure MilestoneKeyRange where
  PublicKey : Bytes
  StartIndex : Nat
  EndIndex : Nat
  deriving DecidableEq, Repr

/-- `iotago.RentStructure`, read through `deps.DeserializationParameters`. -/
structure RentStructure where
  VByteCost : Nat
  VBFactorData : Nat
  VBFactorKey : Nat
  deriving DecidableEq, Repr

/-- `inx.RentStructure`. -/
structure INXRentStructure where
  VByteCost : Nat
  VByteFactorData : Nat
  VByteFactorKey : Nat
  deriving DecidableEq, Repr

/-- What `ReadProtocolParameters` reads from `deps`: the key ranges of the key
manager, in the order of the slice `KeyRanges()` returns, and the configured
values.  `MinPoWScore` (a float) and the constant `iotago.ProtocolVersion` are
left out. -/
structure ProtocolDeps where
  KeyRanges : List KeyRange
  NetworkIDName : String
  Bech32HRP : String
  RentStructure : RentStructure
  MilestonePublicKeyCount : Int
  deriving DecidableEq, Repr

/-- `inx.ProtocolParameters`, without `ProtocolVersion` and `MinPoWScore`. -/
structure ProtocolParameters where
  NetworkName : String
  Bech32HRP : String
  RentStructure : INXRentStructure
  MilestonePublicKeyCount : Nat
  MilestoneKeyRanges : List MilestoneKeyRange
  deriving DecidableEq, Repr

/-- `INXServer.ReadProtocolParameters` (lines 102-126).  The loop appends one
`MilestoneKeyRange` per key range; `uint32(..)` and `uint64(..)` are the
conversions written in the source. -/
def ReadProtocolParameters (deps : ProtocolDeps) : Except Error ProtocolParameters :=
  let keyRanges := deps.KeyRanges.foldl
    (fun acc r => acc ++ [{ PublicKey := r.PublicKey,
                            StartIndex := r.StartIndex % 2 ^ 32,
                            EndIndex := r.EndIndex % 2 ^ 32 }])
    ([] : List MilestoneKeyRange)
  .ok { NetworkName := deps.NetworkIDName,
        Bech32HRP := deps.Bech32HRP,
        RentStructure :=
          { VByteCost := deps.RentStructure.VByteCost,
            VByteFactorData := deps.RentStructure.VBFactorData % 2 ^ 64,
            VByteFactorKey := deps.RentStructure.VBFactorKey % 2 ^ 64 },
        MilestonePublicKeyCount := (deps.MilestonePublicKeyCount % 2 ^ 32).toNat,
        MilestoneKeyRanges := keyRanges }

/-- Two key ranges and the configuration of a test network. -/
def sampleDeps : ProtocolDeps :=
  { KeyRanges := [{ PublicKey := List.replicate 32 7, StartIndex := 0, EndIndex := 100 },
                  { PublicKey := List.replicate 32 9, StartIndex := 101, EndIndex := 0 }],
    NetworkIDName := "alphanet1",
    Bech32HRP := "atoi",
    RentStructure := { VByteCost := 500, VBFactorData := 1, VBFactorKey := 10 },
    MilestonePublicKeyCount := 2 }

/-! ## More classes of events -/

/-- The `onMilestoneConfirmed` callback. -/
def Event.isMilestoneConfirmed : Event → Bool
  | .onMilestoneConfirmed _ => true
  | _ => false

/-- The calls that are neither the lookup or the release of the milestone
message nor the lock or the unlock of the ledger. -/
def Event.isUnderLock : Event → Bool
  | .cachedMessageFunc _ => false
  | .releaseMessage _ => false
  | .writeLockLedger => false
  | .writeUnlockLedger => false
  | _ => true

/-- The release of the milestone message handle. -/
def Event.isMessageRelease : Event → Bool
  | .releaseMessage _ => true
  | _ => false

/-- Lookup and release of a message metadata handle. -/
def Event.isMetadataHandle : Event → Bool
  | .cachedMessageMetadata _ => true
  | .releaseMetadata _ => true
  | _ => false

/-- For each message of the list in turn: its metadata handle is obtained, then
released. -/
def handlePairs : List MessageID → List Event
  | [] => []
  | id :: rest => Event.cachedMessageMetadata id :: Event.releaseMetadata id :: handlePairs rest

/-- An increment of the `ReferencedMessages` metric. -/
def Event.isReferencedMetric : Event → Bool
  | .metricInc Counter.ReferencedMessages => true
  | _ => false

/-- The number of entries of a walk that belong to one of the three lists. -/
def countCategory (cat : Category) (es : List (Category × MessageWithConflict)) : Nat :=
  (es.filter (fun x => decide (x.1 = cat))).length

/-- The sample milestone confirming an empty cone: the white-flag computation
lists no message, output or spent (the first milestone of a network). -/
def emptyMutations : WhiteFlagMutations :=
  { sampleMutations with
    MessagesIncludedWithTransactions := [],
    MessagesExcludedWithoutTransactions := [],
    MessagesExcludedWithConflictingTransactions := [],
    NewOutputs := [], NewSpents := [] }

def emptyEnv : Env :=
  { plainEnv with computeWhiteFlagMutations := fun _ _ _ _ _ _ _ => .ok emptyMutations }

/-! ## Calls without the optional collaborators -/

/-- The same call with nil passed for `serverMetrics` and for every callback. -/
def Env.withoutOptional (env : Env) : Env :=
  { env with
    serverMetrics := false,
    forEachReferencedMessage := false,
    onMilestoneConfirmed := false,
    onLedgerUpdated := false,
    onTreasuryMutated := false,
    onReceipt := Option.none }

/-- The `onReceipt` callback, if one is supplied, returns no error. -/
def Env.ReceiptCallbackAccepts (env : Env) : Prop :=
  ∀ cb, env.onReceipt = some cb → ∀ rt, cb rt = Option.none

/-- The sample call with nil passed for the metrics, `forEachReferencedMessage`
and `onReceipt`, the other callbacks being supplied. -/
def partialEnv : Env :=
  { sampleEnv with serverMetrics := false, forEachReferencedMessage := false,
                   onReceipt := Option.none }

/-! ## Check functions other than the default -/

/-- The call on the repeated listing with a check function that reports every
record as not referenced. -/
def eagerEnv : Env := { repeatedEnv with checkMessageReferencedFunc := fun _ => false }

/-- The sample call with a check function that reports every record as not
referenced. -/
def eagerSampleEnv : Env := { sampleEnv with checkMessageReferencedFunc := fun _ => false }

/-! ## The white-flag computation as described by the specification

`ComputeWhiteFlagMutations` is modelled from section 4.4 of the specification.
The traverser of section 4.2 together with the message store (`traverse`, the
messages of the cone in post-order or the error of the traversal), the semantic
rules other than the balance of amounts (`rules`, on the transaction and the
outputs its inputs resolved to) and the Merkle hash over a list of message ids
(`merkle`) are parameters.  The two staging maps and the set of consumed inputs
are lists of entries in the order of staging; a key staged a second time would
overwrite an entry of the map and shows as a repeated key of the list. -/

/-- Modelled from the spec: a transaction payload as `classify` of section 4.4
reads it: the hash that names it, the ids of the outputs it consumes and the
amounts of the outputs it creates; its output number `i` gets the output id
`(transaction_id, i)`. -/
structure Transaction where
  transactionID : Bytes
  inputs : List OutputID
  outputAmounts : List Nat
  deriving DecidableEq, Repr

/-- Modelled from the spec: a message as the traverser presents it to the
visitor: its id and its transaction payload, if it carries one. -/
structure ConeMessage where
  messageID : MessageID
  transaction : Option Transaction
  deriving DecidableEq, Repr

/-- Modelled from the spec: the `mutations` record of step 1 of section 4.4
together with the cone-local set of consumed inputs. -/
structure Staging where
  included : List MessageID
  excludedNoTx : List MessageID
  excludedConflicting : List MessageWithConflict
  newOutputs : List (OutputID × Output)
  newSpents : List (OutputID × Spent)
  consumed : List OutputID
  deriving DecidableEq, Repr

/-- Modelled from the spec: step 1, the empty record. -/
def Staging.empty : Staging :=
  { included := [], excludedNoTx := [], excludedConflicting := [], newOutputs := [],
    newSpents := [], consumed := [] }

/-- Modelled from the spec: "append `(message_id, conflict)` to
`excluded_conflicting` and do not stage its outputs or inputs". -/
def Staging.conflict (st : Staging) (id : MessageID) (c : Conflict) : Staging :=
  { st with excludedConflicting := st.excludedConflicting ++ [⟨id, c⟩] }

/-- Modelled from the spec: the entries of `new_outputs` staged for a
transaction carried by message `messageID` and confirmed by the milestone with
the given index and timestamp. -/
def Transaction.createdOutputs (tx : Transaction) (messageID : MessageID) (index : Index)
    (timestamp : Nat) : List (OutputID × Output) :=
  tx.outputAmounts.enum.map (fun p =>
    (tx.transactionID ++ [p.1],
      { outputID := tx.transactionID ++ [p.1], messageID := messageID, amount := p.2,
        bookedAt := index, bookedTs := timestamp }))

/-- Modelled from the spec: the entries of `new_spents` staged for a
transaction. -/
def Transaction.createdSpents (tx : Transaction) (index : Index) (timestamp : Nat) :
    List (OutputID × Spent) :=
  tx.inputs.map (fun id =>
    (id, { outputID := id, spentByTransaction := tx.transactionID, spentAt := index,
           spentTs := timestamp }))

/-- Modelled from the spec: resolution of an input, "(a) if present in
`new_outputs` of this cone, treat as valid and use that output; (b) else look
up in `utxo_read_view.unspent`". -/
def resolveInput (view : Ledger) (st : Staging) (id : OutputID) : Option Output :=
  match st.newOutputs.find? (fun p => decide (p.1 = id)) with
  | some p => some p.2
  | Option.none => view.unspent.find? (fun o => decide (o.outputID = id))

/-- Modelled from the spec: `classify` of step 2 of section 4.4, the rules in
the order in which the specification lists them. -/
def classify (rules : Transaction → List Output → Bool) (view : Ledger) (index : Index)
    (timestamp : Nat) (st : Staging) (m : ConeMessage) : Staging :=
  match m.transaction with
  | Option.none => { st with excludedNoTx := st.excludedNoTx ++ [m.messageID] }
  | some tx =>
      let resolved := tx.inputs.filterMap (resolveInput view st)
      if tx.inputs.any (fun id => (resolveInput view st id).isNone) then
        st.conflict m.messageID Conflict.inputNotFound
      else if tx.inputs.any (fun id => st.consumed.contains id
          || (view.spent.map Spent.outputID).contains id) then
        st.conflict m.messageID Conflict.inputAlreadySpent
      else if !(decide ((resolved.map Output.amount).sum = tx.outputAmounts.sum)
          && rules tx resolved) then
        st.conflict m.messageID Conflict.semantic
      else
        { st with
          included := st.included ++ [m.messageID],
          newOutputs := st.newOutputs ++ tx.createdOutputs m.messageID index timestamp,
          newSpents := st.newSpents ++ tx.createdSpents index timestamp,
          consumed := st.consumed ++ tx.inputs }

/-- Modelled from the spec: the white-flag computation of section 4.4
(`whiteflag.ComputeWhiteFlagMutations`): classify the messages of the cone in the
order of the traversal, then compute the two Merkle roots.  The two maps of the
result are handed over as their entries in the order in which the caller's
`range` yields them, `rangeOutputs` and `rangeSpents` of the staged entries. -/
def WhiteFlag (traverse : MetaStore → List MessageID → Except Error (List ConeMessage))
    (rules : Transaction → List Output → Bool) (merkle : List MessageID → MerkleRoot)
    (rangeOutputs : List (OutputID × Output) → List (OutputID × Output))
    (rangeSpents : List (OutputID × Spent) → List (OutputID × Spent)) :
    Ledger → MetaStore → Nat → Index → Nat → List MessageID → MilestoneID →
      Except Error WhiteFlagMutations :=
  fun view metadata _networkId index timestamp parents _previousMilestoneId =>
    match traverse metadata parents with
    | .error e => .error e
    | .ok cone =>
        let st := cone.foldl (classify rules view index timestamp) Staging.empty
        .ok { MessagesIncludedWithTransactions := st.included,
              MessagesExcludedWithoutTransactions := st.excludedNoTx,
              MessagesExcludedWithConflictingTransactions := st.excludedConflicting,
              NewOutputs := rangeOutputs st.newOutputs,
              NewSpents := rangeSpents st.newSpents,
              ConfirmedMerkleRoot := merkle (st.included ++ st.excludedNoTx ++
                st.excludedConflicting.map MessageWithConflict.MessageID),
              AppliedMerkleRoot := merkle st.included }

/-- The unspent outputs of the ledger form a map keyed by output id: no id
occurs twice. -/
def Ledger.Keyed (l : Ledger) : Prop := (l.unspent.map Output.outputID).Nodup

/-- The entries of `NewSpents` form a map keyed by output id: no id occurs twice
as a key, that is, no output was staged as spent a second time. -/
def WhiteFlagMutations.SpentsKeyed (mu : WhiteFlagMutations) : Prop :=
  (mu.NewSpents.map Prod.fst).Nodup

/-- The ids of the outputs the message's transaction consumes, none for a
message without transaction. -/
def ConeMessage.inputs (m : ConeMessage) : List OutputID :=
  match m.transaction with
  | some tx => tx.inputs
  | Option.none => []

/-- The amount of the output with the given id among `outs`, 0 if there is
none. -/
def amountOf (outs : List Output) (id : OutputID) : Nat :=
  match outs.find? (fun o => decide (o.outputID = id)) with
  | some o => o.amount
  | Option.none => 0

def coneMessages : List ConeMessage :=
  [⟨[1], some ⟨[113], [[10]], [600, 400]⟩⟩, ⟨[2], Option.none⟩,
   ⟨[3], some ⟨[114], [[10]], [1000]⟩⟩]

/-- A stand-in for the Merkle hash: the concatenation of the ids. -/
def joinedIDs (ids : List MessageID) : MerkleRoot := ids.flatten

/-- The sample milestone with the roots of the cone above. -/
def coneMilestone : Milestone :=
  { sampleMilestone with ConfirmedMerkleRoot := [1, 2, 3], AppliedMerkleRoot := [1] }

def coneMessage : Message :=
  { sampleMessage with payload := some (Payload.milestone coneMilestone) }

/-- The sample call with the white-flag computation of the specification run on
the cone above, its maps ranged over in the order of staging. -/
def coneEnv : Env :=
  { sampleEnv with
    cachedMessageFunc := fun id =>
      if id = [9] then .ok (some coneMessage) else .ok Option.none,
    computeWhiteFlagMutations :=
      WhiteFlag (fun _ _ => .ok coneMessages) (fun _ _ => true) joinedIDs id id }

/-- The result of the white-flag computation on the cone above. -/
def coneMutations : WhiteFlagMutations :=
  { MessagesIncludedWithTransactions := [[1]],
    MessagesExcludedWithoutTransactions := [[2]],
    MessagesExcludedWithConflictingTransactions := [⟨[3], Conflict.inputAlreadySpent⟩],
    NewOutputs := [([113, 0], { outputID := [113, 0], messageID := [1], amount := 600,
                                bookedAt := 1, bookedTs := 100 }),
                   ([113, 1], { outputID := [113, 1], messageID := [1], amount := 400,
                                bookedAt := 1, bookedTs := 100 })],
    NewSpents := [([10], { outputID := [10], spentByTransaction := [113], spentAt := 1,
                           spentTs := 100 })],
    ConfirmedMerkleRoot := [1, 2, 3],
    AppliedMerkleRoot := [1] }

/-- The same call, the two maps of the white-flag result ranged over in reverse
order of staging. -/
def reversedConeEnv : Env :=
  coneEnv.withWhiteFlag
    (WhiteFlag (fun _ _ => .ok coneMessages) (fun _ _ => true) joinedIDs List.reverse
      List.reverse)

/-- The result of the white-flag computation on the sample cone with the entries
of its maps in reverse order. -/
def reversedConeMutations : WhiteFlagMutations :=
  { coneMutations with
    NewOutputs := coneMutations.NewOutputs.reverse,
    NewSpents := coneMutations.NewSpents.reverse }

/-! ## Frame lemmas for the metadata phase -/

theorem referenceIfUnreferenced_events (env : Env) (cat : Category) (idx : Index) (ts : Nat)
    (id : MessageID) (meta : MessageMetadata) (stats : ConfirmedMilestoneStats) :
    ∀ e ∈ (referenceIfUnreferenced env cat idx ts id meta stats).2.2,
      e.isMetadataPhase = true := by
  intro e he
  unfold referenceIfUnreferenced at he
  split at he
  · simp only [List.mem_append, List.mem_cons, List.mem_singleton, List.not_mem_nil,
      or_false] at he
    rcases he with (h | h) | h
    · rcases h with h | h <;> subst h <;> rfl
    · split at h
      · simp at h
        rcases h with h | h <;> subst h <;> rfl
      · simp at h
    · split at h
      · simp at h
        subst h; rfl
      · simp at h
  · simp at he

theorem closure_events (env : Env) (cat : Category) (idx : Index) (ts : Nat)
    (id : MessageID) (c : Conflict) (meta : MessageMetadata) (stats : ConfirmedMilestoneStats) :
    ∀ e ∈ (closure env cat idx ts id c meta stats).2.2, e.isMetadataPhase = true := by
  intro e he
  cases cat with
  | includedWithTransactions =>
      exact referenceIfUnreferenced_events env _ idx ts id meta stats e he
  | excludedWithoutTransactions =>
      simp only [closure, List.mem_cons] at he
      rcases he with h | h
      · subst h; rfl
      · exact referenceIfUnreferenced_events env _ idx ts id _ stats e h
  | excludedWithConflictingTransactions =>
      simp only [closure, List.mem_cons] at he
      rcases he with h | h
      · subst h; rfl
      · exact referenceIfUnreferenced_events env _ idx ts id _ stats e h

/-- One lookup-and-update step leaves the ledger alone and appends only
metadata-phase events. -/
theorem forMessageMetadataWithMessageID_frame (env : Env) (cat : Category) (idx : Index)
    (ts : Nat) (s : Sys) (stats : ConfirmedMilestoneStats) (id : MessageID) (c : Conflict) :
    (forMessageMetadataWithMessageID s stats id (closure env cat idx ts id c)).2.1.ledger
        = s.ledger ∧
    ∃ evs, (forMessageMetadataWithMessageID s stats id (closure env cat idx ts id c)).2.1.trace
        = s.trace ++ evs ∧ ∀ e ∈ evs, e.isMetadataPhase = true := by
  unfold forMessageMetadataWithMessageID
  simp only [Sys.emit]
  split
  · exact ⟨rfl, [Event.cachedMessageMetadata id], rfl, by simp [Event.isMetadataPhase]⟩
  · exact ⟨rfl, [Event.cachedMessageMetadata id], rfl, by simp [Event.isMetadataPhase]⟩
  · rename_i meta _
    refine ⟨rfl, [Event.cachedMessageMetadata id] ++ (closure env cat idx ts id c meta stats).2.2
      ++ [Event.releaseMetadata id], by simp [Sys.emits, Sys.setMeta], ?_⟩
    intro e he
    simp only [List.mem_append, List.mem_singleton] at he
    rcases he with (h | h) | h
    · subst h; rfl
    · exact closure_events env cat idx ts id c meta stats e h
    · subst h; rfl

/-- A whole loop leaves the ledger alone and appends only metadata-phase events. -/
theorem confirmLoop_frame (env : Env) (cat : Category) (idx : Index) (ts : Nat) :
    ∀ (l : List MessageWithConflict) (s : Sys) (stats : ConfirmedMilestoneStats),
      (confirmLoop env cat idx ts l s stats).2.1.ledger = s.ledger ∧
      ∃ evs, (confirmLoop env cat idx ts l s stats).2.1.trace = s.trace ++ evs ∧
        ∀ e ∈ evs, e.isMetadataPhase = true := by
  intro l
  induction l with
  | nil => intro s stats; exact ⟨rfl, [], by simp [confirmLoop], by simp⟩
  | cons m rest ih =>
      intro s stats
      obtain ⟨hl, evs, ht, hev⟩ :=
        forMessageMetadataWithMessageID_frame env cat idx ts s stats m.MessageID m.Conflict
      unfold confirmLoop
      split
      · rename_i e s1 stats1 heq
        rw [heq] at hl ht
        exact ⟨hl, evs, ht, hev⟩
      · rename_i s1 stats1 heq
        rw [heq] at hl ht
        obtain ⟨hl2, evs2, ht2, hev2⟩ := ih s1 stats1
        refine ⟨hl2.trans hl, evs ++ evs2, ?_, ?_⟩
        · rw [ht2, ht, List.append_assoc]
        · intro e he
          rcases List.mem_append.mp he with h | h
          · exact hev e h
          · exact hev2 e h

/-- The metadata phase: the ledger is not touched; the calls are metadata-phase
events, followed by `onMilestoneConfirmed` exactly when the phase succeeded and
the callback is supplied; the result is an error or statistics with metrics. -/
theorem updateMetadata_frame (env : Env) (ms : Milestone) (c : Confirmation) (s : Sys) :
    (updateMetadata env ms c s).2.ledger = s.ledger ∧
    (((updateMetadata env ms c s).1.err = none ∧ (updateMetadata env ms c s).1.stats ≠ none ∧
        (updateMetadata env ms c s).1.metrics ≠ none) ∨
      ((updateMetadata env ms c s).1.err ≠ none ∧ (updateMetadata env ms c s).1.stats = none ∧
        (updateMetadata env ms c s).1.metrics = none)) ∧
    ∃ evs, (∀ e ∈ evs, e.isMetadataPhase = true) ∧
      (updateMetadata env ms c s).2.trace = s.trace ++ evs ++
        (if (updateMetadata env ms c s).1.err = none ∧ env.onMilestoneConfirmed = true
          then [Event.onMilestoneConfirmed c] else []) := by
  obtain ⟨hl1, evs1, ht1, hev1⟩ := confirmLoop_frame env .includedWithTransactions ms.Index
    ms.Timestamp (c.Mutations.MessagesIncludedWithTransactions.map plain) s
    ⟨ms.Index, 0, 0, 0, 0, 0⟩
  rcases h1 : confirmLoop env .includedWithTransactions ms.Index
    ms.Timestamp (c.Mutations.MessagesIncludedWithTransactions.map plain) s
    ⟨ms.Index, 0, 0, 0, 0, 0⟩ with ⟨o1, s1, stats1⟩
  rw [h1] at hl1 ht1
  simp only at hl1 ht1
  cases o1 with
  | some e =>
      simp only [updateMetadata, h1]
      exact ⟨hl1, Or.inr (by simp [Ret.fail]), evs1, hev1, by simp [Ret.fail, ht1]⟩
  | none =>
  obtain ⟨hl2, evs2, ht2, hev2⟩ := confirmLoop_frame env .excludedWithoutTransactions ms.Index
    ms.Timestamp (c.Mutations.MessagesExcludedWithoutTransactions.map plain) s1 stats1
  rcases h2 : confirmLoop env .excludedWithoutTransactions ms.Index
    ms.Timestamp (c.Mutations.MessagesExcludedWithoutTransactions.map plain) s1 stats1
    with ⟨o2, s2, stats2⟩
  rw [h2] at hl2 ht2
  simp only at hl2 ht2
  have hall12 : ∀ e ∈ evs1 ++ evs2, e.isMetadataPhase = true := by
    intro e he
    rcases List.mem_append.mp he with h | h
    · exact hev1 e h
    · exact hev2 e h
  cases o2 with
  | some e =>
      simp only [updateMetadata, h1, h2]
      exact ⟨hl2.trans hl1, Or.inr (by simp [Ret.fail]), evs1 ++ evs2, hall12,
        by simp [Ret.fail, ht1, ht2]⟩
  | none =>
  obtain ⟨hl3, evs3, ht3, hev3⟩ := confirmLoop_frame env
    .excludedWithConflictingTransactions ms.Index ms.Timestamp
    c.Mutations.MessagesExcludedWithConflictingTransactions s2 stats2
  rcases h3 : confirmLoop env .excludedWithConflictingTransactions ms.Index ms.Timestamp
    c.Mutations.MessagesExcludedWithConflictingTransactions s2 stats2 with ⟨o3, s3, stats3⟩
  rw [h3] at hl3 ht3
  simp only at hl3 ht3
  have hall : ∀ e ∈ evs1 ++ evs2 ++ evs3, e.isMetadataPhase = true := by
    intro e he
    rcases List.mem_append.mp he with h | h
    · exact hall12 e h
    · exact hev3 e h
  cases o3 with
  | some e =>
      simp only [updateMetadata, h1, h2, h3]
      exact ⟨hl3.trans (hl2.trans hl1), Or.inr (by simp [Ret.fail]), evs1 ++ evs2 ++ evs3, hall,
        by simp [Ret.fail, ht1, ht2, ht3]⟩
  | none =>
      simp only [updateMetadata, h1, h2, h3]
      refine ⟨?_, Or.inl (by simp), evs1 ++ evs2 ++ evs3, hall, ?_⟩
      · by_cases h : env.onMilestoneConfirmed = true
        · simp [h, Sys.emit, hl3, hl2, hl1]
        · simp [h, hl3, hl2, hl1]
      · by_cases h : env.onMilestoneConfirmed = true
        · simp [h, Sys.emit, ht1, ht2, ht3]
        · simp [h, ht1, ht2, ht3]

/-! ## The shape of a run -/

theorem convertReceipt_spec (env : Env) (message : Message) (ms : Milestone)
    (msID : MilestoneID) (receipt : Receipt) (rtv : ReceiptTuple) (s : Sys) :
    (convertReceipt env message ms msID receipt rtv s).2
        = s.emit Event.unspentTreasuryOutputWithoutLocking ∧
      ∀ migrated tm rt,
        (convertReceipt env message ms msID receipt rtv s).1 = .ok (migrated, tm, rt) →
        ∃ t tm', rt = some rtv ∧ tm = some tm' ∧
          env.unspentTreasuryOutputWithoutLocking s.ledger = .ok t ∧
          env.validateReceipt receipt t.amount = none ∧
          env.receiptToOutputs receipt message.messageID msID ms.Index ms.Timestamp
            = .ok migrated ∧
          env.receiptToTreasuryMutation receipt t msID = .ok tm' := by
  unfold convertReceipt
  have hled : (s.emit Event.unspentTreasuryOutputWithoutLocking).ledger = s.ledger := rfl
  simp only [hled]
  rcases ht : env.unspentTreasuryOutputWithoutLocking s.ledger with e | t
  · simp
  · simp only
    rcases hv : env.validateReceipt receipt t.amount with _ | e
    · simp only
      rcases ho : env.receiptToOutputs receipt message.messageID msID ms.Index
        ms.Timestamp with e | mo
      · simp
      · simp only
        rcases hm : env.receiptToTreasuryMutation receipt t msID with e | tm'
        · simp
        · refine ⟨rfl, ?_⟩
          intro migrated tm rt h
          simp only [Except.ok.injEq, Prod.mk.injEq] at h
          exact ⟨t, tm', h.2.2.symm, h.2.1.symm, rfl, hv, by rw [h.1], hm⟩
    · simp

theorem processReceipt_spec (env : Env) (message : Message) (ms : Milestone)
    (msID : MilestoneID) (opts : MilestoneOptSet) (s : Sys) :
    ∃ evs, (processReceipt env message ms msID opts s).2 = s.emits evs ∧
      (∀ e ∈ evs, e.isBeforeApply = true) ∧
      ∀ migrated tm rt, (processReceipt env message ms msID opts s).1 = .ok (migrated, tm, rt) →
        ReceiptOutcome env s.ledger message ms msID opts migrated tm rt := by
  unfold processReceipt
  rcases hr : opts.Receipt with _ | receipt
  · refine ⟨[], by simp [Sys.emits], by simp, ?_⟩
    intro migrated tm rt h
    simp only [Except.ok.injEq, Prod.mk.injEq] at h
    exact Or.inl ⟨hr, h.1.symm, h.2.1.symm, h.2.2.symm⟩
  · simp only
    rcases hcb : env.onReceipt with _ | cb
    · simp only
      obtain ⟨h1, h2⟩ := convertReceipt_spec env message ms msID receipt
        { Receipt := receipt, MilestoneIndex := ms.Index } s
      refine ⟨[Event.unspentTreasuryOutputWithoutLocking], by rw [h1]; rfl,
        by simp [Event.isBeforeApply], ?_⟩
      intro migrated tm rt h
      obtain ⟨t, tm', a, b, c, d, e, f⟩ := h2 migrated tm rt h
      exact Or.inr ⟨receipt, t, tm', hr, a, b, c, d, e, f,
        fun cb h => by rw [hcb] at h; cases h⟩
    · simp only
      rcases hres : cb { Receipt := receipt, MilestoneIndex := ms.Index } with _ | e
      · simp only
        obtain ⟨h1, h2⟩ := convertReceipt_spec env message ms msID receipt
          { Receipt := receipt, MilestoneIndex := ms.Index }
          (s.emit (Event.onReceipt { Receipt := receipt, MilestoneIndex := ms.Index }))
        refine ⟨[Event.onReceipt { Receipt := receipt, MilestoneIndex := ms.Index },
          Event.unspentTreasuryOutputWithoutLocking], by rw [h1]; simp [Sys.emit, Sys.emits],
          by simp [Event.isBeforeApply], ?_⟩
        intro migrated tm rt h
        obtain ⟨t, tm', a, b, c, d, e, f⟩ := h2 migrated tm rt h
        exact Or.inr ⟨receipt, t, tm', hr, a, b, c, d, e, f,
          fun cb' h => by rw [hcb] at h; cases h; exact hres⟩
      · exact ⟨[Event.onReceipt { Receipt := receipt, MilestoneIndex := ms.Index }],
          by simp [Sys.emits, Sys.emit], by simp [Event.isBeforeApply], by simp⟩

theorem notifyLedger_eq (env : Env) (idx : Index) (outs : List Output) (spents : List Spent)
    (tm : Option TreasuryMutationTuple) (s : Sys) :
    notifyLedger env idx outs spents tm s = s.emits
      ((if env.onLedgerUpdated = true then [Event.onLedgerUpdated idx outs spents] else [])
        ++ (match tm with
            | some t => if env.onTreasuryMutated = true then [Event.onTreasuryMutated idx t]
                        else []
            | none => [])) := by
  unfold notifyLedger
  cases tm <;> by_cases h1 : env.onLedgerUpdated = true <;>
    by_cases h2 : env.onTreasuryMutated = true <;> simp [h1, h2, Sys.emit, Sys.emits]

theorem notifyAndUpdate_frame (env : Env) (ms : Milestone) (c : Confirmation) (idx : Index)
    (outs : List Output) (spents : List Spent) (tm : Option TreasuryMutationTuple) (s : Sys) :
    (updateMetadata env ms c (notifyLedger env idx outs spents tm s)).2.ledger = s.ledger ∧
    (((updateMetadata env ms c (notifyLedger env idx outs spents tm s)).1.err = none ∧
        (updateMetadata env ms c (notifyLedger env idx outs spents tm s)).1.stats ≠ none ∧
        (updateMetadata env ms c (notifyLedger env idx outs spents tm s)).1.metrics ≠ none) ∨
      ((updateMetadata env ms c (notifyLedger env idx outs spents tm s)).1.err ≠ none ∧
        (updateMetadata env ms c (notifyLedger env idx outs spents tm s)).1.stats = none ∧
        (updateMetadata env ms c (notifyLedger env idx outs spents tm s)).1.metrics = none)) ∧
    ∃ evs, (∀ e ∈ evs, e.isMetadataPhase = true) ∧
      (updateMetadata env ms c (notifyLedger env idx outs spents tm s)).2.trace = s.trace
        ++ (if env.onLedgerUpdated = true then [Event.onLedgerUpdated idx outs spents] else [])
        ++ (match tm with
            | some t => if env.onTreasuryMutated = true then [Event.onTreasuryMutated idx t]
                        else []
            | none => [])
        ++ evs ++
        (if (updateMetadata env ms c (notifyLedger env idx outs spents tm s)).1.err = none
            ∧ env.onMilestoneConfirmed = true
          then [Event.onMilestoneConfirmed c] else []) := by
  obtain ⟨hl, hres, evs, hevs, htr⟩ := updateMetadata_frame env ms c
    (notifyLedger env idx outs spents tm s)
  refine ⟨?_, hres, evs, hevs, ?_⟩
  · rw [hl, notifyLedger_eq]; rfl
  · rw [htr, notifyLedger_eq]; simp [Sys.emits]

theorem applyAndNotify_spec (env : Env) (message : Message) (ms : Milestone)
    (msID : MilestoneID) (c : Confirmation) (s : Sys) :
    EarlyFailure s.ledger s.metadata s.trace (applyAndNotify env message ms msID c s) ∨
    ∃ opts migrated tm rt pre, env.optsSet ms.Opts = .ok opts ∧
      ReceiptOutcome env s.ledger message ms msID opts migrated tm rt ∧
      (∀ e ∈ pre, e.isBeforeApply = true) ∧
      ApplyOutcome env s.ledger s.metadata ms c (s.trace ++ pre) []
        (c.Mutations.NewOutputs.map Prod.snd ++ migrated) (c.Mutations.NewSpents.map Prod.snd)
        tm rt (applyAndNotify env message ms msID c s) := by
  unfold applyAndNotify
  simp only
  rcases hopts : env.optsSet ms.Opts with e | opts
  · exact Or.inl ⟨by simp [Ret.fail], rfl, rfl, rfl, rfl, [], by simp, by simp⟩
  · simp only
    obtain ⟨pre, hpre, hprev, hok⟩ := processReceipt_spec env message ms msID opts s
    rcases hp : processReceipt env message ms msID opts s with ⟨res, s1⟩
    rw [hp] at hpre hok
    simp only at hpre hok
    subst hpre
    rcases res with e | ⟨migrated, tm, rt⟩
    · exact Or.inl ⟨by simp [Ret.fail], rfl, rfl, rfl, rfl, pre, rfl, hprev⟩
    · right
      refine ⟨opts, migrated, tm, rt, pre, rfl, hok migrated tm rt rfl, hprev, ?_⟩
      simp only
      have hled : ((s.emits pre).emit (Event.applyConfirmationWithoutLocking ms.Index
          (c.Mutations.NewOutputs.map Prod.snd ++ migrated)
          (c.Mutations.NewSpents.map Prod.snd) tm rt)).ledger = s.ledger := rfl
      rw [hled]
      rcases ha : env.applyConfirmationWithoutLocking s.ledger ms.Index
          (c.Mutations.NewOutputs.map Prod.snd ++ migrated)
          (c.Mutations.NewSpents.map Prod.snd) tm rt with e | L'
      · exact Or.inl ⟨e, ha, rfl, rfl, rfl, by simp [Sys.emit, Sys.emits]⟩
      · right
        simp only
        obtain ⟨hl, hres, evs, hevs, htr⟩ := notifyAndUpdate_frame env ms c ms.Index
          (c.Mutations.NewOutputs.map Prod.snd ++ migrated)
          (c.Mutations.NewSpents.map Prod.snd) tm
          { (s.emits pre).emit (Event.applyConfirmationWithoutLocking ms.Index
                (c.Mutations.NewOutputs.map Prod.snd ++ migrated)
                (c.Mutations.NewSpents.map Prod.snd) tm rt) with ledger := L' }
        refine ⟨L', evs, ha, hl, hevs, ⟨hres, _, ?_, rfl, rfl⟩, ?_⟩
        · rw [notifyLedger_eq]; rfl
        · rw [htr]
          simp [Sys.emit, Sys.emits]

/-- Every run of `ConfirmMilestone` either fails before the ledger apply, or
reaches the apply with arguments assembled from the milestone payload, the
white-flag mutations and the receipt branch. -/
theorem ConfirmMilestone_cases (env : Env) (L : Ledger) (M : MetaStore) :
    EarlyFailure L M [] (ConfirmMilestone env L M) ∨
    ∃ message ms msID mutations opts migrated tm rt pre,
      env.cachedMessageFunc env.milestoneMessageID = .ok (some message) ∧
      message.Milestone = some ms ∧
      env.milestoneID ms = .ok msID ∧
      env.computeWhiteFlagMutations L M env.networkId ms.Index ms.Timestamp message.parents
        env.lastMilestoneID = .ok mutations ∧
      mutations.ConfirmedMerkleRoot = ms.ConfirmedMerkleRoot ∧
      mutations.AppliedMerkleRoot = ms.AppliedMerkleRoot ∧
      env.optsSet ms.Opts = .ok opts ∧
      ReceiptOutcome env L message ms msID opts migrated tm rt ∧
      (∀ e ∈ pre, e.isBeforeApply = true) ∧
      ApplyOutcome env L M ms ⟨ms.Index, message.messageID, mutations⟩ pre
        [Event.writeUnlockLedger, Event.releaseMessage message.messageID]
        (mutations.NewOutputs.map Prod.snd ++ migrated) (mutations.NewSpents.map Prod.snd)
        tm rt (ConfirmMilestone env L M) := by
  unfold ConfirmMilestone
  simp only
  rcases hmsg : env.cachedMessageFunc env.milestoneMessageID with e | _ | message
  · exact Or.inl ⟨by simp [Ret.fail], rfl, rfl, rfl, rfl, _, rfl,
      by simp [Sys.emit, Event.isBeforeApply]⟩
  · exact Or.inl ⟨by simp [Ret.fail], rfl, rfl, rfl, rfl, _, rfl,
      by simp [Sys.emit, Event.isBeforeApply]⟩
  · simp only
    unfold confirmLocked
    rcases hms : message.Milestone with _ | ms
    · exact Or.inl ⟨by simp [Ret.fail], rfl, rfl, rfl, rfl, _, rfl,
        by simp [Sys.emit, Event.isBeforeApply]⟩
    · simp only
      rcases hid : env.milestoneID ms with e | msID
      · exact Or.inl ⟨by simp [Ret.fail], rfl, rfl, rfl, rfl, _, rfl,
          by simp [Sys.emit, Event.isBeforeApply]⟩
      · simp only
        generalize hS0 : (Sys.emit (Sys.emit (Sys.emit { ledger := L, metadata := M, trace := [] }
            (Event.cachedMessageFunc env.milestoneMessageID)) Event.writeLockLedger)
            (Event.computeWhiteFlagMutations env.networkId ms.Index ms.Timestamp message.parents
              env.lastMilestoneID)) = S0
        have hL : S0.ledger = L := by subst hS0; rfl
        have hM : S0.metadata = M := by subst hS0; rfl
        have hT : S0.trace = [Event.cachedMessageFunc env.milestoneMessageID,
            Event.writeLockLedger,
            Event.computeWhiteFlagMutations env.networkId ms.Index ms.Timestamp message.parents
              env.lastMilestoneID] := by subst hS0; rfl
        have hpre0 : ∀ e ∈ S0.trace, e.isBeforeApply = true := by
          rw [hT]; simp [Event.isBeforeApply]
        rw [hL, hM]
        rcases hwf : env.computeWhiteFlagMutations L M env.networkId ms.Index ms.Timestamp
          message.parents env.lastMilestoneID with e | mutations
        · refine Or.inl ⟨by simp [Ret.fail], rfl, rfl, ?_, ?_, _, rfl, ?_⟩
          · simp [Sys.emit, hL]
          · simp [Sys.emit, hM]
          · simp [Sys.emit, hT, Event.isBeforeApply]
        · simp only
          by_cases hc : mutations.ConfirmedMerkleRoot = ms.ConfirmedMerkleRoot
          · by_cases ha : mutations.AppliedMerkleRoot = ms.AppliedMerkleRoot
            · simp only [hc, ha, ne_eq, not_true_eq_false, ↓reduceIte]
              rcases applyAndNotify_spec env message ms msID
                ⟨ms.Index, message.messageID, mutations⟩ S0 with h | h
              · left
                obtain ⟨h1, h2, h3, h4, h5, evs, h6, h7⟩ := h
                refine ⟨h1, h2, h3, ?_, ?_, _, rfl, ?_⟩
                · simp [Sys.emit, h4, hL]
                · simp [Sys.emit, h5, hM]
                · intro e he
                  have he' : e ∈ S0.trace ++ (evs ++ [Event.writeUnlockLedger,
                      Event.releaseMessage message.messageID]) := by
                    simpa [Sys.emit, h6] using he
                  rcases List.mem_append.mp he' with h | h
                  · exact hpre0 e h
                  · rcases List.mem_append.mp h with h | h
                    · exact h7 e h
                    · simp only [List.mem_cons, List.mem_singleton, List.not_mem_nil,
                        or_false] at h
                      rcases h with h | h <;> subst h <;> rfl
              · right
                obtain ⟨opts, migrated, tm, rt, pre, hopts, hrec, hpre, hout⟩ := h
                rw [hL] at hrec
                rw [hL, hM, hT] at hout
                refine ⟨message, ms, msID, mutations, opts, migrated, tm, rt,
                  [Event.cachedMessageFunc env.milestoneMessageID, Event.writeLockLedger,
                    Event.computeWhiteFlagMutations env.networkId ms.Index ms.Timestamp
                      message.parents env.lastMilestoneID] ++ pre,
                  rfl, hms, hid, hwf, hc, ha, hopts, hrec, ?_, ?_⟩
                · intro e he
                  simp only [List.mem_append, List.mem_cons, List.mem_singleton,
                    List.not_mem_nil, or_false] at he
                  rcases he with (h | h | h) | h
                  · subst h; rfl
                  · subst h; rfl
                  · subst h; rfl
                  · exact hpre e h
                · rcases hout with ⟨e, h1, h2, h3, h4, h5⟩ | ⟨L', evs, h1, h2, h3, h4, h5⟩
                  · refine Or.inl ⟨e, h1, h2, ?_, ?_, ?_⟩
                    · simp [Sys.emit, h3]
                    · simp [Sys.emit, h4]
                    · simp only [Sys.emit, h5]; simp
                  · obtain ⟨h4a, S, hS1, hS2, hS3⟩ := h4
                    refine Or.inr ⟨L', evs, h1, ?_, h3, ⟨h4a, S, hS1, hS2, ?_⟩, ?_⟩
                    · simp [Sys.emit, h2]
                    · simp [Sys.emit, hS3]
                    · simp only [Sys.emit, h5]; simp
            · simp only [hc, ha, ne_eq, not_true_eq_false, not_false_eq_true, ↓reduceIte]
              refine Or.inl ⟨by simp [Ret.fail], rfl, rfl, ?_, ?_, _, rfl, ?_⟩
              · simp [Sys.emit, hL]
              · simp [Sys.emit, hM]
              · simp [Sys.emit, hT, Event.isBeforeApply]
          · simp only [hc, ne_eq, not_false_eq_true, ↓reduceIte]
            refine Or.inl ⟨by simp [Ret.fail], rfl, rfl, ?_, ?_, _, rfl, ?_⟩
            · simp [Sys.emit, hL]
            · simp [Sys.emit, hM]
            · simp [Sys.emit, hT, Event.isBeforeApply]

/-! ## Event classes are disjoint where it matters -/

theorem isBeforeApply_excludes (e : Event) (h : e.isBeforeApply = true) :
    e.isApply = false ∧ e.isMetadataPhase = false ∧ e.isMetadataWrite = false ∧
    e.isLifecycle = false ∧ e.isLedgerUpdated = false ∧ e.isTreasuryMutated = false := by
  cases e <;> simp_all [Event.isBeforeApply, Event.isApply, Event.isMetadataPhase,
    Event.isMetadataWrite, Event.isLifecycle, Event.isLedgerUpdated, Event.isTreasuryMutated]

theorem isMetadataPhase_excludes (e : Event) (h : e.isMetadataPhase = true) :
    e.isApply = false ∧ e.isBeforeApply = false ∧
    e.isLifecycle = false ∧ e.isLedgerUpdated = false ∧ e.isTreasuryMutated = false := by
  cases e <;> simp_all [Event.isBeforeApply, Event.isApply, Event.isMetadataPhase,
    Event.isLifecycle, Event.isLedgerUpdated, Event.isTreasuryMutated]

theorem filter_eq_nil_of_forall {p q : Event → Bool} {l : List Event}
    (hl : ∀ e ∈ l, q e = true) (hpq : ∀ e, q e = true → p e = false) : l.filter p = [] := by
  rw [List.filter_eq_nil_iff]
  intro a ha
  simp [hpq a (hl a ha)]

/-! ## Failures before the ledger apply -/

/-- C1: when the white-flag computation has produced mutations whose confirmed
root differs from the payload's `ConfirmedMerkleRoot`, or whose applied root
differs from the payload's `AppliedMerkleRoot`, `ConfirmMilestone` returns an
error (nil stats, nil metrics), leaves ledger and metadata as they were, and
its calls are exactly: message lookup, lock, white-flag computation, unlock,
release; none of them is the ledger apply, a metadata write or a callback
(`onReceipt`, `onLedgerUpdated`, `onTreasuryMutated`, `forEachReferencedMessage`,
`onMilestoneConfirmed`). -/
theorem merkle_mismatch_aborts (env : Env) (L : Ledger) (M : MetaStore) (message : Message)
    (ms : Milestone) (msID : MilestoneID) (mutations : WhiteFlagMutations)
    (hmsg : env.cachedMessageFunc env.milestoneMessageID = .ok (some message))
    (hms : message.Milestone = some ms)
    (hid : env.milestoneID ms = .ok msID)
    (hwf : env.computeWhiteFlagMutations L M env.networkId ms.Index ms.Timestamp message.parents
      env.lastMilestoneID = .ok mutations)
    (hbad : mutations.ConfirmedMerkleRoot ≠ ms.ConfirmedMerkleRoot ∨
      mutations.AppliedMerkleRoot ≠ ms.AppliedMerkleRoot) :
    (ConfirmMilestone env L M).1.err ≠ none ∧
    (ConfirmMilestone env L M).1.stats = none ∧
    (ConfirmMilestone env L M).1.metrics = none ∧
    (ConfirmMilestone env L M).2.ledger = L ∧
    (ConfirmMilestone env L M).2.metadata = M ∧
    (ConfirmMilestone env L M).2.trace =
      [Event.cachedMessageFunc env.milestoneMessageID, Event.writeLockLedger,
       Event.computeWhiteFlagMutations env.networkId ms.Index ms.Timestamp message.parents
         env.lastMilestoneID,
       Event.writeUnlockLedger, Event.releaseMessage message.messageID] ∧
    ∀ e ∈ (ConfirmMilestone env L M).2.trace,
      e.isApply = false ∧ e.isMetadataWrite = false ∧ e.isCallback = false := by
  by_cases hc : mutations.ConfirmedMerkleRoot = ms.ConfirmedMerkleRoot
  · have ha : mutations.AppliedMerkleRoot ≠ ms.AppliedMerkleRoot := by
      rcases hbad with h | h
      · exact absurd hc h
      · exact h
    simp [ConfirmMilestone, confirmLocked, hmsg, hms, hid, hwf, hc, ha, Sys.emit, Ret.fail,
      Event.isApply, Event.isMetadataWrite, Event.isCallback]
  · simp [ConfirmMilestone, confirmLocked, hmsg, hms, hid, hwf, hc, Sys.emit, Ret.fail,
      Event.isApply, Event.isMetadataWrite, Event.isCallback]

/-- Witness for C1: the sample milestone with one byte of its applied root
flipped is rejected and the ledger (index included) stays as it was. -/
theorem merkle_mismatch_aborts_witness :
    (ConfirmMilestone flippedEnv sampleLedger sampleStore).1.err ≠ none ∧
    (ConfirmMilestone flippedEnv sampleLedger sampleStore).2.ledger = sampleLedger :=
  have h := merkle_mismatch_aborts flippedEnv sampleLedger sampleStore flippedMessage
    flippedMilestone [77] sampleMutations rfl rfl rfl rfl (Or.inr (by decide))
  ⟨h.1, h.2.2.2.1⟩

/-- C3: if the lookup of the milestone message fails or finds nothing, or the
message found carries no milestone payload, `ConfirmMilestone` returns an error
with nil stats and nil metrics; ledger and metadata are untouched, and no call
is the white-flag computation, the ledger apply, part of the metadata phase or
a callback. -/
theorem load_failure_aborts (env : Env) (L : Ledger) (M : MetaStore)
    (h : (∃ e, env.cachedMessageFunc env.milestoneMessageID = .error e) ∨
      env.cachedMessageFunc env.milestoneMessageID = .ok none ∨
      (∃ message, env.cachedMessageFunc env.milestoneMessageID = .ok (some message) ∧
        message.Milestone = none)) :
    (ConfirmMilestone env L M).1.err ≠ none ∧
    (ConfirmMilestone env L M).1.stats = none ∧
    (ConfirmMilestone env L M).1.metrics = none ∧
    (ConfirmMilestone env L M).2.ledger = L ∧
    (ConfirmMilestone env L M).2.metadata = M ∧
    ∀ e ∈ (ConfirmMilestone env L M).2.trace,
      e.isWhiteFlag = false ∧ e.isApply = false ∧ e.isMetadataPhase = false ∧
      e.isCallback = false := by
  rcases h with ⟨e, he⟩ | he | ⟨message, he, hm⟩
  · simp [ConfirmMilestone, he, Sys.emit, Ret.fail, Event.isWhiteFlag, Event.isApply,
      Event.isMetadataPhase, Event.isCallback]
  · simp [ConfirmMilestone, he, Sys.emit, Ret.fail, Event.isWhiteFlag, Event.isApply,
      Event.isMetadataPhase, Event.isCallback]
  · simp [ConfirmMilestone, confirmLocked, he, hm, Sys.emit, Ret.fail, Event.isWhiteFlag,
      Event.isApply, Event.isMetadataPhase, Event.isCallback]

/-- Witness for C3: a call for a message id unknown to the message cache. -/
theorem load_failure_aborts_witness :
    (ConfirmMilestone absentEnv sampleLedger sampleStore).1.err ≠ none ∧
    (ConfirmMilestone absentEnv sampleLedger sampleStore).1.stats = none ∧
    (ConfirmMilestone absentEnv sampleLedger sampleStore).1.metrics = none :=
  have h := load_failure_aborts absentEnv sampleLedger sampleStore (Or.inr (Or.inl rfl))
  ⟨h.1, h.2.1, h.2.2.1⟩

/-- C2, as stated, fails: in the sample run against a metadata store that lacks
message `[2]`, `ConfirmMilestone` returns an error, yet the ledger has been
applied (ledger index 1 instead of 0, treasury 7000 instead of 10000) and the
metadata of message `[1]` has been rewritten. -/
theorem failure_after_apply_not_rolled_back :
    (ConfirmMilestone sampleEnv sampleLedger missingStore).1.err =
      some (Error.errorf "confirmMilestone: message not found: %v" [FmtArg.toHex [2]]) ∧
    sampleLedger.ledgerIndex = 0 ∧
    (ConfirmMilestone sampleEnv sampleLedger missingStore).2.ledger.ledgerIndex = 1 ∧
    sampleLedger.treasury.amount = 10000 ∧
    (ConfirmMilestone sampleEnv sampleLedger missingStore).2.ledger.treasury.amount = 7000 ∧
    missingStore [1] = .ok (some sampleMeta) ∧
    (ConfirmMilestone sampleEnv sampleLedger missingStore).2.metadata [1] =
      .ok (some { sampleMeta with isReferenced := true, referencedIndex := some 1,
                                  coneRootIndexes := some (1, 1, 1) }) := by
  refine ⟨by rfl, by rfl, by rfl, by rfl, by rfl, by rfl, by rfl⟩

/-- C2, amended: whenever no call of the ledger apply has returned success (the
failure lies before the apply or is the apply's own), `ConfirmMilestone`
returns an error and the ledger and all message metadata are what they were
before the call. -/
theorem failure_without_applied_ledger_is_atomic (env : Env) (L : Ledger) (M : MetaStore)
    (hno : ∀ i o sp tm rt L',
      Event.applyConfirmationWithoutLocking i o sp tm rt ∈ (ConfirmMilestone env L M).2.trace →
      env.applyConfirmationWithoutLocking L i o sp tm rt ≠ .ok L') :
    (ConfirmMilestone env L M).1.err ≠ none ∧
    (ConfirmMilestone env L M).2.ledger = L ∧ (ConfirmMilestone env L M).2.metadata = M := by
  rcases ConfirmMilestone_cases env L M with h | h
  · exact ⟨h.1, h.2.2.2.1, h.2.2.2.2.1⟩
  · obtain ⟨message, ms, msID, mutations, opts, migrated, tm, rt, pre, -, -, -, -, -, -, -, -,
      -, hout⟩ := h
    rcases hout with ⟨e, -, h2, h3, h4, -⟩ | ⟨L', evs, h1, -, -, -, h5⟩
    · exact ⟨by rw [h2]; simp [Ret.fail], h3, h4⟩
    · exfalso
      refine hno _ _ _ _ _ L' ?_ h1
      rw [h5]
      simp

/-- Witness for C2 (amended): the sample call with a failing white-flag
computation. -/
theorem failure_without_applied_ledger_is_atomic_witness :
    (ConfirmMilestone whiteFlagFailEnv sampleLedger sampleStore).1.err ≠ none ∧
    (ConfirmMilestone whiteFlagFailEnv sampleLedger sampleStore).2.ledger = sampleLedger ∧
    (ConfirmMilestone whiteFlagFailEnv sampleLedger sampleStore).2.metadata = sampleStore :=
  failure_without_applied_ledger_is_atomic whiteFlagFailEnv sampleLedger sampleStore
    (by
      intro i o sp tm rt L' h
      have ht : (ConfirmMilestone whiteFlagFailEnv sampleLedger sampleStore).2.trace =
          [Event.cachedMessageFunc [9], Event.writeLockLedger,
            Event.computeWhiteFlagMutations 42 1 100 [[1], [2], [3]] [],
            Event.writeUnlockLedger, Event.releaseMessage [9]] := by rfl
      rw [ht] at h
      simp at h)

/-! ## Order of the lifecycle callbacks -/

/-- C4, as stated, fails: in the successful sample run, with every callback
supplied and a receipt present, the lifecycle callbacks are emitted in the
order `onLedgerUpdated`, `onTreasuryMutated`, `onMilestoneConfirmed`;
`onMilestoneConfirmed` is the last of them, not the first. -/
theorem milestone_confirmed_is_not_first :
    (ConfirmMilestone sampleEnv sampleLedger sampleStore).1.err = none ∧
    sampleEnv.onMilestoneConfirmed = true ∧ sampleEnv.onLedgerUpdated = true ∧
    sampleEnv.onTreasuryMutated = true ∧
    (ConfirmMilestone sampleEnv sampleLedger sampleStore).2.trace.filter Event.isLifecycle =
      [Event.onLedgerUpdated 1 sampleNewOutputs sampleNewSpents,
       Event.onTreasuryMutated 1 sampleTreasuryMutation,
       Event.onMilestoneConfirmed ⟨1, [9], sampleMutations⟩] := by
  refine ⟨by rfl, by rfl, by rfl, by rfl, by rfl⟩

/-- C4, amended: in every successful run with all callbacks supplied, the
lifecycle callbacks are emitted in the order `onLedgerUpdated` first, then
(exactly when the milestone carries a receipt) `onTreasuryMutated`, and
`onMilestoneConfirmed` last; in particular `onLedgerUpdated` is invoked before
`onMilestoneConfirmed`. -/
theorem lifecycle_callback_order (env : Env) (L : Ledger) (M : MetaStore) (message : Message)
    (ms : Milestone) (mutations : WhiteFlagMutations) (opts : MilestoneOptSet)
    (hmsg : env.cachedMessageFunc env.milestoneMessageID = .ok (some message))
    (hms : message.Milestone = some ms)
    (hwf : env.computeWhiteFlagMutations L M env.networkId ms.Index ms.Timestamp message.parents
      env.lastMilestoneID = .ok mutations)
    (hopts : env.optsSet ms.Opts = .ok opts)
    (hsucc : (ConfirmMilestone env L M).1.err = none)
    (hmc : env.onMilestoneConfirmed = true) (hlu : env.onLedgerUpdated = true)
    (htm : env.onTreasuryMutated = true) :
    ∃ outs spents,
      (opts.Receipt = none ∧
        (ConfirmMilestone env L M).2.trace.filter Event.isLifecycle =
          [Event.onLedgerUpdated ms.Index outs spents,
           Event.onMilestoneConfirmed ⟨ms.Index, message.messageID, mutations⟩]) ∨
      (∃ tm, opts.Receipt ≠ none ∧
        (ConfirmMilestone env L M).2.trace.filter Event.isLifecycle =
          [Event.onLedgerUpdated ms.Index outs spents,
           Event.onTreasuryMutated ms.Index tm,
           Event.onMilestoneConfirmed ⟨ms.Index, message.messageID, mutations⟩]) := by
  rcases ConfirmMilestone_cases env L M with h | h
  · exact absurd hsucc h.1
  · obtain ⟨message', ms', msID, mutations', opts', migrated, tm, rt, pre, h1, h2, h3, h4, -, -,
      h7, h8, h9, hout⟩ := h
    rw [hmsg] at h1
    simp only [Except.ok.injEq, Option.some.injEq] at h1
    subst h1
    rw [hms] at h2
    simp only [Option.some.injEq] at h2
    subst h2
    rw [hwf] at h4
    simp only [Except.ok.injEq] at h4
    subst h4
    rw [hopts] at h7
    simp only [Except.ok.injEq] at h7
    subst h7
    rcases hout with ⟨e, -, h2, -⟩ | ⟨L', evs, -, -, hevs, -, h5⟩
    · rw [h2] at hsucc
      simp [Ret.fail] at hsucc
    · refine ⟨mutations.NewOutputs.map Prod.snd ++ migrated, mutations.NewSpents.map Prod.snd, ?_⟩
      have hpre : pre.filter Event.isLifecycle = [] :=
        filter_eq_nil_of_forall h9 (fun e he => (isBeforeApply_excludes e he).2.2.2.1)
      have hev : evs.filter Event.isLifecycle = [] :=
        filter_eq_nil_of_forall hevs (fun e he => (isMetadataPhase_excludes e he).2.2.1)
      rcases h8 with ⟨hr, -, htm0, -⟩ | ⟨r, t, tm', hr, -, htm0, -⟩
      · left
        subst htm0
        refine ⟨hr, ?_⟩
        rw [h5]
        simp [List.filter_append, hpre, hev, hsucc, hmc, hlu, Event.isLifecycle, List.filter]
      · right
        subst htm0
        refine ⟨tm', by simp [hr], ?_⟩
        rw [h5]
        simp [List.filter_append, hpre, hev, hsucc, hmc, hlu, htm, Event.isLifecycle,
          List.filter]

/-- Witness for C4 (amended): the sample run without a receipt. -/
theorem lifecycle_callback_order_witness :
    ∃ outs spents,
      ((⟨none⟩ : MilestoneOptSet).Receipt = none ∧
        (ConfirmMilestone plainEnv sampleLedger sampleStore).2.trace.filter Event.isLifecycle =
          [Event.onLedgerUpdated plainMilestone.Index outs spents,
           Event.onMilestoneConfirmed
            ⟨plainMilestone.Index, plainMessage.messageID, sampleMutations⟩]) ∨
      (∃ tm, (⟨none⟩ : MilestoneOptSet).Receipt ≠ none ∧
        (ConfirmMilestone plainEnv sampleLedger sampleStore).2.trace.filter Event.isLifecycle =
          [Event.onLedgerUpdated plainMilestone.Index outs spents,
           Event.onTreasuryMutated plainMilestone.Index tm,
           Event.onMilestoneConfirmed
            ⟨plainMilestone.Index, plainMessage.messageID, sampleMutations⟩]) :=
  lifecycle_callback_order plainEnv sampleLedger sampleStore plainMessage plainMilestone
    sampleMutations ⟨none⟩ rfl rfl rfl rfl (by rfl) rfl rfl rfl

/-! ## The ledger apply and its arguments -/

/-- C5: in every run that reaches the ledger apply, the apply is called exactly
once, with the payload's index, with the values of `mutations.NewSpents` as
spents, and with the values of `mutations.NewOutputs` followed by the migrated
outputs in the order `ReceiptToOutputs` returned them (none without a receipt)
as outputs; `onLedgerUpdated` follows the apply, once, with the same index,
outputs and spents, exactly when the apply succeeded and the callback is
supplied. -/
theorem apply_called_once_with_assembled_arguments (env : Env) (L : Ledger) (M : MetaStore)
    (message : Message) (ms : Milestone) (msID : MilestoneID) (mutations : WhiteFlagMutations)
    (opts : MilestoneOptSet)
    (hmsg : env.cachedMessageFunc env.milestoneMessageID = .ok (some message))
    (hms : message.Milestone = some ms)
    (hid : env.milestoneID ms = .ok msID)
    (hwf : env.computeWhiteFlagMutations L M env.networkId ms.Index ms.Timestamp message.parents
      env.lastMilestoneID = .ok mutations)
    (hopts : env.optsSet ms.Opts = .ok opts)
    (hreach : ∃ e ∈ (ConfirmMilestone env L M).2.trace, e.isApply = true) :
    ∃ migrated tm rt,
      (opts.Receipt = none → migrated = []) ∧
      (∀ r, opts.Receipt = some r →
        env.receiptToOutputs r message.messageID msID ms.Index ms.Timestamp = .ok migrated) ∧
      (ConfirmMilestone env L M).2.trace.filter Event.isApply =
        [Event.applyConfirmationWithoutLocking ms.Index
          (mutations.NewOutputs.map Prod.snd ++ migrated) (mutations.NewSpents.map Prod.snd)
          tm rt] ∧
      (ConfirmMilestone env L M).2.trace.filter (fun e => e.isApply || e.isLedgerUpdated) =
        Event.applyConfirmationWithoutLocking ms.Index
          (mutations.NewOutputs.map Prod.snd ++ migrated) (mutations.NewSpents.map Prod.snd)
          tm rt ::
        (if (env.applyConfirmationWithoutLocking L ms.Index
              (mutations.NewOutputs.map Prod.snd ++ migrated)
              (mutations.NewSpents.map Prod.snd) tm rt).isOk = true
            ∧ env.onLedgerUpdated = true
          then [Event.onLedgerUpdated ms.Index (mutations.NewOutputs.map Prod.snd ++ migrated)
            (mutations.NewSpents.map Prod.snd)]
          else []) := by
  rcases ConfirmMilestone_cases env L M with h | h
  · exfalso
    obtain ⟨e, he, hap⟩ := hreach
    obtain ⟨-, -, -, -, -, evs, h6, h7⟩ := h
    rw [h6] at he
    have := (isBeforeApply_excludes e (h7 e (by simpa using he))).1
    rw [hap] at this
    cases this
  · obtain ⟨message', ms', msID', mutations', opts', migrated, tm, rt, pre, h1, h2, h3, h4, -, -,
      h7, h8, h9, hout⟩ := h
    rw [hmsg] at h1
    simp only [Except.ok.injEq, Option.some.injEq] at h1
    subst h1
    rw [hms] at h2
    simp only [Option.some.injEq] at h2
    subst h2
    rw [hid] at h3
    simp only [Except.ok.injEq] at h3
    subst h3
    rw [hwf] at h4
    simp only [Except.ok.injEq] at h4
    subst h4
    rw [hopts] at h7
    simp only [Except.ok.injEq] at h7
    subst h7
    have hpre1 : pre.filter Event.isApply = [] :=
      filter_eq_nil_of_forall h9 (fun e he => (isBeforeApply_excludes e he).1)
    have hpre2 : pre.filter (fun e => e.isApply || e.isLedgerUpdated) = [] :=
      filter_eq_nil_of_forall h9 (fun e he => by
        simp [(isBeforeApply_excludes e he).1, (isBeforeApply_excludes e he).2.2.2.2.1])
    refine ⟨migrated, tm, rt, ?_, ?_, ?_⟩
    · intro hr
      rcases h8 with ⟨-, hm, -⟩ | ⟨r, t, tm', hr', -⟩
      · exact hm
      · rw [hr] at hr'; cases hr'
    · intro r hr
      rcases h8 with ⟨hr', -⟩ | ⟨r', t, tm', hr', -, -, -, -, ho, -⟩
      · rw [hr] at hr'; cases hr'
      · rw [hr] at hr'
        simp only [Option.some.injEq] at hr'
        subst hr'
        exact ho
    · rcases hout with ⟨e, ha, -, -, -, h5⟩ | ⟨L', evs, ha, -, hevs, -, h5⟩
      · rw [h5, ha]
        simp only [List.filter_append, hpre1, hpre2]
        simp [Event.isApply, Event.isLedgerUpdated, List.filter, Except.isOk, Except.toBool]
      · have hev1 : evs.filter Event.isApply = [] :=
          filter_eq_nil_of_forall hevs (fun e he => (isMetadataPhase_excludes e he).1)
        have hev2 : evs.filter (fun e => e.isApply || e.isLedgerUpdated) = [] :=
          filter_eq_nil_of_forall hevs (fun e he => by
            simp [(isMetadataPhase_excludes e he).1, (isMetadataPhase_excludes e he).2.2.2.1])
        rw [h5, ha]
        cases tm <;> by_cases hlu : env.onLedgerUpdated = true <;>
          by_cases htm : env.onTreasuryMutated = true <;>
          by_cases hmc : (ConfirmMilestone env L M).1.err = none ∧
            env.onMilestoneConfirmed = true <;>
          simp only [List.filter_append, hpre1, hpre2, hev1, hev2] <;>
          simp [Event.isApply, Event.isLedgerUpdated, List.filter, Except.isOk, Except.toBool,
            hlu, htm, hmc]

/-- Witness for C5: the sample run (one created output, two migrated ones, one
spent). -/
theorem apply_called_once_with_assembled_arguments_witness :
    ∃ migrated tm rt,
      ((⟨some sampleReceipt⟩ : MilestoneOptSet).Receipt = none → migrated = []) ∧
      (∀ r, (⟨some sampleReceipt⟩ : MilestoneOptSet).Receipt = some r →
        sampleEnv.receiptToOutputs r sampleMessage.messageID [77] sampleMilestone.Index
          sampleMilestone.Timestamp = .ok migrated) ∧
      (ConfirmMilestone sampleEnv sampleLedger sampleStore).2.trace.filter Event.isApply =
        [Event.applyConfirmationWithoutLocking sampleMilestone.Index
          (sampleMutations.NewOutputs.map Prod.snd ++ migrated)
          (sampleMutations.NewSpents.map Prod.snd) tm rt] ∧
      (ConfirmMilestone sampleEnv sampleLedger sampleStore).2.trace.filter
          (fun e => e.isApply || e.isLedgerUpdated) =
        Event.applyConfirmationWithoutLocking sampleMilestone.Index
          (sampleMutations.NewOutputs.map Prod.snd ++ migrated)
          (sampleMutations.NewSpents.map Prod.snd) tm rt ::
        (if (sampleEnv.applyConfirmationWithoutLocking sampleLedger sampleMilestone.Index
              (sampleMutations.NewOutputs.map Prod.snd ++ migrated)
              (sampleMutations.NewSpents.map Prod.snd) tm rt).isOk = true
            ∧ sampleEnv.onLedgerUpdated = true
          then [Event.onLedgerUpdated sampleMilestone.Index
            (sampleMutations.NewOutputs.map Prod.snd ++ migrated)
            (sampleMutations.NewSpents.map Prod.snd)]
          else []) :=
  apply_called_once_with_assembled_arguments sampleEnv sampleLedger sampleStore sampleMessage
    sampleMilestone [77] sampleMutations ⟨some sampleReceipt⟩ rfl rfl rfl rfl rfl (by decide)

/-- In a run that reached the apply, the only apply event is the one described
by the outcome. -/
theorem ApplyOutcome_apply_unique {env : Env} {L : Ledger} {M : MetaStore} {ms : Milestone}
    {c : Confirmation} {before after : List Event} {outs : List Output} {spents : List Spent}
    {tm : Option TreasuryMutationTuple} {rt : Option ReceiptTuple} {out : Ret × Sys}
    (h : ApplyOutcome env L M ms c before after outs spents tm rt out)
    (hb : ∀ e ∈ before, e.isBeforeApply = true) (ha : ∀ e ∈ after, e.isBeforeApply = true) :
    out.2.trace.filter Event.isApply =
      [Event.applyConfirmationWithoutLocking ms.Index outs spents tm rt] := by
  have hb1 : before.filter Event.isApply = [] :=
    filter_eq_nil_of_forall hb (fun e he => (isBeforeApply_excludes e he).1)
  have ha1 : after.filter Event.isApply = [] :=
    filter_eq_nil_of_forall ha (fun e he => (isBeforeApply_excludes e he).1)
  rcases h with ⟨e, -, -, -, -, h5⟩ | ⟨L', evs, -, -, hevs, -, h5⟩
  · rw [h5]
    simp only [List.filter_append, hb1, ha1]
    simp [Event.isApply, List.filter]
  · have hev1 : evs.filter Event.isApply = [] :=
      filter_eq_nil_of_forall hevs (fun e he => (isMetadataPhase_excludes e he).1)
    rw [h5]
    cases tm <;> by_cases hlu : env.onLedgerUpdated = true <;>
      by_cases htm : env.onTreasuryMutated = true <;>
      by_cases hmc : out.1.err = none ∧ env.onMilestoneConfirmed = true <;>
      simp only [List.filter_append, hb1, ha1, hev1] <;>
      simp [Event.isApply, List.filter, hlu, htm, hmc]

/-- In a run that reached the apply, `onTreasuryMutated` is called once, with
the milestone index and the applied treasury mutation, exactly when there is a
treasury mutation, the apply succeeded and the callback is supplied. -/
theorem ApplyOutcome_treasury_events {env : Env} {L : Ledger} {M : MetaStore} {ms : Milestone}
    {c : Confirmation} {before after : List Event} {outs : List Output} {spents : List Spent}
    {tm : Option TreasuryMutationTuple} {rt : Option ReceiptTuple} {out : Ret × Sys}
    (h : ApplyOutcome env L M ms c before after outs spents tm rt out)
    (hb : ∀ e ∈ before, e.isBeforeApply = true) (ha : ∀ e ∈ after, e.isBeforeApply = true) :
    out.2.trace.filter Event.isTreasuryMutated =
      if (env.applyConfirmationWithoutLocking L ms.Index outs spents tm rt).isOk = true
          ∧ env.onTreasuryMutated = true
      then tm.toList.map (Event.onTreasuryMutated ms.Index) else [] := by
  have hb1 : before.filter Event.isTreasuryMutated = [] :=
    filter_eq_nil_of_forall hb (fun e he => (isBeforeApply_excludes e he).2.2.2.2.2)
  have ha1 : after.filter Event.isTreasuryMutated = [] :=
    filter_eq_nil_of_forall ha (fun e he => (isBeforeApply_excludes e he).2.2.2.2.2)
  rcases h with ⟨e, hap, -, -, -, h5⟩ | ⟨L', evs, hap, -, hevs, -, h5⟩
  · rw [h5]
    simp only [List.filter_append, hb1, ha1]
    cases tm <;> simp [Event.isTreasuryMutated, List.filter, Except.isOk, Except.toBool, hap]
  · have hev1 : evs.filter Event.isTreasuryMutated = [] :=
      filter_eq_nil_of_forall hevs (fun e he => (isMetadataPhase_excludes e he).2.2.2.2)
    rw [h5]
    cases tm <;> by_cases hlu : env.onLedgerUpdated = true <;>
      by_cases htm : env.onTreasuryMutated = true <;>
      by_cases hmc : out.1.err = none ∧ env.onMilestoneConfirmed = true <;>
      simp only [List.filter_append, hb1, ha1, hev1] <;>
      simp [Event.isTreasuryMutated, List.filter, Except.isOk, Except.toBool, hlu, htm, hmc,
        hap]

theorem unlock_release_beforeApply (id : MessageID) :
    ∀ e ∈ [Event.writeUnlockLedger, Event.releaseMessage id], e.isBeforeApply = true := by
  intro e he
  simp only [List.mem_cons, List.mem_singleton, List.not_mem_nil, or_false] at he
  rcases he with h | h <;> subst h <;> rfl

/-! ## Receipt and treasury -/

/-- C6: the treasury mutation and the receipt tuple passed to the ledger apply
are non-nil exactly when the milestone's options contain a receipt; then the
receipt tuple carries the milestone's index and the treasury mutation is the one
built from the receipt and the unspent treasury output read from the ledger in
this call.  `onTreasuryMutated` is called (once, with the milestone index and
that mutation) exactly when a receipt is present, the apply succeeded and the
callback is supplied; it is never called for a milestone without a receipt, nor
in a run that does not reach the apply. -/
theorem treasury_mutation_iff_receipt (env : Env) (L : Ledger) (M : MetaStore)
    (message : Message) (ms : Milestone) (msID : MilestoneID) (opts : MilestoneOptSet)
    (hmsg : env.cachedMessageFunc env.milestoneMessageID = .ok (some message))
    (hms : message.Milestone = some ms)
    (hid : env.milestoneID ms = .ok msID)
    (hopts : env.optsSet ms.Opts = .ok opts) :
    (∀ i o sp tm rt,
      Event.applyConfirmationWithoutLocking i o sp tm rt ∈ (ConfirmMilestone env L M).2.trace →
      (tm ≠ none ↔ opts.Receipt ≠ none) ∧ (rt ≠ none ↔ opts.Receipt ≠ none) ∧
      (∀ r, opts.Receipt = some r → rt = some ⟨r, ms.Index⟩ ∧
        ∃ t tm', env.unspentTreasuryOutputWithoutLocking L = .ok t ∧
          env.receiptToTreasuryMutation r t msID = .ok tm' ∧ tm = some tm') ∧
      (ConfirmMilestone env L M).2.trace.filter Event.isTreasuryMutated =
        if (env.applyConfirmationWithoutLocking L i o sp tm rt).isOk = true
            ∧ env.onTreasuryMutated = true
        then tm.toList.map (Event.onTreasuryMutated ms.Index) else []) ∧
    (opts.Receipt = none →
      (ConfirmMilestone env L M).2.trace.filter Event.isTreasuryMutated = []) ∧
    ((∀ e ∈ (ConfirmMilestone env L M).2.trace, e.isApply = false) →
      (ConfirmMilestone env L M).2.trace.filter Event.isTreasuryMutated = []) := by
  rcases ConfirmMilestone_cases env L M with h | h
  · obtain ⟨-, -, -, -, -, evs, h6, h7⟩ := h
    simp only [List.nil_append] at h6
    have hnil : (ConfirmMilestone env L M).2.trace.filter Event.isTreasuryMutated = [] := by
      rw [h6]
      exact filter_eq_nil_of_forall h7 (fun e he => (isBeforeApply_excludes e he).2.2.2.2.2)
    refine ⟨?_, fun _ => hnil, fun _ => hnil⟩
    intro i o sp tm rt hmem
    rw [h6] at hmem
    have := (isBeforeApply_excludes _ (h7 _ hmem)).1
    simp [Event.isApply] at this
  · obtain ⟨message', ms', msID', mutations, opts', migrated, tm, rt, pre, h1, h2, h3, -, -, -,
      h7, h8, h9, hout⟩ := h
    rw [hmsg] at h1
    simp only [Except.ok.injEq, Option.some.injEq] at h1
    subst h1
    rw [hms] at h2
    simp only [Option.some.injEq] at h2
    subst h2
    rw [hid] at h3
    simp only [Except.ok.injEq] at h3
    subst h3
    rw [hopts] at h7
    simp only [Except.ok.injEq] at h7
    subst h7
    have huniq := ApplyOutcome_apply_unique hout h9 (unlock_release_beforeApply _)
    have htre := ApplyOutcome_treasury_events hout h9 (unlock_release_beforeApply _)
    have happ : Event.applyConfirmationWithoutLocking ms.Index
        (mutations.NewOutputs.map Prod.snd ++ migrated) (mutations.NewSpents.map Prod.snd) tm rt
        ∈ (ConfirmMilestone env L M).2.trace := by
      have : Event.applyConfirmationWithoutLocking ms.Index
          (mutations.NewOutputs.map Prod.snd ++ migrated) (mutations.NewSpents.map Prod.snd)
          tm rt ∈ (ConfirmMilestone env L M).2.trace.filter Event.isApply := by
        rw [huniq]; simp
      exact (List.mem_filter.mp this).1
    refine ⟨?_, ?_, ?_⟩
    · intro i o sp tm' rt' hmem
      have hin : Event.applyConfirmationWithoutLocking i o sp tm' rt'
          ∈ (ConfirmMilestone env L M).2.trace.filter Event.isApply :=
        List.mem_filter.mpr ⟨hmem, rfl⟩
      rw [huniq] at hin
      simp only [List.mem_singleton, Event.applyConfirmationWithoutLocking.injEq] at hin
      obtain ⟨hi, ho, hsp, htm, hrt⟩ := hin
      subst hi ho hsp htm hrt
      refine ⟨?_, ?_, ?_, htre⟩
      · rcases h8 with ⟨hr, -, htm0, -⟩ | ⟨r, t, tm0, hr, -, htm0, -⟩
        · simp [hr, htm0]
        · simp [hr, htm0]
      · rcases h8 with ⟨hr, -, -, hrt0⟩ | ⟨r, t, tm0, hr, hrt0, -⟩
        · simp [hr, hrt0]
        · simp [hr, hrt0]
      · intro r hr
        rcases h8 with ⟨hr', -⟩ | ⟨r', t, tm0, hr', hrt0, htm0, htr, -, -, hmk, -⟩
        · rw [hr] at hr'; cases hr'
        · rw [hr] at hr'
          simp only [Option.some.injEq] at hr'
          subst hr'
          exact ⟨hrt0, t, tm0, htr, hmk, htm0⟩
    · intro hr
      rcases h8 with ⟨-, -, htm0, -⟩ | ⟨r, t, tm0, hr', -⟩
      · rw [htre, htm0]; simp
      · rw [hr] at hr'; cases hr'
    · intro hall
      have := hall _ happ
      simp [Event.isApply] at this

/-- Witness for C6: the sample run, whose milestone carries a receipt. -/
theorem treasury_mutation_iff_receipt_witness :
    (ConfirmMilestone sampleEnv sampleLedger sampleStore).2.trace.filter
        Event.isTreasuryMutated = [Event.onTreasuryMutated 1 sampleTreasuryMutation] ∧
    ((⟨none⟩ : MilestoneOptSet).Receipt = none →
      (ConfirmMilestone plainEnv sampleLedger sampleStore).2.trace.filter
        Event.isTreasuryMutated = []) :=
  ⟨by
    have h := (treasury_mutation_iff_receipt sampleEnv sampleLedger sampleStore sampleMessage
      sampleMilestone [77] ⟨some sampleReceipt⟩ rfl rfl rfl rfl).1 1 sampleNewOutputs
      sampleNewSpents (some sampleTreasuryMutation) (some ⟨sampleReceipt, 1⟩) (by decide)
    exact h.2.2.2,
   (treasury_mutation_iff_receipt plainEnv sampleLedger sampleStore plainMessage
      plainMilestone [77] ⟨none⟩ rfl rfl rfl rfl).2.1⟩

/-- C7: if the milestone carries a receipt and the receipt is rejected
(`onReceipt` returns an error, the unspent treasury cannot be read, validation
against the amount of the unspent treasury fails - in particular, for the
validation rule of the specification, when funds sum + new treasury amount
differs from the old treasury amount -, or the migrated outputs or the treasury
mutation cannot be built), then `ConfirmMilestone` returns an error, ledger and
metadata stay as they were, and no call is the ledger apply, `onLedgerUpdated`,
`onTreasuryMutated`, `onMilestoneConfirmed` or part of the metadata phase. -/
theorem rejected_receipt_aborts (env : Env) (L : Ledger) (M : MetaStore)
    (message : Message) (ms : Milestone) (msID : MilestoneID) (opts : MilestoneOptSet)
    (r : Receipt)
    (hmsg : env.cachedMessageFunc env.milestoneMessageID = .ok (some message))
    (hms : message.Milestone = some ms)
    (hid : env.milestoneID ms = .ok msID)
    (hopts : env.optsSet ms.Opts = .ok opts)
    (hr : opts.Receipt = some r)
    (hrej : (∃ cb e, env.onReceipt = some cb ∧ cb ⟨r, ms.Index⟩ = some e) ∨
      (∃ e, env.unspentTreasuryOutputWithoutLocking L = .error e) ∨
      (∃ t e, env.unspentTreasuryOutputWithoutLocking L = .ok t ∧
        env.validateReceipt r t.amount = some e) ∨
      (∃ t, env.unspentTreasuryOutputWithoutLocking L = .ok t ∧
        env.validateReceipt = ValidateReceipt ∧
        (r.funds.map MigratedFundsEntry.amount).sum + r.treasuryTransaction.outputAmount
          ≠ t.amount) ∨
      (∃ e, env.receiptToOutputs r message.messageID msID ms.Index ms.Timestamp = .error e) ∨
      (∃ t e, env.unspentTreasuryOutputWithoutLocking L = .ok t ∧
        env.receiptToTreasuryMutation r t msID = .error e)) :
    (ConfirmMilestone env L M).1.err ≠ none ∧
    (ConfirmMilestone env L M).1.stats = none ∧
    (ConfirmMilestone env L M).1.metrics = none ∧
    (ConfirmMilestone env L M).2.ledger = L ∧
    (ConfirmMilestone env L M).2.metadata = M ∧
    ∀ e ∈ (ConfirmMilestone env L M).2.trace,
      e.isApply = false ∧ e.isLifecycle = false ∧ e.isMetadataPhase = false := by
  rcases ConfirmMilestone_cases env L M with h | h
  · obtain ⟨h1, h2, h3, h4, h5, evs, h6, h7⟩ := h
    refine ⟨h1, h2, h3, h4, h5, ?_⟩
    intro e he
    rw [h6] at he
    have := isBeforeApply_excludes e (h7 e (by simpa using he))
    exact ⟨this.1, this.2.2.2.1, this.2.1⟩
  · exfalso
    obtain ⟨message', ms', msID', mutations, opts', migrated, tm, rt, pre, h1, h2, h3, -, -, -,
      h7, h8, -, -⟩ := h
    rw [hmsg] at h1
    simp only [Except.ok.injEq, Option.some.injEq] at h1
    subst h1
    rw [hms] at h2
    simp only [Option.some.injEq] at h2
    subst h2
    rw [hid] at h3
    simp only [Except.ok.injEq] at h3
    subst h3
    rw [hopts] at h7
    simp only [Except.ok.injEq] at h7
    subst h7
    rcases h8 with ⟨hr', -⟩ | ⟨r', t, tm', hr', -, -, htr, hval, hout, hmk, hcb⟩
    · rw [hr] at hr'; cases hr'
    · rw [hr] at hr'
      simp only [Option.some.injEq] at hr'
      subst hr'
      rcases hrej with ⟨cb, e, h1, h2⟩ | ⟨e, h1⟩ | ⟨t', e, h1, h2⟩ | ⟨t', h1, h2, h3⟩ | ⟨e, h1⟩ |
        ⟨t', e, h1, h2⟩
      · rw [hcb cb h1] at h2; cases h2
      · rw [htr] at h1; cases h1
      · rw [htr] at h1
        simp only [Except.ok.injEq] at h1
        subst h1
        rw [hval] at h2; cases h2
      · rw [htr] at h1
        simp only [Except.ok.injEq] at h1
        subst h1
        rw [h2] at hval
        simp [ValidateReceipt, h3] at hval
      · rw [hout] at h1; cases h1
      · rw [htr] at h1
        simp only [Except.ok.injEq] at h1
        subst h1
        rw [hmk] at h2; cases h2

/-- Witness for C7: the sample milestone with a receipt whose funds and new
treasury amount (1000 + 2000 + 6000) differ from the old treasury (10000). -/
theorem rejected_receipt_aborts_witness :
    (ConfirmMilestone unbalancedEnv sampleLedger sampleStore).1.err ≠ none ∧
    (ConfirmMilestone unbalancedEnv sampleLedger sampleStore).2.ledger = sampleLedger ∧
    ∀ e ∈ (ConfirmMilestone unbalancedEnv sampleLedger sampleStore).2.trace,
      e.isApply = false ∧ e.isLifecycle = false ∧ e.isMetadataPhase = false :=
  have h := rejected_receipt_aborts unbalancedEnv sampleLedger sampleStore unbalancedMessage
    unbalancedMilestone [77] ⟨some unbalancedReceipt⟩ unbalancedReceipt rfl rfl rfl rfl rfl
    (Or.inr (Or.inr (Or.inr (Or.inl ⟨sampleLedger.treasury, rfl, rfl, by decide⟩))))
  ⟨h.1, h.2.2.2.1, h.2.2.2.2.2⟩

/-! ## Failure of the ledger apply -/

/-- C8: if the ledger apply returns an error, `ConfirmMilestone` returns an
error wrapping it, ledger and metadata stay as they were, and `onLedgerUpdated`,
`onTreasuryMutated`, `onMilestoneConfirmed`, `forEachReferencedMessage` and
every metadata lookup and write are skipped.  Equivalently, in every run, each
occurrence of one of these is preceded by a call of the ledger apply that
returned success. -/
theorem apply_failure_skips_effects (env : Env) (L : Ledger) (M : MetaStore) :
    (∀ i o sp tm rt e,
      Event.applyConfirmationWithoutLocking i o sp tm rt ∈ (ConfirmMilestone env L M).2.trace →
      env.applyConfirmationWithoutLocking L i o sp tm rt = .error e →
      (ConfirmMilestone env L M).1 =
        Ret.fail (Error.wrapf "confirmMilestone: utxo.ApplyConfirmation failed: %w" [] e) ∧
      (ConfirmMilestone env L M).2.ledger = L ∧
      (ConfirmMilestone env L M).2.metadata = M ∧
      ∀ ev ∈ (ConfirmMilestone env L M).2.trace,
        ev.isLifecycle = false ∧ ev.isMetadataPhase = false) ∧
    ((∃ ev ∈ (ConfirmMilestone env L M).2.trace,
        ev.isLifecycle = true ∨ ev.isMetadataPhase = true) →
      ∃ i o sp tm rt L',
        Event.applyConfirmationWithoutLocking i o sp tm rt ∈
          (ConfirmMilestone env L M).2.trace.takeWhile
            (fun x => !(x.isLifecycle || x.isMetadataPhase)) ∧
        env.applyConfirmationWithoutLocking L i o sp tm rt = .ok L') := by
  rcases ConfirmMilestone_cases env L M with h | h
  · obtain ⟨-, -, -, -, -, evs, h6, h7⟩ := h
    simp only [List.nil_append] at h6
    refine ⟨?_, ?_⟩
    · intro i o sp tm rt e hmem
      rw [h6] at hmem
      have := (isBeforeApply_excludes _ (h7 _ hmem)).1
      simp [Event.isApply] at this
    · rintro ⟨ev, hmem, hev⟩
      rw [h6] at hmem
      have := isBeforeApply_excludes _ (h7 _ hmem)
      rcases hev with h | h
      · rw [this.2.2.2.1] at h; cases h
      · rw [this.2.1] at h; cases h
  · obtain ⟨message, ms, msID, mutations, opts, migrated, tm, rt, pre, -, -, -, -, -, -, -, -,
      h9, hout⟩ := h
    have huniq := ApplyOutcome_apply_unique hout h9 (unlock_release_beforeApply _)
    have hargs : ∀ i o sp tm' rt',
        Event.applyConfirmationWithoutLocking i o sp tm' rt'
          ∈ (ConfirmMilestone env L M).2.trace →
        i = ms.Index ∧ o = mutations.NewOutputs.map Prod.snd ++ migrated ∧
          sp = mutations.NewSpents.map Prod.snd ∧ tm' = tm ∧ rt' = rt := by
      intro i o sp tm' rt' hmem
      have hin : Event.applyConfirmationWithoutLocking i o sp tm' rt'
          ∈ (ConfirmMilestone env L M).2.trace.filter Event.isApply :=
        List.mem_filter.mpr ⟨hmem, rfl⟩
      rw [huniq] at hin
      simpa using hin
    rcases hout with ⟨e, hap, h2, h3, h4, h5⟩ | ⟨L', evs, hap, -, hevs, -, h5⟩
    · have hall : ∀ ev ∈ (ConfirmMilestone env L M).2.trace,
          ev.isLifecycle = false ∧ ev.isMetadataPhase = false := by
        intro ev hmem
        rw [h5] at hmem
        simp only [List.mem_append, List.mem_singleton] at hmem
        rcases hmem with (h | h) | h
        · exact ⟨(isBeforeApply_excludes _ (h9 _ h)).2.2.2.1,
            (isBeforeApply_excludes _ (h9 _ h)).2.1⟩
        · subst h; exact ⟨rfl, rfl⟩
        · exact ⟨(isBeforeApply_excludes _ (unlock_release_beforeApply _ _ h)).2.2.2.1,
            (isBeforeApply_excludes _ (unlock_release_beforeApply _ _ h)).2.1⟩
      refine ⟨?_, ?_⟩
      · intro i o sp tm' rt' e' hmem hfail
        obtain ⟨hi, ho, hsp, htm, hrt⟩ := hargs i o sp tm' rt' hmem
        subst hi ho hsp htm hrt
        rw [hap] at hfail
        simp only [Except.error.injEq] at hfail
        subst hfail
        exact ⟨h2, h3, h4, hall⟩
      · rintro ⟨ev, hmem, hev⟩
        have := hall ev hmem
        rcases hev with h | h
        · rw [this.1] at h; cases h
        · rw [this.2] at h; cases h
    · refine ⟨?_, ?_⟩
      · intro i o sp tm' rt' e' hmem hfail
        obtain ⟨hi, ho, hsp, htm, hrt⟩ := hargs i o sp tm' rt' hmem
        subst hi ho hsp htm hrt
        rw [hap] at hfail
        cases hfail
      · intro _
        refine ⟨_, _, _, _, _, L', ?_, hap⟩
        rw [h5]
        simp only [List.append_assoc]
        rw [← List.append_assoc]
        rw [List.takeWhile_append_of_pos]
        · simp
        · intro a ha
          simp only [List.mem_append, List.mem_singleton] at ha
          rcases ha with h | h
          · simp [(isBeforeApply_excludes _ (h9 _ h)).2.2.2.1,
              (isBeforeApply_excludes _ (h9 _ h)).2.1]
          · subst h
            simp [Event.isLifecycle, Event.isMetadataPhase]

/-- Witness for C8: the sample milestone (index 1) against a ledger already at
index 5; the apply refuses it and nothing else happens. -/
theorem apply_failure_skips_effects_witness :
    (ConfirmMilestone sampleEnv gapLedger sampleStore).1 =
      Ret.fail (Error.wrapf "confirmMilestone: utxo.ApplyConfirmation failed: %w" []
        (Error.errorf "LedgerIndexGap" [])) ∧
    (ConfirmMilestone sampleEnv gapLedger sampleStore).2.ledger = gapLedger ∧
    (ConfirmMilestone sampleEnv gapLedger sampleStore).2.metadata = sampleStore ∧
    ∀ ev ∈ (ConfirmMilestone sampleEnv gapLedger sampleStore).2.trace,
      ev.isLifecycle = false ∧ ev.isMetadataPhase = false :=
  (apply_failure_skips_effects sampleEnv gapLedger sampleStore).1 1 sampleNewOutputs
    sampleNewSpents (some sampleTreasuryMutation) (some ⟨sampleReceipt, 1⟩)
    (Error.errorf "LedgerIndexGap" []) (by decide) (by rfl)

/-! ## Effect of the metadata phase on the metadata store -/

/-- What the closure does to one record under the default check/set functions. -/
theorem closure_default_meta (env : Env)
    (hc : env.checkMessageReferencedFunc = DefaultCheckMessageReferencedFunc)
    (hs : env.setMessageReferencedFunc = DefaultSetMessageReferencedFunc)
    (cat : Category) (idx : Index) (ts : Nat) (id : MessageID) (c : Conflict)
    (meta : MessageMetadata) (stats : ConfirmedMilestoneStats) :
    (closure env cat idx ts id c meta stats).1.isReferenced = true ∧
    (closure env cat idx ts id c meta stats).1.isSolid = meta.isSolid ∧
    (meta.isReferenced = true →
      (closure env cat idx ts id c meta stats).1.referencedIndex = meta.referencedIndex ∧
      (closure env cat idx ts id c meta stats).1.coneRootIndexes = meta.coneRootIndexes) ∧
    (meta.isReferenced = false →
      (closure env cat idx ts id c meta stats).1.referencedIndex = some idx ∧
      (closure env cat idx ts id c meta stats).1.coneRootIndexes = some (idx, idx, idx)) ∧
    (closure env cat idx ts id c meta stats).1.isNoTransaction =
      (if cat = .excludedWithoutTransactions then true else meta.isNoTransaction) ∧
    (closure env cat idx ts id c meta stats).1.conflict =
      (if cat = .excludedWithConflictingTransactions then c else meta.conflict) := by
  cases hr : meta.isReferenced <;> cases cat <;>
    simp [closure, referenceIfUnreferenced, hc, hs, DefaultCheckMessageReferencedFunc,
      DefaultSetMessageReferencedFunc, MessageMetadata.IsReferenced,
      MessageMetadata.SetReferenced, MessageMetadata.SetConeRootIndexes,
      MessageMetadata.SetIsNoTransaction, MessageMetadata.SetConflictingTx, hr]

/-- The metadata store after one lookup-and-update step. -/
theorem forMessageMetadataWithMessageID_metadata (s : Sys) (stats : ConfirmedMilestoneStats)
    (id : MessageID)
    (f : MessageMetadata → ConfirmedMilestoneStats →
      MessageMetadata × ConfirmedMilestoneStats × List Event) :
    ((∃ meta, s.metadata id = .ok (some meta) ∧
        (forMessageMetadataWithMessageID s stats id f).1 = none ∧
        (forMessageMetadataWithMessageID s stats id f).2.1.metadata =
          fun j => if j = id then .ok (some (f meta stats).1) else s.metadata j) ∨
      ((∀ meta, s.metadata id ≠ .ok (some meta)) ∧
        (forMessageMetadataWithMessageID s stats id f).1 ≠ none ∧
        (forMessageMetadataWithMessageID s stats id f).2.1.metadata = s.metadata)) := by
  unfold forMessageMetadataWithMessageID
  have hm : (s.emit (Event.cachedMessageMetadata id)).metadata = s.metadata := rfl
  simp only [hm]
  rcases h : s.metadata id with e | _ | meta
  · right; simp [Sys.emit]
  · right; simp [Sys.emit]
  · left
    exact ⟨meta, rfl, rfl, by simp [Sys.emit, Sys.emits, Sys.setMeta]⟩

/-- One step of a loop, default check/set: every record is still either
untouched or referenced by this milestone, records referenced by this milestone
stay so, and the message just processed is referenced. -/
theorem step_referenced (env : Env)
    (hc : env.checkMessageReferencedFunc = DefaultCheckMessageReferencedFunc)
    (hs : env.setMessageReferencedFunc = DefaultSetMessageReferencedFunc)
    (M0 : MetaStore) (cat : Category) (idx : Index) (ts : Nat) (s : Sys)
    (stats : ConfirmedMilestoneStats) (id : MessageID) (c : Conflict)
    (hInv : ∀ j, s.metadata j = M0 j ∨ ReferencedBy M0 idx j s.metadata) :
    (∀ j, (forMessageMetadataWithMessageID s stats id
          (closure env cat idx ts id c)).2.1.metadata j = M0 j ∨
        ReferencedBy M0 idx j (forMessageMetadataWithMessageID s stats id
          (closure env cat idx ts id c)).2.1.metadata) ∧
    (∀ j, ReferencedBy M0 idx j s.metadata →
        ReferencedBy M0 idx j (forMessageMetadataWithMessageID s stats id
          (closure env cat idx ts id c)).2.1.metadata) ∧
    ((forMessageMetadataWithMessageID s stats id (closure env cat idx ts id c)).1 = none →
        ReferencedBy M0 idx id (forMessageMetadataWithMessageID s stats id
          (closure env cat idx ts id c)).2.1.metadata) := by
  rcases forMessageMetadataWithMessageID_metadata s stats id (closure env cat idx ts id c)
    with ⟨meta, hmeta, herr, hmd⟩ | ⟨-, herr, hmd⟩
  · obtain ⟨hA, -, hC, hD, -, -⟩ := closure_default_meta env hc hs cat idx ts id c meta stats
    have hgood : ReferencedBy M0 idx id (forMessageMetadataWithMessageID s stats id
        (closure env cat idx ts id c)).2.1.metadata := by
      refine ⟨(closure env cat idx ts id c meta stats).1, by rw [hmd]; simp, hA, ?_⟩
      intro m0 hm0 hunref
      rcases hInv id with h | ⟨m1, hm1, hr1, hp1⟩
      · rw [hmeta, hm0] at h
        simp only [Except.ok.injEq, Option.some.injEq] at h
        subst h
        exact hD hunref
      · rw [hmeta] at hm1
        simp only [Except.ok.injEq, Option.some.injEq] at hm1
        subst hm1
        obtain ⟨h1, h2⟩ := hC hr1
        rw [h1, h2]
        exact hp1 m0 hm0 hunref
    have hother : ∀ j, j ≠ id → (forMessageMetadataWithMessageID s stats id
        (closure env cat idx ts id c)).2.1.metadata j = s.metadata j := by
      intro j hj
      rw [hmd]; simp [hj]
    have hmono : ∀ j, ReferencedBy M0 idx j s.metadata →
        ReferencedBy M0 idx j (forMessageMetadataWithMessageID s stats id
          (closure env cat idx ts id c)).2.1.metadata := by
      intro j hj
      by_cases hji : j = id
      · subst hji; exact hgood
      · obtain ⟨m, hm, hr, hp⟩ := hj
        exact ⟨m, by rw [hother j hji]; exact hm, hr, hp⟩
    refine ⟨?_, hmono, fun _ => hgood⟩
    intro j
    rcases hInv j with h | h
    · by_cases hji : j = id
      · subst hji; exact Or.inr hgood
      · exact Or.inl (by rw [hother j hji]; exact h)
    · exact Or.inr (hmono j h)
  · rw [hmd]
    exact ⟨hInv, fun j hj => hj, fun h => absurd h herr⟩

/-- A whole loop, default check/set: as for one step; after a loop without error
every listed message is referenced. -/
theorem confirmLoop_referenced (env : Env)
    (hc : env.checkMessageReferencedFunc = DefaultCheckMessageReferencedFunc)
    (hs : env.setMessageReferencedFunc = DefaultSetMessageReferencedFunc)
    (M0 : MetaStore) (cat : Category) (idx : Index) (ts : Nat) :
    ∀ (l : List MessageWithConflict) (s : Sys) (stats : ConfirmedMilestoneStats),
      (∀ j, s.metadata j = M0 j ∨ ReferencedBy M0 idx j s.metadata) →
      (∀ j, (confirmLoop env cat idx ts l s stats).2.1.metadata j = M0 j ∨
        ReferencedBy M0 idx j (confirmLoop env cat idx ts l s stats).2.1.metadata) ∧
      (∀ j, ReferencedBy M0 idx j s.metadata →
        ReferencedBy M0 idx j (confirmLoop env cat idx ts l s stats).2.1.metadata) ∧
      ((confirmLoop env cat idx ts l s stats).1 = none →
        ∀ m ∈ l, ReferencedBy M0 idx m.MessageID
          (confirmLoop env cat idx ts l s stats).2.1.metadata) := by
  intro l
  induction l with
  | nil =>
      intro s stats hInv
      exact ⟨hInv, fun j hj => hj, fun _ m hm => by simp at hm⟩
  | cons m rest ih =>
      intro s stats hInv
      obtain ⟨h1, h2, h3⟩ := step_referenced env hc hs M0 cat idx ts s stats m.MessageID
        m.Conflict hInv
      rcases hstep : forMessageMetadataWithMessageID s stats m.MessageID
        (closure env cat idx ts m.MessageID m.Conflict) with ⟨o, s1, stats1⟩
      rw [hstep] at h1 h2 h3
      simp only at h1 h2 h3
      cases o with
      | some e =>
          simp only [confirmLoop, hstep]
          exact ⟨h1, h2, fun h => by simp at h⟩
      | none =>
          simp only [confirmLoop, hstep]
          obtain ⟨i1, i2, i3⟩ := ih s1 stats1 h1
          refine ⟨i1, fun j hj => i2 j (h2 j hj), ?_⟩
          intro hok m' hm'
          rcases List.mem_cons.mp hm' with h | h
          · subst h
            exact i2 _ (h3 rfl)
          · exact i3 hok m' h

/-- The metadata phase, default check/set, started on metadata `M0`: after a
phase without error every message of the three lists is referenced. -/
theorem updateMetadata_referenced (env : Env)
    (hc : env.checkMessageReferencedFunc = DefaultCheckMessageReferencedFunc)
    (hs : env.setMessageReferencedFunc = DefaultSetMessageReferencedFunc)
    (ms : Milestone) (c : Confirmation) (s : Sys)
    (hsucc : (updateMetadata env ms c s).1.err = none) (id : MessageID)
    (hid : id ∈ c.Mutations.MessagesIncludedWithTransactions ∨
      id ∈ c.Mutations.MessagesExcludedWithoutTransactions ∨
      id ∈ c.Mutations.MessagesExcludedWithConflictingTransactions.map
        MessageWithConflict.MessageID) :
    ReferencedBy s.metadata ms.Index id (updateMetadata env ms c s).2.metadata := by
  have hInv0 : ∀ j, s.metadata j = s.metadata j ∨ ReferencedBy s.metadata ms.Index j s.metadata :=
    fun j => Or.inl rfl
  obtain ⟨a1, -, a3⟩ := confirmLoop_referenced env hc hs s.metadata .includedWithTransactions
    ms.Index ms.Timestamp (c.Mutations.MessagesIncludedWithTransactions.map plain) s
    ⟨ms.Index, 0, 0, 0, 0, 0⟩ hInv0
  rcases h1 : confirmLoop env .includedWithTransactions ms.Index
    ms.Timestamp (c.Mutations.MessagesIncludedWithTransactions.map plain) s
    ⟨ms.Index, 0, 0, 0, 0, 0⟩ with ⟨o1, s1, stats1⟩
  rw [h1] at a1 a3
  simp only at a1 a3
  cases o1 with
  | some e => simp [updateMetadata, h1, Ret.fail] at hsucc
  | none =>
  obtain ⟨b1, b2, b3⟩ := confirmLoop_referenced env hc hs s.metadata
    .excludedWithoutTransactions ms.Index ms.Timestamp
    (c.Mutations.MessagesExcludedWithoutTransactions.map plain) s1 stats1 a1
  rcases h2 : confirmLoop env .excludedWithoutTransactions ms.Index
    ms.Timestamp (c.Mutations.MessagesExcludedWithoutTransactions.map plain) s1 stats1
    with ⟨o2, s2, stats2⟩
  rw [h2] at b1 b2 b3
  simp only at b1 b2 b3
  cases o2 with
  | some e => simp [updateMetadata, h1, h2, Ret.fail] at hsucc
  | none =>
  obtain ⟨-, c2, c3⟩ := confirmLoop_referenced env hc hs s.metadata
    .excludedWithConflictingTransactions ms.Index ms.Timestamp
    c.Mutations.MessagesExcludedWithConflictingTransactions s2 stats2 b1
  rcases h3 : confirmLoop env .excludedWithConflictingTransactions ms.Index ms.Timestamp
    c.Mutations.MessagesExcludedWithConflictingTransactions s2 stats2 with ⟨o3, s3, stats3⟩
  rw [h3] at c2 c3
  simp only at c2 c3
  cases o3 with
  | some e => simp [updateMetadata, h1, h2, h3, Ret.fail] at hsucc
  | none =>
      have hfinal : (updateMetadata env ms c s).2.metadata = s3.metadata := by
        simp only [updateMetadata, h1, h2, h3]
        by_cases h : env.onMilestoneConfirmed = true
        · simp [h, Sys.emit]
        · simp [h]
      rw [hfinal]
      rcases hid with h | h | h
      · exact c2 _ (b2 _ (a3 rfl (plain id) (List.mem_map.mpr ⟨id, h, rfl⟩)))
      · exact c2 _ (b3 rfl (plain id) (List.mem_map.mpr ⟨id, h, rfl⟩))
      · obtain ⟨m, hm, hmid⟩ := List.mem_map.mp h
        subst hmid
        exact c3 rfl m hm

/-! ## Referencing the cone -/

/-- C9: after a successful `ConfirmMilestone` with the default check/set
functions, every message of `MessagesIncludedWithTransactions`,
`MessagesExcludedWithoutTransactions` and
`MessagesExcludedWithConflictingTransactions` has a metadata record that is
referenced; if its record was not referenced before the call, the referenced
index is the milestone's index and the cone root indexes are
(index, index, index). -/
theorem listed_messages_are_referenced (env : Env) (L : Ledger) (M : MetaStore)
    (message : Message) (ms : Milestone) (mutations : WhiteFlagMutations)
    (hc : env.checkMessageReferencedFunc = DefaultCheckMessageReferencedFunc)
    (hs : env.setMessageReferencedFunc = DefaultSetMessageReferencedFunc)
    (hmsg : env.cachedMessageFunc env.milestoneMessageID = .ok (some message))
    (hms : message.Milestone = some ms)
    (hwf : env.computeWhiteFlagMutations L M env.networkId ms.Index ms.Timestamp message.parents
      env.lastMilestoneID = .ok mutations)
    (hsucc : (ConfirmMilestone env L M).1.err = none)
    (id : MessageID)
    (hid : id ∈ mutations.MessagesIncludedWithTransactions ∨
      id ∈ mutations.MessagesExcludedWithoutTransactions ∨
      id ∈ mutations.MessagesExcludedWithConflictingTransactions.map
        MessageWithConflict.MessageID) :
    ∃ m, (ConfirmMilestone env L M).2.metadata id = .ok (some m) ∧ m.isReferenced = true ∧
      ∀ m0, M id = .ok (some m0) → m0.isReferenced = false →
        m.referencedIndex = some ms.Index ∧
        m.coneRootIndexes = some (ms.Index, ms.Index, ms.Index) := by
  rcases ConfirmMilestone_cases env L M with h | h
  · exact absurd hsucc h.1
  · obtain ⟨message', ms', msID, mutations', opts, migrated, tm, rt, pre, h1, h2, -, h4, -, -,
      -, -, -, hout⟩ := h
    rw [hmsg] at h1
    simp only [Except.ok.injEq, Option.some.injEq] at h1
    subst h1
    rw [hms] at h2
    simp only [Option.some.injEq] at h2
    subst h2
    rw [hwf] at h4
    simp only [Except.ok.injEq] at h4
    subst h4
    rcases hout with ⟨e, -, h2, -⟩ | ⟨L', evs, -, -, -, ⟨-, S, hS1, hS2, hS3⟩, -⟩
    · rw [h2] at hsucc
      simp [Ret.fail] at hsucc
    · rw [hS2] at hsucc
      have := updateMetadata_referenced env hc hs ms ⟨ms.Index, message.messageID, mutations⟩ S
        hsucc id hid
      rw [hS1, ← hS3] at this
      exact this

/-- Witness for C9: in the sample run the conflicting message `[3]`, unreferenced
before, ends up referenced by milestone 1 with cone root indexes (1, 1, 1). -/
theorem listed_messages_are_referenced_witness :
    ∃ m, (ConfirmMilestone sampleEnv sampleLedger sampleStore).2.metadata [3] = .ok (some m) ∧
      m.isReferenced = true ∧
      ∀ m0, sampleStore [3] = .ok (some m0) → m0.isReferenced = false →
        m.referencedIndex = some sampleMilestone.Index ∧
        m.coneRootIndexes =
          some (sampleMilestone.Index, sampleMilestone.Index, sampleMilestone.Index) :=
  listed_messages_are_referenced sampleEnv sampleLedger sampleStore sampleMessage
    sampleMilestone sampleMutations rfl rfl rfl rfl rfl (by rfl) [3]
    (Or.inr (Or.inr (by decide)))

/-! ## Already referenced messages -/

theorem ReferenceKept.trans {a b c : MessageMetadata} (h1 : ReferenceKept a b)
    (h2 : ReferenceKept b c) : ReferenceKept a c :=
  ⟨h2.1, h2.2.1.trans h1.2.1, h2.2.2.1.trans h1.2.2.1, h2.2.2.2.trans h1.2.2.2⟩

/-- One step of a loop, default check/set, seen from a record that is already
referenced: it stays referenced with the same referenced index, cone root
indexes and solidity; `is_no_transaction` can only change when the step handles
this very message in the transaction-less loop, `conflict` only when it handles
it in the conflicting loop. -/
theorem step_kept (env : Env)
    (hc : env.checkMessageReferencedFunc = DefaultCheckMessageReferencedFunc)
    (hs : env.setMessageReferencedFunc = DefaultSetMessageReferencedFunc)
    (cat : Category) (idx : Index) (ts : Nat) (s : Sys)
    (stats : ConfirmedMilestoneStats) (id : MessageID) (c : Conflict)
    (id0 : MessageID) (m0 : MessageMetadata)
    (h0 : s.metadata id0 = .ok (some m0)) (href : m0.isReferenced = true) :
    ∃ m', (forMessageMetadataWithMessageID s stats id
        (closure env cat idx ts id c)).2.1.metadata id0 = .ok (some m') ∧
      ReferenceKept m0 m' ∧
      ((cat ≠ .excludedWithoutTransactions ∨ id ≠ id0) →
        m'.isNoTransaction = m0.isNoTransaction) ∧
      ((cat ≠ .excludedWithConflictingTransactions ∨ id ≠ id0) →
        m'.conflict = m0.conflict) := by
  rcases forMessageMetadataWithMessageID_metadata s stats id (closure env cat idx ts id c)
    with ⟨meta, hmeta, -, hmd⟩ | ⟨-, -, hmd⟩
  · by_cases hii : id0 = id
    · subst hii
      rw [hmeta] at h0
      simp only [Except.ok.injEq, Option.some.injEq] at h0
      subst h0
      obtain ⟨hA, hB, hC, -, hE, hF⟩ :=
        closure_default_meta env hc hs cat idx ts id0 c meta stats
      refine ⟨(closure env cat idx ts id0 c meta stats).1, by rw [hmd]; simp,
        ⟨hA, (hC href).1, (hC href).2, hB⟩, ?_, ?_⟩
      · intro h
        rcases h with h | h
        · rw [hE]; simp [h]
        · exact absurd rfl h
      · intro h
        rcases h with h | h
        · rw [hF]; simp [h]
        · exact absurd rfl h
    · refine ⟨m0, by rw [hmd]; simp [hii, h0], ⟨href, rfl, rfl, rfl⟩, fun _ => rfl, fun _ => rfl⟩
  · exact ⟨m0, by rw [hmd]; exact h0, ⟨href, rfl, rfl, rfl⟩, fun _ => rfl, fun _ => rfl⟩

/-- A whole loop, seen from a record that is already referenced. -/
theorem confirmLoop_kept (env : Env)
    (hc : env.checkMessageReferencedFunc = DefaultCheckMessageReferencedFunc)
    (hs : env.setMessageReferencedFunc = DefaultSetMessageReferencedFunc)
    (cat : Category) (idx : Index) (ts : Nat) (id0 : MessageID) :
    ∀ (l : List MessageWithConflict) (s : Sys) (stats : ConfirmedMilestoneStats)
      (m0 : MessageMetadata), s.metadata id0 = .ok (some m0) → m0.isReferenced = true →
      ∃ m', (confirmLoop env cat idx ts l s stats).2.1.metadata id0 = .ok (some m') ∧
        ReferenceKept m0 m' ∧
        ((cat ≠ .excludedWithoutTransactions ∨ id0 ∉ l.map MessageWithConflict.MessageID) →
          m'.isNoTransaction = m0.isNoTransaction) ∧
        ((cat ≠ .excludedWithConflictingTransactions ∨
            id0 ∉ l.map MessageWithConflict.MessageID) →
          m'.conflict = m0.conflict) := by
  intro l
  induction l with
  | nil =>
      intro s stats m0 h0 href
      exact ⟨m0, h0, ⟨href, rfl, rfl, rfl⟩, fun _ => rfl, fun _ => rfl⟩
  | cons m rest ih =>
      intro s stats m0 h0 href
      obtain ⟨m1, k1, k2, k3, k4⟩ := step_kept env hc hs cat idx ts s stats m.MessageID
        m.Conflict id0 m0 h0 href
      rcases hstep : forMessageMetadataWithMessageID s stats m.MessageID
        (closure env cat idx ts m.MessageID m.Conflict) with ⟨o, s1, stats1⟩
      rw [hstep] at k1
      simp only at k1
      have hne : ∀ {P : Prop}, (P ∨ id0 ∉ (m :: rest).map MessageWithConflict.MessageID) →
          (P ∨ m.MessageID ≠ id0) ∧ (P ∨ id0 ∉ rest.map MessageWithConflict.MessageID) := by
        intro P h
        rcases h with h | h
        · exact ⟨Or.inl h, Or.inl h⟩
        · simp only [List.map_cons, List.mem_cons, not_or] at h
          exact ⟨Or.inr (fun e => h.1 e.symm), Or.inr h.2⟩
      cases o with
      | some e =>
          simp only [confirmLoop, hstep]
          exact ⟨m1, k1, k2, fun h => k3 (hne h).1, fun h => k4 (hne h).1⟩
      | none =>
          simp only [confirmLoop, hstep]
          obtain ⟨m2, j1, j2, j3, j4⟩ := ih s1 stats1 m1 k1 k2.1
          exact ⟨m2, j1, k2.trans j2, fun h => (j3 (hne h).2).trans (k3 (hne h).1),
            fun h => (j4 (hne h).2).trans (k4 (hne h).1)⟩

/-- The metadata phase, seen from a record that is already referenced. -/
theorem updateMetadata_kept (env : Env)
    (hc : env.checkMessageReferencedFunc = DefaultCheckMessageReferencedFunc)
    (hs : env.setMessageReferencedFunc = DefaultSetMessageReferencedFunc)
    (ms : Milestone) (c : Confirmation) (s : Sys) (id0 : MessageID) (m0 : MessageMetadata)
    (h0 : s.metadata id0 = .ok (some m0)) (href : m0.isReferenced = true) :
    ∃ m', (updateMetadata env ms c s).2.metadata id0 = .ok (some m') ∧
      ReferenceKept m0 m' ∧
      (id0 ∉ c.Mutations.MessagesExcludedWithoutTransactions →
        m'.isNoTransaction = m0.isNoTransaction) ∧
      (id0 ∉ c.Mutations.MessagesExcludedWithConflictingTransactions.map
          MessageWithConflict.MessageID → m'.conflict = m0.conflict) := by
  have hplain : ∀ l : List MessageID, (l.map plain).map MessageWithConflict.MessageID = l := by
    intro l
    induction l with
    | nil => rfl
    | cons a t ih => simp [plain] at ih ⊢; exact ih
  obtain ⟨m1, a1, a2, a3, a4⟩ := confirmLoop_kept env hc hs .includedWithTransactions ms.Index
    ms.Timestamp id0 (c.Mutations.MessagesIncludedWithTransactions.map plain) s
    ⟨ms.Index, 0, 0, 0, 0, 0⟩ m0 h0 href
  rcases h1 : confirmLoop env .includedWithTransactions ms.Index
    ms.Timestamp (c.Mutations.MessagesIncludedWithTransactions.map plain) s
    ⟨ms.Index, 0, 0, 0, 0, 0⟩ with ⟨o1, s1, stats1⟩
  rw [h1] at a1
  simp only at a1
  have a3' := a3 (Or.inl (by decide))
  have a4' := a4 (Or.inl (by decide))
  cases o1 with
  | some e =>
      simp only [updateMetadata, h1]
      exact ⟨m1, a1, a2, fun _ => a3', fun _ => a4'⟩
  | none =>
  obtain ⟨m2, b1, b2, b3, b4⟩ := confirmLoop_kept env hc hs .excludedWithoutTransactions
    ms.Index ms.Timestamp id0 (c.Mutations.MessagesExcludedWithoutTransactions.map plain) s1
    stats1 m1 a1 a2.1
  rcases h2 : confirmLoop env .excludedWithoutTransactions ms.Index
    ms.Timestamp (c.Mutations.MessagesExcludedWithoutTransactions.map plain) s1 stats1
    with ⟨o2, s2, stats2⟩
  rw [h2] at b1
  simp only at b1
  rw [hplain] at b3
  have b4' := b4 (Or.inl (by decide))
  cases o2 with
  | some e =>
      simp only [updateMetadata, h1, h2]
      exact ⟨m2, b1, a2.trans b2, fun h => (b3 (Or.inr h)).trans a3', fun _ => b4'.trans a4'⟩
  | none =>
  obtain ⟨m3, c1, c2, c3, c4⟩ := confirmLoop_kept env hc hs
    .excludedWithConflictingTransactions ms.Index ms.Timestamp id0
    c.Mutations.MessagesExcludedWithConflictingTransactions s2 stats2 m2 b1 b2.1
  rcases h3 : confirmLoop env .excludedWithConflictingTransactions ms.Index ms.Timestamp
    c.Mutations.MessagesExcludedWithConflictingTransactions s2 stats2 with ⟨o3, s3, stats3⟩
  rw [h3] at c1
  simp only at c1
  have c3' := c3 (Or.inl (by decide))
  have hres : ∃ m', s3.metadata id0 = .ok (some m') ∧ ReferenceKept m0 m' ∧
      (id0 ∉ c.Mutations.MessagesExcludedWithoutTransactions →
        m'.isNoTransaction = m0.isNoTransaction) ∧
      (id0 ∉ c.Mutations.MessagesExcludedWithConflictingTransactions.map
          MessageWithConflict.MessageID → m'.conflict = m0.conflict) :=
    ⟨m3, c1, (a2.trans b2).trans c2,
      fun h => c3'.trans ((b3 (Or.inr h)).trans a3'),
      fun h => (c4 (Or.inr h)).trans (b4'.trans a4')⟩
  cases o3 with
  | some e =>
      simp only [updateMetadata, h1, h2, h3]
      exact hres
  | none =>
      simp only [updateMetadata, h1, h2, h3]
      by_cases h : env.onMilestoneConfirmed = true
      · simpa [h, Sys.emit] using hres
      · simpa [h] using hres

/-- C10, as stated, fails: in the sample run against a store in which the
transaction-less message `[2]` and the conflicting message `[3]` are already
referenced (by milestone 7), the call succeeds and both records are rewritten:
`is_no_transaction` of `[2]` becomes true and `conflict` of `[3]` becomes
`inputAlreadySpent`. -/
theorem referenced_records_are_rewritten :
    (ConfirmMilestone sampleEnv sampleLedger referencedStore).1.err = none ∧
    referencedStore [2] = .ok (some referencedMeta) ∧
    (ConfirmMilestone sampleEnv sampleLedger referencedStore).2.metadata [2] =
      .ok (some { referencedMeta with isNoTransaction := true }) ∧
    referencedStore [3] = .ok (some referencedMeta) ∧
    (ConfirmMilestone sampleEnv sampleLedger referencedStore).2.metadata [3] =
      .ok (some { referencedMeta with conflict := Conflict.inputAlreadySpent }) ∧
    (ConfirmMilestone sampleEnv sampleLedger referencedStore).2.metadata [2]
      ≠ referencedStore [2] := by
  refine ⟨by rfl, by rfl, by rfl, by rfl, by rfl, ?_⟩
  intro h
  have a : (ConfirmMilestone sampleEnv sampleLedger referencedStore).2.metadata [2] =
      .ok (some { referencedMeta with isNoTransaction := true }) := by rfl
  have b : referencedStore [2] = .ok (some referencedMeta) := by rfl
  rw [a, b] at h
  simp [referencedMeta] at h

/-- C10, amended: with the default check/set functions, for every message whose
metadata record was already referenced before the call, the record is still
there after the call with referenced flag, referenced index, cone root indexes
(and solidity) unchanged; `is_no_transaction` is unchanged unless the message is
listed in `MessagesExcludedWithoutTransactions`, `conflict` is unchanged unless
it is listed in `MessagesExcludedWithConflictingTransactions`; so the whole
record is unchanged for a message in neither of these two lists. -/
theorem referenced_records_keep_reference (env : Env) (L : Ledger) (M : MetaStore)
    (message : Message) (ms : Milestone) (mutations : WhiteFlagMutations)
    (hc : env.checkMessageReferencedFunc = DefaultCheckMessageReferencedFunc)
    (hs : env.setMessageReferencedFunc = DefaultSetMessageReferencedFunc)
    (hmsg : env.cachedMessageFunc env.milestoneMessageID = .ok (some message))
    (hms : message.Milestone = some ms)
    (hwf : env.computeWhiteFlagMutations L M env.networkId ms.Index ms.Timestamp message.parents
      env.lastMilestoneID = .ok mutations)
    (id : MessageID) (m0 : MessageMetadata)
    (h0 : M id = .ok (some m0)) (href : m0.isReferenced = true) :
    ∃ m, (ConfirmMilestone env L M).2.metadata id = .ok (some m) ∧
      m.isReferenced = true ∧ m.referencedIndex = m0.referencedIndex ∧
      m.coneRootIndexes = m0.coneRootIndexes ∧ m.isSolid = m0.isSolid ∧
      (id ∉ mutations.MessagesExcludedWithoutTransactions →
        m.isNoTransaction = m0.isNoTransaction) ∧
      (id ∉ mutations.MessagesExcludedWithConflictingTransactions.map
          MessageWithConflict.MessageID → m.conflict = m0.conflict) ∧
      (id ∉ mutations.MessagesExcludedWithoutTransactions →
        id ∉ mutations.MessagesExcludedWithConflictingTransactions.map
          MessageWithConflict.MessageID → m = m0) := by
  have hsame : (ConfirmMilestone env L M).2.metadata = M →
      ∃ m, (ConfirmMilestone env L M).2.metadata id = .ok (some m) ∧
      m.isReferenced = true ∧ m.referencedIndex = m0.referencedIndex ∧
      m.coneRootIndexes = m0.coneRootIndexes ∧ m.isSolid = m0.isSolid ∧
      (id ∉ mutations.MessagesExcludedWithoutTransactions →
        m.isNoTransaction = m0.isNoTransaction) ∧
      (id ∉ mutations.MessagesExcludedWithConflictingTransactions.map
          MessageWithConflict.MessageID → m.conflict = m0.conflict) ∧
      (id ∉ mutations.MessagesExcludedWithoutTransactions →
        id ∉ mutations.MessagesExcludedWithConflictingTransactions.map
          MessageWithConflict.MessageID → m = m0) := by
    intro h
    exact ⟨m0, by rw [h]; exact h0, href, rfl, rfl, rfl, fun _ => rfl, fun _ => rfl,
      fun _ _ => rfl⟩
  rcases ConfirmMilestone_cases env L M with h | h
  · exact hsame h.2.2.2.2.1
  · obtain ⟨message', ms', msID, mutations', opts, migrated, tm, rt, pre, h1, h2, -, h4, -, -,
      -, -, -, hout⟩ := h
    rw [hmsg] at h1
    simp only [Except.ok.injEq, Option.some.injEq] at h1
    subst h1
    rw [hms] at h2
    simp only [Option.some.injEq] at h2
    subst h2
    rw [hwf] at h4
    simp only [Except.ok.injEq] at h4
    subst h4
    rcases hout with ⟨e, -, -, -, hM, -⟩ | ⟨L', evs, -, -, -, ⟨-, S, hS1, -, hS3⟩, -⟩
    · exact hsame hM
    · obtain ⟨m, k1, k2, k3, k4⟩ := updateMetadata_kept env hc hs ms
        ⟨ms.Index, message.messageID, mutations⟩ S id m0 (by rw [hS1]; exact h0) href
      rw [← hS3] at k1
      refine ⟨m, k1, k2.1, k2.2.1, k2.2.2.1, k2.2.2.2, k3, k4, ?_⟩
      intro hn hcf
      have e1 := k3 hn
      have e2 := k4 hcf
      obtain ⟨r1, r2, r3, r4⟩ := k2
      cases m; cases m0
      simp only [MessageMetadata.mk.injEq]
      simp only at r1 r2 r3 r4 e1 e2 href
      exact ⟨r4, by rw [r1, href], r2, r3, e2, e1⟩

/-- Witness for C10 (amended): the sample run against the store in which `[2]`
and `[3]` are already referenced; the record of `[2]` keeps its reference to
milestone 7 and, not being listed as conflicting, its conflict. -/
theorem referenced_records_keep_reference_witness :
    ∃ m, (ConfirmMilestone sampleEnv sampleLedger referencedStore).2.metadata [2]
        = .ok (some m) ∧
      m.isReferenced = true ∧ m.referencedIndex = referencedMeta.referencedIndex ∧
      m.coneRootIndexes = referencedMeta.coneRootIndexes ∧
      m.conflict = referencedMeta.conflict :=
  have ⟨m, h1, h2, h3, h4, _, _, h7, _⟩ :=
    referenced_records_keep_reference sampleEnv sampleLedger referencedStore sampleMessage
      sampleMilestone sampleMutations rfl rfl rfl rfl rfl [2] referencedMeta rfl rfl
  ⟨m, h1, h2, h3, h4, h7 (by decide)⟩

/-! ## Runs that get as far as the metadata phase -/

/-- The receipt branch, recomputed from what it established. -/
theorem processReceipt_of_outcome (env : Env) (message : Message) (ms : Milestone)
    (msID : MilestoneID) (opts : MilestoneOptSet) (s : Sys) (migrated : List Output)
    (tm : Option TreasuryMutationTuple) (rt : Option ReceiptTuple)
    (h : ReceiptOutcome env s.ledger message ms msID opts migrated tm rt) :
    processReceipt env message ms msID opts s =
      (.ok (migrated, tm, rt), s.emits (receiptEvents env ms opts)) := by
  rcases h with ⟨hr, hm, htm, hrt⟩ | ⟨r, t, tm', hr, hrt, htm, htr, hval, hout, hmk, hcb⟩
  · subst hm htm hrt
    simp [processReceipt, receiptEvents, hr, Sys.emits]
  · subst hrt htm
    have hled : ∀ e, (s.emit e).ledger = s.ledger := fun _ => rfl
    rcases hon : env.onReceipt with _ | cb
    · simp [processReceipt, convertReceipt, receiptEvents, hr, hon, htr, hval, hout, hmk,
        Sys.emit, Sys.emits]
    · have := hcb cb hon
      simp [processReceipt, convertReceipt, receiptEvents, hr, hon, htr, hval, hout, hmk,
        Sys.emit, Sys.emits, this]

/-- A run whose collaborators all succeed up to and including the ledger apply
is the metadata phase started in `stateAfterApply`, followed by unlock and
release. -/
theorem ConfirmMilestone_eq_of_applied (env : Env) (L : Ledger) (M : MetaStore)
    (message : Message) (ms : Milestone) (msID : MilestoneID) (mutations : WhiteFlagMutations)
    (opts : MilestoneOptSet) (migrated : List Output) (tm : Option TreasuryMutationTuple)
    (rt : Option ReceiptTuple) (L' : Ledger)
    (hmsg : env.cachedMessageFunc env.milestoneMessageID = .ok (some message))
    (hms : message.Milestone = some ms)
    (hid : env.milestoneID ms = .ok msID)
    (hwf : env.computeWhiteFlagMutations L M env.networkId ms.Index ms.Timestamp message.parents
      env.lastMilestoneID = .ok mutations)
    (hc : mutations.ConfirmedMerkleRoot = ms.ConfirmedMerkleRoot)
    (ha : mutations.AppliedMerkleRoot = ms.AppliedMerkleRoot)
    (hopts : env.optsSet ms.Opts = .ok opts)
    (hrec : ReceiptOutcome env L message ms msID opts migrated tm rt)
    (happly : env.applyConfirmationWithoutLocking L ms.Index
      (mutations.NewOutputs.map Prod.snd ++ migrated) (mutations.NewSpents.map Prod.snd) tm rt
      = .ok L') :
    ConfirmMilestone env L M =
      ((updateMetadata env ms ⟨ms.Index, message.messageID, mutations⟩
          (stateAfterApply env M message ms opts (mutations.NewOutputs.map Prod.snd ++ migrated)
            (mutations.NewSpents.map Prod.snd) tm rt L')).1,
       ((updateMetadata env ms ⟨ms.Index, message.messageID, mutations⟩
          (stateAfterApply env M message ms opts (mutations.NewOutputs.map Prod.snd ++ migrated)
            (mutations.NewSpents.map Prod.snd) tm rt L')).2.emit Event.writeUnlockLedger).emit
          (Event.releaseMessage message.messageID)) := by
  have hp := processReceipt_of_outcome env message ms msID opts
    (Sys.emit (Sys.emit (Sys.emit { ledger := L, metadata := M, trace := [] }
      (Event.cachedMessageFunc env.milestoneMessageID)) Event.writeLockLedger)
      (Event.computeWhiteFlagMutations env.networkId ms.Index ms.Timestamp message.parents
        env.lastMilestoneID)) migrated tm rt hrec
  have hS : notifyLedger env ms.Index (mutations.NewOutputs.map Prod.snd ++ migrated)
      (mutations.NewSpents.map Prod.snd) tm
      { ledger := L', metadata := M,
        trace := [Event.cachedMessageFunc env.milestoneMessageID, Event.writeLockLedger,
          Event.computeWhiteFlagMutations env.networkId ms.Index ms.Timestamp message.parents
            env.lastMilestoneID]
        ++ receiptEvents env ms opts
        ++ [Event.applyConfirmationWithoutLocking ms.Index
            (mutations.NewOutputs.map Prod.snd ++ migrated)
            (mutations.NewSpents.map Prod.snd) tm rt] }
      = stateAfterApply env M message ms opts (mutations.NewOutputs.map Prod.snd ++ migrated)
            (mutations.NewSpents.map Prod.snd) tm rt L' := by
    rw [notifyLedger_eq]
    simp [Sys.emits, stateAfterApply]
  rw [← hS]
  simp only [ConfirmMilestone, confirmLocked, hmsg, hms, hid]
  simp only [Sys.emit] at hp ⊢
  simp only [hwf, hc, ha, ne_eq, not_true_eq_false, ↓reduceIte, applyAndNotify, hopts, hp,
    Sys.emits, Sys.emit, happly]
  simp

/-! ## The metadata phase as one walk over the listed messages -/

theorem confirmLoop_eq_entriesLoop (env : Env) (cat : Category) (idx : Index) (ts : Nat) :
    ∀ (l : List MessageWithConflict) (s : Sys) (stats : ConfirmedMilestoneStats),
      confirmLoop env cat idx ts l s stats =
        entriesLoop env idx ts (l.map (fun m => (cat, m))) s stats := by
  intro l
  induction l with
  | nil => intro s stats; rfl
  | cons m rest ih =>
      intro s stats
      simp only [confirmLoop, List.map_cons, entriesLoop]
      rcases forMessageMetadataWithMessageID s stats m.MessageID
        (closure env cat idx ts m.MessageID m.Conflict) with ⟨o, s1, stats1⟩
      cases o with
      | some e => rfl
      | none => exact ih s1 stats1

theorem entriesLoop_append (env : Env) (idx : Index) (ts : Nat) :
    ∀ (a b : List (Category × MessageWithConflict)) (s : Sys)
      (stats : ConfirmedMilestoneStats),
      entriesLoop env idx ts (a ++ b) s stats =
        match entriesLoop env idx ts a s stats with
        | (some e, s1, stats1) => (some e, s1, stats1)
        | (none, s1, stats1) => entriesLoop env idx ts b s1 stats1 := by
  intro a
  induction a with
  | nil => intro b s stats; rfl
  | cons x rest ih =>
      intro b s stats
      obtain ⟨cat, m⟩ := x
      simp only [List.cons_append, entriesLoop]
      rcases forMessageMetadataWithMessageID s stats m.MessageID
        (closure env cat idx ts m.MessageID m.Conflict) with ⟨o, s1, stats1⟩
      cases o with
      | some e => rfl
      | none => exact ih b s1 stats1

/-- The metadata phase is the walk over `entries`, then `onMilestoneConfirmed`. -/
theorem updateMetadata_eq_entriesLoop (env : Env) (ms : Milestone) (c : Confirmation)
    (s : Sys) :
    updateMetadata env ms c s =
      match entriesLoop env ms.Index ms.Timestamp c.Mutations.entries s
          ⟨ms.Index, 0, 0, 0, 0, 0⟩ with
      | (some e, s1, _) => (Ret.fail e, s1)
      | (none, s1, stats1) =>
          (⟨some stats1, some {}, none⟩,
            if env.onMilestoneConfirmed = true then s1.emit (Event.onMilestoneConfirmed c)
            else s1) := by
  simp only [updateMetadata, WhiteFlagMutations.entries, entriesLoop_append,
    confirmLoop_eq_entriesLoop, List.map_map]
  have e1 : (fun m => (Category.includedWithTransactions, m)) ∘ plain
      = fun id => (Category.includedWithTransactions, plain id) := rfl
  have e2 : (fun m => (Category.excludedWithoutTransactions, m)) ∘ plain
      = fun id => (Category.excludedWithoutTransactions, plain id) := rfl
  rw [e1, e2]
  rcases entriesLoop env ms.Index ms.Timestamp
    (c.Mutations.MessagesIncludedWithTransactions.map
      (fun id => (Category.includedWithTransactions, plain id))) s ⟨ms.Index, 0, 0, 0, 0, 0⟩
    with ⟨o1, s1, st1⟩
  cases o1 with
  | some e => rfl
  | none =>
    simp only
    rcases entriesLoop env ms.Index ms.Timestamp
      (c.Mutations.MessagesExcludedWithoutTransactions.map
        (fun id => (Category.excludedWithoutTransactions, plain id))) s1 st1
      with ⟨o2, s2, st2⟩
    cases o2 with
    | some e => rfl
    | none => simp only

/-- One step of the walk on a message whose metadata record is found. -/
theorem entriesLoop_cons_found (env : Env) (idx : Index) (ts : Nat) (cat : Category)
    (m : MessageWithConflict) (rest : List (Category × MessageWithConflict)) (s : Sys)
    (stats : ConfirmedMilestoneStats) (meta : MessageMetadata)
    (h : s.metadata m.MessageID = .ok (some meta)) :
    entriesLoop env idx ts ((cat, m) :: rest) s stats =
      entriesLoop env idx ts rest
        { ledger := s.ledger,
          metadata := fun j => if j = m.MessageID then
              .ok (some (closure env cat idx ts m.MessageID m.Conflict meta stats).1)
            else s.metadata j,
          trace := s.trace ++ ([Event.cachedMessageMetadata m.MessageID]
            ++ (closure env cat idx ts m.MessageID m.Conflict meta stats).2.2
            ++ [Event.releaseMetadata m.MessageID]) }
        (closure env cat idx ts m.MessageID m.Conflict meta stats).2.1 := by
  have hm : (s.emit (Event.cachedMessageMetadata m.MessageID)).metadata = s.metadata := rfl
  simp [entriesLoop, forMessageMetadataWithMessageID, hm, h, Sys.emit, Sys.emits, Sys.setMeta]

/-- One step of the walk on a message whose metadata record is not found: the
walk stops with an error after the lookup. -/
theorem entriesLoop_cons_not_found (env : Env) (idx : Index) (ts : Nat) (cat : Category)
    (m : MessageWithConflict) (rest : List (Category × MessageWithConflict)) (s : Sys)
    (stats : ConfirmedMilestoneStats)
    (h : ∀ meta, s.metadata m.MessageID ≠ .ok (some meta)) :
    ∃ e, entriesLoop env idx ts ((cat, m) :: rest) s stats =
      (some e, { ledger := s.ledger, metadata := s.metadata,
                 trace := s.trace ++ [Event.cachedMessageMetadata m.MessageID] }, stats) := by
  have hm : (s.emit (Event.cachedMessageMetadata m.MessageID)).metadata = s.metadata := rfl
  rcases hmeta : s.metadata m.MessageID with e | _ | meta
  · exact ⟨Error.wrapf "confirmMilestone: get message failed: %v, Error: %w"
      [FmtArg.toHex m.MessageID] e,
      by simp [entriesLoop, forMessageMetadataWithMessageID, hm, hmeta, Sys.emit]⟩
  · exact ⟨Error.errorf "confirmMilestone: message not found: %v" [FmtArg.toHex m.MessageID],
      by simp [entriesLoop, forMessageMetadataWithMessageID, hm, hmeta, Sys.emit]⟩
  · exact absurd hmeta (h meta)

/-- The calls of the walk: the trace only grows; every new call is a lookup or a
release of a listed message or a call made by the closure of a listed message;
and after a walk without error the closure of every listed message has run. -/
theorem entriesLoop_trace (env : Env) (idx : Index) (ts : Nat) :
    ∀ (es : List (Category × MessageWithConflict)) (s : Sys)
      (stats : ConfirmedMilestoneStats),
      (entriesLoop env idx ts es s stats).2.1.ledger = s.ledger ∧
      ∃ evs, (entriesLoop env idx ts es s stats).2.1.trace = s.trace ++ evs ∧
        (∀ e ∈ evs, ∃ cat m, (cat, m) ∈ es ∧
          (e = Event.cachedMessageMetadata m.MessageID ∨
           e = Event.releaseMetadata m.MessageID ∨
           ∃ meta st, e ∈ (closure env cat idx ts m.MessageID m.Conflict meta st).2.2)) ∧
        ((entriesLoop env idx ts es s stats).1 = none →
          ∀ cat m, (cat, m) ∈ es → ∃ meta st,
            ∀ e ∈ (closure env cat idx ts m.MessageID m.Conflict meta st).2.2, e ∈ evs) := by
  intro es
  induction es with
  | nil =>
      intro s stats
      exact ⟨rfl, [], by simp [entriesLoop], by simp, by simp⟩
  | cons x rest ih =>
      intro s stats
      obtain ⟨cat, m⟩ := x
      by_cases hf : ∃ meta, s.metadata m.MessageID = .ok (some meta)
      · obtain ⟨meta, hmeta⟩ := hf
        rw [entriesLoop_cons_found env idx ts cat m rest s stats meta hmeta]
        obtain ⟨hl, evs, htr, hsound, hcompl⟩ := ih
          { ledger := s.ledger,
            metadata := fun j => if j = m.MessageID then
                .ok (some (closure env cat idx ts m.MessageID m.Conflict meta stats).1)
              else s.metadata j,
            trace := s.trace ++ ([Event.cachedMessageMetadata m.MessageID]
              ++ (closure env cat idx ts m.MessageID m.Conflict meta stats).2.2
              ++ [Event.releaseMetadata m.MessageID]) }
          (closure env cat idx ts m.MessageID m.Conflict meta stats).2.1
        refine ⟨hl, ([Event.cachedMessageMetadata m.MessageID]
              ++ (closure env cat idx ts m.MessageID m.Conflict meta stats).2.2
              ++ [Event.releaseMetadata m.MessageID]) ++ evs, ?_, ?_, ?_⟩
        · rw [htr]; simp
        · intro e he
          rcases List.mem_append.mp he with h | h
          · refine ⟨cat, m, List.mem_cons_self _ _, ?_⟩
            simp only [List.mem_append, List.mem_singleton] at h
            rcases h with (h | h) | h
            · exact Or.inl h
            · exact Or.inr (Or.inr ⟨meta, stats, h⟩)
            · exact Or.inr (Or.inl h)
          · obtain ⟨cat', m', hmem, hrest⟩ := hsound e h
            exact ⟨cat', m', List.mem_cons_of_mem _ hmem, hrest⟩
        · intro hok cat' m' hmem
          rcases List.mem_cons.mp hmem with h | h
          · simp only [Prod.mk.injEq] at h
            obtain ⟨h1, h2⟩ := h
            subst h1 h2
            exact ⟨meta, stats, fun e he => by simp [he]⟩
          · obtain ⟨meta', st', hall⟩ := hcompl hok cat' m' h
            exact ⟨meta', st', fun e he => List.mem_append_right _ (hall e he)⟩
      · have hnf : ∀ meta, s.metadata m.MessageID ≠ .ok (some meta) :=
          fun meta h => hf ⟨meta, h⟩
        obtain ⟨e, heq⟩ := entriesLoop_cons_not_found env idx ts cat m rest s stats hnf
        rw [heq]
        refine ⟨rfl, [Event.cachedMessageMetadata m.MessageID], rfl, ?_, ?_⟩
        · intro e' he'
          simp only [List.mem_singleton] at he'
          exact ⟨cat, m, List.mem_cons_self _ _, Or.inl he'⟩
        · intro h; simp at h

/-- The metadata store along the walk, for any relation `R` between the records
of a message that is reflexive, transitive and respected by every closure call
of the walk: found records stay found and are related to what they were,
other entries are untouched, and after a walk without error every listed
message had a record, on which its closure ran. -/
theorem entriesLoop_store (env : Env) (idx : Index) (ts : Nat)
    (R : MessageID → MessageMetadata → MessageMetadata → Prop)
    (hrefl : ∀ j a, R j a a) (htrans : ∀ j a b c, R j a b → R j b c → R j a c) :
    ∀ (es : List (Category × MessageWithConflict)) (s : Sys)
      (stats : ConfirmedMilestoneStats),
      (∀ cat m, (cat, m) ∈ es → ∀ meta st,
        R m.MessageID meta (closure env cat idx ts m.MessageID m.Conflict meta st).1) →
      (∀ j m0, s.metadata j = .ok (some m0) →
        ∃ m', (entriesLoop env idx ts es s stats).2.1.metadata j = .ok (some m') ∧ R j m0 m') ∧
      (∀ j, (∀ m0, s.metadata j ≠ .ok (some m0)) →
        (entriesLoop env idx ts es s stats).2.1.metadata j = s.metadata j) ∧
      ((entriesLoop env idx ts es s stats).1 = none →
        ∀ cat m, (cat, m) ∈ es → ∃ m0 meta st m',
          s.metadata m.MessageID = .ok (some m0) ∧ R m.MessageID m0 meta ∧
          (entriesLoop env idx ts es s stats).2.1.metadata m.MessageID = .ok (some m') ∧
          R m.MessageID (closure env cat idx ts m.MessageID m.Conflict meta st).1 m') := by
  intro es
  induction es with
  | nil =>
      intro s stats _
      exact ⟨fun j m0 h => ⟨m0, h, hrefl j m0⟩, fun j _ => rfl, by simp⟩
  | cons x rest ih =>
      intro s stats hR
      obtain ⟨cat, m⟩ := x
      have hRrest : ∀ cat' m', (cat', m') ∈ rest → ∀ meta st,
          R m'.MessageID meta (closure env cat' idx ts m'.MessageID m'.Conflict meta st).1 :=
        fun cat' m' h => hR cat' m' (List.mem_cons_of_mem _ h)
      by_cases hf : ∃ meta, s.metadata m.MessageID = .ok (some meta)
      · obtain ⟨meta, hmeta⟩ := hf
        rw [entriesLoop_cons_found env idx ts cat m rest s stats meta hmeta]
        obtain ⟨i1, i2, i3⟩ := ih
          { ledger := s.ledger,
            metadata := fun j => if j = m.MessageID then
                .ok (some (closure env cat idx ts m.MessageID m.Conflict meta stats).1)
              else s.metadata j,
            trace := s.trace ++ ([Event.cachedMessageMetadata m.MessageID]
              ++ (closure env cat idx ts m.MessageID m.Conflict meta stats).2.2
              ++ [Event.releaseMetadata m.MessageID]) }
          (closure env cat idx ts m.MessageID m.Conflict meta stats).2.1 hRrest
        have hstep := hR cat m (List.mem_cons_self _ _) meta stats
        refine ⟨?_, ?_, ?_⟩
        · intro j m0 hj
          by_cases hjm : j = m.MessageID
          · subst hjm
            rw [hmeta] at hj
            simp only [Except.ok.injEq, Option.some.injEq] at hj
            subst hj
            obtain ⟨m', h1, h2⟩ := i1 m.MessageID
              (closure env cat idx ts m.MessageID m.Conflict meta stats).1 (by simp)
            exact ⟨m', h1, htrans _ _ _ _ hstep h2⟩
          · exact i1 j m0 (by simp [hjm, hj])
        · intro j hj
          have hjm : j ≠ m.MessageID := by
            intro h; subst h; exact hj meta hmeta
          rw [i2 j (by simp only [hjm, if_false]; exact hj)]
          simp [hjm]
        · intro hok cat' m' hmem
          rcases List.mem_cons.mp hmem with h | h
          · simp only [Prod.mk.injEq] at h
            obtain ⟨h1, h2⟩ := h
            subst h1 h2
            obtain ⟨m'', k1, k2⟩ := i1 m'.MessageID
              (closure env cat' idx ts m'.MessageID m'.Conflict meta stats).1 (by simp)
            exact ⟨meta, meta, stats, m'', hmeta, hrefl _ _, k1, k2⟩
          · obtain ⟨m0, meta', st', m'', k1, k2, k3, k4⟩ := i3 hok cat' m' h
            by_cases hjm : m'.MessageID = m.MessageID
            · rw [hjm] at k1 k2 k3 k4 ⊢
              simp only [if_true, Except.ok.injEq, Option.some.injEq] at k1
              subst k1
              exact ⟨meta, meta', st', m'', hmeta, htrans _ _ _ _ hstep k2, k3, k4⟩
            · simp only [hjm, if_false] at k1
              exact ⟨m0, meta', st', m'', k1, k2, k3, k4⟩
      · have hnf : ∀ meta, s.metadata m.MessageID ≠ .ok (some meta) :=
          fun meta h => hf ⟨meta, h⟩
        obtain ⟨e, heq⟩ := entriesLoop_cons_not_found env idx ts cat m rest s stats hnf
        rw [heq]
        exact ⟨fun j m0 h => ⟨m0, h, hrefl j m0⟩, fun j _ => rfl, fun h => by simp at h⟩

/-- The walk ends without error exactly when every listed message has a metadata
record at the start. -/
theorem entriesLoop_success_iff (env : Env) (idx : Index) (ts : Nat) :
    ∀ (es : List (Category × MessageWithConflict)) (s : Sys)
      (stats : ConfirmedMilestoneStats),
      (entriesLoop env idx ts es s stats).1 = none ↔
        ∀ cat m, (cat, m) ∈ es → ∃ m0, s.metadata m.MessageID = .ok (some m0) := by
  intro es
  induction es with
  | nil => intro s stats; simp [entriesLoop]
  | cons x rest ih =>
      intro s stats
      obtain ⟨cat, m⟩ := x
      by_cases hf : ∃ meta, s.metadata m.MessageID = .ok (some meta)
      · obtain ⟨meta, hmeta⟩ := hf
        rw [entriesLoop_cons_found env idx ts cat m rest s stats meta hmeta, ih]
        constructor
        · intro h cat' m' hmem
          rcases List.mem_cons.mp hmem with h' | h'
          · simp only [Prod.mk.injEq] at h'
            rw [h'.2]; exact ⟨meta, hmeta⟩
          · obtain ⟨m0, hm0⟩ := h cat' m' h'
            by_cases hjm : m'.MessageID = m.MessageID
            · rw [hjm]; exact ⟨meta, hmeta⟩
            · simp only [hjm, if_false] at hm0
              exact ⟨m0, hm0⟩
        · intro h cat' m' hmem
          obtain ⟨m0, hm0⟩ := h cat' m' (List.mem_cons_of_mem _ hmem)
          by_cases hjm : m'.MessageID = m.MessageID
          · exact ⟨(closure env cat idx ts m.MessageID m.Conflict meta stats).1, by simp [hjm]⟩
          · exact ⟨m0, by simp [hjm, hm0]⟩
      · have hnf : ∀ meta, s.metadata m.MessageID ≠ .ok (some meta) :=
          fun meta h => hf ⟨meta, h⟩
        obtain ⟨e, heq⟩ := entriesLoop_cons_not_found env idx ts cat m rest s stats hnf
        rw [heq]
        constructor
        · intro h; simp at h
        · intro h
          exact absurd (h cat m (List.mem_cons_self _ _)) hf

/-- Result, metadata, trace and statistics of the metadata phase in terms of the
walk. -/
theorem updateMetadata_via_walk (env : Env) (ms : Milestone) (c : Confirmation) (s : Sys) :
    (updateMetadata env ms c s).2.metadata =
      (entriesLoop env ms.Index ms.Timestamp c.Mutations.entries s
        ⟨ms.Index, 0, 0, 0, 0, 0⟩).2.1.metadata ∧
    ((updateMetadata env ms c s).1.err = none ↔
      (entriesLoop env ms.Index ms.Timestamp c.Mutations.entries s
        ⟨ms.Index, 0, 0, 0, 0, 0⟩).1 = none) ∧
    (updateMetadata env ms c s).2.trace =
      (entriesLoop env ms.Index ms.Timestamp c.Mutations.entries s
        ⟨ms.Index, 0, 0, 0, 0, 0⟩).2.1.trace ++
      (if (updateMetadata env ms c s).1.err = none ∧ env.onMilestoneConfirmed = true
        then [Event.onMilestoneConfirmed c] else []) ∧
    ((updateMetadata env ms c s).1.err = none →
      (updateMetadata env ms c s).1.stats =
        some (entriesLoop env ms.Index ms.Timestamp c.Mutations.entries s
          ⟨ms.Index, 0, 0, 0, 0, 0⟩).2.2) := by
  rw [updateMetadata_eq_entriesLoop]
  rcases entriesLoop env ms.Index ms.Timestamp c.Mutations.entries s
    ⟨ms.Index, 0, 0, 0, 0, 0⟩ with ⟨o, s1, st1⟩
  cases o with
  | some e => simp [Ret.fail]
  | none =>
      by_cases h : env.onMilestoneConfirmed = true
      · simp [h, Sys.emit]
      · simp [h]

/-- A run in which the ledger apply succeeded, in terms of the walk started in
`stateAfterApply`: final metadata, success, trace and statistics. -/
theorem ConfirmMilestone_applied_walk (env : Env) (L : Ledger) (M : MetaStore)
    (message : Message) (ms : Milestone) (msID : MilestoneID) (mutations : WhiteFlagMutations)
    (opts : MilestoneOptSet) (migrated : List Output) (tm : Option TreasuryMutationTuple)
    (rt : Option ReceiptTuple) (L' : Ledger)
    (hmsg : env.cachedMessageFunc env.milestoneMessageID = .ok (some message))
    (hms : message.Milestone = some ms)
    (hid : env.milestoneID ms = .ok msID)
    (hwf : env.computeWhiteFlagMutations L M env.networkId ms.Index ms.Timestamp message.parents
      env.lastMilestoneID = .ok mutations)
    (hc : mutations.ConfirmedMerkleRoot = ms.ConfirmedMerkleRoot)
    (ha : mutations.AppliedMerkleRoot = ms.AppliedMerkleRoot)
    (hopts : env.optsSet ms.Opts = .ok opts)
    (hrec : ReceiptOutcome env L message ms msID opts migrated tm rt)
    (happly : env.applyConfirmationWithoutLocking L ms.Index
      (mutations.NewOutputs.map Prod.snd ++ migrated) (mutations.NewSpents.map Prod.snd) tm rt
      = .ok L') :
    (ConfirmMilestone env L M).2.ledger = L' ∧
    (ConfirmMilestone env L M).2.metadata =
      (entriesLoop env ms.Index ms.Timestamp mutations.entries
        (stateAfterApply env M message ms opts (mutations.NewOutputs.map Prod.snd ++ migrated)
          (mutations.NewSpents.map Prod.snd) tm rt L') ⟨ms.Index, 0, 0, 0, 0, 0⟩).2.1.metadata ∧
    ((ConfirmMilestone env L M).1.err = none ↔
      (entriesLoop env ms.Index ms.Timestamp mutations.entries
        (stateAfterApply env M message ms opts (mutations.NewOutputs.map Prod.snd ++ migrated)
          (mutations.NewSpents.map Prod.snd) tm rt L') ⟨ms.Index, 0, 0, 0, 0, 0⟩).1 = none) ∧
    (ConfirmMilestone env L M).2.trace =
      (entriesLoop env ms.Index ms.Timestamp mutations.entries
        (stateAfterApply env M message ms opts (mutations.NewOutputs.map Prod.snd ++ migrated)
          (mutations.NewSpents.map Prod.snd) tm rt L') ⟨ms.Index, 0, 0, 0, 0, 0⟩).2.1.trace ++
      (if (ConfirmMilestone env L M).1.err = none ∧ env.onMilestoneConfirmed = true
        then [Event.onMilestoneConfirmed ⟨ms.Index, message.messageID, mutations⟩] else []) ++
      [Event.writeUnlockLedger, Event.releaseMessage message.messageID] ∧
    ((ConfirmMilestone env L M).1.err = none →
      (ConfirmMilestone env L M).1.stats =
        some (entriesLoop env ms.Index ms.Timestamp mutations.entries
          (stateAfterApply env M message ms opts (mutations.NewOutputs.map Prod.snd ++ migrated)
            (mutations.NewSpents.map Prod.snd) tm rt L') ⟨ms.Index, 0, 0, 0, 0, 0⟩).2.2) := by
  have heq := ConfirmMilestone_eq_of_applied env L M message ms msID mutations opts migrated tm
    rt L' hmsg hms hid hwf hc ha hopts hrec happly
  obtain ⟨w1, w2, w3, w4⟩ := updateMetadata_via_walk env ms
    ⟨ms.Index, message.messageID, mutations⟩
    (stateAfterApply env M message ms opts (mutations.NewOutputs.map Prod.snd ++ migrated)
      (mutations.NewSpents.map Prod.snd) tm rt L')
  obtain ⟨hl, -, -⟩ := updateMetadata_frame env ms ⟨ms.Index, message.messageID, mutations⟩
    (stateAfterApply env M message ms opts (mutations.NewOutputs.map Prod.snd ++ migrated)
      (mutations.NewSpents.map Prod.snd) tm rt L')
  rw [heq]
  refine ⟨?_, ?_, ?_, ?_, ?_⟩
  · simp only [Sys.emit]; rw [hl]; rfl
  · simp only [Sys.emit]; exact w1
  · exact w2
  · simp only [Sys.emit]; rw [w3]; simp
  · exact w4

/-! ## Membership in the walk -/

theorem entries_mem_iff (mu : WhiteFlagMutations) (cat : Category) (m : MessageWithConflict) :
    (cat, m) ∈ mu.entries ↔
      (cat = .includedWithTransactions ∧ m.Conflict = Conflict.none ∧
        m.MessageID ∈ mu.MessagesIncludedWithTransactions) ∨
      (cat = .excludedWithoutTransactions ∧ m.Conflict = Conflict.none ∧
        m.MessageID ∈ mu.MessagesExcludedWithoutTransactions) ∨
      (cat = .excludedWithConflictingTransactions ∧
        m ∈ mu.MessagesExcludedWithConflictingTransactions) := by
  simp only [WhiteFlagMutations.entries, List.mem_append, List.mem_map, Prod.mk.injEq, plain]
  constructor
  · rintro ((⟨id, h1, h2, h3⟩ | ⟨id, h1, h2, h3⟩) | ⟨m', h1, h2, h3⟩)
    · subst h3; exact Or.inl ⟨h2.symm, rfl, h1⟩
    · subst h3; exact Or.inr (Or.inl ⟨h2.symm, rfl, h1⟩)
    · subst h3; exact Or.inr (Or.inr ⟨h2.symm, h1⟩)
  · rintro (⟨h1, h2, h3⟩ | ⟨h1, h2, h3⟩ | ⟨h1, h2⟩)
    · refine Or.inl (Or.inl ⟨m.MessageID, h3, h1.symm, ?_⟩)
      cases m; simp only at h2; subst h2; rfl
    · refine Or.inl (Or.inr ⟨m.MessageID, h3, h1.symm, ?_⟩)
      cases m; simp only at h2; subst h2; rfl
    · exact Or.inr ⟨m, h2, h1.symm, rfl⟩

theorem entries_id_mem_iff (mu : WhiteFlagMutations) (id : MessageID) :
    (∃ cat m, (cat, m) ∈ mu.entries ∧ m.MessageID = id) ↔
      id ∈ mu.MessagesIncludedWithTransactions ∨
      id ∈ mu.MessagesExcludedWithoutTransactions ∨
      id ∈ mu.MessagesExcludedWithConflictingTransactions.map MessageWithConflict.MessageID := by
  constructor
  · rintro ⟨cat, m, hmem, rfl⟩
    rcases (entries_mem_iff mu cat m).mp hmem with ⟨-, -, h⟩ | ⟨-, -, h⟩ | ⟨-, h⟩
    · exact Or.inl h
    · exact Or.inr (Or.inl h)
    · exact Or.inr (Or.inr (List.mem_map.mpr ⟨m, h, rfl⟩))
  · rintro (h | h | h)
    · exact ⟨.includedWithTransactions, plain id,
        (entries_mem_iff mu _ _).mpr (Or.inl ⟨rfl, rfl, h⟩), rfl⟩
    · exact ⟨.excludedWithoutTransactions, plain id,
        (entries_mem_iff mu _ _).mpr (Or.inr (Or.inl ⟨rfl, rfl, h⟩)), rfl⟩
    · obtain ⟨m, hm, rfl⟩ := List.mem_map.mp h
      exact ⟨.excludedWithConflictingTransactions, m,
        (entries_mem_iff mu _ _).mpr (Or.inr (Or.inr ⟨rfl, hm⟩)), rfl⟩

/-! ## When the confirmation succeeds -/

/-- C14: `ConfirmMilestone` returns a nil error exactly when the milestone
message is found and has a milestone payload whose id can be computed, the
white-flag computation succeeds, both Merkle roots match, the options parse,
the receipt (if any) passes `onReceipt`, validation and conversion, the ledger
apply succeeds, and every message of the three lists has a metadata record.
The condition does not mention the conflicts carried by
`MessagesExcludedWithConflictingTransactions`, only the ids listed there: no
classification makes the confirmation fail. -/
theorem success_iff_collaborators_succeed (env : Env) (L : Ledger) (M : MetaStore) :
    (ConfirmMilestone env L M).1.err = none ↔
      ∃ message ms msID mutations opts migrated tm rt L',
        env.cachedMessageFunc env.milestoneMessageID = .ok (some message) ∧
        message.Milestone = some ms ∧
        env.milestoneID ms = .ok msID ∧
        env.computeWhiteFlagMutations L M env.networkId ms.Index ms.Timestamp message.parents
          env.lastMilestoneID = .ok mutations ∧
        mutations.ConfirmedMerkleRoot = ms.ConfirmedMerkleRoot ∧
        mutations.AppliedMerkleRoot = ms.AppliedMerkleRoot ∧
        env.optsSet ms.Opts = .ok opts ∧
        ReceiptOutcome env L message ms msID opts migrated tm rt ∧
        env.applyConfirmationWithoutLocking L ms.Index
          (mutations.NewOutputs.map Prod.snd ++ migrated) (mutations.NewSpents.map Prod.snd)
          tm rt = .ok L' ∧
        ∀ id, (id ∈ mutations.MessagesIncludedWithTransactions ∨
            id ∈ mutations.MessagesExcludedWithoutTransactions ∨
            id ∈ mutations.MessagesExcludedWithConflictingTransactions.map
              MessageWithConflict.MessageID) →
          ∃ m0, M id = .ok (some m0) := by
  constructor
  · intro hsucc
    rcases ConfirmMilestone_cases env L M with h | h
    · exact absurd hsucc h.1
    · obtain ⟨message, ms, msID, mutations, opts, migrated, tm, rt, pre, h1, h2, h3, h4, h5, h6,
        h7, h8, -, hout⟩ := h
      rcases hout with ⟨e, -, hf, -⟩ | ⟨L', evs, happly, -⟩
      · rw [hf] at hsucc; simp [Ret.fail] at hsucc
      · refine ⟨message, ms, msID, mutations, opts, migrated, tm, rt, L', h1, h2, h3, h4, h5, h6,
          h7, h8, happly, ?_⟩
        obtain ⟨-, -, w, -⟩ := ConfirmMilestone_applied_walk env L M message ms msID mutations
          opts migrated tm rt L' h1 h2 h3 h4 h5 h6 h7 h8 happly
        have hall := (entriesLoop_success_iff env ms.Index ms.Timestamp mutations.entries _ _).mp
          (w.mp hsucc)
        intro id hid
        obtain ⟨cat, m, hmem, rfl⟩ := (entries_id_mem_iff mutations id).mpr hid
        exact hall cat m hmem
  · rintro ⟨message, ms, msID, mutations, opts, migrated, tm, rt, L', h1, h2, h3, h4, h5, h6,
      h7, h8, happly, hfound⟩
    obtain ⟨-, -, w, -⟩ := ConfirmMilestone_applied_walk env L M message ms msID mutations
      opts migrated tm rt L' h1 h2 h3 h4 h5 h6 h7 h8 happly
    refine w.mpr ((entriesLoop_success_iff env ms.Index ms.Timestamp mutations.entries _ _).mpr
      ?_)
    intro cat m hmem
    exact hfound m.MessageID ((entries_id_mem_iff mutations m.MessageID).mp ⟨cat, m, hmem, rfl⟩)

/-! ## Arguments of the white-flag computation -/

theorem isMetadataPhase_not_whiteFlag (e : Event) (h : e.isMetadataPhase = true) :
    e.isWhiteFlag = false := by
  cases e <;> simp_all [Event.isMetadataPhase, Event.isWhiteFlag]

/-- Nothing from line 137 on calls the white-flag computation. -/
theorem applyAndNotify_whiteFlag (env : Env) (message : Message) (ms : Milestone)
    (msID : MilestoneID) (c : Confirmation) (s : Sys) :
    (applyAndNotify env message ms msID c s).2.trace.filter Event.isWhiteFlag =
      s.trace.filter Event.isWhiteFlag := by
  have hrec : ∀ opts, (processReceipt env message ms msID opts s).2.trace.filter
      Event.isWhiteFlag = s.trace.filter Event.isWhiteFlag := by
    intro opts
    unfold processReceipt
    rcases opts.Receipt with _ | r
    · rfl
    · simp only
      rcases env.onReceipt with _ | cb
      · simp only
        rw [(convertReceipt_spec env message ms msID r _ s).1]
        simp [Sys.emit, Event.isWhiteFlag]
      · simp only
        rcases cb { Receipt := r, MilestoneIndex := ms.Index } with _ | e
        · simp only
          rw [(convertReceipt_spec env message ms msID r _ _).1]
          simp [Sys.emit, Event.isWhiteFlag]
        · simp [Sys.emit, Event.isWhiteFlag]
  unfold applyAndNotify
  simp only
  rcases env.optsSet ms.Opts with e | opts
  · rfl
  · simp only
    have hr := hrec opts
    rcases hp : processReceipt env message ms msID opts s with ⟨res, s1⟩
    rw [hp] at hr
    simp only at hr
    rcases res with e | ⟨migrated, tm, rt⟩
    · exact hr
    · simp only
      have hled : ∀ e, (s1.emit e).ledger = s1.ledger := fun _ => rfl
      rw [hled]
      rcases env.applyConfirmationWithoutLocking s1.ledger ms.Index
          (c.Mutations.NewOutputs.map Prod.snd ++ migrated)
          (c.Mutations.NewSpents.map Prod.snd) tm rt with e | L'
      · simp only [Sys.emit, List.filter_append, hr]
        simp [Event.isWhiteFlag]
      · simp only
        obtain ⟨-, -, evs, hevs, htr⟩ := notifyAndUpdate_frame env ms c ms.Index
          (c.Mutations.NewOutputs.map Prod.snd ++ migrated)
          (c.Mutations.NewSpents.map Prod.snd) tm
          { s1.emit (Event.applyConfirmationWithoutLocking ms.Index
                (c.Mutations.NewOutputs.map Prod.snd ++ migrated)
                (c.Mutations.NewSpents.map Prod.snd) tm rt) with ledger := L' }
        rw [htr]
        have hev : evs.filter Event.isWhiteFlag = [] :=
          filter_eq_nil_of_forall hevs isMetadataPhase_not_whiteFlag
        simp only [Sys.emit, List.filter_append, hr, hev]
        cases tm <;> (split_ifs <;> simp [Event.isWhiteFlag])

/-- C15, as stated, fails: in the sample call with `lastMilestoneID = [55]`, the
white-flag computation is invoked with `[55]` as previous milestone id, although
the payload of the milestone being confirmed names `[]`; the fourth argument is
the caller's, not the payload's. -/
theorem white_flag_gets_callers_previous_id :
    (ConfirmMilestone callerEnv sampleLedger sampleStore).2.trace.filter Event.isWhiteFlag =
      [Event.computeWhiteFlagMutations 42 1 100 [[1], [2], [3]] [55]] ∧
    callerEnv.lastMilestoneID = [55] ∧
    sampleMilestone.PreviousMilestoneID = [] ∧
    callerEnv.cachedMessageFunc callerEnv.milestoneMessageID = .ok (some sampleMessage) ∧
    sampleMessage.Milestone = some sampleMilestone := by
  refine ⟨by rfl, by rfl, by rfl, by rfl, by rfl⟩

/-- C15, amended: `ConfirmMilestone` invokes the white-flag computation once,
with the index and the timestamp of the milestone payload, the parents of the
message that carries the payload, and the network id and `lastMilestoneID`
handed in by the caller. -/
theorem white_flag_arguments (env : Env) (L : Ledger) (M : MetaStore) (message : Message)
    (ms : Milestone) (msID : MilestoneID)
    (hmsg : env.cachedMessageFunc env.milestoneMessageID = .ok (some message))
    (hms : message.Milestone = some ms)
    (hid : env.milestoneID ms = .ok msID) :
    (ConfirmMilestone env L M).2.trace.filter Event.isWhiteFlag =
      [Event.computeWhiteFlagMutations env.networkId ms.Index ms.Timestamp message.parents
        env.lastMilestoneID] := by
  simp only [ConfirmMilestone, hmsg, confirmLocked, hms, hid]
  have hL : ∀ (s : Sys) e, (s.emit e).ledger = s.ledger := fun _ _ => rfl
  have hM : ∀ (s : Sys) e, (s.emit e).metadata = s.metadata := fun _ _ => rfl
  simp only [hL, hM]
  rcases env.computeWhiteFlagMutations L M env.networkId ms.Index ms.Timestamp message.parents
    env.lastMilestoneID with e | mutations
  · simp [Sys.emit, Event.isWhiteFlag]
  · simp only
    by_cases hc : mutations.ConfirmedMerkleRoot = ms.ConfirmedMerkleRoot
    · by_cases ha : mutations.AppliedMerkleRoot = ms.AppliedMerkleRoot
      · simp only [hc, ha, ne_eq, not_true_eq_false, ↓reduceIte]
        simp only [Sys.emit, List.filter_append, applyAndNotify_whiteFlag]
        simp [Event.isWhiteFlag]
      · simp [hc, ha, Sys.emit, Event.isWhiteFlag]
    · simp [hc, Sys.emit, Event.isWhiteFlag]

/-- Witness for C15 (amended): the sample call with `lastMilestoneID = [55]`. -/
theorem white_flag_arguments_witness :
    (ConfirmMilestone callerEnv sampleLedger sampleStore).2.trace.filter Event.isWhiteFlag =
      [Event.computeWhiteFlagMutations callerEnv.networkId sampleMilestone.Index
        sampleMilestone.Timestamp sampleMessage.parents callerEnv.lastMilestoneID] :=
  white_flag_arguments callerEnv sampleLedger sampleStore sampleMessage sampleMilestone [77]
    rfl rfl rfl

/-! ## Where metadata-phase calls come from -/

theorem stateAfterApply_trace (env : Env) (M : MetaStore) (message : Message) (ms : Milestone)
    (opts : MilestoneOptSet) (outs : List Output) (spents : List Spent)
    (tm : Option TreasuryMutationTuple) (rt : Option ReceiptTuple) (L' : Ledger) :
    ∀ e ∈ (stateAfterApply env M message ms opts outs spents tm rt L').trace,
      e.isMetadataPhase = false := by
  rcases hr : opts.Receipt with _ | r <;> rcases hon : env.onReceipt with _ | cb <;>
    cases tm <;>
    by_cases h1 : env.onLedgerUpdated = true <;> by_cases h2 : env.onTreasuryMutated = true <;>
    simp [stateAfterApply, receiptEvents, hr, hon, h1, h2, Event.isMetadataPhase]

/-- In every run, a metadata-phase call is a lookup or a release of a listed
message, or a call made by the closure of a listed message. -/
theorem metadataPhase_events_origin (env : Env) (L : Ledger) (M : MetaStore) :
    ∀ e ∈ (ConfirmMilestone env L M).2.trace, e.isMetadataPhase = true →
      ∃ message ms mutations cat m,
        env.cachedMessageFunc env.milestoneMessageID = .ok (some message) ∧
        message.Milestone = some ms ∧
        env.computeWhiteFlagMutations L M env.networkId ms.Index ms.Timestamp message.parents
          env.lastMilestoneID = .ok mutations ∧
        (cat, m) ∈ mutations.entries ∧
        (e = Event.cachedMessageMetadata m.MessageID ∨ e = Event.releaseMetadata m.MessageID ∨
          ∃ meta st,
            e ∈ (closure env cat ms.Index ms.Timestamp m.MessageID m.Conflict meta st).2.2) := by
  intro e he hph
  rcases ConfirmMilestone_cases env L M with h | h
  · obtain ⟨-, -, -, -, -, evs, h6, h7⟩ := h
    rw [h6] at he
    have := (isBeforeApply_excludes e (h7 e (by simpa using he))).2.1
    rw [hph] at this; cases this
  · obtain ⟨message, ms, msID, mutations, opts, migrated, tm, rt, pre, h1, h2, h3, h4, h5, h6,
      h7, h8, h9, hout⟩ := h
    rcases hout with ⟨err, -, -, -, -, htr⟩ | ⟨L', evs, happly, -⟩
    · exfalso
      rw [htr] at he
      simp only [List.mem_append, List.mem_singleton] at he
      rcases he with (h | h) | h
      · have := (isBeforeApply_excludes e (h9 e h)).2.1
        rw [hph] at this; cases this
      · subst h; cases hph
      · have := (isBeforeApply_excludes e (unlock_release_beforeApply _ e h)).2.1
        rw [hph] at this; cases this
    · obtain ⟨-, -, -, wtr, -⟩ := ConfirmMilestone_applied_walk env L M message ms msID
        mutations opts migrated tm rt L' h1 h2 h3 h4 h5 h6 h7 h8 happly
      obtain ⟨-, wevs, wt, wsound, -⟩ := entriesLoop_trace env ms.Index ms.Timestamp
        mutations.entries
        (stateAfterApply env M message ms opts (mutations.NewOutputs.map Prod.snd ++ migrated)
          (mutations.NewSpents.map Prod.snd) tm rt L') ⟨ms.Index, 0, 0, 0, 0, 0⟩
      rw [wtr, wt] at he
      simp only [List.mem_append] at he
      rcases he with ((h | h) | h) | h
      · have := stateAfterApply_trace env M message ms opts _ _ tm rt L' e h
        rw [hph] at this; cases this
      · obtain ⟨cat, m, hmem, hor⟩ := wsound e h
        exact ⟨message, ms, mutations, cat, m, h1, h2, h4, hmem, hor⟩
      · exfalso
        split_ifs at h
        · simp only [List.mem_singleton] at h
          subst h; cases hph
        · simp at h
      · exfalso
        have := (isBeforeApply_excludes e (unlock_release_beforeApply _ e h)).2.1
        rw [hph] at this; cases this

/-- After a successful run the closure of every listed message has run: all its
calls are in the trace. -/
theorem closure_calls_in_trace (env : Env) (L : Ledger) (M : MetaStore) (message : Message)
    (ms : Milestone) (mutations : WhiteFlagMutations)
    (hmsg : env.cachedMessageFunc env.milestoneMessageID = .ok (some message))
    (hms : message.Milestone = some ms)
    (hwf : env.computeWhiteFlagMutations L M env.networkId ms.Index ms.Timestamp message.parents
      env.lastMilestoneID = .ok mutations)
    (hsucc : (ConfirmMilestone env L M).1.err = none) :
    ∀ cat m, (cat, m) ∈ mutations.entries → ∃ meta st,
      ∀ e ∈ (closure env cat ms.Index ms.Timestamp m.MessageID m.Conflict meta st).2.2,
        e ∈ (ConfirmMilestone env L M).2.trace := by
  rcases ConfirmMilestone_cases env L M with h | h
  · exact absurd hsucc h.1
  · obtain ⟨message', ms', msID, mutations', opts, migrated, tm, rt, pre, h1, h2, h3, h4, h5, h6,
      h7, h8, -, hout⟩ := h
    rw [hmsg] at h1
    simp only [Except.ok.injEq, Option.some.injEq] at h1
    subst h1
    rw [hms] at h2
    simp only [Option.some.injEq] at h2
    subst h2
    rw [hwf] at h4
    simp only [Except.ok.injEq] at h4
    subst h4
    rcases hout with ⟨e, -, hf, -⟩ | ⟨L', evs, happly, -⟩
    · rw [hf] at hsucc; simp [Ret.fail] at hsucc
    · obtain ⟨-, -, w, wtr, -⟩ := ConfirmMilestone_applied_walk env L M message ms msID
        mutations opts migrated tm rt L' hmsg hms h3 hwf h5 h6 h7 h8 happly
      obtain ⟨-, wevs, wt, -, wcompl⟩ := entriesLoop_trace env ms.Index ms.Timestamp
        mutations.entries
        (stateAfterApply env M message ms opts (mutations.NewOutputs.map Prod.snd ++ migrated)
          (mutations.NewSpents.map Prod.snd) tm rt L') ⟨ms.Index, 0, 0, 0, 0, 0⟩
      intro cat m hmem
      obtain ⟨meta, st, hall⟩ := wcompl (w.mp hsucc) cat m hmem
      refine ⟨meta, st, fun e he => ?_⟩
      rw [wtr, wt]
      simp only [List.mem_append]
      exact Or.inl (Or.inl (Or.inr (hall e he)))

/-- The final metadata of a run, for any relation `R` between the records of a
message that is reflexive, transitive and respected by every closure call on a
listed message. -/
theorem final_metadata_related (env : Env) (L : Ledger) (M : MetaStore) (message : Message)
    (ms : Milestone) (mutations : WhiteFlagMutations)
    (R : MessageID → MessageMetadata → MessageMetadata → Prop)
    (hrefl : ∀ j a, R j a a) (htrans : ∀ j a b c, R j a b → R j b c → R j a c)
    (hmsg : env.cachedMessageFunc env.milestoneMessageID = .ok (some message))
    (hms : message.Milestone = some ms)
    (hwf : env.computeWhiteFlagMutations L M env.networkId ms.Index ms.Timestamp message.parents
      env.lastMilestoneID = .ok mutations)
    (hR : ∀ cat m, (cat, m) ∈ mutations.entries → ∀ meta st, R m.MessageID meta
      (closure env cat ms.Index ms.Timestamp m.MessageID m.Conflict meta st).1) :
    (∀ j m0, M j = .ok (some m0) →
      ∃ m', (ConfirmMilestone env L M).2.metadata j = .ok (some m') ∧ R j m0 m') ∧
    ((ConfirmMilestone env L M).1.err = none →
      ∀ cat m, (cat, m) ∈ mutations.entries → ∃ m0 meta st m',
        M m.MessageID = .ok (some m0) ∧ R m.MessageID m0 meta ∧
        (ConfirmMilestone env L M).2.metadata m.MessageID = .ok (some m') ∧
        R m.MessageID (closure env cat ms.Index ms.Timestamp m.MessageID m.Conflict meta st).1
          m') := by
  have hsame : (ConfirmMilestone env L M).2.metadata = M →
      ∀ j m0, M j = .ok (some m0) →
      ∃ m', (ConfirmMilestone env L M).2.metadata j = .ok (some m') ∧ R j m0 m' :=
    fun h j m0 hj => ⟨m0, by rw [h]; exact hj, hrefl j m0⟩
  rcases ConfirmMilestone_cases env L M with h | h
  · exact ⟨hsame h.2.2.2.2.1, fun hs => absurd hs h.1⟩
  · obtain ⟨message', ms', msID, mutations', opts, migrated, tm, rt, pre, h1, h2, h3, h4, h5, h6,
      h7, h8, -, hout⟩ := h
    rw [hmsg] at h1
    simp only [Except.ok.injEq, Option.some.injEq] at h1
    subst h1
    rw [hms] at h2
    simp only [Option.some.injEq] at h2
    subst h2
    rw [hwf] at h4
    simp only [Except.ok.injEq] at h4
    subst h4
    rcases hout with ⟨e, -, hf, -, hM, -⟩ | ⟨L', evs, happly, -⟩
    · exact ⟨hsame hM, fun hs => by rw [hf] at hs; simp [Ret.fail] at hs⟩
    · obtain ⟨-, wm, w, -, -⟩ := ConfirmMilestone_applied_walk env L M message ms msID
        mutations opts migrated tm rt L' hmsg hms h3 hwf h5 h6 h7 h8 happly
      obtain ⟨s1, -, s3⟩ := entriesLoop_store env ms.Index ms.Timestamp R hrefl htrans
        mutations.entries
        (stateAfterApply env M message ms opts (mutations.NewOutputs.map Prod.snd ++ migrated)
          (mutations.NewSpents.map Prod.snd) tm rt L') ⟨ms.Index, 0, 0, 0, 0, 0⟩ hR
      rw [wm]
      exact ⟨fun j m0 hj => s1 j m0 hj, fun hs => s3 (w.mp hs)⟩

/-! ## Calls made by one closure -/

theorem closure_setReferenced_event (env : Env) (cat : Category) (idx : Index) (ts : Nat)
    (id : MessageID) (c : Conflict) (meta : MessageMetadata) (st : ConfirmedMilestoneStats)
    (j : MessageID) (r : Bool) (i : Index)
    (h : Event.setMessageReferencedFunc j r i ∈ (closure env cat idx ts id c meta st).2.2) :
    j = id ∧ r = true ∧ i = idx := by
  cases cat <;> simp only [closure, referenceIfUnreferenced] at h <;> split_ifs at h <;>
    simp at h <;> exact ⟨h.1, h.2.1, h.2.2⟩

theorem closure_setIsNoTransaction_event (env : Env) (cat : Category) (idx : Index) (ts : Nat)
    (id : MessageID) (c : Conflict) (meta : MessageMetadata) (st : ConfirmedMilestoneStats)
    (j : MessageID) (b : Bool) :
    Event.setIsNoTransaction j b ∈ (closure env cat idx ts id c meta st).2.2 ↔
      cat = .excludedWithoutTransactions ∧ j = id ∧ b = true := by
  cases cat <;> simp only [closure, referenceIfUnreferenced] <;> split_ifs <;> simp

theorem closure_setConflictingTx_event (env : Env) (cat : Category) (idx : Index) (ts : Nat)
    (id : MessageID) (c : Conflict) (meta : MessageMetadata) (st : ConfirmedMilestoneStats)
    (j : MessageID) (c' : Conflict) :
    Event.setConflictingTx j c' ∈ (closure env cat idx ts id c meta st).2.2 ↔
      cat = .excludedWithConflictingTransactions ∧ j = id ∧ c' = c := by
  cases cat <;> simp only [closure, referenceIfUnreferenced] <;> split_ifs <;> simp

/-- What the closure does to `is_no_transaction` and `conflict`, for a set
function that leaves these two fields alone. -/
theorem closure_fields (env : Env)
    (hframe : ∀ m r i, (env.setMessageReferencedFunc m r i).isNoTransaction = m.isNoTransaction ∧
      (env.setMessageReferencedFunc m r i).conflict = m.conflict)
    (cat : Category) (idx : Index) (ts : Nat) (id : MessageID) (c : Conflict)
    (meta : MessageMetadata) (st : ConfirmedMilestoneStats) :
    (closure env cat idx ts id c meta st).1.isNoTransaction =
      (if cat = .excludedWithoutTransactions then true else meta.isNoTransaction) ∧
    (closure env cat idx ts id c meta st).1.conflict =
      (if cat = .excludedWithConflictingTransactions then c else meta.conflict) := by
  cases cat <;> simp only [closure, referenceIfUnreferenced] <;> split_ifs <;>
    first
    | contradiction
    | simp [MessageMetadata.SetConeRootIndexes, MessageMetadata.SetIsNoTransaction,
        MessageMetadata.SetConflictingTx, (hframe _ _ _).1, (hframe _ _ _).2]

/-! ## Referenced-ness is permanent -/

/-- C12: with the default check/set functions, a message whose metadata record is
referenced before the call is still referenced after it, with the same
referenced index and the same cone root indexes; and in every run the set
function is only ever called with `referenced = true`. -/
theorem referencedness_is_permanent (env : Env) (L : Ledger) (M : MetaStore)
    (hc : env.checkMessageReferencedFunc = DefaultCheckMessageReferencedFunc)
    (hs : env.setMessageReferencedFunc = DefaultSetMessageReferencedFunc) :
    (∀ id m0, M id = .ok (some m0) → m0.isReferenced = true →
      ∃ m, (ConfirmMilestone env L M).2.metadata id = .ok (some m) ∧ m.isReferenced = true ∧
        m.referencedIndex = m0.referencedIndex ∧ m.coneRootIndexes = m0.coneRootIndexes) ∧
    (∀ id r i, Event.setMessageReferencedFunc id r i ∈ (ConfirmMilestone env L M).2.trace →
      r = true) := by
  refine ⟨?_, ?_⟩
  · intro id m0 h0 href
    have hsame : (ConfirmMilestone env L M).2.metadata = M →
        ∃ m, (ConfirmMilestone env L M).2.metadata id = .ok (some m) ∧ m.isReferenced = true ∧
          m.referencedIndex = m0.referencedIndex ∧ m.coneRootIndexes = m0.coneRootIndexes :=
      fun h => ⟨m0, by rw [h]; exact h0, href, rfl, rfl⟩
    rcases ConfirmMilestone_cases env L M with h | h
    · exact hsame h.2.2.2.2.1
    · obtain ⟨message, ms, msID, mutations, opts, migrated, tm, rt, pre, -, -, -, -, -, -, -, -,
        -, hout⟩ := h
      rcases hout with ⟨e, -, -, -, hM, -⟩ | ⟨L', evs, -, -, -, ⟨-, S, hS1, -, hS3⟩, -⟩
      · exact hsame hM
      · obtain ⟨m, k1, k2, -, -⟩ := updateMetadata_kept env hc hs ms
          ⟨ms.Index, message.messageID, mutations⟩ S id m0 (by rw [hS1]; exact h0) href
        rw [← hS3] at k1
        exact ⟨m, k1, k2.1, k2.2.1, k2.2.2.1⟩
  · intro id r i hmem
    obtain ⟨message, ms, mutations, cat, m, -, -, -, -, hor⟩ :=
      metadataPhase_events_origin env L M _ hmem rfl
    rcases hor with h | h | ⟨meta, st, h⟩
    · cases h
    · cases h
    · exact (closure_setReferenced_event env cat _ _ _ _ meta st id r i h).2.1

/-- Witness for C12: the sample run against the store in which `[2]` and `[3]`
are already referenced by milestone 7. -/
theorem referencedness_is_permanent_witness :
    (∃ m, (ConfirmMilestone sampleEnv sampleLedger referencedStore).2.metadata [3]
        = .ok (some m) ∧ m.isReferenced = true ∧
        m.referencedIndex = referencedMeta.referencedIndex ∧
        m.coneRootIndexes = referencedMeta.coneRootIndexes) ∧
    (∀ id r i, Event.setMessageReferencedFunc id r i ∈
      (ConfirmMilestone sampleEnv sampleLedger referencedStore).2.trace → r = true) :=
  have h := referencedness_is_permanent sampleEnv sampleLedger referencedStore rfl rfl
  ⟨h.1 [3] referencedMeta rfl rfl, h.2⟩

/-! ## Classification fields -/

/-- C11: after a successful `ConfirmMilestone`, `SetIsNoTransaction(true)` has
been called on every message of `MessagesExcludedWithoutTransactions`,
`SetConflictingTx(conflict)` has been called on every entry `(id, conflict)` of
`MessagesExcludedWithConflictingTransactions` with exactly that conflict, and
for a message of `MessagesIncludedWithTransactions` that is in no other list
neither of the two setters has been called.  For a set function that leaves
these two fields alone (as the default one does), the final records show it:
`is_no_transaction` is true for the first kind, `conflict` is the listed
conflict for the second kind (provided the list does not name the message with
another conflict as well), and both fields are what they were for the third. -/
theorem classification_fields_written (env : Env) (L : Ledger) (M : MetaStore)
    (message : Message) (ms : Milestone) (mutations : WhiteFlagMutations)
    (hmsg : env.cachedMessageFunc env.milestoneMessageID = .ok (some message))
    (hms : message.Milestone = some ms)
    (hwf : env.computeWhiteFlagMutations L M env.networkId ms.Index ms.Timestamp message.parents
      env.lastMilestoneID = .ok mutations)
    (hsucc : (ConfirmMilestone env L M).1.err = none) :
    (∀ id ∈ mutations.MessagesExcludedWithoutTransactions,
      Event.setIsNoTransaction id true ∈ (ConfirmMilestone env L M).2.trace) ∧
    (∀ e ∈ mutations.MessagesExcludedWithConflictingTransactions,
      Event.setConflictingTx e.MessageID e.Conflict ∈ (ConfirmMilestone env L M).2.trace) ∧
    (∀ id ∈ mutations.MessagesIncludedWithTransactions,
      id ∉ mutations.MessagesExcludedWithoutTransactions →
      id ∉ mutations.MessagesExcludedWithConflictingTransactions.map
        MessageWithConflict.MessageID →
      ∀ b c, Event.setIsNoTransaction id b ∉ (ConfirmMilestone env L M).2.trace ∧
        Event.setConflictingTx id c ∉ (ConfirmMilestone env L M).2.trace) ∧
    ((∀ m r i, (env.setMessageReferencedFunc m r i).isNoTransaction = m.isNoTransaction ∧
        (env.setMessageReferencedFunc m r i).conflict = m.conflict) →
      (∀ id ∈ mutations.MessagesExcludedWithoutTransactions,
        ∃ m, (ConfirmMilestone env L M).2.metadata id = .ok (some m) ∧
          m.isNoTransaction = true) ∧
      (∀ e ∈ mutations.MessagesExcludedWithConflictingTransactions,
        (∀ e' ∈ mutations.MessagesExcludedWithConflictingTransactions,
          e'.MessageID = e.MessageID → e'.Conflict = e.Conflict) →
        ∃ m, (ConfirmMilestone env L M).2.metadata e.MessageID = .ok (some m) ∧
          m.conflict = e.Conflict) ∧
      (∀ id ∈ mutations.MessagesIncludedWithTransactions,
        id ∉ mutations.MessagesExcludedWithoutTransactions →
        id ∉ mutations.MessagesExcludedWithConflictingTransactions.map
          MessageWithConflict.MessageID →
        ∃ m0 m, M id = .ok (some m0) ∧
          (ConfirmMilestone env L M).2.metadata id = .ok (some m) ∧
          m.isNoTransaction = m0.isNoTransaction ∧ m.conflict = m0.conflict)) := by
  have hcalls := closure_calls_in_trace env L M message ms mutations hmsg hms hwf hsucc
  refine ⟨?_, ?_, ?_, ?_⟩
  · intro id hid
    obtain ⟨meta, st, hall⟩ := hcalls .excludedWithoutTransactions (plain id)
      ((entries_mem_iff mutations _ _).mpr (Or.inr (Or.inl ⟨rfl, rfl, hid⟩)))
    exact hall _ ((closure_setIsNoTransaction_event env _ _ _ _ _ meta st _ _).mpr
      ⟨rfl, rfl, rfl⟩)
  · intro e he
    obtain ⟨meta, st, hall⟩ := hcalls .excludedWithConflictingTransactions e
      ((entries_mem_iff mutations _ _).mpr (Or.inr (Or.inr ⟨rfl, he⟩)))
    exact hall _ ((closure_setConflictingTx_event env _ _ _ _ _ meta st _ _).mpr
      ⟨rfl, rfl, rfl⟩)
  · intro id _ hn hcf b c
    refine ⟨?_, ?_⟩
    · intro hmem
      obtain ⟨message', ms', mutations', cat, m, h1, h2, h4, hent, hor⟩ :=
        metadataPhase_events_origin env L M _ hmem rfl
      rw [hmsg] at h1
      simp only [Except.ok.injEq, Option.some.injEq] at h1
      subst h1
      rw [hms] at h2
      simp only [Option.some.injEq] at h2
      subst h2
      rw [hwf] at h4
      simp only [Except.ok.injEq] at h4
      subst h4
      rcases hor with h | h | ⟨meta, st, h⟩
      · cases h
      · cases h
      · obtain ⟨hcat, hj, -⟩ := (closure_setIsNoTransaction_event env cat _ _ _ _ meta st
          _ _).mp h
        subst hcat hj
        rcases (entries_mem_iff mutations _ m).mp hent with ⟨h, -⟩ | ⟨-, -, h⟩ | ⟨h, -⟩
        · cases h
        · exact hn h
        · cases h
    · intro hmem
      obtain ⟨message', ms', mutations', cat, m, h1, h2, h4, hent, hor⟩ :=
        metadataPhase_events_origin env L M _ hmem rfl
      rw [hmsg] at h1
      simp only [Except.ok.injEq, Option.some.injEq] at h1
      subst h1
      rw [hms] at h2
      simp only [Option.some.injEq] at h2
      subst h2
      rw [hwf] at h4
      simp only [Except.ok.injEq] at h4
      subst h4
      rcases hor with h | h | ⟨meta, st, h⟩
      · cases h
      · cases h
      · obtain ⟨hcat, hj, -⟩ := (closure_setConflictingTx_event env cat _ _ _ _ meta st
          _ _).mp h
        subst hcat hj
        rcases (entries_mem_iff mutations _ m).mp hent with ⟨h, -⟩ | ⟨h, -⟩ | ⟨-, h⟩
        · cases h
        · cases h
        · exact hcf (List.mem_map.mpr ⟨m, h, rfl⟩)
  · intro hframe
    refine ⟨?_, ?_, ?_⟩
    · intro id hid
      obtain ⟨-, hpos⟩ := final_metadata_related env L M message ms mutations
        (fun _ a b => a.isNoTransaction = true → b.isNoTransaction = true)
        (fun _ _ h => h) (fun _ _ _ _ h1 h2 h => h2 (h1 h)) hmsg hms hwf
        (fun cat m _ meta st h => by
          rw [(closure_fields env hframe cat _ _ _ _ meta st).1, h]; simp)
      obtain ⟨m0, meta, st, m', -, -, k3, k4⟩ := hpos hsucc .excludedWithoutTransactions
        (plain id) ((entries_mem_iff mutations _ _).mpr (Or.inr (Or.inl ⟨rfl, rfl, hid⟩)))
      refine ⟨m', k3, k4 ?_⟩
      rw [(closure_fields env hframe _ _ _ _ _ meta st).1]; simp
    · intro e he hcons
      obtain ⟨-, hpos⟩ := final_metadata_related env L M message ms mutations
        (fun j a b => j = e.MessageID → a.conflict = e.Conflict → b.conflict = e.Conflict)
        (fun _ _ _ h => h) (fun _ _ _ _ h1 h2 hj h => h2 hj (h1 hj h)) hmsg hms hwf
        (fun cat m hent meta st hj h => by
          rw [(closure_fields env hframe cat _ _ _ _ meta st).2]
          rcases (entries_mem_iff mutations _ m).mp hent with ⟨hcat, -⟩ | ⟨hcat, -⟩ | ⟨hcat, hm⟩
          · subst hcat; simpa using h
          · subst hcat; simpa using h
          · subst hcat
            simp only [if_true]
            exact hcons m hm hj)
      obtain ⟨m0, meta, st, m', -, -, k3, k4⟩ := hpos hsucc
        .excludedWithConflictingTransactions e
        ((entries_mem_iff mutations _ _).mpr (Or.inr (Or.inr ⟨rfl, he⟩)))
      refine ⟨m', k3, k4 rfl ?_⟩
      rw [(closure_fields env hframe _ _ _ _ _ meta st).2]; simp
    · intro id hid hn hcf
      obtain ⟨hall, hpos⟩ := final_metadata_related env L M message ms mutations
        (fun j a b => j = id → b.isNoTransaction = a.isNoTransaction ∧ b.conflict = a.conflict)
        (fun _ _ _ => ⟨rfl, rfl⟩)
        (fun _ _ _ _ h1 h2 hj => ⟨(h2 hj).1.trans (h1 hj).1, (h2 hj).2.trans (h1 hj).2⟩)
        hmsg hms hwf
        (fun cat m hent meta st hj => by
          rw [(closure_fields env hframe cat _ _ _ _ meta st).1,
            (closure_fields env hframe cat _ _ _ _ meta st).2]
          rcases (entries_mem_iff mutations _ m).mp hent with ⟨hcat, -⟩ | ⟨hcat, -, hm⟩ |
            ⟨hcat, hm⟩
          · subst hcat; simp
          · exact absurd (hj ▸ hm) hn
          · exact absurd (List.mem_map.mpr ⟨m, hm, hj⟩) hcf)
      obtain ⟨m0, -, -, -, k1, -, -, -⟩ := hpos hsucc .includedWithTransactions
        (plain id) ((entries_mem_iff mutations _ _).mpr (Or.inl ⟨rfl, rfl, hid⟩))
      have k1' : M id = .ok (some m0) := k1
      obtain ⟨m', j1, j2⟩ := hall id m0 k1'
      exact ⟨m0, m', k1', j1, (j2 rfl).1, (j2 rfl).2⟩

/-- Witness for C11: the sample run; message `[2]` is listed without
transaction, `[3]` with conflict `inputAlreadySpent`. -/
theorem classification_fields_written_witness :
    Event.setIsNoTransaction [2] true ∈
      (ConfirmMilestone sampleEnv sampleLedger sampleStore).2.trace ∧
    Event.setConflictingTx [3] Conflict.inputAlreadySpent ∈
      (ConfirmMilestone sampleEnv sampleLedger sampleStore).2.trace ∧
    (∃ m, (ConfirmMilestone sampleEnv sampleLedger sampleStore).2.metadata [2] = .ok (some m) ∧
      m.isNoTransaction = true) :=
  have h := classification_fields_written sampleEnv sampleLedger sampleStore sampleMessage
    sampleMilestone sampleMutations rfl rfl rfl (by rfl)
  ⟨h.1 [2] (by decide),
   h.2.1 ⟨[3], Conflict.inputAlreadySpent⟩ (by decide),
   (h.2.2.2 (fun m r i => ⟨rfl, rfl⟩)).1 [2] (by decide)⟩

/-! ## What a successful run went through -/

/-- A run that returns no error passed every stage up to and including the
ledger apply. -/
theorem success_unfold (env : Env) (L : Ledger) (M : MetaStore)
    (hsucc : (ConfirmMilestone env L M).1.err = none) :
    ∃ message ms msID mutations opts migrated tm rt L',
      env.cachedMessageFunc env.milestoneMessageID = .ok (some message) ∧
      message.Milestone = some ms ∧
      env.milestoneID ms = .ok msID ∧
      env.computeWhiteFlagMutations L M env.networkId ms.Index ms.Timestamp message.parents
        env.lastMilestoneID = .ok mutations ∧
      mutations.ConfirmedMerkleRoot = ms.ConfirmedMerkleRoot ∧
      mutations.AppliedMerkleRoot = ms.AppliedMerkleRoot ∧
      env.optsSet ms.Opts = .ok opts ∧
      ReceiptOutcome env L message ms msID opts migrated tm rt ∧
      env.applyConfirmationWithoutLocking L ms.Index
        (mutations.NewOutputs.map Prod.snd ++ migrated) (mutations.NewSpents.map Prod.snd)
        tm rt = .ok L' := by
  rcases ConfirmMilestone_cases env L M with h | h
  · exact absurd hsucc h.1
  · obtain ⟨message, ms, msID, mutations, opts, migrated, tm, rt, pre, h1, h2, h3, h4, h5, h6,
      h7, h8, -, hout⟩ := h
    rcases hout with ⟨e, -, hf, -⟩ | ⟨L', evs, happly, -⟩
    · rw [hf] at hsucc; simp [Ret.fail] at hsucc
    · exact ⟨message, ms, msID, mutations, opts, migrated, tm, rt, L', h1, h2, h3, h4, h5, h6,
        h7, h8, happly⟩

theorem closure_stats_index (env : Env) (cat : Category) (idx : Index) (ts : Nat)
    (id : MessageID) (c : Conflict) (meta : MessageMetadata) (st : ConfirmedMilestoneStats) :
    (closure env cat idx ts id c meta st).2.1.Index = st.Index := by
  cases cat <;> simp only [closure, referenceIfUnreferenced] <;> split_ifs <;>
    simp [ConfirmedMilestoneStats.count]

/-- The walk never touches the `Index` field of the statistics. -/
theorem entriesLoop_stats_index (env : Env) (idx : Index) (ts : Nat) :
    ∀ (es : List (Category × MessageWithConflict)) (s : Sys)
      (stats : ConfirmedMilestoneStats),
      (entriesLoop env idx ts es s stats).2.2.Index = stats.Index := by
  intro es
  induction es with
  | nil => intro s stats; rfl
  | cons x rest ih =>
      intro s stats
      obtain ⟨cat, m⟩ := x
      by_cases hf : ∃ meta, s.metadata m.MessageID = .ok (some meta)
      · obtain ⟨meta, hmeta⟩ := hf
        rw [entriesLoop_cons_found env idx ts cat m rest s stats meta hmeta, ih]
        exact closure_stats_index env cat idx ts _ _ meta stats
      · obtain ⟨e, heq⟩ := entriesLoop_cons_not_found env idx ts cat m rest s stats
          (fun meta h => hf ⟨meta, h⟩)
        rw [heq]

/-- The apply of section 4.3 accepts only the index that follows the ledger
index and leaves the ledger at that index. -/
theorem ApplyConfirmation_index (l : Ledger) (i : Index) (o : List Output) (s : List Spent)
    (t : Option TreasuryMutationTuple) (r : Option ReceiptTuple) (l' : Ledger)
    (h : ApplyConfirmation l i o s t r = .ok l') :
    i = l.ledgerIndex + 1 ∧ l'.ledgerIndex = i := by
  unfold ApplyConfirmation at h
  split_ifs at h with h1 h2 h3 h4
  simp only [Except.ok.injEq] at h
  subst h
  exact ⟨not_not.mp h1, rfl⟩

/-! ## The ledger index -/

/-- C16: when the ledger apply accepts only the index following the ledger index
and leaves the ledger at the applied index (as `apply_confirmation` of section
4.3 does), every successful `ConfirmMilestone` returns statistics whose `Index`
is the milestone's index, that index is the ledger index before the call plus
one, and it is the ledger index after the call. -/
theorem ledger_index_advances_by_one (env : Env) (L : Ledger) (M : MetaStore)
    (message : Message) (ms : Milestone)
    (hmsg : env.cachedMessageFunc env.milestoneMessageID = .ok (some message))
    (hms : message.Milestone = some ms)
    (hcontract : ∀ l i o s t r l', env.applyConfirmationWithoutLocking l i o s t r = .ok l' →
      i = l.ledgerIndex + 1 ∧ l'.ledgerIndex = i)
    (hsucc : (ConfirmMilestone env L M).1.err = none) :
    ∃ stats, (ConfirmMilestone env L M).1.stats = some stats ∧
      stats.Index = ms.Index ∧
      ms.Index = L.ledgerIndex + 1 ∧
      (ConfirmMilestone env L M).2.ledger.ledgerIndex = ms.Index := by
  obtain ⟨message', ms', msID, mutations, opts, migrated, tm, rt, L', h1, h2, h3, h4, h5, h6,
    h7, h8, happly⟩ := success_unfold env L M hsucc
  rw [hmsg] at h1
  simp only [Except.ok.injEq, Option.some.injEq] at h1
  subst h1
  rw [hms] at h2
  simp only [Option.some.injEq] at h2
  subst h2
  obtain ⟨wl, -, -, -, wst⟩ := ConfirmMilestone_applied_walk env L M message ms msID mutations
    opts migrated tm rt L' hmsg hms h3 h4 h5 h6 h7 h8 happly
  obtain ⟨c1, c2⟩ := hcontract _ _ _ _ _ _ _ happly
  refine ⟨_, wst hsucc, ?_, c1, ?_⟩
  · rw [entriesLoop_stats_index]
  · rw [wl]; exact c2

/-- Witness for C16: the sample run takes the ledger from index 0 to index 1. -/
theorem ledger_index_advances_by_one_witness :
    ∃ stats, (ConfirmMilestone sampleEnv sampleLedger sampleStore).1.stats = some stats ∧
      stats.Index = 1 ∧ (1 : Nat) = sampleLedger.ledgerIndex + 1 ∧
      (ConfirmMilestone sampleEnv sampleLedger sampleStore).2.ledger.ledgerIndex = 1 :=
  ledger_index_advances_by_one sampleEnv sampleLedger sampleStore sampleMessage sampleMilestone
    rfl rfl (fun l i o s t r l' h => ApplyConfirmation_index l i o s t r l' h) (by rfl)

/-! ## Conservation of amounts -/

theorem sum_filter_partition {α : Type} (p : α → Bool) (f : α → Nat) (l : List α) :
    (l.map f).sum = ((l.filter p).map f).sum + ((l.filter (fun x => !p x)).map f).sum := by
  induction l with
  | nil => rfl
  | cons a rest ih =>
      cases hp : p a <;> simp [List.filter_cons, hp, ih] <;> omega

/-- The ledger produced by a successful apply of section 4.3. -/
theorem ApplyConfirmation_ok (l : Ledger) (i : Index) (o : List Output) (s : List Spent)
    (t : Option TreasuryMutationTuple) (r : Option ReceiptTuple) (l' : Ledger)
    (h : ApplyConfirmation l i o s t r = .ok l') :
    l'.unspent = l.unspent.filter (fun x => !(s.map Spent.outputID).contains x.outputID) ++ o ∧
    l'.treasury = (t.map TreasuryMutationTuple.NewOutput).getD l.treasury := by
  cases t <;>
    (unfold ApplyConfirmation at h
     split_ifs at h
     simp only [Except.ok.injEq] at h
     subst h
     exact ⟨rfl, rfl⟩)

/-- The migrated outputs carry the amounts of the receipt's funds. -/
theorem ReceiptToOutputs_sum (r : Receipt) (id : MessageID) (msID : MilestoneID) (idx : Index)
    (ts : Nat) (outs : List Output) (h : ReceiptToOutputs r id msID idx ts = .ok outs) :
    (outs.map Output.amount).sum = r.fundsTotal := by
  simp only [ReceiptToOutputs, Except.ok.injEq] at h
  subst h
  rw [List.map_map]
  rfl

/-- With the collaborators of the specification and a balanced white-flag
result, a successful run moves the receipt's funds from the treasury to the
unspent outputs and changes no other amount. -/
theorem amounts_after_success (env : Env) (L : Ledger) (M : MetaStore)
    (message : Message) (ms : Milestone) (mutations : WhiteFlagMutations)
    (opts : MilestoneOptSet)
    (hmsg : env.cachedMessageFunc env.milestoneMessageID = .ok (some message))
    (hms : message.Milestone = some ms)
    (hwf : env.computeWhiteFlagMutations L M env.networkId ms.Index ms.Timestamp message.parents
      env.lastMilestoneID = .ok mutations)
    (hopts : env.optsSet ms.Opts = .ok opts)
    (happ : env.applyConfirmationWithoutLocking = ApplyConfirmation)
    (htr : env.unspentTreasuryOutputWithoutLocking = UnspentTreasuryOutput)
    (hval : env.validateReceipt = ValidateReceipt)
    (hout : env.receiptToOutputs = ReceiptToOutputs)
    (htm : env.receiptToTreasuryMutation = ReceiptToTreasuryMutation)
    (hbal : Balanced L mutations)
    (hsucc : (ConfirmMilestone env L M).1.err = none) :
    (ConfirmMilestone env L M).2.ledger.unspentTotal = L.unspentTotal + opts.fundsTotal ∧
    (ConfirmMilestone env L M).2.ledger.treasury.amount + opts.fundsTotal
      = L.treasury.amount := by
  obtain ⟨message', ms', msID, mutations', opts', migrated, tm, rt, L', h1, h2, h3, h4, h5, h6,
    h7, h8, happly⟩ := success_unfold env L M hsucc
  rw [hmsg] at h1
  simp only [Except.ok.injEq, Option.some.injEq] at h1
  subst h1
  rw [hms] at h2
  simp only [Option.some.injEq] at h2
  subst h2
  rw [hwf] at h4
  simp only [Except.ok.injEq] at h4
  subst h4
  rw [hopts] at h7
  simp only [Except.ok.injEq] at h7
  subst h7
  obtain ⟨wl, -⟩ := ConfirmMilestone_applied_walk env L M message ms msID mutations
    opts migrated tm rt L' hmsg hms h3 hwf h5 h6 hopts h8 happly
  rw [happ] at happly
  obtain ⟨hu, ht⟩ := ApplyConfirmation_ok _ _ _ _ _ _ _ happly
  have hpart := sum_filter_partition
    (fun o => ((mutations.NewSpents.map Prod.snd).map Spent.outputID).contains o.outputID)
    Output.amount L.unspent
  unfold Balanced at hbal
  rw [wl]
  unfold Ledger.unspentTotal
  rw [hu, ht]
  rcases h8 with ⟨r1, r2, r3, r4⟩ | ⟨r, t, tm', r1, r2, r3, r4, r5, r6, r7, -⟩
  · subst r2 r3
    have hf : opts.fundsTotal = 0 := by simp [MilestoneOptSet.fundsTotal, r1]
    rw [hf]
    simp only [List.append_nil, List.map_append, List.sum_append, Nat.add_zero]
    exact ⟨by omega, rfl⟩
  · subst r3
    rw [htr] at r4
    rw [hval] at r5
    rw [hout] at r6
    rw [htm] at r7
    simp only [UnspentTreasuryOutput, Except.ok.injEq] at r4
    subst r4
    have hm := ReceiptToOutputs_sum _ _ _ _ _ _ r6
    simp only [ReceiptToTreasuryMutation, Except.ok.injEq] at r7
    subst r7
    have hv : r.fundsTotal + r.treasuryTransaction.outputAmount = L.treasury.amount := by
      unfold ValidateReceipt at r5
      split_ifs at r5 with hv
      exact hv
    have hf : opts.fundsTotal = r.fundsTotal := by simp [MilestoneOptSet.fundsTotal, r1]
    rw [hf]
    simp only [List.map_append, List.sum_append, hm]
    refine ⟨by omega, ?_⟩
    show r.treasuryTransaction.outputAmount + r.fundsTotal = L.treasury.amount
    omega

/-! ## The staging of the white-flag computation -/

/-- The keys of the staged entries are the ids of the staged values, and the
staged spents are the consumed inputs. -/
theorem classify_keys (rules : Transaction → List Output → Bool) (view : Ledger) (idx : Index)
    (ts : Nat) (st : Staging) (m : ConeMessage)
    (h : st.newSpents.map Prod.fst = st.consumed ∧
      st.newSpents.map (fun p => p.2.outputID) = st.consumed ∧
      st.newOutputs.map (fun p => p.2.outputID) = st.newOutputs.map Prod.fst) :
    (classify rules view idx ts st m).newSpents.map Prod.fst =
      (classify rules view idx ts st m).consumed ∧
    (classify rules view idx ts st m).newSpents.map (fun p => p.2.outputID) =
      (classify rules view idx ts st m).consumed ∧
    (classify rules view idx ts st m).newOutputs.map (fun p => p.2.outputID) =
      (classify rules view idx ts st m).newOutputs.map Prod.fst := by
  obtain ⟨h1, h2, h3⟩ := h
  unfold classify
  rcases m.transaction with _ | tx
  · exact ⟨h1, h2, h3⟩
  · simp only
    split_ifs
    · exact ⟨h1, h2, h3⟩
    · exact ⟨h1, h2, h3⟩
    · exact ⟨h1, h2, h3⟩
    · simp [h1, h2, h3, Transaction.createdSpents, Transaction.createdOutputs, List.map_map,
        Function.comp_def]

/-- Staging only adds entries. -/
theorem classify_mono (rules : Transaction → List Output → Bool) (view : Ledger) (idx : Index)
    (ts : Nat) (st : Staging) (m : ConeMessage) :
    (∀ id ∈ st.consumed, id ∈ (classify rules view idx ts st m).consumed) ∧
    (∀ p ∈ st.newOutputs, p ∈ (classify rules view idx ts st m).newOutputs) := by
  unfold classify
  rcases m.transaction with _ | tx
  · exact ⟨fun _ h => h, fun _ h => h⟩
  · simp only
    split_ifs
    · exact ⟨fun _ h => h, fun _ h => h⟩
    · exact ⟨fun _ h => h, fun _ h => h⟩
    · exact ⟨fun _ h => h, fun _ h => h⟩
    · exact ⟨fun _ h => List.mem_append_left _ h, fun _ h => List.mem_append_left _ h⟩

theorem classifyAll_mono (rules : Transaction → List Output → Bool) (view : Ledger) (idx : Index)
    (ts : Nat) (cone : List ConeMessage) :
    ∀ st : Staging,
      (∀ id ∈ st.consumed, id ∈ (cone.foldl (classify rules view idx ts) st).consumed) ∧
      (∀ p ∈ st.newOutputs, p ∈ (cone.foldl (classify rules view idx ts) st).newOutputs) := by
  induction cone with
  | nil => intro st; exact ⟨fun _ h => h, fun _ h => h⟩
  | cons m rest ih =>
      intro st
      obtain ⟨a1, a2⟩ := classify_mono rules view idx ts st m
      obtain ⟨b1, b2⟩ := ih (classify rules view idx ts st m)
      exact ⟨fun id h => b1 id (a1 id h), fun p h => b2 p (a2 p h)⟩

/-- An input that is an unspent output of the ledger resolves to that output
when no staged output carries an id of the ledger. -/
theorem resolveInput_of_unspent (view : Ledger) (st : Staging) (id : OutputID)
    (hout : ∀ p ∈ st.newOutputs, p.1 ∉ view.unspent.map Output.outputID)
    (hid : id ∈ view.unspent.map Output.outputID) :
    resolveInput view st id = view.unspent.find? (fun o => decide (o.outputID = id)) := by
  unfold resolveInput
  rcases hfind : st.newOutputs.find? (fun p => decide (p.1 = id)) with _ | p
  · rw [hfind]
  · exfalso
    have hp := List.find?_some hfind
    have hmem := List.mem_of_find?_eq_some hfind
    simp only [decide_eq_true_eq] at hp
    exact hout p hmem (hp ▸ hid)

theorem resolved_amounts (view : Ledger) (st : Staging) :
    ∀ inputs : List OutputID,
      (∀ id ∈ inputs, resolveInput view st id =
        view.unspent.find? (fun o => decide (o.outputID = id))) →
      ((inputs.filterMap (resolveInput view st)).map Output.amount).sum =
        (inputs.map (amountOf view.unspent)).sum := by
  intro inputs
  induction inputs with
  | nil => intro _; rfl
  | cons a rest ih =>
      intro h
      have ha := h a (List.mem_cons_self _ _)
      have hrest := ih (fun id hid => h id (List.mem_cons_of_mem _ hid))
      rcases hf : view.unspent.find? (fun o => decide (o.outputID = a)) with _ | o
      · rw [hf] at ha
        simp only [List.filterMap_cons, ha, List.map_cons, List.sum_cons, amountOf, hf, hrest,
          Nat.zero_add]
      · rw [hf] at ha
        simp only [List.filterMap_cons, ha, List.map_cons, List.sum_cons, amountOf, hf, hrest]

theorem createdOutputs_sum (tx : Transaction) (id : MessageID) (idx : Index) (ts : Nat) :
    (((tx.createdOutputs id idx ts).map Prod.snd).map Output.amount).sum =
      tx.outputAmounts.sum := by
  unfold Transaction.createdOutputs
  simp only [List.map_map, Function.comp_def]
  exact congrArg List.sum (List.enum_map_snd tx.outputAmounts)

/-- One step of the classification keeps the staged amounts equal to the amounts
of the consumed unspent outputs, as long as every consumed input is an unspent
output of the ledger and no staged output carries an id of the ledger. -/
theorem classify_sum (rules : Transaction → List Output → Bool) (view : Ledger) (idx : Index)
    (ts : Nat) (st : Staging) (m : ConeMessage)
    (hin : ∀ id ∈ (classify rules view idx ts st m).consumed,
      id ∈ view.unspent.map Output.outputID)
    (hout : ∀ p ∈ (classify rules view idx ts st m).newOutputs,
      p.1 ∉ view.unspent.map Output.outputID)
    (hsum : ((st.newOutputs.map Prod.snd).map Output.amount).sum =
      (st.consumed.map (amountOf view.unspent)).sum) :
    (((classify rules view idx ts st m).newOutputs.map Prod.snd).map Output.amount).sum =
      ((classify rules view idx ts st m).consumed.map (amountOf view.unspent)).sum := by
  have hmono := classify_mono rules view idx ts st m
  revert hin hout hmono
  unfold classify
  rcases m.transaction with _ | tx
  · intro _ _ _; exact hsum
  · simp only
    split_ifs with c1 c2 c3
    · intro _ _ _; exact hsum
    · intro _ _ _; exact hsum
    · intro _ _ _; exact hsum
    · intro hin hout hmono
      simp only [Bool.not_eq_true, Bool.not_eq_eq_eq_not, Bool.not_true, Bool.not_false,
        Bool.and_eq_true, decide_eq_true_eq, Bool.not_and, Bool.or_eq_false_iff] at c3
      have hbal : ((tx.inputs.filterMap (resolveInput view st)).map Output.amount).sum =
          tx.outputAmounts.sum := by
        by_contra hne
        simp [hne] at c3
      have hres := resolved_amounts view st tx.inputs (fun id hid =>
        resolveInput_of_unspent view st id
          (fun p hp => hout p (List.mem_append_left _ hp))
          (hin id (List.mem_append_right _ hid)))
      simp only [List.map_append, List.sum_append, createdOutputs_sum, hsum, ← hbal, hres]

/-- The classification of a cone keeps the staged amounts equal to the amounts
of the consumed unspent outputs, under the two conditions on its result that the
ledger apply checks. -/
theorem classifyAll_sum (rules : Transaction → List Output → Bool) (view : Ledger) (idx : Index)
    (ts : Nat) (cone : List ConeMessage) :
    ∀ st : Staging,
      (∀ id ∈ (cone.foldl (classify rules view idx ts) st).consumed,
        id ∈ view.unspent.map Output.outputID) →
      (∀ p ∈ (cone.foldl (classify rules view idx ts) st).newOutputs,
        p.1 ∉ view.unspent.map Output.outputID) →
      ((st.newOutputs.map Prod.snd).map Output.amount).sum =
        (st.consumed.map (amountOf view.unspent)).sum →
      (((cone.foldl (classify rules view idx ts) st).newOutputs.map Prod.snd).map
        Output.amount).sum =
      ((cone.foldl (classify rules view idx ts) st).consumed.map (amountOf view.unspent)).sum := by
  induction cone with
  | nil => intro st _ _ h; exact h
  | cons m rest ih =>
      intro st hin hout hsum
      obtain ⟨b1, b2⟩ := classifyAll_mono rules view idx ts rest (classify rules view idx ts st m)
      exact ih (classify rules view idx ts st m) hin hout
        (classify_sum rules view idx ts st m (fun id h => hin id (b1 id h))
          (fun p h => hout p (b2 p h)) hsum)

theorem classifyAll_keys (rules : Transaction → List Output → Bool) (view : Ledger) (idx : Index)
    (ts : Nat) (cone : List ConeMessage) :
    ∀ st : Staging,
      (st.newSpents.map Prod.fst = st.consumed ∧
        st.newSpents.map (fun p => p.2.outputID) = st.consumed ∧
        st.newOutputs.map (fun p => p.2.outputID) = st.newOutputs.map Prod.fst) →
      (cone.foldl (classify rules view idx ts) st).newSpents.map Prod.fst =
        (cone.foldl (classify rules view idx ts) st).consumed ∧
      (cone.foldl (classify rules view idx ts) st).newSpents.map (fun p => p.2.outputID) =
        (cone.foldl (classify rules view idx ts) st).consumed ∧
      (cone.foldl (classify rules view idx ts) st).newOutputs.map (fun p => p.2.outputID) =
        (cone.foldl (classify rules view idx ts) st).newOutputs.map Prod.fst := by
  induction cone with
  | nil => intro st h; exact h
  | cons m rest ih =>
      intro st h
      exact ih _ (classify_keys rules view idx ts st m h)

theorem sum_map_ite (u : OutputID) (a : Nat) (f : OutputID → Nat) (hf : f u = 0) :
    ∀ ids : List OutputID, ids.Nodup →
      (ids.map (fun id => if u = id then a else f id)).sum =
        (ids.map f).sum + (if u ∈ ids then a else 0) := by
  intro ids
  induction ids with
  | nil => intro _; simp
  | cons x rest ih =>
      intro hnd
      obtain ⟨hx, hrest⟩ := List.nodup_cons.mp hnd
      simp only [List.map_cons, List.sum_cons, ih hrest, List.mem_cons]
      by_cases hux : u = x
      · subst hux
        simp [hf, hx]
        omega
      · by_cases hur : u ∈ rest
        · simp [hux, hur]; omega
        · simp [hux, hur]

theorem amountOf_cons (u : Output) (rest : List Output) :
    amountOf (u :: rest) = fun id => if u.outputID = id then u.amount else amountOf rest id := by
  funext id
  by_cases h : u.outputID = id
  · simp [amountOf, List.find?_cons, h]
  · simp [amountOf, List.find?_cons, h]

theorem amountOf_not_mem (outs : List Output) (id : OutputID)
    (h : id ∉ outs.map Output.outputID) : amountOf outs id = 0 := by
  have : outs.find? (fun o => decide (o.outputID = id)) = none := by
    rw [List.find?_eq_none]
    intro o ho heq
    simp only [decide_eq_true_eq] at heq
    exact h (List.mem_map.mpr ⟨o, ho, heq⟩)
  simp [amountOf, this]

/-- The amounts looked up for a duplicate-free list of ids add up to the amounts
of the outputs with these ids, when the outputs are keyed by id. -/
theorem sum_amountOf (ids : List OutputID) (hids : ids.Nodup) :
    ∀ outs : List Output, (outs.map Output.outputID).Nodup →
      (ids.map (amountOf outs)).sum =
        ((outs.filter (fun o => ids.contains o.outputID)).map Output.amount).sum := by
  intro outs
  induction outs with
  | nil =>
      intro _
      have h0 : amountOf [] = fun _ => 0 := by funext id; simp [amountOf]
      simp [h0]
  | cons u rest ih =>
      intro hnd
      simp only [List.map_cons, List.nodup_cons] at hnd
      obtain ⟨hu, hrest⟩ := hnd
      rw [amountOf_cons, sum_map_ite u.outputID u.amount (amountOf rest)
        (amountOf_not_mem rest _ hu) ids hids, ih hrest]
      by_cases hmem : u.outputID ∈ ids
      · simp [List.filter_cons, hmem]; omega
      · simp [List.filter_cons, hmem]

/-- What a successful apply of section 4.3 has checked: every spent output was
unspent, and no new output carries the id of an unspent or spent output. -/
theorem ApplyConfirmation_checks (l : Ledger) (i : Index) (o : List Output) (s : List Spent)
    (t : Option TreasuryMutationTuple) (r : Option ReceiptTuple) (l' : Ledger)
    (h : ApplyConfirmation l i o s t r = .ok l') :
    (∀ sp ∈ s, sp.outputID ∈ l.unspent.map Output.outputID) ∧
    (∀ x ∈ o, x.outputID ∉ l.unspent.map Output.outputID ∧
      x.outputID ∉ l.spent.map Spent.outputID) := by
  unfold ApplyConfirmation at h
  split_ifs at h with h1 h2 h3 h4
  constructor
  · intro sp hsp
    by_contra hc
    apply h2
    rw [List.any_eq_true]
    exact ⟨sp, hsp, by simpa using hc⟩
  · intro x hx
    have hn : ¬ ((l.unspent.map Output.outputID).contains x.outputID
        || (l.spent.map Spent.outputID).contains x.outputID) = true := by
      intro hc
      apply h3
      rw [List.any_eq_true]
      exact ⟨x, hx, hc⟩
    simpa using hn

/-- One step of the classification keeps the consumed inputs pairwise distinct
when the transaction names each of its inputs once: an input consumed earlier in
the cone is a conflict. -/
theorem classify_consumed_nodup (rules : Transaction → List Output → Bool) (view : Ledger)
    (idx : Index) (ts : Nat) (st : Staging) (m : ConeMessage)
    (hst : st.consumed.Nodup) (hm : m.inputs.Nodup) :
    (classify rules view idx ts st m).consumed.Nodup := by
  unfold ConeMessage.inputs at hm
  unfold classify
  rcases hmt : m.transaction with _ | tx
  · exact hst
  · rw [hmt] at hm
    simp only at hm ⊢
    split_ifs with c1 c2 c3
    · exact hst
    · exact hst
    · exact hst
    · refine List.nodup_append.mpr ⟨hst, hm, ?_⟩
      intro id h1 h2
      apply c2
      rw [List.any_eq_true]
      exact ⟨id, h2, by simp [h1]⟩

theorem classifyAll_consumed_nodup (rules : Transaction → List Output → Bool) (view : Ledger)
    (idx : Index) (ts : Nat) (cone : List ConeMessage) :
    ∀ st : Staging, st.consumed.Nodup → (∀ m ∈ cone, m.inputs.Nodup) →
      (cone.foldl (classify rules view idx ts) st).consumed.Nodup := by
  induction cone with
  | nil => intro st h _; exact h
  | cons m rest ih =>
      intro st h hv
      exact ih _ (classify_consumed_nodup rules view idx ts st m h
        (hv m (List.mem_cons_self _ _))) (fun x hx => hv x (List.mem_cons_of_mem _ hx))

/-- The white-flag computation of the specification stages no output as spent
twice when every transaction of the cone names each of its inputs once. -/
theorem WhiteFlag_spents_keyed
    (traverse : MetaStore → List MessageID → Except Error (List ConeMessage))
    (rules : Transaction → List Output → Bool) (merkle : List MessageID → MerkleRoot)
    (ro : List (OutputID × Output) → List (OutputID × Output))
    (rs : List (OutputID × Spent) → List (OutputID × Spent))
    (hrs : ∀ l, (rs l).Perm l)
    (L : Ledger) (M : MetaStore) (n : Nat) (idx : Index) (ts : Nat) (parents : List MessageID)
    (k : MilestoneID) (mu : WhiteFlagMutations)
    (hwf : WhiteFlag traverse rules merkle ro rs L M n idx ts parents k = .ok mu)
    (hvalid : ∀ cone, traverse M parents = .ok cone → ∀ m ∈ cone, m.inputs.Nodup) :
    mu.SpentsKeyed := by
  unfold WhiteFlag at hwf
  rcases htrav : traverse M parents with e | cone
  · rw [htrav] at hwf; cases hwf
  · rw [htrav] at hwf
    simp only [Except.ok.injEq] at hwf
    subst hwf
    obtain ⟨k1, -, -⟩ := classifyAll_keys rules L idx ts cone Staging.empty ⟨rfl, rfl, rfl⟩
    have hnd := classifyAll_consumed_nodup rules L idx ts cone Staging.empty List.nodup_nil
      (hvalid cone htrav)
    unfold WhiteFlagMutations.SpentsKeyed
    simp only
    rw [((hrs _).map Prod.fst).nodup_iff, k1]
    exact hnd

/-- The result of the white-flag computation of the specification is balanced
with respect to a keyed ledger when its spents form a map and it passes the
checks of the ledger apply. -/
theorem WhiteFlag_balanced
    (traverse : MetaStore → List MessageID → Except Error (List ConeMessage))
    (rules : Transaction → List Output → Bool) (merkle : List MessageID → MerkleRoot)
    (ro : List (OutputID × Output) → List (OutputID × Output))
    (rs : List (OutputID × Spent) → List (OutputID × Spent))
    (hro : ∀ l, (ro l).Perm l) (hrs : ∀ l, (rs l).Perm l)
    (L : Ledger) (M : MetaStore) (n : Nat) (idx : Index) (ts : Nat) (parents : List MessageID)
    (k : MilestoneID) (mu : WhiteFlagMutations)
    (hwf : WhiteFlag traverse rules merkle ro rs L M n idx ts parents k = .ok mu)
    (hL : L.Keyed) (hmu : mu.SpentsKeyed)
    (hin : ∀ sp ∈ mu.NewSpents.map Prod.snd, sp.outputID ∈ L.unspent.map Output.outputID)
    (hout : ∀ x ∈ mu.NewOutputs.map Prod.snd, x.outputID ∉ L.unspent.map Output.outputID) :
    Balanced L mu := by
  unfold WhiteFlag at hwf
  rcases htrav : traverse M parents with e | cone
  · rw [htrav] at hwf; cases hwf
  · rw [htrav] at hwf
    simp only [Except.ok.injEq] at hwf
    subst hwf
    obtain ⟨k1, k2, k3⟩ := classifyAll_keys rules L idx ts cone Staging.empty ⟨rfl, rfl, rfl⟩
    generalize hst : cone.foldl (classify rules L idx ts) Staging.empty = st at *
    simp only at hin hout
    have hcons : st.consumed.Nodup := by
      have := ((hrs st.newSpents).map Prod.fst).nodup_iff.mp hmu
      rw [k1] at this
      exact this
    have hin' : ∀ id ∈ st.consumed, id ∈ L.unspent.map Output.outputID := by
      intro id hid
      rw [← k2] at hid
      obtain ⟨p, hp, rfl⟩ := List.mem_map.mp hid
      exact hin p.2 (List.mem_map.mpr ⟨p, (hrs st.newSpents).mem_iff.mpr hp, rfl⟩)
    have hout' : ∀ p ∈ st.newOutputs, p.1 ∉ L.unspent.map Output.outputID := by
      intro p hp
      rw [List.map_inj_left.mp k3.symm p hp]
      exact hout p.2 (List.mem_map.mpr ⟨p, (hro st.newOutputs).mem_iff.mpr hp, rfl⟩)
    have hsum := classifyAll_sum rules L idx ts cone Staging.empty
      (by rw [hst]; exact hin') (by rw [hst]; exact hout') rfl
    rw [hst] at hsum
    unfold Balanced
    simp only
    rw [(((hro st.newOutputs).map Prod.snd).map Output.amount).sum_eq, hsum,
      sum_amountOf st.consumed hcons L.unspent hL]
    congr 2
    apply List.filter_congr
    intro o _
    rw [Bool.eq_iff_iff, ← k2]
    simp only [List.contains_eq_any_beq, List.any_eq_true, beq_iff_eq, List.map_map]
    constructor
    · rintro ⟨x, hx, he⟩
      obtain ⟨p, hp, rfl⟩ := List.mem_map.mp hx
      exact ⟨_, List.mem_map.mpr ⟨p, (hrs st.newSpents).mem_iff.mpr hp, rfl⟩, he⟩
    · rintro ⟨x, hx, he⟩
      obtain ⟨p, hp, rfl⟩ := List.mem_map.mp hx
      exact ⟨_, List.mem_map.mpr ⟨p, (hrs st.newSpents).mem_iff.mp hp, rfl⟩, he⟩

/-- A successful run with the white-flag computation and the ledger apply of the
specification, on a keyed ledger and with a white-flag result in which no output
is staged as spent twice, has a balanced white-flag result. -/
theorem success_is_balanced (env : Env) (L : Ledger) (M : MetaStore)
    (message : Message) (ms : Milestone) (mutations : WhiteFlagMutations)
    (traverse : MetaStore → List MessageID → Except Error (List ConeMessage))
    (rules : Transaction → List Output → Bool) (merkle : List MessageID → MerkleRoot)
    (ro : List (OutputID × Output) → List (OutputID × Output))
    (rs : List (OutputID × Spent) → List (OutputID × Spent))
    (hmsg : env.cachedMessageFunc env.milestoneMessageID = .ok (some message))
    (hms : message.Milestone = some ms)
    (hspec : env.computeWhiteFlagMutations = WhiteFlag traverse rules merkle ro rs)
    (hro : ∀ l, (ro l).Perm l) (hrs : ∀ l, (rs l).Perm l)
    (hwf : env.computeWhiteFlagMutations L M env.networkId ms.Index ms.Timestamp message.parents
      env.lastMilestoneID = .ok mutations)
    (happ : env.applyConfirmationWithoutLocking = ApplyConfirmation)
    (hL : L.Keyed) (hmu : mutations.SpentsKeyed)
    (hsucc : (ConfirmMilestone env L M).1.err = none) :
    Balanced L mutations := by
  obtain ⟨message', ms', msID, mutations', opts, migrated, tm, rt, L', h1, h2, -, h4, -, -,
    -, -, happly⟩ := success_unfold env L M hsucc
  rw [hmsg] at h1
  simp only [Except.ok.injEq, Option.some.injEq] at h1
  subst h1
  rw [hms] at h2
  simp only [Option.some.injEq] at h2
  subst h2
  rw [hwf] at h4
  simp only [Except.ok.injEq] at h4
  subst h4
  rw [happ] at happly
  obtain ⟨c1, c2⟩ := ApplyConfirmation_checks _ _ _ _ _ _ _ happly
  rw [hspec] at hwf
  exact WhiteFlag_balanced traverse rules merkle ro rs hro hrs L M _ _ _ _ _ mutations hwf hL hmu
    c1 (fun x hx => (c2 x (List.mem_append_left _ hx)).1)

/-- Counterexample to C18: in the sample run the receipt's funds amount to 3000,
and the sum of the unspent amounts and the treasury is 11000 before and after
the confirmation, not 14000 after it. -/
theorem total_does_not_grow_by_receipt_funds :
    (ConfirmMilestone sampleEnv sampleLedger sampleStore).1.err = none ∧
    sampleReceipt.fundsTotal = 3000 ∧
    sampleLedger.total = 11000 ∧
    (ConfirmMilestone sampleEnv sampleLedger sampleStore).2.ledger.total = 11000 ∧
    (ConfirmMilestone sampleEnv sampleLedger sampleStore).2.ledger.total
      ≠ sampleLedger.total + sampleReceipt.fundsTotal := by
  refine ⟨by rfl, by rfl, by rfl, by rfl, ?_⟩
  have h1 : (ConfirmMilestone sampleEnv sampleLedger sampleStore).2.ledger.total = 11000 := by
    rfl
  have h2 : sampleLedger.total + sampleReceipt.fundsTotal = 14000 := by rfl
  rw [h1, h2]
  decide

/-- C18 (amended): with the white-flag computation, the ledger apply, the
treasury read, the receipt validation and the receipt conversions of the
specification, the unspent outputs of the ledger and the `NewSpents` of the
white-flag result being maps keyed by output id, after any successful
confirmation the sum of the unspent amounts is the sum before plus
the sum of the receipt's funds, and the treasury amount plus the sum of the
receipt's funds is the treasury amount before (the sum of the funds being zero
when the milestone carries no receipt). -/
theorem receipt_funds_move_from_treasury (env : Env) (L : Ledger) (M : MetaStore)
    (message : Message) (ms : Milestone) (mutations : WhiteFlagMutations)
    (opts : MilestoneOptSet)
    (traverse : MetaStore → List MessageID → Except Error (List ConeMessage))
    (rules : Transaction → List Output → Bool) (merkle : List MessageID → MerkleRoot)
    (ro : List (OutputID × Output) → List (OutputID × Output))
    (rs : List (OutputID × Spent) → List (OutputID × Spent))
    (hmsg : env.cachedMessageFunc env.milestoneMessageID = .ok (some message))
    (hms : message.Milestone = some ms)
    (hspec : env.computeWhiteFlagMutations = WhiteFlag traverse rules merkle ro rs)
    (hro : ∀ l, (ro l).Perm l) (hrs : ∀ l, (rs l).Perm l)
    (hwf : env.computeWhiteFlagMutations L M env.networkId ms.Index ms.Timestamp message.parents
      env.lastMilestoneID = .ok mutations)
    (hopts : env.optsSet ms.Opts = .ok opts)
    (happ : env.applyConfirmationWithoutLocking = ApplyConfirmation)
    (htr : env.unspentTreasuryOutputWithoutLocking = UnspentTreasuryOutput)
    (hval : env.validateReceipt = ValidateReceipt)
    (hout : env.receiptToOutputs = ReceiptToOutputs)
    (htm : env.receiptToTreasuryMutation = ReceiptToTreasuryMutation)
    (hL : L.Keyed) (hmu : mutations.SpentsKeyed)
    (hsucc : (ConfirmMilestone env L M).1.err = none) :
    (ConfirmMilestone env L M).2.ledger.unspentTotal = L.unspentTotal + opts.fundsTotal ∧
    (ConfirmMilestone env L M).2.ledger.treasury.amount + opts.fundsTotal
      = L.treasury.amount ∧
    (opts.Receipt = none → opts.fundsTotal = 0) := by
  have hbal := success_is_balanced env L M message ms mutations traverse rules merkle ro rs hmsg
    hms hspec hro hrs hwf happ hL hmu hsucc
  obtain ⟨a1, a2⟩ := amounts_after_success env L M message ms mutations opts hmsg hms hwf hopts
    happ htr hval hout htm hbal hsucc
  exact ⟨a1, a2, fun h => by simp [MilestoneOptSet.fundsTotal, h]⟩

/-- Witness for C18: the run on the sample cone, its maps ranged over in reverse
order of staging, moves 3000 from the treasury to the unspent outputs. -/
theorem receipt_funds_move_from_treasury_witness :
    (ConfirmMilestone reversedConeEnv sampleLedger sampleStore).2.ledger.unspentTotal
      = sampleLedger.unspentTotal + 3000 ∧
    (ConfirmMilestone reversedConeEnv sampleLedger sampleStore).2.ledger.treasury.amount + 3000
      = sampleLedger.treasury.amount :=
  have h := receipt_funds_move_from_treasury reversedConeEnv sampleLedger sampleStore coneMessage
    coneMilestone reversedConeMutations ⟨some sampleReceipt⟩ (fun _ _ => .ok coneMessages) (fun _ _ => true) joinedIDs
    List.reverse List.reverse rfl rfl rfl (fun l => List.reverse_perm l)
    (fun l => List.reverse_perm l) (by rfl) rfl rfl rfl rfl rfl rfl
    (by unfold Ledger.Keyed; decide)
    (WhiteFlag_spents_keyed (fun _ _ => .ok coneMessages) (fun _ _ => true) joinedIDs
      List.reverse List.reverse (fun l => List.reverse_perm l) sampleLedger sampleStore 42 1 100
      [[1], [2], [3]] [] reversedConeMutations (by rfl)
      (fun cone h => by
        simp only [Except.ok.injEq] at h
        subst h
        decide))
    (by rfl)
  ⟨h.1, h.2.1⟩

/-! ## The referenced-message callback -/

theorem newlyReferenced_mem (l : List MessageID) :
    ∀ (p : MessageID → Bool) (id : MessageID),
      id ∈ newlyReferenced p l ↔ id ∈ l ∧ p id = false := by
  induction l with
  | nil => intro p id; simp [newlyReferenced]
  | cons a rest ih =>
      intro p id
      by_cases hp : p a = true
      · simp only [newlyReferenced, hp, if_true, ih, List.mem_cons]
        constructor
        · rintro ⟨h1, h2⟩; exact ⟨Or.inr h1, h2⟩
        · rintro ⟨h1 | h1, h2⟩
          · subst h1; rw [hp] at h2; cases h2
          · exact ⟨h1, h2⟩
      · have hp' : p a = false := by simpa using hp
        simp only [newlyReferenced, hp', Bool.false_eq_true, if_false, List.mem_cons, ih,
          Bool.or_eq_false_iff, decide_eq_false_iff_not]
        constructor
        · rintro (h | ⟨h1, -, h3⟩)
          · subst h; exact ⟨Or.inl rfl, hp'⟩
          · exact ⟨Or.inr h1, h3⟩
        · rintro ⟨h1 | h1, h2⟩
          · exact Or.inl h1
          · by_cases hid : id = a
            · exact Or.inl hid
            · exact Or.inr ⟨h1, hid, h2⟩

theorem newlyReferenced_nodup (l : List MessageID) :
    ∀ (p : MessageID → Bool), (newlyReferenced p l).Nodup := by
  induction l with
  | nil => intro p; simp [newlyReferenced]
  | cons a rest ih =>
      intro p
      by_cases hp : p a = true
      · simp only [newlyReferenced, hp, if_true]; exact ih p
      · have hp' : p a = false := by simpa using hp
        simp only [newlyReferenced, hp', Bool.false_eq_true, if_false, List.nodup_cons]
        refine ⟨?_, ih _⟩
        intro h
        have := ((newlyReferenced_mem rest _ a).mp h).2
        simp at this

theorem newlyReferenced_sublist (l : List MessageID) :
    ∀ (p : MessageID → Bool), (newlyReferenced p l).Sublist l := by
  induction l with
  | nil => intro p; simp [newlyReferenced]
  | cons a rest ih =>
      intro p
      by_cases hp : p a = true
      · simp only [newlyReferenced, hp, if_true]
        exact List.Sublist.cons _ (ih p)
      · have hp' : p a = false := by simpa using hp
        simp only [newlyReferenced, hp', Bool.false_eq_true, if_false]
        exact List.Sublist.cons₂ _ (ih _)

theorem entries_listedIDs (mu : WhiteFlagMutations) :
    mu.entries.map (fun x => x.2.MessageID) = mu.listedIDs := by
  simp [WhiteFlagMutations.entries, WhiteFlagMutations.listedIDs, List.map_append,
    List.map_map, Function.comp_def, plain]

theorem isForEach_isMetadataPhase (e : Event) (h : e.isForEach = true) :
    e.isMetadataPhase = true := by
  cases e <;> simp_all [Event.isForEach, Event.isMetadataPhase]

/-! ## The callback per referenced message, in every run -/

/-- With the default check and set functions, a step of the walk on a found
record leaves the record of the message referenced and the referencedness of
every other record as it was. -/
theorem isReferencedIn_after_closure (env : Env)
    (hc : env.checkMessageReferencedFunc = DefaultCheckMessageReferencedFunc)
    (hs : env.setMessageReferencedFunc = DefaultSetMessageReferencedFunc)
    (cat : Category) (idx : Index) (ts : Nat) (m : MessageWithConflict)
    (M : MetaStore) (meta : MessageMetadata) (stats : ConfirmedMilestoneStats) :
    isReferencedIn (fun j => if j = m.MessageID then
        .ok (some (closure env cat idx ts m.MessageID m.Conflict meta stats).1)
        else M j) =
      (fun j => decide (j = m.MessageID) || isReferencedIn M j) := by
  have hrefd := (closure_default_meta env hc hs cat idx ts m.MessageID m.Conflict meta
    stats).1
  funext j
  by_cases hj : j = m.MessageID
  · simp [isReferencedIn, hj, hrefd]
  · simp [isReferencedIn, hj]

/-- With the default check function, the closure calls `forEachReferencedMessage`
exactly when the record is not yet referenced and the callback is supplied. -/
theorem closure_default_forEach_calls (env : Env)
    (hc : env.checkMessageReferencedFunc = DefaultCheckMessageReferencedFunc)
    (cat : Category) (idx : Index) (ts : Nat) (id : MessageID) (c : Conflict)
    (meta : MessageMetadata) (st : ConfirmedMilestoneStats) :
    (closure env cat idx ts id c meta st).2.2.filter Event.isForEach =
      if meta.isReferenced = true then []
      else if env.forEachReferencedMessage = true then [Event.forEachReferencedMessage id idx ts]
      else [] := by
  cases hr : meta.isReferenced <;> cases cat <;> cases hsm : env.serverMetrics <;>
    cases hfe : env.forEachReferencedMessage <;>
    simp [closure, referenceIfUnreferenced, hc, DefaultCheckMessageReferencedFunc,
      MessageMetadata.IsReferenced, MessageMetadata.SetIsNoTransaction,
      MessageMetadata.SetConflictingTx, hr, hfe, hsm, Event.isForEach, List.filter_cons]

/-- The `forEachReferencedMessage` calls of a walk, whether or not it ends with
an error, for the default check and set functions: the walk visits a prefix of
its entries (all of them when it ends without error), calls the callback for the
visited messages that were not referenced, each once, and leaves referenced
exactly the visited messages and those referenced before. -/
theorem entriesLoop_forEach_visited (env : Env)
    (hc : env.checkMessageReferencedFunc = DefaultCheckMessageReferencedFunc)
    (hs : env.setMessageReferencedFunc = DefaultSetMessageReferencedFunc)
    (idx : Index) (ts : Nat) :
    ∀ (es : List (Category × MessageWithConflict)) (s : Sys)
      (stats : ConfirmedMilestoneStats),
      ∃ visited rest, es.map (fun x => x.2.MessageID) = visited ++ rest ∧
        ((entriesLoop env idx ts es s stats).1 = none → rest = []) ∧
        (entriesLoop env idx ts es s stats).2.1.trace.filter Event.isForEach =
          s.trace.filter Event.isForEach ++
            (if env.forEachReferencedMessage = true then
              (newlyReferenced (isReferencedIn s.metadata) visited).map
                (fun id => Event.forEachReferencedMessage id idx ts)
            else []) ∧
        (∀ j, isReferencedIn (entriesLoop env idx ts es s stats).2.1.metadata j =
          (decide (j ∈ visited) || isReferencedIn s.metadata j)) := by
  intro es
  induction es with
  | nil =>
      intro s stats
      exact ⟨[], [], rfl, fun _ => rfl, by simp [entriesLoop, newlyReferenced],
        by simp [entriesLoop]⟩
  | cons x rest ih =>
      intro s stats
      obtain ⟨cat, m⟩ := x
      by_cases hf : ∃ meta, s.metadata m.MessageID = .ok (some meta)
      · obtain ⟨meta, hmeta⟩ := hf
        rw [entriesLoop_cons_found env idx ts cat m rest s stats meta hmeta]
        obtain ⟨visited, rest', hsplit, hrest, htr, hmd⟩ := ih
          { ledger := s.ledger,
            metadata := fun j => if j = m.MessageID then
                .ok (some (closure env cat idx ts m.MessageID m.Conflict meta stats).1)
              else s.metadata j,
            trace := s.trace ++ ([Event.cachedMessageMetadata m.MessageID]
              ++ (closure env cat idx ts m.MessageID m.Conflict meta stats).2.2
              ++ [Event.releaseMetadata m.MessageID]) }
          (closure env cat idx ts m.MessageID m.Conflict meta stats).2.1
        have hfun := isReferencedIn_after_closure env hc hs cat idx ts m s.metadata meta stats
        simp only [hfun] at htr hmd
        have hcl := closure_default_forEach_calls env hc cat idx ts m.MessageID m.Conflict meta
          stats
        have hp : isReferencedIn s.metadata m.MessageID = meta.isReferenced := by
          simp [isReferencedIn, hmeta]
        refine ⟨m.MessageID :: visited, rest', by simp [hsplit], hrest, ?_, ?_⟩
        · rw [htr]
          simp only [List.filter_append, hcl]
          cases hr : meta.isReferenced
          · rw [hr] at hp
            cases hfe : env.forEachReferencedMessage <;>
              simp [newlyReferenced, hp, Event.isForEach]
          · rw [hr] at hp
            have hsame : (fun j => decide (j = m.MessageID) || isReferencedIn s.metadata j) =
                isReferencedIn s.metadata := by
              funext j
              by_cases hj : j = m.MessageID
              · subst hj; simp [hp]
              · simp [hj]
            cases hfe : env.forEachReferencedMessage <;>
              simp [newlyReferenced, hp, hsame, Event.isForEach]
        · intro j
          rw [hmd j]
          by_cases hj : j = m.MessageID
          · simp [hj]
          · simp [hj]
      · obtain ⟨e, heq⟩ := entriesLoop_cons_not_found env idx ts cat m rest s stats
          (fun meta h => hf ⟨meta, h⟩)
        rw [heq]
        refine ⟨[], m.MessageID :: rest.map (fun x => x.2.MessageID), by simp, ?_, ?_, ?_⟩
        · intro h; simp at h
        · simp [List.filter_append, Event.isForEach, newlyReferenced]
        · intro j; simp

theorem isBeforeApply_not_forEach (e : Event) (h : e.isBeforeApply = true) :
    e.isForEach = false := by
  cases e <;> simp_all [Event.isBeforeApply, Event.isForEach]

/-- Counterexample to C13: with a check function that reports every record as
not referenced, the callback is called for the already referenced messages
`[2]` and `[3]`, and twice for message `[1]`, which is listed twice. -/
theorem callback_for_referenced_message :
    isReferencedIn referencedStore [2] = true ∧ isReferencedIn referencedStore [3] = true ∧
    (ConfirmMilestone eagerEnv sampleLedger referencedStore).1.err = none ∧
    (ConfirmMilestone eagerEnv sampleLedger referencedStore).2.trace.filter Event.isForEach =
      [Event.forEachReferencedMessage [1] 1 100, Event.forEachReferencedMessage [2] 1 100,
       Event.forEachReferencedMessage [1] 1 100, Event.forEachReferencedMessage [3] 1 100] := by
  refine ⟨by rfl, by rfl, by rfl, by rfl⟩

/-- C13 (amended): with the default check and set functions, every run visits
a prefix `visited` of the listed messages (included, then excluded without
transaction, then excluded conflicting, in list order), all of them when it
returns no error, and the calls of `forEachReferencedMessage`, if the callback
is supplied, are exactly, in this order, one call per message of
`newlyReferenced` over `visited`, each with the milestone's index and the
payload's timestamp.  The messages of `newlyReferenced` are, once each and in
visiting order, exactly the messages whose record was not referenced before the
call and is referenced after it. -/
theorem referenced_message_callbacks (env : Env) (L : Ledger) (M : MetaStore)
    (message : Message) (ms : Milestone) (mutations : WhiteFlagMutations)
    (hmsg : env.cachedMessageFunc env.milestoneMessageID = .ok (some message))
    (hms : message.Milestone = some ms)
    (hwf : env.computeWhiteFlagMutations L M env.networkId ms.Index ms.Timestamp message.parents
      env.lastMilestoneID = .ok mutations)
    (hc : env.checkMessageReferencedFunc = DefaultCheckMessageReferencedFunc)
    (hs : env.setMessageReferencedFunc = DefaultSetMessageReferencedFunc) :
    ∃ visited rest, mutations.listedIDs = visited ++ rest ∧
      ((ConfirmMilestone env L M).1.err = none → rest = []) ∧
      (ConfirmMilestone env L M).2.trace.filter Event.isForEach =
        (if env.forEachReferencedMessage = true then
          (newlyReferenced (isReferencedIn M) visited).map
            (fun id => Event.forEachReferencedMessage id ms.Index ms.Timestamp)
        else []) ∧
      (newlyReferenced (isReferencedIn M) visited).Nodup ∧
      (newlyReferenced (isReferencedIn M) visited).Sublist visited ∧
      (∀ id, id ∈ newlyReferenced (isReferencedIn M) visited ↔
        isReferencedIn M id = false ∧
          isReferencedIn (ConfirmMilestone env L M).2.metadata id = true) := by
  have hnone : ∀ (out : Ret × Sys), out.1.err ≠ none → out.2.metadata = M →
      out.2.trace.filter Event.isForEach = [] →
      ∃ visited rest, mutations.listedIDs = visited ++ rest ∧
        (out.1.err = none → rest = []) ∧
        out.2.trace.filter Event.isForEach =
          (if env.forEachReferencedMessage = true then
            (newlyReferenced (isReferencedIn M) visited).map
              (fun id => Event.forEachReferencedMessage id ms.Index ms.Timestamp)
          else []) ∧
        (newlyReferenced (isReferencedIn M) visited).Nodup ∧
        (newlyReferenced (isReferencedIn M) visited).Sublist visited ∧
        (∀ id, id ∈ newlyReferenced (isReferencedIn M) visited ↔
          isReferencedIn M id = false ∧ isReferencedIn out.2.metadata id = true) := by
    intro out herr hmeta htr
    refine ⟨[], mutations.listedIDs, rfl, fun h => absurd h herr, ?_, ?_, ?_, ?_⟩
    · rw [htr]; simp [newlyReferenced]
    · simp [newlyReferenced]
    · simp [newlyReferenced]
    · intro id
      rw [hmeta]
      simp [newlyReferenced]
  rcases ConfirmMilestone_cases env L M with h | h
  · obtain ⟨herr, -, -, -, hmeta, evs, htr, hevs⟩ := h
    refine hnone _ herr hmeta ?_
    rw [htr]
    simp only [List.nil_append]
    exact filter_eq_nil_of_forall hevs isBeforeApply_not_forEach
  · obtain ⟨message', ms', msID, mutations', opts, migrated, tm, rt, pre, h1, h2, h3, h4, h5, h6,
      h7, h8, hpre, hout⟩ := h
    rw [hmsg] at h1
    simp only [Except.ok.injEq, Option.some.injEq] at h1
    subst h1
    rw [hms] at h2
    simp only [Option.some.injEq] at h2
    subst h2
    rw [hwf] at h4
    simp only [Except.ok.injEq] at h4
    subst h4
    rcases hout with ⟨e, -, hf, -, hmeta, htr⟩ | ⟨L', evs, happly, -⟩
    · refine hnone _ (by rw [hf]; simp [Ret.fail]) hmeta ?_
      rw [htr]
      simp only [List.filter_append]
      rw [filter_eq_nil_of_forall hpre isBeforeApply_not_forEach,
        filter_eq_nil_of_forall (unlock_release_beforeApply message.messageID)
          isBeforeApply_not_forEach]
      simp [Event.isForEach]
    · obtain ⟨-, wmeta, w, wtr, -⟩ := ConfirmMilestone_applied_walk env L M message ms msID
        mutations opts migrated tm rt L' hmsg hms h3 hwf h5 h6 h7 h8 happly
      obtain ⟨visited, rest, hsplit, hrest, hwalk, hmd⟩ := entriesLoop_forEach_visited env hc hs
        ms.Index ms.Timestamp mutations.entries
        (stateAfterApply env M message ms opts (mutations.NewOutputs.map Prod.snd ++ migrated)
          (mutations.NewSpents.map Prod.snd) tm rt L') ⟨ms.Index, 0, 0, 0, 0, 0⟩
      have hpre' : (stateAfterApply env M message ms opts
          (mutations.NewOutputs.map Prod.snd ++ migrated)
          (mutations.NewSpents.map Prod.snd) tm rt L').trace.filter Event.isForEach = [] := by
        apply List.filter_eq_nil_iff.mpr
        intro e he hfe'
        have h1 := stateAfterApply_trace env M message ms opts _ _ tm rt L' e he
        rw [isForEach_isMetadataPhase e hfe'] at h1
        cases h1
      have hmeta : (stateAfterApply env M message ms opts
          (mutations.NewOutputs.map Prod.snd ++ migrated)
          (mutations.NewSpents.map Prod.snd) tm rt L').metadata = M := rfl
      rw [hmeta] at hwalk hmd
      rw [entries_listedIDs] at hsplit
      refine ⟨visited, rest, hsplit, fun h => hrest (w.mp h), ?_, newlyReferenced_nodup _ _,
        newlyReferenced_sublist _ _, ?_⟩
      · rw [wtr]
        simp only [List.filter_append]
        rw [hwalk, hpre']
        split_ifs <;> simp [Event.isForEach]
      · intro id
        rw [wmeta, hmd id, newlyReferenced_mem]
        constructor
        · rintro ⟨h1, h2⟩; exact ⟨h2, by simp [h1]⟩
        · rintro ⟨h1, h2⟩
          rw [h1] at h2
          exact ⟨by simpa using h2, h1⟩

/-- Witness for C13: a run with the default functions in which message `[1]` is
listed twice, as included and as transaction-less, calls the callback once for
each of `[1]`, `[2]`, `[3]`. -/
theorem referenced_message_callbacks_witness :
    ∃ visited rest, repeatedMutations.listedIDs = visited ++ rest ∧
      ((ConfirmMilestone repeatedEnv sampleLedger sampleStore).1.err = none → rest = []) ∧
      (ConfirmMilestone repeatedEnv sampleLedger sampleStore).2.trace.filter Event.isForEach =
        (if repeatedEnv.forEachReferencedMessage = true then
          (newlyReferenced (isReferencedIn sampleStore) visited).map
            (fun id => Event.forEachReferencedMessage id 1 100)
        else []) ∧
      (ConfirmMilestone repeatedEnv sampleLedger sampleStore).2.trace.filter Event.isForEach =
        [Event.forEachReferencedMessage [1] 1 100, Event.forEachReferencedMessage [2] 1 100,
         Event.forEachReferencedMessage [3] 1 100] :=
  match referenced_message_callbacks repeatedEnv sampleLedger sampleStore sampleMessage
    sampleMilestone repeatedMutations rfl rfl rfl rfl rfl with
  | ⟨visited, rest, h1, h2, h3, _⟩ => ⟨visited, rest, h1, h2, h3, by rfl⟩

/-! ## Determinism -/

theorem storeUint_natCast (bits : Nat) (cur n : Nat) (h : n < 2 ^ bits) :
    storeUint bits cur (JSON.number n) = .ok n := by
  have h' : ((n : Int) < 2 ^ bits) := by exact_mod_cast h
  simp [storeUint, h']

theorem storeRawMessage_of_ne_null (v : JSON) (h : v ≠ JSON.null) :
    storeRawMessage v = some v := by
  cases v <;> first | exact absurd rfl h | rfl

/-- Counterexample to C20: an `OutputResponse` whose `RawOutput` points to the
raw message `null` is written with the member `"output": null`, which is
decoded to a nil pointer: the decoded value is not the original. -/
theorem null_raw_output_is_not_restored :
    nullRawResponse.RawOutput ≠ none ∧
    OutputResponse.UnmarshalJSON nullRawResponse.MarshalJSON = .ok unspentResponse ∧
    OutputResponse.UnmarshalJSON nullRawResponse.MarshalJSON ≠ .ok nullRawResponse := by
  have h : OutputResponse.UnmarshalJSON nullRawResponse.MarshalJSON = .ok unspentResponse := by
    simp [OutputResponse.UnmarshalJSON, OutputResponse.MarshalJSON, OutputResponse.setMembers,
      OutputResponse.setMember, nullRawResponse, unspentResponse, OutputResponse.zero,
      storeString, storeUint, storeBool, storeRawMessage, Except.map]
  refine ⟨by simp [nullRawResponse], h, ?_⟩
  rw [h]
  intro hEq
  have h2 := congrArg (fun x => match x with
    | Except.ok r => r.RawOutput.isSome
    | Except.error _ => false) hEq
  simp [nullRawResponse, unspentResponse] at h2

theorem setMember_messageId (r : OutputResponse) (x : String) :
    r.setMember ("messageId", JSON.string x) = .ok { r with MessageID := x } := by
  simp [OutputResponse.setMember, storeString, Except.map]

theorem setMember_transactionId (r : OutputResponse) (x : String) :
    r.setMember ("transactionId", JSON.string x) = .ok { r with TransactionID := x } := by
  simp [OutputResponse.setMember, storeString, Except.map]

theorem setMember_outputIndex (r : OutputResponse) (x : Nat) (h : x < 2 ^ 16) :
    r.setMember ("outputIndex", JSON.number x) = .ok { r with OutputIndex := x } := by
  simp only [OutputResponse.setMember]
  simp only [String.reduceEq, if_false, if_true]
  rw [storeUint_natCast 16 _ x h]
  rfl

theorem setMember_isSpent (r : OutputResponse) (x : Bool) :
    r.setMember ("isSpent", JSON.bool x) = .ok { r with Spent := x } := by
  simp [OutputResponse.setMember, storeBool, Except.map]

theorem setMember_milestoneIndexSpent (r : OutputResponse) (x : Nat) (h : x < 2 ^ 32) :
    r.setMember ("milestoneIndexSpent", JSON.number x)
      = .ok { r with MilestoneIndexSpent := x } := by
  simp only [OutputResponse.setMember]
  simp only [String.reduceEq, if_false, if_true]
  rw [storeUint_natCast 32 _ x h]
  rfl

theorem setMember_milestoneTimestampSpent (r : OutputResponse) (x : Nat) (h : x < 2 ^ 32) :
    r.setMember ("milestoneTimestampSpent", JSON.number x)
      = .ok { r with MilestoneTimestampSpent := x } := by
  simp only [OutputResponse.setMember]
  simp only [String.reduceEq, if_false, if_true]
  rw [storeUint_natCast 32 _ x h]
  rfl

theorem setMember_transactionIdSpent (r : OutputResponse) (x : String) :
    r.setMember ("transactionIdSpent", JSON.string x)
      = .ok { r with TransactionIDSpent := x } := by
  simp [OutputResponse.setMember, storeString, Except.map]

theorem setMember_milestoneIndexBooked (r : OutputResponse) (x : Nat) (h : x < 2 ^ 32) :
    r.setMember ("milestoneIndexBooked", JSON.number x)
      = .ok { r with MilestoneIndexBooked := x } := by
  simp only [OutputResponse.setMember]
  simp only [String.reduceEq, if_false, if_true]
  rw [storeUint_natCast 32 _ x h]
  rfl

theorem setMember_milestoneTimestampBooked (r : OutputResponse) (x : Nat) (h : x < 2 ^ 32) :
    r.setMember ("milestoneTimestampBooked", JSON.number x)
      = .ok { r with MilestoneTimestampBooked := x } := by
  simp only [OutputResponse.setMember]
  simp only [String.reduceEq, if_false, if_true]
  rw [storeUint_natCast 32 _ x h]
  rfl

theorem setMember_ledgerIndex (r : OutputResponse) (x : Nat) (h : x < 2 ^ 32) :
    r.setMember ("ledgerIndex", JSON.number x) = .ok { r with LedgerIndex := x } := by
  simp only [OutputResponse.setMember]
  simp only [String.reduceEq, if_false, if_true]
  rw [storeUint_natCast 32 _ x h]
  rfl

theorem setMember_output (r : OutputResponse) (v : JSON) (h : v ≠ JSON.null) :
    r.setMember ("output", v) = .ok { r with RawOutput := some v } := by
  simp [OutputResponse.setMember, storeRawMessage_of_ne_null v h]

theorem setMembers_cons_ok (m : String × JSON) (rest : List (String × JSON))
    (r r' : OutputResponse) (h : r.setMember m = .ok r') :
    OutputResponse.setMembers (m :: rest) r = OutputResponse.setMembers rest r' := by
  simp [OutputResponse.setMembers, h]

/-- C20 (amended): an `OutputResponse` whose numeric fields fit their types and
whose `RawOutput` is nil or holds a JSON value other than `null` is restored by
decoding its encoding, whether or not its spent-fields are zero (and so left out
of the encoding). -/
theorem output_response_round_trip (r : OutputResponse) (hr : r.InRange)
    (hraw : r.RawOutput ≠ some JSON.null) :
    OutputResponse.UnmarshalJSON r.MarshalJSON = .ok r := by
  obtain ⟨mid, tid, oi, sp, mis, mts, tis, mib, mtb, li, raw⟩ := r
  obtain ⟨h1, h2, h3, h4, h5, h6⟩ := hr
  simp only at h1 h2 h3 h4 h5 h6 hraw
  simp only [OutputResponse.UnmarshalJSON, OutputResponse.MarshalJSON, List.cons_append,
    List.nil_append]
  rw [setMembers_cons_ok _ _ _ _ (setMember_messageId _ mid),
    setMembers_cons_ok _ _ _ _ (setMember_transactionId _ tid),
    setMembers_cons_ok _ _ _ _ (setMember_outputIndex _ oi h1),
    setMembers_cons_ok _ _ _ _ (setMember_isSpent _ sp)]
  have s1 : ∀ (rest : List (String × JSON)) (r0 : OutputResponse), r0.MilestoneIndexSpent = 0 →
      OutputResponse.setMembers ((if mis = 0 then []
        else [("milestoneIndexSpent", JSON.number mis)]) ++ rest) r0 =
      OutputResponse.setMembers rest { r0 with MilestoneIndexSpent := mis } := by
    intro rest r0 h0
    by_cases c : mis = 0
    · subst c; simp only [if_true, List.nil_append]; rw [← h0]
    · simp only [c, if_false, List.cons_append, List.nil_append]
      exact setMembers_cons_ok _ _ _ _ (setMember_milestoneIndexSpent _ mis h2)
  have s2 : ∀ (rest : List (String × JSON)) (r0 : OutputResponse),
      r0.MilestoneTimestampSpent = 0 →
      OutputResponse.setMembers ((if mts = 0 then []
        else [("milestoneTimestampSpent", JSON.number mts)]) ++ rest) r0 =
      OutputResponse.setMembers rest { r0 with MilestoneTimestampSpent := mts } := by
    intro rest r0 h0
    by_cases c : mts = 0
    · subst c; simp only [if_true, List.nil_append]; rw [← h0]
    · simp only [c, if_false, List.cons_append, List.nil_append]
      exact setMembers_cons_ok _ _ _ _ (setMember_milestoneTimestampSpent _ mts h3)
  have s3 : ∀ (rest : List (String × JSON)) (r0 : OutputResponse),
      r0.TransactionIDSpent = "" →
      OutputResponse.setMembers ((if tis = "" then []
        else [("transactionIdSpent", JSON.string tis)]) ++ rest) r0 =
      OutputResponse.setMembers rest { r0 with TransactionIDSpent := tis } := by
    intro rest r0 h0
    by_cases c : tis = ""
    · subst c; simp only [if_true, List.nil_append]; rw [← h0]
    · simp only [c, if_false, List.cons_append, List.nil_append]
      exact setMembers_cons_ok _ _ _ _ (setMember_transactionIdSpent _ tis)
  simp only [List.append_assoc]
  rw [s1 _ _ rfl, s2 _ _ rfl, s3 _ _ rfl]
  simp only [List.cons_append, List.nil_append]
  rw [setMembers_cons_ok _ _ _ _ (setMember_milestoneIndexBooked _ mib h4),
    setMembers_cons_ok _ _ _ _ (setMember_milestoneTimestampBooked _ mtb h5),
    setMembers_cons_ok _ _ _ _ (setMember_ledgerIndex _ li h6)]
  rcases raw with _ | v
  · rfl
  · have hv : v ≠ JSON.null := fun h => hraw (by rw [h])
    simp only [List.cons_append, List.nil_append]
    rw [setMembers_cons_ok _ _ _ _ (setMember_output _ v hv)]
    rfl

/-- Witness for C20: a spent output with a raw output and an unspent output
without one are both restored. -/
theorem output_response_round_trip_witness :
    OutputResponse.UnmarshalJSON spentResponse.MarshalJSON = .ok spentResponse :=
  output_response_round_trip spentResponse
    (by simp [OutputResponse.InRange, spentResponse])
    (by simp [spentResponse])

/-! ## The wording of the Merkle root errors -/

/-- C24: the computed confirmed root is compared with the payload's
`ConfirmedMerkleRoot` first, then the computed applied root with the payload's
`AppliedMerkleRoot`.  A confirmed-root mismatch returns the error built from the
format "confirmMilestone: computed AppliedMerkleRoot %s does not match the
value in the milestone %s" and the hex encodings of the two confirmed roots
(also when the applied roots differ as well); an applied-root mismatch, the
confirmed roots being equal, returns the error built from the same format and
the hex encodings of the two applied roots. -/
theorem merkle_errors_share_wording (env : Env) (L : Ledger) (M : MetaStore)
    (message : Message) (ms : Milestone) (msID : MilestoneID) (mutations : WhiteFlagMutations)
    (hmsg : env.cachedMessageFunc env.milestoneMessageID = .ok (some message))
    (hms : message.Milestone = some ms)
    (hid : env.milestoneID ms = .ok msID)
    (hwf : env.computeWhiteFlagMutations L M env.networkId ms.Index ms.Timestamp message.parents
      env.lastMilestoneID = .ok mutations) :
    (mutations.ConfirmedMerkleRoot ≠ ms.ConfirmedMerkleRoot →
      (ConfirmMilestone env L M).1.err = some (Error.errorf
        "confirmMilestone: computed AppliedMerkleRoot %s does not match the value in the milestone %s"
        [FmtArg.hexEncodeToString mutations.ConfirmedMerkleRoot,
         FmtArg.hexEncodeToString ms.ConfirmedMerkleRoot])) ∧
    (mutations.ConfirmedMerkleRoot = ms.ConfirmedMerkleRoot →
      mutations.AppliedMerkleRoot ≠ ms.AppliedMerkleRoot →
      (ConfirmMilestone env L M).1.err = some (Error.errorf
        "confirmMilestone: computed AppliedMerkleRoot %s does not match the value in the milestone %s"
        [FmtArg.hexEncodeToString mutations.AppliedMerkleRoot,
         FmtArg.hexEncodeToString ms.AppliedMerkleRoot])) := by
  refine ⟨?_, ?_⟩
  · intro hc
    simp [ConfirmMilestone, confirmLocked, hmsg, hms, hid, hwf, hc, Sys.emit, Ret.fail]
  · intro hc ha
    simp [ConfirmMilestone, confirmLocked, hmsg, hms, hid, hwf, hc, ha, Sys.emit, Ret.fail]

/-- Witness for C24: the sample milestone with one byte of its applied root
flipped. -/
theorem merkle_errors_share_wording_witness :
    (ConfirmMilestone flippedEnv sampleLedger sampleStore).1.err = some (Error.errorf
      "confirmMilestone: computed AppliedMerkleRoot %s does not match the value in the milestone %s"
      [FmtArg.hexEncodeToString [160, 1], FmtArg.hexEncodeToString [161, 1]]) :=
  (merkle_errors_share_wording flippedEnv sampleLedger sampleStore flippedMessage
    flippedMilestone [77] sampleMutations rfl rfl rfl rfl).2 (by decide) (by decide)

/-! ## The roots handed to the coordinator -/

theorem copyBytes_full (src : Bytes) (h : src.length = 32) :
    copyBytes zeroMerkleProof src = src := by
  have hz : zeroMerkleProof.length = 32 := by simp [zeroMerkleProof]
  unfold copyBytes
  rw [hz, h, ← hz, List.drop_length, List.append_nil, hz, ← h, List.take_length]

/-- C28: when the white-flag computation succeeds with roots of 32 bytes,
`computeWhiteFlag` returns these two roots, each under its own name; when it
fails, `computeWhiteFlag` returns its error unchanged.  A milestone that carries
the roots returned by `computeWhiteFlag` for its index, timestamp and parents
on the same state passes both root checks of `ConfirmMilestone`: the run
continues with the receipt and the ledger apply. -/
theorem coordinator_roots_pass_verification (env : Env) (L : Ledger) (M : MetaStore)
    (hlen : ∀ i t p k mutations,
      env.computeWhiteFlagMutations L M env.networkId i t p k = .ok mutations →
      mutations.ConfirmedMerkleRoot.length = 32 ∧ mutations.AppliedMerkleRoot.length = 32) :
    (∀ i t p k mutations,
      env.computeWhiteFlagMutations L M env.networkId i t p k = .ok mutations →
      computeWhiteFlag env L M i t p k =
        .ok ⟨mutations.ConfirmedMerkleRoot, mutations.AppliedMerkleRoot⟩) ∧
    (∀ i t p k e,
      env.computeWhiteFlagMutations L M env.networkId i t p k = .error e →
      computeWhiteFlag env L M i t p k = .error e) ∧
    (∀ message ms msID roots,
      env.cachedMessageFunc env.milestoneMessageID = .ok (some message) →
      message.Milestone = some ms →
      env.milestoneID ms = .ok msID →
      computeWhiteFlag env L M ms.Index ms.Timestamp message.parents env.lastMilestoneID
        = .ok roots →
      ms.ConfirmedMerkleRoot = roots.ConfirmedMerkleRoot →
      ms.AppliedMerkleRoot = roots.AppliedMerkleRoot →
      ∃ mutations,
        env.computeWhiteFlagMutations L M env.networkId ms.Index ms.Timestamp message.parents
          env.lastMilestoneID = .ok mutations ∧
        mutations.ConfirmedMerkleRoot = ms.ConfirmedMerkleRoot ∧
        mutations.AppliedMerkleRoot = ms.AppliedMerkleRoot ∧
        (ConfirmMilestone env L M).1 =
          (applyAndNotify env message ms msID ⟨ms.Index, message.messageID, mutations⟩
            { ledger := L, metadata := M,
              trace := [Event.cachedMessageFunc env.milestoneMessageID, Event.writeLockLedger,
                Event.computeWhiteFlagMutations env.networkId ms.Index ms.Timestamp
                  message.parents env.lastMilestoneID] }).1) := by
  have hA : ∀ i t p k mutations,
      env.computeWhiteFlagMutations L M env.networkId i t p k = .ok mutations →
      computeWhiteFlag env L M i t p k =
        .ok ⟨mutations.ConfirmedMerkleRoot, mutations.AppliedMerkleRoot⟩ := by
    intro i t p k mutations h
    obtain ⟨l1, l2⟩ := hlen i t p k mutations h
    simp only [computeWhiteFlag, h, copyBytes_full _ l1, copyBytes_full _ l2]
  refine ⟨hA, ?_, ?_⟩
  · intro i t p k e h
    simp only [computeWhiteFlag, h]
  · intro message ms msID roots hmsg hms hid hroots hc ha
    rcases hwf : env.computeWhiteFlagMutations L M env.networkId ms.Index ms.Timestamp
      message.parents env.lastMilestoneID with e | mutations
    · simp only [computeWhiteFlag, hwf] at hroots
      cases hroots
    · rw [hA _ _ _ _ mutations hwf] at hroots
      simp only [Except.ok.injEq] at hroots
      subst hroots
      simp only at hc ha
      refine ⟨mutations, rfl, hc.symm, ha.symm, ?_⟩
      simp [ConfirmMilestone, confirmLocked, hmsg, hms, hid, hwf, hc, ha, Sys.emit]

/-- Witness for C28: a white-flag result with two different 32-byte roots and
the milestone that carries them. -/
theorem coordinator_roots_pass_verification_witness :
    computeWhiteFlag rootedEnv sampleLedger sampleStore 1 100 [[1], [2], [3]] [] =
      .ok ⟨List.replicate 32 192, List.replicate 32 160⟩ ∧
    (ConfirmMilestone rootedEnv sampleLedger sampleStore).1.err = none :=
  have h := coordinator_roots_pass_verification rootedEnv sampleLedger sampleStore
    (fun _ _ _ _ mutations hm => by
      have e : mutations = rootedMutations := by
        simp only [rootedEnv, Except.ok.injEq] at hm
        exact hm.symm
      subst e
      exact ⟨by simp [rootedMutations], by simp [rootedMutations]⟩)
  ⟨h.1 1 100 [[1], [2], [3]] [] rootedMutations rfl, by rfl⟩

/-! ## Default key material -/

/-- C29: the default coordinator configuration and the default protocol
configuration each list two keys, every default private key has 128 hex
characters, and the key of the i-th default public key range is the last 64
characters of the i-th default private key. -/
theorem default_keys_are_consistent :
    DefaultCoordinatorConfig.PrivateKeys.length = 2 ∧
    DefaultProtocolConfig.PublicKeyRanges.length = 2 ∧
    DefaultCoordinatorConfig.PrivateKeys.map (fun k => k.toList.length) = [128, 128] ∧
    DefaultProtocolConfig.PublicKeyRanges.map (fun r => r.Key.toList) =
      DefaultCoordinatorConfig.PrivateKeys.map (lastChars 64) := by
  refine ⟨rfl, rfl, ?_, ?_⟩
  · set_option maxRecDepth 100000 in decide
  · set_option maxRecDepth 100000 in decide

/-! ## Protocol parameters -/

theorem foldl_append_singleton {α β : Type} (f : α → β) (l : List α) :
    ∀ acc : List β, l.foldl (fun acc r => acc ++ [f r]) acc = acc ++ l.map f := by
  induction l with
  | nil => intro acc; simp
  | cons a rest ih => intro acc; simp [ih]

/-- C30: `ReadProtocolParameters` always succeeds; for key ranges whose indexes
fit `uint32` and rent factors that fit `uint64`, the parameters hold one
`MilestoneKeyRange` per key range of the key manager, in the same order, each
with that range's public key, start index and end index (none when there is no
key range), and the configured network name, Bech32 HRP and the three values of
the rent structure. -/
theorem protocol_parameters_carry_key_ranges (deps : ProtocolDeps)
    (hr : ∀ r ∈ deps.KeyRanges, r.StartIndex < 2 ^ 32 ∧ r.EndIndex < 2 ^ 32)
    (hv : deps.RentStructure.VBFactorData < 2 ^ 64 ∧ deps.RentStructure.VBFactorKey < 2 ^ 64) :
    ∃ p, ReadProtocolParameters deps = .ok p ∧
      p.MilestoneKeyRanges =
        deps.KeyRanges.map (fun r => ⟨r.PublicKey, r.StartIndex, r.EndIndex⟩) ∧
      p.MilestoneKeyRanges.length = deps.KeyRanges.length ∧
      (deps.KeyRanges = [] → p.MilestoneKeyRanges = []) ∧
      p.NetworkName = deps.NetworkIDName ∧
      p.Bech32HRP = deps.Bech32HRP ∧
      p.RentStructure.VByteCost = deps.RentStructure.VByteCost ∧
      p.RentStructure.VByteFactorData = deps.RentStructure.VBFactorData ∧
      p.RentStructure.VByteFactorKey = deps.RentStructure.VBFactorKey := by
  have hmap : deps.KeyRanges.foldl
      (fun acc r => acc ++
        [MilestoneKeyRange.mk r.PublicKey (r.StartIndex % 2 ^ 32) (r.EndIndex % 2 ^ 32)]) []
      = deps.KeyRanges.map (fun r => ⟨r.PublicKey, r.StartIndex, r.EndIndex⟩) := by
    rw [foldl_append_singleton, List.nil_append]
    apply List.map_congr_left
    intro r hmem
    rw [Nat.mod_eq_of_lt (hr r hmem).1, Nat.mod_eq_of_lt (hr r hmem).2]
  refine ⟨_, rfl, hmap, ?_, ?_, rfl, rfl, rfl, ?_, ?_⟩
  · show (deps.KeyRanges.foldl _ []).length = _
    rw [hmap, List.length_map]
  · intro h
    show deps.KeyRanges.foldl _ [] = []
    rw [h]; rfl
  · exact Nat.mod_eq_of_lt hv.1
  · exact Nat.mod_eq_of_lt hv.2

/-- Witness for C30: two key ranges. -/
theorem protocol_parameters_carry_key_ranges_witness :
    ∃ p, ReadProtocolParameters sampleDeps = .ok p ∧
      p.MilestoneKeyRanges = [⟨List.replicate 32 7, 0, 100⟩, ⟨List.replicate 32 9, 101, 0⟩] ∧
      p.NetworkName = "alphanet1" :=
  have h := protocol_parameters_carry_key_ranges sampleDeps
    (by
      intro r hmem
      simp only [sampleDeps, List.mem_cons, List.mem_singleton, List.not_mem_nil,
        or_false] at hmem
      rcases hmem with h | h <;> subst h <;> exact ⟨by norm_num, by norm_num⟩)
    ⟨by simp [sampleDeps], by simp [sampleDeps]⟩
  match h with
  | ⟨p, h1, h2, _, _, h5, _⟩ => ⟨p, h1, h2, h5⟩

/-! ## The milestone-confirmed callback -/

theorem isBeforeApply_not_milestoneConfirmed (e : Event) (h : e.isBeforeApply = true) :
    e.isMilestoneConfirmed = false := by
  cases e <;> simp_all [Event.isBeforeApply, Event.isMilestoneConfirmed]

theorem isMetadataPhase_not_milestoneConfirmed (e : Event) (h : e.isMetadataPhase = true) :
    e.isMilestoneConfirmed = false := by
  cases e <;> simp_all [Event.isMetadataPhase, Event.isMilestoneConfirmed]

/-- C27: with an `onMilestoneConfirmed` callback supplied, a run that returns no
error calls it exactly once, as the last call before the ledger is unlocked
(and the message handle released), with the confirmation made of the payload's
index, the id of the loaded message and the mutations returned by the
white-flag computation; a run that returns an error does not call it. -/
theorem milestone_confirmed_callback (env : Env) (L : Ledger) (M : MetaStore)
    (hon : env.onMilestoneConfirmed = true) :
    ((ConfirmMilestone env L M).1.err = none →
      ∃ message ms mutations pre,
        env.cachedMessageFunc env.milestoneMessageID = .ok (some message) ∧
        message.Milestone = some ms ∧
        env.computeWhiteFlagMutations L M env.networkId ms.Index ms.Timestamp message.parents
          env.lastMilestoneID = .ok mutations ∧
        (ConfirmMilestone env L M).2.trace =
          pre ++ [Event.onMilestoneConfirmed ⟨ms.Index, message.messageID, mutations⟩,
            Event.writeUnlockLedger, Event.releaseMessage message.messageID] ∧
        pre.filter Event.isMilestoneConfirmed = []) ∧
    ((ConfirmMilestone env L M).1.err ≠ none →
      (ConfirmMilestone env L M).2.trace.filter Event.isMilestoneConfirmed = []) := by
  rcases ConfirmMilestone_cases env L M with hc | hc
  · obtain ⟨h1, -, -, -, -, evs, h6, h7⟩ := hc
    refine ⟨fun h => absurd h h1, fun _ => ?_⟩
    rw [h6, List.nil_append]
    exact filter_eq_nil_of_forall h7 isBeforeApply_not_milestoneConfirmed
  · obtain ⟨message, ms, msID, mutations, opts, migrated, tm, rt, pre, h1, h2, h3, h4, h5, h6,
      h7, h8, h9, hout⟩ := hc
    have hpre : pre.filter Event.isMilestoneConfirmed = [] :=
      filter_eq_nil_of_forall h9 isBeforeApply_not_milestoneConfirmed
    rcases hout with ⟨err, -, hf, -, -, htr⟩ | ⟨L', evs, -, -, hevs, -, htr⟩
    · refine ⟨fun h => ?_, fun _ => ?_⟩
      · rw [hf] at h; simp [Ret.fail] at h
      · rw [htr]
        simp [List.filter_append, hpre, Event.isMilestoneConfirmed]
    · have hev : evs.filter Event.isMilestoneConfirmed = [] :=
        filter_eq_nil_of_forall hevs isMetadataPhase_not_milestoneConfirmed
      refine ⟨fun h => ?_, fun h => ?_⟩
      · refine ⟨message, ms, mutations,
          pre ++ [Event.applyConfirmationWithoutLocking ms.Index
            (mutations.NewOutputs.map Prod.snd ++ migrated)
            (mutations.NewSpents.map Prod.snd) tm rt]
            ++ (if env.onLedgerUpdated = true then [Event.onLedgerUpdated ms.Index
                (mutations.NewOutputs.map Prod.snd ++ migrated)
                (mutations.NewSpents.map Prod.snd)] else [])
            ++ ((tm.map fun t => if env.onTreasuryMutated = true
                then [Event.onTreasuryMutated ms.Index t] else []).getD [])
            ++ evs, h1, h2, h4, ?_, ?_⟩
        · rw [htr]
          cases tm <;> simp [h, hon]
        · simp only [List.filter_append, hpre, hev]
          cases tm <;> (simp only [Option.map, Option.getD]; split_ifs <;>
            simp [Event.isMilestoneConfirmed])
      · rw [htr]
        simp only [List.filter_append, hpre, hev, h, false_and, if_false]
        cases tm <;> (simp only []; split_ifs <;> simp [Event.isMilestoneConfirmed])

/-- Witness for C27: the sample run ends with the callback, the unlock and the
release; the run that misses the metadata of `[2]` does not call the callback. -/
theorem milestone_confirmed_callback_witness :
    (∃ pre, (ConfirmMilestone sampleEnv sampleLedger sampleStore).2.trace =
      pre ++ [Event.onMilestoneConfirmed ⟨1, [9], sampleMutations⟩, Event.writeUnlockLedger,
        Event.releaseMessage [9]] ∧ pre.filter Event.isMilestoneConfirmed = []) ∧
    (ConfirmMilestone sampleEnv sampleLedger missingStore).2.trace.filter
      Event.isMilestoneConfirmed = [] :=
  ⟨match (milestone_confirmed_callback sampleEnv sampleLedger sampleStore rfl).1 (by rfl) with
    | ⟨message, ms, mutations, pre, h1, h2, h3, h4, h5⟩ => by
        have e1 : message = sampleMessage := by
          simp only [sampleEnv, if_true, Except.ok.injEq, Option.some.injEq] at h1
          exact h1.symm
        subst e1
        have e2 : ms = sampleMilestone := by
          have : sampleMessage.Milestone = some sampleMilestone := rfl
          rw [this] at h2
          exact (Option.some.inj h2).symm
        subst e2
        have e3 : mutations = sampleMutations := by
          simp only [sampleEnv, Except.ok.injEq] at h3
          exact h3.symm
        subst e3
        exact ⟨pre, h4, h5⟩,
   (milestone_confirmed_callback sampleEnv sampleLedger missingStore rfl).2 (by
     intro h
     have : (ConfirmMilestone sampleEnv sampleLedger missingStore).1.err ≠ none := by
       rw [show (ConfirmMilestone sampleEnv sampleLedger missingStore).1.err =
         some (Error.errorf "confirmMilestone: message not found: %v" [FmtArg.toHex [2]])
         from by rfl]
       simp
     exact this h)⟩

/-! ## What happens between lock and unlock -/

theorem isMetadataPhase_isUnderLock (e : Event) (h : e.isMetadataPhase = true) :
    e.isUnderLock = true := by
  cases e <;> simp_all [Event.isMetadataPhase, Event.isUnderLock]

theorem processReceipt_underLock (env : Env) (message : Message) (ms : Milestone)
    (msID : MilestoneID) (opts : MilestoneOptSet) (s : Sys) :
    ∃ evs, (processReceipt env message ms msID opts s).2.trace = s.trace ++ evs ∧
      ∀ e ∈ evs, e.isUnderLock = true := by
  unfold processReceipt
  rcases hr : opts.Receipt with _ | receipt
  · exact ⟨[], by simp, by simp⟩
  · simp only
    rcases hcb : env.onReceipt with _ | cb
    · simp only
      rw [(convertReceipt_spec env message ms msID receipt _ s).1]
      exact ⟨[Event.unspentTreasuryOutputWithoutLocking], rfl, by simp [Event.isUnderLock]⟩
    · simp only
      rcases hres : cb { Receipt := receipt, MilestoneIndex := ms.Index } with _ | e
      · simp only
        rw [(convertReceipt_spec env message ms msID receipt _ _).1]
        exact ⟨[Event.onReceipt { Receipt := receipt, MilestoneIndex := ms.Index },
          Event.unspentTreasuryOutputWithoutLocking], by simp [Sys.emit],
          by simp [Event.isUnderLock]⟩
      · exact ⟨[Event.onReceipt { Receipt := receipt, MilestoneIndex := ms.Index }],
          by simp [Sys.emit], by simp [Event.isUnderLock]⟩

theorem applyAndNotify_underLock (env : Env) (message : Message) (ms : Milestone)
    (msID : MilestoneID) (c : Confirmation) (s : Sys) :
    ∃ evs, (applyAndNotify env message ms msID c s).2.trace = s.trace ++ evs ∧
      ∀ e ∈ evs, e.isUnderLock = true := by
  unfold applyAndNotify
  simp only
  rcases hopts : env.optsSet ms.Opts with e | opts
  · exact ⟨[], by simp, by simp⟩
  · simp only
    obtain ⟨pre, hpre, hprev⟩ := processReceipt_underLock env message ms msID opts s
    rcases hp : processReceipt env message ms msID opts s with ⟨res, s1⟩
    rw [hp] at hpre
    simp only at hpre
    rcases res with e | ⟨migrated, tm, rt⟩
    · exact ⟨pre, hpre, hprev⟩
    · simp only
      have hled : ∀ (s : Sys) e, (s.emit e).ledger = s.ledger := fun _ _ => rfl
      simp only [hled]
      rcases happly : env.applyConfirmationWithoutLocking s1.ledger ms.Index
        (c.Mutations.NewOutputs.map Prod.snd ++ migrated) (c.Mutations.NewSpents.map Prod.snd)
        tm rt with e | L'
      · refine ⟨pre ++ [Event.applyConfirmationWithoutLocking ms.Index
          (c.Mutations.NewOutputs.map Prod.snd ++ migrated)
          (c.Mutations.NewSpents.map Prod.snd) tm rt], by simp [Sys.emit, hpre], ?_⟩
        intro e he
        rcases List.mem_append.mp he with h | h
        · exact hprev e h
        · simp only [List.mem_singleton] at h; subst h; rfl
      · simp only
        obtain ⟨-, -, evs, hevs, htr⟩ := notifyAndUpdate_frame env ms c ms.Index
          (c.Mutations.NewOutputs.map Prod.snd ++ migrated) (c.Mutations.NewSpents.map Prod.snd)
          tm { s1.emit (Event.applyConfirmationWithoutLocking ms.Index
              (c.Mutations.NewOutputs.map Prod.snd ++ migrated)
              (c.Mutations.NewSpents.map Prod.snd) tm rt) with ledger := L' }
        rw [htr]
        refine ⟨_, by simp only [Sys.emit, hpre, List.append_assoc]; rfl, ?_⟩
        intro e he
        simp only [List.mem_append, List.mem_singleton] at he
        rcases he with h | h | h | h | h | h
        · exact hprev e h
        · subst h; rfl
        · split_ifs at h
          · simp only [List.mem_singleton] at h; subst h; rfl
          · simp at h
        · cases tm with
          | none => simp at h
          | some t =>
              simp only at h
              split_ifs at h
              · simp only [List.mem_singleton] at h; subst h; rfl
              · simp at h
        · exact isMetadataPhase_isUnderLock e (hevs e h)
        · split_ifs at h
          · simp only [List.mem_singleton] at h; subst h; rfl
          · simp at h

theorem confirmLocked_underLock (env : Env) (message : Message) (s : Sys) :
    ∃ evs, (confirmLocked env message s).2.trace = s.trace ++ evs ∧
      ∀ e ∈ evs, e.isUnderLock = true := by
  unfold confirmLocked
  rcases hms : message.Milestone with _ | ms
  · exact ⟨[], by simp, by simp⟩
  · simp only
    rcases hid : env.milestoneID ms with e | msID
    · exact ⟨[], by simp, by simp⟩
    · simp only
      have hL : ∀ (s : Sys) e, (s.emit e).ledger = s.ledger := fun _ _ => rfl
      have hM : ∀ (s : Sys) e, (s.emit e).metadata = s.metadata := fun _ _ => rfl
      simp only [hL, hM]
      have hone : ∀ e ∈ [Event.computeWhiteFlagMutations env.networkId ms.Index ms.Timestamp
          message.parents env.lastMilestoneID], e.isUnderLock = true := by
        intro e he
        simp only [List.mem_singleton] at he
        subst he; rfl
      rcases hwf : env.computeWhiteFlagMutations s.ledger s.metadata env.networkId ms.Index
        ms.Timestamp message.parents env.lastMilestoneID with e | mutations
      · exact ⟨_, rfl, hone⟩
      · simp only
        by_cases hc : mutations.ConfirmedMerkleRoot = ms.ConfirmedMerkleRoot
        · by_cases ha : mutations.AppliedMerkleRoot = ms.AppliedMerkleRoot
          · simp only [hc, ha, ne_eq, not_true_eq_false, if_false]
            obtain ⟨evs, htr, hevs⟩ := applyAndNotify_underLock env message ms msID
              ⟨ms.Index, message.messageID, mutations⟩
              (s.emit (Event.computeWhiteFlagMutations env.networkId ms.Index ms.Timestamp
                message.parents env.lastMilestoneID))
            rw [htr]
            refine ⟨Event.computeWhiteFlagMutations env.networkId ms.Index ms.Timestamp
              message.parents env.lastMilestoneID :: evs, by simp [Sys.emit], ?_⟩
            intro e he
            rcases List.mem_cons.mp he with h | h
            · subst h; rfl
            · exact hevs e h
          · simp only [hc, ha, ne_eq, not_true_eq_false, not_false_eq_true, if_false, if_true]
            exact ⟨_, rfl, hone⟩
        · simp only [hc, ne_eq, not_false_eq_true, if_true]
          exact ⟨_, rfl, hone⟩

/-- A run that has loaded the milestone message: lookup, lock, the calls made
under the lock, unlock, release. -/
theorem ConfirmMilestone_bracket (env : Env) (L : Ledger) (M : MetaStore) (message : Message)
    (hmsg : env.cachedMessageFunc env.milestoneMessageID = .ok (some message)) :
    ∃ mid, (ConfirmMilestone env L M).2.trace =
        [Event.cachedMessageFunc env.milestoneMessageID, Event.writeLockLedger] ++ mid ++
          [Event.writeUnlockLedger, Event.releaseMessage message.messageID] ∧
      ∀ e ∈ mid, e.isUnderLock = true := by
  obtain ⟨mid, htr, hmid⟩ := confirmLocked_underLock env message
    (Sys.emit (Sys.emit { ledger := L, metadata := M, trace := [] }
      (Event.cachedMessageFunc env.milestoneMessageID)) Event.writeLockLedger)
  refine ⟨mid, ?_, hmid⟩
  simp only [ConfirmMilestone, hmsg]
  simp only [Sys.emit, List.nil_append] at htr ⊢
  rw [htr]
  simp

/-- A run whose lookup yields no message makes no other call. -/
theorem ConfirmMilestone_not_loaded (env : Env) (L : Ledger) (M : MetaStore)
    (hmsg : ∀ message, env.cachedMessageFunc env.milestoneMessageID ≠ .ok (some message)) :
    (ConfirmMilestone env L M).2.trace = [Event.cachedMessageFunc env.milestoneMessageID] := by
  rcases h : env.cachedMessageFunc env.milestoneMessageID with e | _ | message
  · simp [ConfirmMilestone, h, Sys.emit]
  · simp [ConfirmMilestone, h, Sys.emit]
  · exact absurd h (hmsg message)

/-- C21: on every run in which the milestone message was loaded, the ledger
write lock is taken once, directly after the lookup, and released once,
directly before the message handle is released; every other call of the run -
the white-flag computation, the treasury read, the ledger apply, every metadata
write and every callback among them - lies between the two.  When the lookup
yields no message, the lookup is the only call: the lock is never taken. -/
theorem write_lock_spans_confirmation (env : Env) (L : Ledger) (M : MetaStore) :
    (∀ message, env.cachedMessageFunc env.milestoneMessageID = .ok (some message) →
      ∃ mid, (ConfirmMilestone env L M).2.trace =
          [Event.cachedMessageFunc env.milestoneMessageID, Event.writeLockLedger] ++ mid ++
            [Event.writeUnlockLedger, Event.releaseMessage message.messageID] ∧
        (ConfirmMilestone env L M).2.trace.count Event.writeLockLedger = 1 ∧
        (ConfirmMilestone env L M).2.trace.count Event.writeUnlockLedger = 1 ∧
        ∀ e ∈ (ConfirmMilestone env L M).2.trace,
          (e.isWhiteFlag = true ∨ e = Event.unspentTreasuryOutputWithoutLocking ∨
            e.isApply = true ∨ e.isMetadataWrite = true ∨ e.isCallback = true) → e ∈ mid) ∧
    ((∀ message, env.cachedMessageFunc env.milestoneMessageID ≠ .ok (some message)) →
      (ConfirmMilestone env L M).2.trace = [Event.cachedMessageFunc env.milestoneMessageID] ∧
      (ConfirmMilestone env L M).2.trace.count Event.writeLockLedger = 0) := by
  refine ⟨?_, ?_⟩
  · intro message hmsg
    obtain ⟨mid, htr, hmid⟩ := ConfirmMilestone_bracket env L M message hmsg
    have hnl : Event.writeLockLedger ∉ mid := fun h => by
      have := hmid _ h
      simp [Event.isUnderLock] at this
    have hnu : Event.writeUnlockLedger ∉ mid := fun h => by
      have := hmid _ h
      simp [Event.isUnderLock] at this
    refine ⟨mid, htr, ?_, ?_, ?_⟩
    · rw [htr]
      simp [List.count_append, List.count_cons, List.count_eq_zero.mpr hnl]
    · rw [htr]
      simp [List.count_append, List.count_cons, List.count_eq_zero.mpr hnu]
    · intro e he hkind
      rw [htr] at he
      simp only [List.mem_append, List.mem_cons, List.mem_singleton, List.not_mem_nil,
        or_false] at he
      rcases he with ((h | h) | h) | (h | h)
      · subst h; simp [Event.isWhiteFlag, Event.isApply, Event.isMetadataWrite,
          Event.isCallback] at hkind
      · subst h; simp [Event.isWhiteFlag, Event.isApply, Event.isMetadataWrite,
          Event.isCallback] at hkind
      · exact h
      · subst h; simp [Event.isWhiteFlag, Event.isApply, Event.isMetadataWrite,
          Event.isCallback] at hkind
      · subst h; simp [Event.isWhiteFlag, Event.isApply, Event.isMetadataWrite,
          Event.isCallback] at hkind
  · intro hmsg
    have htr := ConfirmMilestone_not_loaded env L M hmsg
    refine ⟨htr, ?_⟩
    rw [htr]
    simp [List.count_cons]

/-- Witness for C21: the sample run takes and releases the lock once; the run
for an unknown message id never takes it. -/
theorem write_lock_spans_confirmation_witness :
    (ConfirmMilestone sampleEnv sampleLedger sampleStore).2.trace.count Event.writeLockLedger = 1 ∧
    (ConfirmMilestone sampleEnv sampleLedger sampleStore).2.trace.count Event.writeUnlockLedger
      = 1 ∧
    (ConfirmMilestone absentEnv sampleLedger sampleStore).2.trace.count Event.writeLockLedger
      = 0 :=
  have h := write_lock_spans_confirmation sampleEnv sampleLedger sampleStore
  have h' := write_lock_spans_confirmation absentEnv sampleLedger sampleStore
  match h.1 sampleMessage rfl with
  | ⟨_, _, h2, h3, _⟩ =>
      ⟨h2, h3, (h'.2 (fun message hm => by
        simp [absentEnv, sampleEnv] at hm)).2⟩

/-! ## Handles -/

theorem isUnderLock_not_messageRelease (e : Event) (h : e.isUnderLock = true) :
    e.isMessageRelease = false := by
  cases e <;> simp_all [Event.isUnderLock, Event.isMessageRelease]

theorem isMetadataHandle_isMetadataPhase (e : Event) (h : e.isMetadataHandle = true) :
    e.isMetadataPhase = true := by
  cases e <;> simp_all [Event.isMetadataHandle, Event.isMetadataPhase]

theorem closure_no_handles (env : Env) (cat : Category) (idx : Index) (ts : Nat)
    (id : MessageID) (c : Conflict) (meta : MessageMetadata) (st : ConfirmedMilestoneStats) :
    (closure env cat idx ts id c meta st).2.2.filter Event.isMetadataHandle = [] := by
  cases cat <;> simp only [closure, referenceIfUnreferenced] <;> split_ifs <;>
    simp [Event.isMetadataHandle, List.filter_cons]

/-- The metadata handles of a walk: the handle of one message after the other
is obtained and released; a lookup that yields no handle ends the walk. -/
theorem entriesLoop_handles (env : Env) (idx : Index) (ts : Nat) :
    ∀ (es : List (Category × MessageWithConflict)) (s : Sys)
      (stats : ConfirmedMilestoneStats),
      ∃ visited tail,
        (entriesLoop env idx ts es s stats).2.1.trace.filter Event.isMetadataHandle =
          s.trace.filter Event.isMetadataHandle ++ handlePairs visited ++ tail ∧
        (tail = [] ∨ ∃ id, tail = [Event.cachedMessageMetadata id] ∧
          ∀ meta, (entriesLoop env idx ts es s stats).2.1.metadata id ≠ .ok (some meta)) ∧
        ((entriesLoop env idx ts es s stats).1 = none → tail = []) := by
  intro es
  induction es with
  | nil =>
      intro s stats
      exact ⟨[], [], by simp [entriesLoop, handlePairs], Or.inl rfl, fun _ => rfl⟩
  | cons x rest ih =>
      intro s stats
      obtain ⟨cat, m⟩ := x
      by_cases hf : ∃ meta, s.metadata m.MessageID = .ok (some meta)
      · obtain ⟨meta, hmeta⟩ := hf
        rw [entriesLoop_cons_found env idx ts cat m rest s stats meta hmeta]
        obtain ⟨visited, tail, h1, h2, h3⟩ := ih
          { ledger := s.ledger,
            metadata := fun j => if j = m.MessageID then
                .ok (some (closure env cat idx ts m.MessageID m.Conflict meta stats).1)
              else s.metadata j,
            trace := s.trace ++ ([Event.cachedMessageMetadata m.MessageID]
              ++ (closure env cat idx ts m.MessageID m.Conflict meta stats).2.2
              ++ [Event.releaseMetadata m.MessageID]) }
          (closure env cat idx ts m.MessageID m.Conflict meta stats).2.1
        refine ⟨m.MessageID :: visited, tail, ?_, h2, h3⟩
        rw [h1]
        simp only [List.filter_append, closure_no_handles, handlePairs]
        simp [Event.isMetadataHandle, List.filter_cons]
      · obtain ⟨e, heq⟩ := entriesLoop_cons_not_found env idx ts cat m rest s stats
          (fun meta h => hf ⟨meta, h⟩)
        rw [heq]
        refine ⟨[], [Event.cachedMessageMetadata m.MessageID], ?_, ?_, ?_⟩
        · simp [List.filter_append, handlePairs, Event.isMetadataHandle, List.filter_cons]
        · exact Or.inr ⟨m.MessageID, rfl, fun meta h => hf ⟨meta, h⟩⟩
        · intro h; simp at h

/-- C23: in every run that obtained the milestone message handle, the handle is
released exactly once, as the last call of the run, whether the run succeeds or
fails; a run whose lookup yielded no handle releases nothing.  The metadata
handles are obtained and released in turn: the calls on metadata handles are,
for one message after the other, its lookup followed by its release, possibly
ended by one lookup that yielded no handle (an error or no record), which does
not occur in a run that returns no error. -/
theorem handles_are_released (env : Env) (L : Ledger) (M : MetaStore) :
    (∀ message, env.cachedMessageFunc env.milestoneMessageID = .ok (some message) →
      (ConfirmMilestone env L M).2.trace.filter Event.isMessageRelease =
        [Event.releaseMessage message.messageID] ∧
      (ConfirmMilestone env L M).2.trace.getLast? =
        some (Event.releaseMessage message.messageID)) ∧
    ((∀ message, env.cachedMessageFunc env.milestoneMessageID ≠ .ok (some message)) →
      (ConfirmMilestone env L M).2.trace.filter Event.isMessageRelease = [] ∧
      (ConfirmMilestone env L M).2.trace.filter Event.isMetadataHandle = []) ∧
    (∃ visited tail,
      (ConfirmMilestone env L M).2.trace.filter Event.isMetadataHandle =
        handlePairs visited ++ tail ∧
      (tail = [] ∨ ∃ id, tail = [Event.cachedMessageMetadata id] ∧
        ∀ meta, (ConfirmMilestone env L M).2.metadata id ≠ .ok (some meta)) ∧
      ((ConfirmMilestone env L M).1.err = none → tail = [])) := by
  refine ⟨?_, ?_, ?_⟩
  · intro message hmsg
    obtain ⟨mid, htr, hmid⟩ := ConfirmMilestone_bracket env L M message hmsg
    have hm : mid.filter Event.isMessageRelease = [] :=
      filter_eq_nil_of_forall hmid isUnderLock_not_messageRelease
    rw [htr]
    refine ⟨?_, ?_⟩
    · simp [List.filter_append, hm, Event.isMessageRelease, List.filter_cons]
    · have hsplit : [Event.cachedMessageFunc env.milestoneMessageID, Event.writeLockLedger]
          ++ mid ++ [Event.writeUnlockLedger, Event.releaseMessage message.messageID] =
          ([Event.cachedMessageFunc env.milestoneMessageID, Event.writeLockLedger] ++ mid ++
            [Event.writeUnlockLedger]) ++ [Event.releaseMessage message.messageID] := by simp
      rw [hsplit, List.getLast?_concat]
  · intro hmsg
    rw [ConfirmMilestone_not_loaded env L M hmsg]
    simp [Event.isMessageRelease, Event.isMetadataHandle, List.filter_cons]
  · have hnone : ∀ evs : List Event, (∀ e ∈ evs, e.isMetadataPhase = false) →
        evs.filter Event.isMetadataHandle = [] := by
      intro evs h
      apply List.filter_eq_nil_iff.mpr
      intro e he hh
      have := h e he
      rw [isMetadataHandle_isMetadataPhase e hh] at this
      cases this
    rcases ConfirmMilestone_cases env L M with hc | hc
    · obtain ⟨-, -, -, -, -, evs, h6, h7⟩ := hc
      refine ⟨[], [], ?_, Or.inl rfl, fun _ => rfl⟩
      rw [h6, List.nil_append]
      exact hnone evs (fun e he => (isBeforeApply_excludes e (h7 e he)).2.1)
    · obtain ⟨message, ms, msID, mutations, opts, migrated, tm, rt, pre, h1, h2, h3, h4, h5, h6,
        h7, h8, h9, hout⟩ := hc
      rcases hout with ⟨err, -, -, -, -, htr⟩ | ⟨L', evs, happly, -⟩
      · refine ⟨[], [], ?_, Or.inl rfl, fun _ => rfl⟩
        rw [htr]
        apply hnone
        intro e he
        simp only [List.mem_append, List.mem_singleton] at he
        rcases he with (h | h) | h
        · exact (isBeforeApply_excludes e (h9 e h)).2.1
        · subst h; rfl
        · exact (isBeforeApply_excludes e (unlock_release_beforeApply _ e h)).2.1
      · obtain ⟨-, wm, w, wtr, -⟩ := ConfirmMilestone_applied_walk env L M message ms msID
          mutations opts migrated tm rt L' h1 h2 h3 h4 h5 h6 h7 h8 happly
        obtain ⟨visited, tail, k1, k2, k3⟩ := entriesLoop_handles env ms.Index ms.Timestamp
          mutations.entries
          (stateAfterApply env M message ms opts (mutations.NewOutputs.map Prod.snd ++ migrated)
            (mutations.NewSpents.map Prod.snd) tm rt L') ⟨ms.Index, 0, 0, 0, 0, 0⟩
        refine ⟨visited, tail, ?_, ?_, fun h => k3 (w.mp h)⟩
        · rw [wtr]
          simp only [List.filter_append, k1,
            hnone _ (stateAfterApply_trace env M message ms opts _ _ tm rt L')]
          split_ifs <;> simp [Event.isMetadataHandle, List.filter_cons]
        · rw [wm]; exact k2

/-- Witness for C23: the sample run releases the message handle once, at its
end, and obtains and releases the metadata handles of `[1]`, `[2]`, `[3]` in
turn. -/
theorem handles_are_released_witness :
    (ConfirmMilestone sampleEnv sampleLedger sampleStore).2.trace.filter Event.isMessageRelease =
      [Event.releaseMessage [9]] ∧
    (ConfirmMilestone sampleEnv sampleLedger sampleStore).2.trace.getLast? =
      some (Event.releaseMessage [9]) ∧
    (ConfirmMilestone sampleEnv sampleLedger sampleStore).2.trace.filter Event.isMetadataHandle =
      handlePairs [[1], [2], [3]] :=
  have h := (handles_are_released sampleEnv sampleLedger sampleStore).1 sampleMessage rfl
  ⟨h.1, h.2, by rfl⟩

/-! ## Counting referenced messages -/

/-- What one closure adds to the statistics and how often it calls the
callback and increments the metric: once each if it references the message,
not at all otherwise. -/
theorem closure_counts (env : Env) (cat : Category) (idx : Index) (ts : Nat)
    (id : MessageID) (c : Conflict) (meta : MessageMetadata) (st : ConfirmedMilestoneStats) :
    ∃ k, k ≤ 1 ∧
      (closure env cat idx ts id c meta st).2.1.MessagesReferenced = st.MessagesReferenced + k ∧
      (closure env cat idx ts id c meta st).2.1.MessagesIncludedWithTransactions =
        st.MessagesIncludedWithTransactions +
          (if cat = .includedWithTransactions then k else 0) ∧
      (closure env cat idx ts id c meta st).2.1.MessagesExcludedWithoutTransactions =
        st.MessagesExcludedWithoutTransactions +
          (if cat = .excludedWithoutTransactions then k else 0) ∧
      (closure env cat idx ts id c meta st).2.1.MessagesExcludedWithConflictingTransactions =
        st.MessagesExcludedWithConflictingTransactions +
          (if cat = .excludedWithConflictingTransactions then k else 0) ∧
      ((closure env cat idx ts id c meta st).2.2.filter Event.isForEach).length =
        (if env.forEachReferencedMessage = true then k else 0) ∧
      ((closure env cat idx ts id c meta st).2.2.filter Event.isReferencedMetric).length =
        (if env.serverMetrics = true then k else 0) := by
  cases cat
  · by_cases hch : env.checkMessageReferencedFunc meta = true
    · exact ⟨0, by omega, by simp [closure, referenceIfUnreferenced, hch]⟩
    · refine ⟨1, le_refl _, ?_⟩
      cases hfe : env.forEachReferencedMessage <;> cases hsm : env.serverMetrics <;>
        simp [closure, referenceIfUnreferenced, hch, hfe, hsm, ConfirmedMilestoneStats.count,
          Event.isForEach, Event.isReferencedMetric, Category.counter, List.filter_cons]
  · by_cases hch : env.checkMessageReferencedFunc (meta.SetIsNoTransaction true) = true
    · exact ⟨0, by omega, by simp [closure, referenceIfUnreferenced, hch, Event.isForEach,
        Event.isReferencedMetric, List.filter_cons]⟩
    · refine ⟨1, le_refl _, ?_⟩
      cases hfe : env.forEachReferencedMessage <;> cases hsm : env.serverMetrics <;>
        simp [closure, referenceIfUnreferenced, hch, hfe, hsm, ConfirmedMilestoneStats.count,
          Event.isForEach, Event.isReferencedMetric, Category.counter, List.filter_cons]
  · by_cases hch : env.checkMessageReferencedFunc (meta.SetConflictingTx c) = true
    · exact ⟨0, by omega, by simp [closure, referenceIfUnreferenced, hch, Event.isForEach,
        Event.isReferencedMetric, List.filter_cons]⟩
    · refine ⟨1, le_refl _, ?_⟩
      cases hfe : env.forEachReferencedMessage <;> cases hsm : env.serverMetrics <;>
        simp [closure, referenceIfUnreferenced, hch, hfe, hsm, ConfirmedMilestoneStats.count,
          Event.isForEach, Event.isReferencedMetric, Category.counter, List.filter_cons]

/-- The statistics of a walk, for any check and set functions: the three
category counts grow by at most the number of entries of their category, the
count of referenced messages by their sum, and the callback and the metric are
called as often as messages are referenced. -/
theorem entriesLoop_counts (env : Env) (idx : Index) (ts : Nat) :
    ∀ (es : List (Category × MessageWithConflict)) (s : Sys)
      (stats : ConfirmedMilestoneStats),
      ∃ a b c,
        a ≤ countCategory .includedWithTransactions es ∧
        b ≤ countCategory .excludedWithoutTransactions es ∧
        c ≤ countCategory .excludedWithConflictingTransactions es ∧
        (entriesLoop env idx ts es s stats).2.2.MessagesReferenced =
          stats.MessagesReferenced + (a + b + c) ∧
        (entriesLoop env idx ts es s stats).2.2.MessagesIncludedWithTransactions =
          stats.MessagesIncludedWithTransactions + a ∧
        (entriesLoop env idx ts es s stats).2.2.MessagesExcludedWithoutTransactions =
          stats.MessagesExcludedWithoutTransactions + b ∧
        (entriesLoop env idx ts es s stats).2.2.MessagesExcludedWithConflictingTransactions =
          stats.MessagesExcludedWithConflictingTransactions + c ∧
        ((entriesLoop env idx ts es s stats).2.1.trace.filter Event.isForEach).length =
          (s.trace.filter Event.isForEach).length +
            (if env.forEachReferencedMessage = true then a + b + c else 0) ∧
        ((entriesLoop env idx ts es s stats).2.1.trace.filter Event.isReferencedMetric).length =
          (s.trace.filter Event.isReferencedMetric).length +
            (if env.serverMetrics = true then a + b + c else 0) := by
  intro es
  induction es with
  | nil =>
      intro s stats
      exact ⟨0, 0, 0, by simp [countCategory], by simp [countCategory], by simp [countCategory],
        by simp [entriesLoop], by simp [entriesLoop], by simp [entriesLoop],
        by simp [entriesLoop], by simp [entriesLoop], by simp [entriesLoop]⟩
  | cons x rest ih =>
      intro s stats
      obtain ⟨cat, m⟩ := x
      by_cases hf : ∃ meta, s.metadata m.MessageID = .ok (some meta)
      · obtain ⟨meta, hmeta⟩ := hf
        rw [entriesLoop_cons_found env idx ts cat m rest s stats meta hmeta]
        obtain ⟨k, hk, k1, k2, k3, k4, k5, k6⟩ := closure_counts env cat idx ts m.MessageID
          m.Conflict meta stats
        obtain ⟨a, b, c, ha, hb, hc, i1, i2, i3, i4, i5, i6⟩ := ih
          { ledger := s.ledger,
            metadata := fun j => if j = m.MessageID then
                .ok (some (closure env cat idx ts m.MessageID m.Conflict meta stats).1)
              else s.metadata j,
            trace := s.trace ++ ([Event.cachedMessageMetadata m.MessageID]
              ++ (closure env cat idx ts m.MessageID m.Conflict meta stats).2.2
              ++ [Event.releaseMetadata m.MessageID]) }
          (closure env cat idx ts m.MessageID m.Conflict meta stats).2.1
        have hfe : ((s.trace ++ ([Event.cachedMessageMetadata m.MessageID]
              ++ (closure env cat idx ts m.MessageID m.Conflict meta stats).2.2
              ++ [Event.releaseMetadata m.MessageID])).filter Event.isForEach).length =
            (s.trace.filter Event.isForEach).length +
              (if env.forEachReferencedMessage = true then k else 0) := by
          simp only [List.filter_append, List.length_append, k5]
          simp [Event.isForEach, List.filter_cons]
        have hme : ((s.trace ++ ([Event.cachedMessageMetadata m.MessageID]
              ++ (closure env cat idx ts m.MessageID m.Conflict meta stats).2.2
              ++ [Event.releaseMetadata m.MessageID])).filter Event.isReferencedMetric).length =
            (s.trace.filter Event.isReferencedMetric).length +
              (if env.serverMetrics = true then k else 0) := by
          simp only [List.filter_append, List.length_append, k6]
          simp [Event.isReferencedMetric, List.filter_cons]
        rw [i1, i2, i3, i4, i5, i6, k1, k2, k3, k4, hfe, hme]
        cases cat
        · refine ⟨a + k, b, c, ?_, ?_, ?_, ?_, ?_, ?_, ?_, ?_, ?_⟩ <;>
            simp [countCategory, List.filter_cons] at ha hb hc ⊢ <;>
            (try split_ifs) <;> omega
        · refine ⟨a, b + k, c, ?_, ?_, ?_, ?_, ?_, ?_, ?_, ?_, ?_⟩ <;>
            simp [countCategory, List.filter_cons] at ha hb hc ⊢ <;>
            (try split_ifs) <;> omega
        · refine ⟨a, b, c + k, ?_, ?_, ?_, ?_, ?_, ?_, ?_, ?_, ?_⟩ <;>
            simp [countCategory, List.filter_cons] at ha hb hc ⊢ <;>
            (try split_ifs) <;> omega
      · obtain ⟨e, heq⟩ := entriesLoop_cons_not_found env idx ts cat m rest s stats
          (fun meta h => hf ⟨meta, h⟩)
        rw [heq]
        refine ⟨0, 0, 0, by omega, by omega, by omega, by simp, by simp, by simp, by simp, ?_, ?_⟩
        · simp [List.filter_append, Event.isForEach, List.filter_cons]
        · simp [List.filter_append, Event.isReferencedMetric, List.filter_cons]

theorem countCategory_entries (mu : WhiteFlagMutations) :
    countCategory .includedWithTransactions mu.entries
      = mu.MessagesIncludedWithTransactions.length ∧
    countCategory .excludedWithoutTransactions mu.entries
      = mu.MessagesExcludedWithoutTransactions.length ∧
    countCategory .excludedWithConflictingTransactions mu.entries
      = mu.MessagesExcludedWithConflictingTransactions.length := by
  simp [countCategory, WhiteFlagMutations.entries, List.filter_append, List.filter_map,
    Function.comp_def]

theorem isForEach_not_before (e : Event) (h : e.isMetadataPhase = false) :
    e.isForEach = false ∧ e.isReferencedMetric = false := by
  cases e <;> simp_all [Event.isMetadataPhase, Event.isForEach, Event.isReferencedMetric]

/-- C26: for every successful run and any check and set functions, the
returned statistics satisfy `MessagesReferenced = MessagesIncludedWithTransactions
+ MessagesExcludedWithoutTransactions + MessagesExcludedWithConflictingTransactions`,
each of the three counts is at most the length of its mutation list, and, when
supplied, `forEachReferencedMessage` was called `MessagesReferenced` times and
the `ReferencedMessages` metric was incremented `MessagesReferenced` times. -/
theorem statistics_add_up (env : Env) (L : Ledger) (M : MetaStore)
    (message : Message) (ms : Milestone) (mutations : WhiteFlagMutations)
    (hmsg : env.cachedMessageFunc env.milestoneMessageID = .ok (some message))
    (hms : message.Milestone = some ms)
    (hwf : env.computeWhiteFlagMutations L M env.networkId ms.Index ms.Timestamp message.parents
      env.lastMilestoneID = .ok mutations)
    (hsucc : (ConfirmMilestone env L M).1.err = none) :
    ∃ stats, (ConfirmMilestone env L M).1.stats = some stats ∧
      stats.MessagesReferenced = stats.MessagesIncludedWithTransactions +
        stats.MessagesExcludedWithoutTransactions +
        stats.MessagesExcludedWithConflictingTransactions ∧
      stats.MessagesIncludedWithTransactions ≤
        mutations.MessagesIncludedWithTransactions.length ∧
      stats.MessagesExcludedWithoutTransactions ≤
        mutations.MessagesExcludedWithoutTransactions.length ∧
      stats.MessagesExcludedWithConflictingTransactions ≤
        mutations.MessagesExcludedWithConflictingTransactions.length ∧
      (env.forEachReferencedMessage = true →
        ((ConfirmMilestone env L M).2.trace.filter Event.isForEach).length =
          stats.MessagesReferenced) ∧
      (env.serverMetrics = true →
        ((ConfirmMilestone env L M).2.trace.filter Event.isReferencedMetric).length =
          stats.MessagesReferenced) := by
  obtain ⟨message', ms', msID, mutations', opts, migrated, tm, rt, L', h1, h2, h3, h4, h5, h6,
    h7, h8, happly⟩ := success_unfold env L M hsucc
  rw [hmsg] at h1
  simp only [Except.ok.injEq, Option.some.injEq] at h1
  subst h1
  rw [hms] at h2
  simp only [Option.some.injEq] at h2
  subst h2
  rw [hwf] at h4
  simp only [Except.ok.injEq] at h4
  subst h4
  obtain ⟨-, -, w, wtr, wst⟩ := ConfirmMilestone_applied_walk env L M message ms msID mutations
    opts migrated tm rt L' hmsg hms h3 hwf h5 h6 h7 h8 happly
  obtain ⟨a, b, c, ha, hb, hc, i1, i2, i3, i4, i5, i6⟩ := entriesLoop_counts env ms.Index
    ms.Timestamp mutations.entries
    (stateAfterApply env M message ms opts (mutations.NewOutputs.map Prod.snd ++ migrated)
      (mutations.NewSpents.map Prod.snd) tm rt L') ⟨ms.Index, 0, 0, 0, 0, 0⟩
  obtain ⟨c1, c2, c3⟩ := countCategory_entries mutations
  rw [c1] at ha
  rw [c2] at hb
  rw [c3] at hc
  have hpre1 : (stateAfterApply env M message ms opts
      (mutations.NewOutputs.map Prod.snd ++ migrated)
      (mutations.NewSpents.map Prod.snd) tm rt L').trace.filter Event.isForEach = [] := by
    apply List.filter_eq_nil_iff.mpr
    intro e he hh
    have := (isForEach_not_before e (stateAfterApply_trace env M message ms opts _ _ tm rt L'
      e he)).1
    rw [hh] at this; cases this
  have hpre2 : (stateAfterApply env M message ms opts
      (mutations.NewOutputs.map Prod.snd ++ migrated)
      (mutations.NewSpents.map Prod.snd) tm rt L').trace.filter Event.isReferencedMetric
      = [] := by
    apply List.filter_eq_nil_iff.mpr
    intro e he hh
    have := (isForEach_not_before e (stateAfterApply_trace env M message ms opts _ _ tm rt L'
      e he)).2
    rw [hh] at this; cases this
  rw [hpre1] at i5
  rw [hpre2] at i6
  simp only [List.length_nil, Nat.zero_add] at i1 i2 i3 i4 i5 i6
  refine ⟨_, wst hsucc, ?_, ?_, ?_, ?_, ?_, ?_⟩
  · rw [i1, i2, i3, i4]
  · rw [i2]; exact ha
  · rw [i3]; exact hb
  · rw [i4]; exact hc
  · intro hfe
    rw [wtr]
    simp only [List.filter_append, List.length_append, i5, hfe, if_true, i1]
    split_ifs <;> simp [Event.isForEach, List.filter_cons]
  · intro hsm
    rw [wtr]
    simp only [List.filter_append, List.length_append, i6, hsm, if_true, i1]
    split_ifs <;> simp [Event.isReferencedMetric, List.filter_cons]

/-- Witness for C26: the sample run against the store in which `[2]` and `[3]`
are already referenced counts one referenced message. -/
theorem statistics_add_up_witness :
    ∃ stats, (ConfirmMilestone sampleEnv sampleLedger referencedStore).1.stats = some stats ∧
      stats.MessagesReferenced = stats.MessagesIncludedWithTransactions +
        stats.MessagesExcludedWithoutTransactions +
        stats.MessagesExcludedWithConflictingTransactions ∧
      ((ConfirmMilestone sampleEnv sampleLedger referencedStore).2.trace.filter
        Event.isForEach).length = stats.MessagesReferenced ∧
      stats.MessagesReferenced = 1 :=
  match statistics_add_up sampleEnv sampleLedger referencedStore sampleMessage sampleMilestone
    sampleMutations rfl rfl rfl (by rfl) with
  | ⟨stats, h1, h2, _, _, _, h6, _⟩ =>
      ⟨stats, h1, h2, h6 rfl, by
        have e : (ConfirmMilestone sampleEnv sampleLedger referencedStore).1.stats =
            some ⟨1, 0, 1, 0, 1, 0⟩ := by rfl
        rw [e] at h1
        simp only [Option.some.injEq] at h1
        rw [← h1]⟩

/-! ## The number of referenced messages -/

theorem newlyReferenced_all (l : List MessageID) :
    ∀ (p : MessageID → Bool), l.Nodup → (∀ id ∈ l, p id = false) →
      newlyReferenced p l = l := by
  induction l with
  | nil => intro p _ _; rfl
  | cons a rest ih =>
      intro p hnd hp
      have hpa : p a = false := hp a (List.mem_cons_self _ _)
      obtain ⟨hna, hrest⟩ := List.nodup_cons.mp hnd
      simp only [newlyReferenced, hpa, Bool.false_eq_true, if_false]
      rw [ih _ hrest]
      intro id hid
      have hne : id ≠ a := fun h => hna (h ▸ hid)
      simp [hne, hp id (List.mem_cons_of_mem _ hid)]

/-- With the default check and set functions, the closure counts the message
exactly when its record is not yet referenced. -/
theorem closure_default_count (env : Env)
    (hc : env.checkMessageReferencedFunc = DefaultCheckMessageReferencedFunc)
    (cat : Category) (idx : Index) (ts : Nat) (id : MessageID) (c : Conflict)
    (meta : MessageMetadata) (st : ConfirmedMilestoneStats) :
    (closure env cat idx ts id c meta st).2.1.MessagesReferenced =
      st.MessagesReferenced + (if meta.isReferenced = true then 0 else 1) := by
  cases hr : meta.isReferenced <;> cases cat <;>
    simp [closure, referenceIfUnreferenced, hc, DefaultCheckMessageReferencedFunc,
      MessageMetadata.IsReferenced, MessageMetadata.SetIsNoTransaction,
      MessageMetadata.SetConflictingTx, hr, ConfirmedMilestoneStats.count]

/-- The count of referenced messages of a walk that ends without error, for the
default check and set functions. -/
theorem entriesLoop_referenced_count (env : Env)
    (hc : env.checkMessageReferencedFunc = DefaultCheckMessageReferencedFunc)
    (hs : env.setMessageReferencedFunc = DefaultSetMessageReferencedFunc)
    (idx : Index) (ts : Nat) :
    ∀ (es : List (Category × MessageWithConflict)) (s : Sys)
      (stats : ConfirmedMilestoneStats),
      (entriesLoop env idx ts es s stats).1 = none →
      (entriesLoop env idx ts es s stats).2.2.MessagesReferenced =
        stats.MessagesReferenced +
          (newlyReferenced (isReferencedIn s.metadata)
            (es.map (fun x => x.2.MessageID))).length := by
  intro es
  induction es with
  | nil => intro s stats _; simp [entriesLoop, newlyReferenced]
  | cons x rest ih =>
      intro s stats hok
      obtain ⟨cat, m⟩ := x
      by_cases hf : ∃ meta, s.metadata m.MessageID = .ok (some meta)
      · obtain ⟨meta, hmeta⟩ := hf
        rw [entriesLoop_cons_found env idx ts cat m rest s stats meta hmeta] at hok ⊢
        rw [ih _ _ hok, closure_default_count env hc]
        have hrefd := (closure_default_meta env hc hs cat idx ts m.MessageID m.Conflict meta
          stats).1
        have hp : isReferencedIn s.metadata m.MessageID = meta.isReferenced := by
          simp [isReferencedIn, hmeta]
        simp only [List.map_cons]
        cases hr : meta.isReferenced
        · have hfun : isReferencedIn (fun j => if j = m.MessageID then
              .ok (some (closure env cat idx ts m.MessageID m.Conflict meta stats).1)
              else s.metadata j) =
              (fun j => decide (j = m.MessageID) || isReferencedIn s.metadata j) := by
            funext j
            by_cases hj : j = m.MessageID
            · simp [isReferencedIn, hj, hrefd]
            · simp [isReferencedIn, hj]
          rw [hr] at hp
          simp only [newlyReferenced, hp, hfun, Bool.false_eq_true, if_false,
            List.length_cons]
          omega
        · have hfun : isReferencedIn (fun j => if j = m.MessageID then
              .ok (some (closure env cat idx ts m.MessageID m.Conflict meta stats).1)
              else s.metadata j) = isReferencedIn s.metadata := by
            funext j
            by_cases hj : j = m.MessageID
            · subst hj
              simp [isReferencedIn, hrefd, hmeta, hr]
            · simp [isReferencedIn, hj]
          rw [hr] at hp
          simp only [newlyReferenced, hp, hfun, if_true]
          omega
      · obtain ⟨e, heq⟩ := entriesLoop_cons_not_found env idx ts cat m rest s stats
          (fun meta h => hf ⟨meta, h⟩)
        rw [heq] at hok
        simp at hok

/-! ## The number of referenced messages, for any check function -/

/-- Counterexample to C22: with a check function that reports every record as
not referenced, the successful sample run on the store in which `[2]` and `[3]`
are already referenced returns `MessagesReferenced = 3`, while `[1]` is the only
listed message that was not referenced when it was processed. -/
theorem check_function_decides_the_count :
    (ConfirmMilestone eagerSampleEnv sampleLedger referencedStore).1.err = none ∧
    (ConfirmMilestone eagerSampleEnv sampleLedger referencedStore).1.stats.map
      ConfirmedMilestoneStats.MessagesReferenced = some 3 ∧
    sampleMutations.listedIDs = [[1], [2], [3]] ∧
    sampleMutations.listedIDs.map (isReferencedIn referencedStore) = [false, true, true] := by
  refine ⟨by rfl, by rfl, by rfl, by rfl⟩

/-- C22 (amended): the `MessagesReferenced` of a successful run is 0 when the
three mutation lists are empty, for any check and set functions.  With the
default check and set functions it is the number of messages of the three
mutation lists whose record was not referenced when the loops reached them (a
message listed twice counts once), and it is the sum of the three lengths when
the lists are duplicate-free and pairwise disjoint and no listed message was
referenced before the call. -/
theorem referenced_count (env : Env) (L : Ledger) (M : MetaStore)
    (message : Message) (ms : Milestone) (mutations : WhiteFlagMutations)
    (hmsg : env.cachedMessageFunc env.milestoneMessageID = .ok (some message))
    (hms : message.Milestone = some ms)
    (hwf : env.computeWhiteFlagMutations L M env.networkId ms.Index ms.Timestamp message.parents
      env.lastMilestoneID = .ok mutations)
    (hsucc : (ConfirmMilestone env L M).1.err = none) :
    ∃ stats, (ConfirmMilestone env L M).1.stats = some stats ∧
      (mutations.MessagesIncludedWithTransactions = [] →
        mutations.MessagesExcludedWithoutTransactions = [] →
        mutations.MessagesExcludedWithConflictingTransactions = [] →
        stats.MessagesReferenced = 0) ∧
      (env.checkMessageReferencedFunc = DefaultCheckMessageReferencedFunc →
        env.setMessageReferencedFunc = DefaultSetMessageReferencedFunc →
        stats.MessagesReferenced =
          (newlyReferenced (isReferencedIn M) mutations.listedIDs).length ∧
        (mutations.MessagesIncludedWithTransactions.Nodup →
          mutations.MessagesExcludedWithoutTransactions.Nodup →
          (mutations.MessagesExcludedWithConflictingTransactions.map
            MessageWithConflict.MessageID).Nodup →
          mutations.MessagesIncludedWithTransactions.Disjoint
            mutations.MessagesExcludedWithoutTransactions →
          mutations.MessagesIncludedWithTransactions.Disjoint
            (mutations.MessagesExcludedWithConflictingTransactions.map
              MessageWithConflict.MessageID) →
          mutations.MessagesExcludedWithoutTransactions.Disjoint
            (mutations.MessagesExcludedWithConflictingTransactions.map
              MessageWithConflict.MessageID) →
          (∀ id ∈ mutations.listedIDs, isReferencedIn M id = false) →
          stats.MessagesReferenced =
            mutations.MessagesIncludedWithTransactions.length +
            mutations.MessagesExcludedWithoutTransactions.length +
            mutations.MessagesExcludedWithConflictingTransactions.length)) := by
  obtain ⟨message', ms', msID, mutations', opts, migrated, tm, rt, L', h1, h2, h3, h4, h5, h6,
    h7, h8, happly⟩ := success_unfold env L M hsucc
  rw [hmsg] at h1
  simp only [Except.ok.injEq, Option.some.injEq] at h1
  subst h1
  rw [hms] at h2
  simp only [Option.some.injEq] at h2
  subst h2
  rw [hwf] at h4
  simp only [Except.ok.injEq] at h4
  subst h4
  obtain ⟨-, -, w, -, wst⟩ := ConfirmMilestone_applied_walk env L M message ms msID mutations
    opts migrated tm rt L' hmsg hms h3 hwf h5 h6 h7 h8 happly
  refine ⟨_, wst hsucc, ?_, ?_⟩
  · intro e1 e2 e3
    obtain ⟨a, b, c, ha, hb, hc', i1, -⟩ := entriesLoop_counts env ms.Index
      ms.Timestamp mutations.entries
      (stateAfterApply env M message ms opts (mutations.NewOutputs.map Prod.snd ++ migrated)
        (mutations.NewSpents.map Prod.snd) tm rt L') ⟨ms.Index, 0, 0, 0, 0, 0⟩
    obtain ⟨c1, c2, c3⟩ := countCategory_entries mutations
    rw [c1, e1] at ha
    rw [c2, e2] at hb
    rw [c3, e3] at hc'
    simp only [List.length_nil, Nat.le_zero_eq] at ha hb hc'
    rw [i1, ha, hb, hc']
  · intro hc hs
    have hcount := entriesLoop_referenced_count env hc hs ms.Index ms.Timestamp
      mutations.entries
      (stateAfterApply env M message ms opts (mutations.NewOutputs.map Prod.snd ++ migrated)
        (mutations.NewSpents.map Prod.snd) tm rt L') ⟨ms.Index, 0, 0, 0, 0, 0⟩ (w.mp hsucc)
    have hmeta : (stateAfterApply env M message ms opts
        (mutations.NewOutputs.map Prod.snd ++ migrated)
        (mutations.NewSpents.map Prod.snd) tm rt L').metadata = M := rfl
    rw [hmeta, entries_listedIDs] at hcount
    simp only [Nat.zero_add] at hcount
    refine ⟨hcount, ?_⟩
    intro n1 n2 n3 d12 d13 d23 hunref
    rw [hcount]
    have hnd : mutations.listedIDs.Nodup := by
      unfold WhiteFlagMutations.listedIDs
      rw [List.nodup_append]
      refine ⟨List.nodup_append.mpr ⟨n1, n2, d12⟩, n3, ?_⟩
      exact List.disjoint_append_left.mpr ⟨d13, d23⟩
    rw [newlyReferenced_all _ _ hnd hunref]
    simp only [WhiteFlagMutations.listedIDs, List.length_append, List.length_map]

/-- Witness for C22: the sample run references its three messages; the run on
an empty cone references none. -/
theorem referenced_count_witness :
    (∃ stats, (ConfirmMilestone sampleEnv sampleLedger sampleStore).1.stats = some stats ∧
      stats.MessagesReferenced =
        (newlyReferenced (isReferencedIn sampleStore) sampleMutations.listedIDs).length ∧
      stats.MessagesReferenced = 1 + 1 + 1) ∧
    (∃ stats, (ConfirmMilestone emptyEnv sampleLedger sampleStore).1.stats = some stats ∧
      stats.MessagesReferenced = 0) :=
  ⟨match referenced_count sampleEnv sampleLedger sampleStore sampleMessage sampleMilestone
      sampleMutations rfl rfl rfl (by rfl) with
    | ⟨stats, h1, _, h3⟩ =>
        ⟨stats, h1, (h3 rfl rfl).1, (h3 rfl rfl).2 (by decide) (by decide) (by decide)
          (by simp [sampleMutations]) (by simp [sampleMutations]) (by simp [sampleMutations])
          (by
            intro id hid
            simp only [WhiteFlagMutations.listedIDs, sampleMutations, List.map_cons,
              List.map_nil, List.cons_append, List.nil_append, List.mem_cons,
              List.mem_singleton, List.not_mem_nil, or_false] at hid
            rcases hid with h | h | h <;> subst h <;> rfl)⟩,
   match referenced_count emptyEnv sampleLedger sampleStore plainMessage plainMilestone
      emptyMutations rfl rfl rfl (by rfl) with
    | ⟨stats, h1, h2, _⟩ => ⟨stats, h1, h2 rfl rfl rfl⟩⟩

/-! ## The optional collaborators -/

theorem closure_withoutOptional (env : Env) (cat : Category) (idx : Index) (ts : Nat)
    (id : MessageID) (c : Conflict) (meta : MessageMetadata) (st : ConfirmedMilestoneStats) :
    (closure env.withoutOptional cat idx ts id c meta st).1 =
      (closure env cat idx ts id c meta st).1 ∧
    (closure env.withoutOptional cat idx ts id c meta st).2.1 =
      (closure env cat idx ts id c meta st).2.1 := by
  cases cat <;> simp only [closure, referenceIfUnreferenced, Env.withoutOptional] <;>
    split_ifs <;> exact ⟨rfl, rfl⟩

/-- The walk yields the same error, statistics, ledger and metadata with and
without the optional collaborators. -/
theorem entriesLoop_withoutOptional (env : Env) (idx : Index) (ts : Nat) :
    ∀ (es : List (Category × MessageWithConflict)) (s s' : Sys)
      (stats : ConfirmedMilestoneStats),
      s'.ledger = s.ledger → s'.metadata = s.metadata →
      (entriesLoop env.withoutOptional idx ts es s' stats).1 =
        (entriesLoop env idx ts es s stats).1 ∧
      (entriesLoop env.withoutOptional idx ts es s' stats).2.2 =
        (entriesLoop env idx ts es s stats).2.2 ∧
      (entriesLoop env.withoutOptional idx ts es s' stats).2.1.ledger =
        (entriesLoop env idx ts es s stats).2.1.ledger ∧
      (entriesLoop env.withoutOptional idx ts es s' stats).2.1.metadata =
        (entriesLoop env idx ts es s stats).2.1.metadata := by
  intro es
  induction es with
  | nil => intro s s' stats hl hm; exact ⟨rfl, rfl, hl, hm⟩
  | cons x rest ih =>
      intro s s' stats hl hm
      obtain ⟨cat, m⟩ := x
      have hm1 : (s.emit (Event.cachedMessageMetadata m.MessageID)).metadata = s.metadata := rfl
      have hm2 : (s'.emit (Event.cachedMessageMetadata m.MessageID)).metadata = s.metadata := hm
      rcases hmeta : s.metadata m.MessageID with e | _ | meta
      · simp [entriesLoop, forMessageMetadataWithMessageID, hm1, hm2, hmeta, Sys.emit, hl, hm]
      · simp [entriesLoop, forMessageMetadataWithMessageID, hm1, hm2, hmeta, Sys.emit, hl, hm]
      · rw [entriesLoop_cons_found env idx ts cat m rest s stats meta hmeta,
          entriesLoop_cons_found env.withoutOptional idx ts cat m rest s' stats meta
            (by rw [hm]; exact hmeta)]
        obtain ⟨c1, c2⟩ := closure_withoutOptional env cat idx ts m.MessageID m.Conflict meta
          stats
        rw [c2]
        exact ih _ _ _ hl (by simp only [c1, hm])

theorem updateMetadata_withoutOptional (env : Env) (ms : Milestone) (c : Confirmation)
    (s s' : Sys) (hl : s'.ledger = s.ledger) (hm : s'.metadata = s.metadata) :
    (updateMetadata env.withoutOptional ms c s').1 = (updateMetadata env ms c s).1 ∧
    (updateMetadata env.withoutOptional ms c s').2.ledger = (updateMetadata env ms c s).2.ledger ∧
    (updateMetadata env.withoutOptional ms c s').2.metadata =
      (updateMetadata env ms c s).2.metadata := by
  rw [updateMetadata_eq_entriesLoop, updateMetadata_eq_entriesLoop]
  obtain ⟨e1, e2, e3, e4⟩ := entriesLoop_withoutOptional env ms.Index ms.Timestamp
    c.Mutations.entries s s' ⟨ms.Index, 0, 0, 0, 0, 0⟩ hl hm
  rcases h : entriesLoop env ms.Index ms.Timestamp c.Mutations.entries s
    ⟨ms.Index, 0, 0, 0, 0, 0⟩ with ⟨o, s1, st1⟩
  rcases h' : entriesLoop env.withoutOptional ms.Index ms.Timestamp c.Mutations.entries s'
    ⟨ms.Index, 0, 0, 0, 0, 0⟩ with ⟨o', s1', st1'⟩
  rw [h, h'] at e1 e2 e3 e4
  simp only at e1 e2 e3 e4
  subst e1 e2
  cases o' with
  | some e => exact ⟨rfl, e3, e4⟩
  | none =>
      by_cases hon : env.onMilestoneConfirmed = true
      · simp [Env.withoutOptional, hon, Sys.emit, e3, e4]
      · simp [Env.withoutOptional, hon, e3, e4]

theorem convertReceipt_withoutOptional (env : Env) (message : Message) (ms : Milestone)
    (msID : MilestoneID) (receipt : Receipt) (rtv : ReceiptTuple) (s s' : Sys)
    (hl : s'.ledger = s.ledger) :
    (convertReceipt env.withoutOptional message ms msID receipt rtv s').1 =
      (convertReceipt env message ms msID receipt rtv s).1 := by
  unfold convertReceipt
  have hled : ∀ (s : Sys) e, (s.emit e).ledger = s.ledger := fun _ _ => rfl
  simp only [hled, hl, Env.withoutOptional]
  rcases env.unspentTreasuryOutputWithoutLocking s.ledger with e | t
  · rfl
  · simp only
    rcases env.validateReceipt receipt t.amount with _ | e
    · simp only
      rcases env.receiptToOutputs receipt message.messageID msID ms.Index ms.Timestamp
        with e | outs
      · rfl
      · simp only
        rcases env.receiptToTreasuryMutation receipt t msID with e | tm
        · rfl
        · rfl
    · rfl

theorem processReceipt_withoutOptional (env : Env) (hrec : env.ReceiptCallbackAccepts)
    (message : Message) (ms : Milestone) (msID : MilestoneID) (opts : MilestoneOptSet)
    (s s' : Sys) (hl : s'.ledger = s.ledger) (hm : s'.metadata = s.metadata) :
    (processReceipt env.withoutOptional message ms msID opts s').1 =
      (processReceipt env message ms msID opts s).1 ∧
    (processReceipt env.withoutOptional message ms msID opts s').2.ledger =
      (processReceipt env message ms msID opts s).2.ledger ∧
    (processReceipt env.withoutOptional message ms msID opts s').2.metadata =
      (processReceipt env message ms msID opts s).2.metadata := by
  obtain ⟨evs, h1, -⟩ := processReceipt_spec env message ms msID opts s
  obtain ⟨evs', h1', -⟩ := processReceipt_spec env.withoutOptional message ms msID opts s'
  refine ⟨?_, by rw [h1, h1']; exact hl, by rw [h1, h1']; exact hm⟩
  unfold processReceipt
  rcases hr : opts.Receipt with _ | receipt
  · rfl
  · simp only
    have hnone : env.withoutOptional.onReceipt = none := rfl
    rw [hnone]
    simp only
    rcases hcb : env.onReceipt with _ | cb
    · exact convertReceipt_withoutOptional env message ms msID receipt _ s s' hl
    · simp only [hrec cb hcb]
      exact convertReceipt_withoutOptional env message ms msID receipt _ _ s' hl

theorem applyAndNotify_withoutOptional (env : Env) (hrec : env.ReceiptCallbackAccepts)
    (message : Message) (ms : Milestone) (msID : MilestoneID) (c : Confirmation)
    (s s' : Sys) (hl : s'.ledger = s.ledger) (hm : s'.metadata = s.metadata) :
    (applyAndNotify env.withoutOptional message ms msID c s').1 =
      (applyAndNotify env message ms msID c s).1 ∧
    (applyAndNotify env.withoutOptional message ms msID c s').2.ledger =
      (applyAndNotify env message ms msID c s).2.ledger ∧
    (applyAndNotify env.withoutOptional message ms msID c s').2.metadata =
      (applyAndNotify env message ms msID c s).2.metadata := by
  unfold applyAndNotify
  simp only
  have hopt : env.withoutOptional.optsSet = env.optsSet := rfl
  have happ : env.withoutOptional.applyConfirmationWithoutLocking =
      env.applyConfirmationWithoutLocking := rfl
  rw [hopt, happ]
  rcases hopts : env.optsSet ms.Opts with e | opts
  · exact ⟨rfl, hl, hm⟩
  · simp only
    obtain ⟨p1, p2, p3⟩ := processReceipt_withoutOptional env hrec message ms msID opts s s'
      hl hm
    rcases hp : processReceipt env message ms msID opts s with ⟨res, s1⟩
    rcases hp' : processReceipt env.withoutOptional message ms msID opts s' with ⟨res', s1'⟩
    rw [hp, hp'] at p1 p2 p3
    simp only at p1 p2 p3
    subst p1
    rcases res' with e | ⟨migrated, tm, rt⟩
    · exact ⟨rfl, p2, p3⟩
    · simp only
      have hled : ∀ (s : Sys) e, (s.emit e).ledger = s.ledger := fun _ _ => rfl
      simp only [hled, p2]
      rcases happly : env.applyConfirmationWithoutLocking s1.ledger ms.Index
        (c.Mutations.NewOutputs.map Prod.snd ++ migrated) (c.Mutations.NewSpents.map Prod.snd)
        tm rt with e | L'
      · exact ⟨rfl, p2, p3⟩
      · simp only
        apply updateMetadata_withoutOptional
        · rw [notifyLedger_eq, notifyLedger_eq]; rfl
        · rw [notifyLedger_eq, notifyLedger_eq]; exact p3

theorem confirmLocked_withoutOptional (env : Env) (hrec : env.ReceiptCallbackAccepts)
    (message : Message) (s s' : Sys) (hl : s'.ledger = s.ledger)
    (hm : s'.metadata = s.metadata) :
    (confirmLocked env.withoutOptional message s').1 = (confirmLocked env message s).1 ∧
    (confirmLocked env.withoutOptional message s').2.ledger =
      (confirmLocked env message s).2.ledger ∧
    (confirmLocked env.withoutOptional message s').2.metadata =
      (confirmLocked env message s).2.metadata := by
  unfold confirmLocked
  rcases hms : message.Milestone with _ | ms
  · exact ⟨rfl, hl, hm⟩
  · simp only
    have hidf : env.withoutOptional.milestoneID = env.milestoneID := rfl
    have hwff : env.withoutOptional.computeWhiteFlagMutations = env.computeWhiteFlagMutations :=
      rfl
    have hnet : env.withoutOptional.networkId = env.networkId := rfl
    have hlast : env.withoutOptional.lastMilestoneID = env.lastMilestoneID := rfl
    rw [hidf, hwff, hnet, hlast]
    rcases hid : env.milestoneID ms with e | msID
    · exact ⟨rfl, hl, hm⟩
    · simp only
      have hL : ∀ (s : Sys) e, (s.emit e).ledger = s.ledger := fun _ _ => rfl
      have hM : ∀ (s : Sys) e, (s.emit e).metadata = s.metadata := fun _ _ => rfl
      simp only [hL, hM, hl, hm]
      rcases hwf : env.computeWhiteFlagMutations s.ledger s.metadata env.networkId ms.Index
        ms.Timestamp message.parents env.lastMilestoneID with e | mutations
      · exact ⟨rfl, hl, hm⟩
      · simp only
        by_cases hc : mutations.ConfirmedMerkleRoot = ms.ConfirmedMerkleRoot
        · by_cases ha : mutations.AppliedMerkleRoot = ms.AppliedMerkleRoot
          · simp only [hc, ha, ne_eq, not_true_eq_false, if_false]
            exact applyAndNotify_withoutOptional env hrec message ms msID _ _ _ hl hm
          · simp only [hc, ha, ne_eq, not_true_eq_false, not_false_eq_true, if_false, if_true]
            exact ⟨trivial, hl, hm⟩
        · simp only [hc, ne_eq, not_false_eq_true, if_true]
          exact ⟨trivial, hl, hm⟩

/-- A call whose `onReceipt` callback (if any) returns no error yields the same
result, ledger and metadata as the call without any optional collaborator. -/
theorem ConfirmMilestone_withoutOptional (env : Env) (hrec : env.ReceiptCallbackAccepts)
    (L : Ledger) (M : MetaStore) :
    (ConfirmMilestone env.withoutOptional L M).1 = (ConfirmMilestone env L M).1 ∧
    (ConfirmMilestone env.withoutOptional L M).2.ledger = (ConfirmMilestone env L M).2.ledger ∧
    (ConfirmMilestone env.withoutOptional L M).2.metadata =
      (ConfirmMilestone env L M).2.metadata := by
  unfold ConfirmMilestone
  simp only
  have hcf : env.withoutOptional.cachedMessageFunc = env.cachedMessageFunc := rfl
  have hmid : env.withoutOptional.milestoneMessageID = env.milestoneMessageID := rfl
  rw [hcf, hmid]
  rcases hmsg : env.cachedMessageFunc env.milestoneMessageID with e | _ | message
  · exact ⟨rfl, rfl, rfl⟩
  · exact ⟨rfl, rfl, rfl⟩
  · simp only
    obtain ⟨c1, c2, c3⟩ := confirmLocked_withoutOptional env hrec message
      (Sys.emit (Sys.emit { ledger := L, metadata := M, trace := [] }
        (Event.cachedMessageFunc env.milestoneMessageID)) Event.writeLockLedger)
      (Sys.emit (Sys.emit { ledger := L, metadata := M, trace := [] }
        (Event.cachedMessageFunc env.milestoneMessageID)) Event.writeLockLedger) rfl rfl
    exact ⟨c1, c2, c3⟩

/-- C25: two calls of `ConfirmMilestone` on the same ledger and metadata that
differ only in which of `serverMetrics`, `forEachReferencedMessage`,
`onMilestoneConfirmed`, `onLedgerUpdated`, `onTreasuryMutated` and `onReceipt`
are nil, every `onReceipt` supplied returning no error, return the same error,
statistics and metrics and leave the same ledger and metadata.  A supplied
callback is an observer: it is recorded as a call and does nothing else. -/
theorem optional_collaborators_are_optional (env env' : Env) (L : Ledger) (M : MetaStore)
    (hsame : env'.withoutOptional = env.withoutOptional)
    (hrec : env.ReceiptCallbackAccepts) (hrec' : env'.ReceiptCallbackAccepts) :
    (ConfirmMilestone env' L M).1 = (ConfirmMilestone env L M).1 ∧
    (ConfirmMilestone env' L M).2.ledger = (ConfirmMilestone env L M).2.ledger ∧
    (ConfirmMilestone env' L M).2.metadata = (ConfirmMilestone env L M).2.metadata := by
  obtain ⟨a1, a2, a3⟩ := ConfirmMilestone_withoutOptional env hrec L M
  obtain ⟨b1, b2, b3⟩ := ConfirmMilestone_withoutOptional env' hrec' L M
  rw [hsame] at b1 b2 b3
  exact ⟨b1.symm.trans a1, b2.symm.trans a2, b3.symm.trans a3⟩

/-- Witness for C25: the sample call with every optional collaborator supplied
and the sample call with nil for the metrics, `forEachReferencedMessage` and
`onReceipt`. -/
theorem optional_collaborators_are_optional_witness :
    (ConfirmMilestone partialEnv sampleLedger sampleStore).1 =
      (ConfirmMilestone sampleEnv sampleLedger sampleStore).1 ∧
    (ConfirmMilestone partialEnv sampleLedger sampleStore).2.ledger =
      (ConfirmMilestone sampleEnv sampleLedger sampleStore).2.ledger ∧
    (ConfirmMilestone partialEnv sampleLedger sampleStore).2.metadata =
      (ConfirmMilestone sampleEnv sampleLedger sampleStore).2.metadata ∧
    (ConfirmMilestone sampleEnv sampleLedger sampleStore).1.err = none :=
  have h := optional_collaborators_are_optional sampleEnv partialEnv sampleLedger sampleStore
    rfl
    (fun cb hcb rt => by
      simp only [sampleEnv, Option.some.injEq] at hcb
      rw [← hcb])
    (fun cb hcb rt => by simp [partialEnv] at hcb)
  ⟨h.1, h.2.1, h.2.2, by rfl⟩

end Hornet
